import Mathlib

/-!
# cn_cw: a static-file HTTP/1.x server

A shallow embedding of the request parser (`http.c`) and of the request
handler (`handler.c`), and the properties of the specification proved or
refuted on it.

## Conventions of the embedding

* A byte is a `Char`; a region of memory holding a C string is the `List Char`
  of the bytes stored in it, the terminating NUL that follows the last byte
  being implicit.  A region may contain NUL bytes of its own (a request read
  from the network can): the C string functions stop at the first of them.
* A pointer into a region is the offset from its start (a `Nat`); the bytes a
  pointer `p` into `str` points to are `str.drop p`.
* `size_t` is 64 bits wide.
-/

namespace CnCw

/-! ## Bytes and the C library functions the sources call -/

/-- The NUL byte, which terminates a C string. -/
def NUL : Char := Char.ofNat 0

/-- The carriage-return byte. -/
def CR : Char := Char.ofNat 13

/-- The ASCII space. -/
def SP : Char := Char.ofNat 32

/-- The number of values of `size_t`. -/
def SIZE_MOD : Nat := 2 ^ 64

/-- The value of `(size_t)(a - b)` for two pointers `a` and `b` into one
region. Two such pointers lie less than `2 ^ 64` bytes apart, so a difference
that is not negative is the distance itself; a negative difference `-d` is
converted to `2 ^ 64 - d`. -/
def ptr_diff_size (a b : Nat) : Nat :=
  if b ≤ a then a - b else SIZE_MOD - (b - a)

/-- The C string stored at the start of a region: the bytes before the first NUL. -/
def cstr (s : List Char) : List Char :=
  s.takeWhile (fun b => b != NUL)

/-- C `strlen`. -/
def strlen (s : List Char) : Nat :=
  (cstr s).length

/-- C `strchr(s, c)`: the offset of the first `c` in the C string at `s`, the
terminator counting as part of the string; `none` is the null pointer. -/
def strchr : List Char → Char → Option Nat
  | [], c => if c = NUL then some 0 else none
  | b :: rest, c =>
    if b = c then some 0
    else if b = NUL then none
    else (strchr rest c).map (fun i => i + 1)

/-- C `strpbrk(s, accept)`: the offset of the first byte of the C string at `s`
that occurs in `accept`; `none` is the null pointer. -/
def strpbrk : List Char → List Char → Option Nat
  | [], _ => none
  | b :: rest, accept =>
    if b = NUL then none
    else if b ∈ accept then some 0
    else (strpbrk rest accept).map (fun i => i + 1)

/-- C `strspn(s, accept)`: the length of the longest initial segment of the C
string at `s` made of bytes of `accept`. -/
def strspn : List Char → List Char → Nat
  | [], _ => 0
  | b :: rest, accept =>
    if b = NUL then 0
    else if b ∈ accept then strspn rest accept + 1
    else 0

/-- C `memcmp(p, q, n) == 0`: the first `n` bytes at `p` equal the first `n`
bytes at `q`. -/
def memcmp_eq (p q : List Char) (n : Nat) : Bool :=
  p.take n == q.take n

/-- C `strcmp(a, b) == 0`. -/
def strcmp_eq (a b : List Char) : Bool :=
  cstr a == cstr b

/-- C `strncmp(a, b, n) == 0`: the two C strings agree on their first `n`
bytes, the comparison ending early at a common terminator. -/
def strncmp_eq : List Char → List Char → Nat → Bool
  | _, _, 0 => true
  | a, b, n + 1 =>
    if a.headD NUL != b.headD NUL then false
    else if a.headD NUL = NUL then true
    else strncmp_eq a.tail b.tail n

/-! ## `server.h`: the enumerations and records -/

/-- The `enum http_version`. -/
inductive http_version
  | HTTP_10
  | HTTP_11
  deriving DecidableEq, Repr

/-- The `enum http_method`. -/
inductive http_method
  | HTTP_GET
  | HTTP_HEAD
  deriving DecidableEq, Repr

/-- The `enum http_status_code`. -/
inductive http_status_code
  | HTTP_OK
  | HTTP_BAD_REQUEST
  | HTTP_FORBIDDEN
  | HTTP_NOT_FOUND
  | HTTP_METHOD_NOT_ALLOWED
  | HTTP_URI_TOO_LONG
  | HTTP_INTERNAL_SERVER_ERROR
  | HTTP_VERSION_NO_SUPPORTED
  deriving DecidableEq, Repr

/-- The `struct http_req`; `uri` is the C string the field points to. -/
structure http_req where
  method : http_method
  uri : List Char
  version : http_version
  deriving DecidableEq, Repr

/-- The `enum parse_http_req_result`. -/
inductive parse_http_req_result
  | PARSE_HTTP_OK
  | PARSE_HTTP_INVALID_SYNTAX
  | PARSE_HTTP_INVALID_VERSION
  | PARSE_HTTP_URI_TOO_LONG
  | PARSE_HTTP_INVALID_METHOD
  deriving DecidableEq, Repr

open http_version http_method http_status_code parse_http_req_result

/-! ## `http.c`: the request parser -/

/-- The `parse_http_method` of `http.c`, on the bytes of `str` from offset
`start` to offset `stop`; `none` is the result `false`. -/
def parse_http_method (str : List Char) (start stop : Nat) : Option http_method :=
  let len := ptr_diff_size stop start
  if len = 3 && memcmp_eq (str.drop start) "GET".toList 3 then some HTTP_GET
  else if len = 4 && memcmp_eq (str.drop start) "HEAD".toList 4 then some HTTP_HEAD
  else none

/-- The `parse_http_req` of `http.c`. `uri_length_limit` is the field of that
name of the worker's settings and `str` the region holding the request. The
request record is returned with `PARSE_HTTP_OK` only: after any other result
the caller does not read it. `server_alloc` does not return when the host is
out of memory, so the copy of the URI always exists when control reaches it. -/
def parse_http_req (uri_length_limit : Nat) (str : List Char) :
    parse_http_req_result × Option http_req :=
  match strchr str CR with
  | none => (PARSE_HTTP_INVALID_SYNTAX, none)
  | some line_end =>
    match strpbrk str [SP] with
    | none => (PARSE_HTTP_INVALID_SYNTAX, none)
    | some method_end =>
      if method_end > line_end then (PARSE_HTTP_INVALID_SYNTAX, none)
      else
        match parse_http_method str 0 method_end with
        | none => (PARSE_HTTP_INVALID_METHOD, none)
        | some method =>
          let skip_spaces := strspn (str.drop method_end) [SP]
          if skip_spaces = 0 then (PARSE_HTTP_INVALID_SYNTAX, none)
          else
            let uri := method_end + skip_spaces
            match strpbrk (str.drop uri) [SP] with
            | none => (PARSE_HTTP_INVALID_SYNTAX, none)
            | some uri_off =>
              let uri_end := uri + uri_off
              if uri_end > line_end then (PARSE_HTTP_INVALID_SYNTAX, none)
              else
                let uri_len := ptr_diff_size uri_end uri
                if uri_len > uri_length_limit then (PARSE_HTTP_URI_TOO_LONG, none)
                else
                  let uri_str := (str.drop uri).take uri_len
                  let skip_spaces2 := strspn (str.drop method_end) [SP]
                  if skip_spaces2 = 0 then (PARSE_HTTP_INVALID_SYNTAX, none)
                  else
                    let protocol := uri_end + skip_spaces2
                    let protocol_end := line_end
                    let protocol_len := ptr_diff_size protocol_end protocol
                    if protocol_len = 8 && memcmp_eq (str.drop protocol) "HTTP/1.1".toList 8 then
                      (PARSE_HTTP_OK, some ⟨method, uri_str, HTTP_11⟩)
                    else if protocol_len = 8 && memcmp_eq (str.drop protocol) "HTTP/1.0".toList 8 then
                      (PARSE_HTTP_OK, some ⟨method, uri_str, HTTP_10⟩)
                    else (PARSE_HTTP_INVALID_VERSION, none)

/-- The `enum http_content_type`. -/
inductive http_content_type
  | HTTP_CT_BIN
  | HTTP_CT_BMP
  | HTTP_CT_CSS
  | HTTP_CT_CSV
  | HTTP_CT_GIF
  | HTTP_CT_HTML
  | HTTP_CT_JPEG
  | HTTP_CT_JS
  | HTTP_CT_JSON
  | HTTP_CT_MP3
  | HTTP_CT_MP4
  | HTTP_CT_OTF
  | HTTP_CT_PNG
  | HTTP_CT_PDF
  | HTTP_CT_SVG
  | HTTP_CT_TTF
  | HTTP_CT_TXT
  deriving DecidableEq, Repr

open http_content_type

/-- The `http_content_type_str` of `http.c`. -/
def http_content_type_str : http_content_type → List Char
  | HTTP_CT_BIN => "application/octet-stream".toList
  | HTTP_CT_BMP => "image/bmp".toList
  | HTTP_CT_CSS => "text/css".toList
  | HTTP_CT_CSV => "text/csv".toList
  | HTTP_CT_GIF => "image/gif".toList
  | HTTP_CT_HTML => "text/html".toList
  | HTTP_CT_JPEG => "image/jpeg".toList
  | HTTP_CT_JS => "text/javascript".toList
  | HTTP_CT_JSON => "application/json".toList
  | HTTP_CT_MP3 => "audio/mpeg".toList
  | HTTP_CT_MP4 => "video/mp4".toList
  | HTTP_CT_OTF => "font/otf".toList
  | HTTP_CT_PNG => "image/png".toList
  | HTTP_CT_PDF => "application/pdf".toList
  | HTTP_CT_SVG => "image/svg+xml".toList
  | HTTP_CT_TTF => "font/ttf".toList
  | HTTP_CT_TXT => "text/plain".toList

/-- The `http_conten_type_from_ext` of `http.c`; `none` is the null pointer. -/
def http_conten_type_from_ext : Option (List Char) → http_content_type
  | none => HTTP_CT_BIN
  | some ext =>
    if strcmp_eq ext "bin".toList then HTTP_CT_BIN
    else if strcmp_eq ext "bmp".toList then HTTP_CT_BMP
    else if strcmp_eq ext "css".toList then HTTP_CT_CSS
    else if strcmp_eq ext "csv".toList then HTTP_CT_CSV
    else if strcmp_eq ext "gif".toList then HTTP_CT_GIF
    else if strcmp_eq ext "html".toList || strcmp_eq ext "htm".toList then HTTP_CT_HTML
    else if strcmp_eq ext "jpeg".toList || strcmp_eq ext "jpg".toList then HTTP_CT_JPEG
    else if strcmp_eq ext "js".toList || strcmp_eq ext "mjs".toList then HTTP_CT_JS
    else if strcmp_eq ext "json".toList then HTTP_CT_JSON
    else if strcmp_eq ext "mp3".toList then HTTP_CT_MP3
    else if strcmp_eq ext "mp4".toList then HTTP_CT_MP4
    else if strcmp_eq ext "otf".toList then HTTP_CT_OTF
    else if strcmp_eq ext "png".toList then HTTP_CT_PNG
    else if strcmp_eq ext "pdf".toList then HTTP_CT_PDF
    else if strcmp_eq ext "svg".toList then HTTP_CT_SVG
    else if strcmp_eq ext "ttf".toList then HTTP_CT_TTF
    else if strcmp_eq ext "txt".toList then HTTP_CT_TXT
    else HTTP_CT_BIN

/-- C `strrchr(s, c)` for a `c` other than NUL: the offset of the last `c` in
the C string at `s`; `none` is the null pointer. -/
def strrchr : List Char → Char → Option Nat
  | [], _ => none
  | b :: rest, c =>
    if b = NUL then none
    else
      match strrchr rest c with
      | some i => some (i + 1)
      | none => if b = c then some 0 else none

/-- The `http_conten_type_from_filename` of `http.c`. -/
def http_conten_type_from_filename (name : List Char) : http_content_type :=
  match strrchr name (Char.ofNat 46) with
  | some last => http_conten_type_from_ext (some (name.drop (last + 1)))
  | none => http_conten_type_from_ext none

/-- The `http_status_code_str` of `http.c`. -/
def http_status_code_str : http_status_code → List Char
  | HTTP_OK => "OK".toList
  | HTTP_BAD_REQUEST => "Bad Request".toList
  | HTTP_FORBIDDEN => "Forbidden".toList
  | HTTP_NOT_FOUND => "Not Found".toList
  | HTTP_METHOD_NOT_ALLOWED => "Method Not Allowed".toList
  | HTTP_URI_TOO_LONG => "URI Too Long".toList
  | HTTP_INTERNAL_SERVER_ERROR => "Internal Server Error".toList
  | HTTP_VERSION_NO_SUPPORTED => "Version Not Supported".toList

/-- The `http_method_str` of `http.c`. -/
def http_method_str : http_method → List Char
  | HTTP_GET => "GET".toList
  | HTTP_HEAD => "HEAD".toList

/-- The `http_status_code_int` of `http.c`. -/
def http_status_code_int : http_status_code → Int
  | HTTP_OK => 200
  | HTTP_BAD_REQUEST => 400
  | HTTP_FORBIDDEN => 403
  | HTTP_NOT_FOUND => 404
  | HTTP_METHOD_NOT_ALLOWED => 405
  | HTTP_URI_TOO_LONG => 514
  | HTTP_INTERNAL_SERVER_ERROR => 500
  | HTTP_VERSION_NO_SUPPORTED => 505

/-- The token `parse_http_req` compares the version field with, for each
version it accepts. -/
def http_version_str : http_version → List Char
  | HTTP_10 => "HTTP/1.0".toList
  | HTTP_11 => "HTTP/1.1".toList

/-- The request line of a region: the bytes before the first CR. -/
def request_line (str : List Char) : List Char :=
  str.takeWhile (fun b => b != CR)

/-! ## `handler.c`: the request handler

The handler works on one connection and talks to the host: the socket, the
clock, the file system. The answers of the host are the fields of `host`; what
the handler did to the outside is recorded in `machine`. -/

/-- The `enum connection_state`. -/
inductive connection_state
  | CONN_WAITING
  | CONN_SENDING
  | CONN_COMPLETE
  | CONN_ERR_RECOVERABLE
  | CONN_ERR_UNRECOVERABLE
  deriving DecidableEq, Repr

open connection_state

/-- The `struct http_header`. -/
structure http_header where
  name : List Char
  value : List Char
  deriving DecidableEq, Repr

/-- The `struct http_response`. `headers` is the element sequence of the
pointer list, `lappend` adding at its end; `req` and `body` are `none` for
null pointers. -/
structure http_response where
  req : Option http_req
  code : http_status_code
  headers : List http_header
  body_size : Nat
  body : Option (List Char)
  deriving DecidableEq, Repr

/-- The fields of `struct server_settings` the handler reads. -/
structure server_settings where
  uri_length_limit : Nat
  read_buf_size : Nat
  static_dir : List Char
  deriving DecidableEq, Repr

/-- The fields of `struct active_connection` the handler reads or writes, the
socket and the arena apart. `file_fd` is `-1` when no file is open; `read_buf`
is `none` for the null pointer and otherwise the bytes last stored in the
buffer. -/
structure active_connection where
  state : connection_state
  file_fd : Int
  read_buf_size : Nat
  read_buf_len : Nat
  read_buf_cursor : Nat
  read_buf : Option (List Char)
  deriving DecidableEq, Repr

/-- The fields of the C library's `struct tm` that `http_response_date` reads. -/
structure tm where
  tm_sec : Int
  tm_min : Int
  tm_hour : Int
  tm_mday : Int
  tm_mon : Int
  tm_year : Int
  tm_wday : Int
  deriving DecidableEq, Repr

/-- The `errno` value `ENOENT` (Linux). -/
def ENOENT : Nat := 2

/-- The `errno` value `EAGAIN`, which is also `EWOULDBLOCK` (Linux). -/
def EAGAIN : Nat := 11

/-- The `errno` value `EACCES` (Linux). -/
def EACCES : Nat := 13

/-- The `errno` value `ENOTDIR` (Linux). -/
def ENOTDIR : Nat := 20

/-- The host as the handler of one connection sees it: what each system call
answers, `Except.error e` being the result `-1` (or a null pointer) with
`errno = e`.
* `sock_read`: the bytes the one `read` on the socket delivers when given room
  for all of them (it delivers as many as fit);
* `clock`: the broken-down time `gmtime(time(NULL))`;
* `realpath`, `stat_size`, `open_file`: the file system, by path; `stat_size`
  answers `st_size`, `open_file` a descriptor, which is not negative;
* `arena_alloc_ok`: whether the `arena_alloc` call of `resolve_path` gets its
  memory;
* `set_nonblocking_ok`: whether the two `fcntl` calls of `set_nonblocking`
  succeed;
* `sock_write k offered`: the number of bytes the `k`-th `write` on the socket
  accepts of the offered ones (at most all of them are taken);
* `file_read k room`: the bytes the `k`-th `read` on the body file delivers (at
  most `room` of them are taken). -/
structure host where
  sock_read : Except Nat (List Char)
  clock : tm
  realpath : List Char → Except Nat (List Char)
  stat_size : List Char → Except Nat Nat
  open_file : List Char → Except Nat Nat
  arena_alloc_ok : Bool
  set_nonblocking_ok : Bool
  sock_write : Nat → List Char → Except Nat Nat
  file_read : Nat → Nat → Except Nat (List Char)

/-- A call on the file system, as recorded in the trace of a run. -/
inductive fs_call
  | realpath (path : List Char)
  | stat (path : List Char)
  | open_file (path : List Char)
  deriving DecidableEq, Repr

/-- The state a handler run works on: the connection record, the bytes the
socket has accepted so far, the number of `write` calls made on the socket and
of `read` calls made on the body file, and the file-system calls made, oldest
first. -/
structure machine where
  conn : active_connection
  sock_out : List Char
  sock_writes : Nat
  file_reads : Nat
  fs_calls : List fs_call
  deriving DecidableEq, Repr

/-- The ways a run of a handler function ends, each with the state it leaves
(`undefined` apart): it returns a value; it calls `abort_req`, which jumps back
to the recovery point of the loop; an `assert` fails; it calls `exit`; its
behaviour is undefined in C; or the fuel given to the streaming loop ran out
before the loop ended. -/
inductive outcome (α : Type)
  | ret (value : α) (m : machine)
  | aborted (m : machine)
  | assert_failed (m : machine)
  | exited (m : machine)
  | undefined
  | out_of_fuel (m : machine)
  deriving DecidableEq, Repr

/-- Sequencing: continue with `f` after a run that returned, and end as the
run did otherwise. -/
def outcome.and_then {α β : Type} (o : outcome α) (f : α → machine → outcome β) : outcome β :=
  match o with
  | .ret v m => f v m
  | .aborted m => .aborted m
  | .assert_failed m => .assert_failed m
  | .exited m => .exited m
  | .undefined => .undefined
  | .out_of_fuel m => .out_of_fuel m

/-- The `enum read_req_data_result`. -/
inductive read_req_data_result
  | READ_REQ_DATA_OK
  | READ_REQ_DATA_EMPTY
  | READ_REQ_DATA_TOO_LARGE
  deriving DecidableEq, Repr

open read_req_data_result

/-- The `read_req_data` of `handler.c`. The value returned is the result code
and `*req_data`. `server_alloc(0)` gets a null pointer from the arena and
exits; a `read` given `size - 1` bytes of room delivers at most that many. -/
def read_req_data (h : host) (settings : server_settings) (m : machine) :
    outcome (read_req_data_result × Option (List Char)) :=
  let size := settings.read_buf_size
  if m.conn.read_buf ≠ none then .assert_failed m
  else if m.conn.read_buf_size ≠ 0 then .assert_failed m
  else if size = 0 then .exited m
  else
    let m1 := { m with conn := { m.conn with read_buf := some [], read_buf_size := size } }
    match h.sock_read with
    | .error _ => .aborted { m1 with conn := { m1.conn with state := CONN_ERR_RECOVERABLE } }
    | .ok bytes =>
      let data := bytes.take (size - 1)
      let m2 := { m1 with conn := { m1.conn with read_buf := some data } }
      if data.length = 0 then .ret (READ_REQ_DATA_EMPTY, none) m2
      else .ret (READ_REQ_DATA_OK, some data) m2

/-- The `make_header` of `handler.c`. -/
def make_header (name value : List Char) : http_header :=
  ⟨name, value⟩

/-- The `printf` conversion `%zu`, and `%d` of a number that is not negative. -/
def fmt_u (n : Nat) : List Char :=
  Nat.toDigits 10 n

/-- The `printf` conversion `%d`. -/
def fmt_d (i : Int) : List Char :=
  if i < 0 then Char.ofNat 45 :: fmt_u i.natAbs else fmt_u i.natAbs

/-- The `printf` conversion `%02d`: at least two characters, zeros filling in
after the sign. -/
def fmt_02d (i : Int) : List Char :=
  let digits := fmt_u i.natAbs
  if i < 0 then Char.ofNat 45 :: (List.replicate (1 - digits.length) (Char.ofNat 48) ++ digits)
  else List.replicate (2 - digits.length) (Char.ofNat 48) ++ digits

/-- The array `days` of `http_response_date`. -/
def days : List (List Char) :=
  ["Sun".toList, "Mon".toList, "Tue".toList, "Wed".toList, "Thu".toList, "Fri".toList,
   "Sat".toList]

/-- The array `months` of `http_response_date`. -/
def months : List (List Char) :=
  ["Jan".toList, "Feb".toList, "Mar".toList, "Apr".toList, "May".toList, "Jun".toList,
   "Jul".toList, "Aug".toList, "Sep".toList, "Oct".toList, "Nov".toList, "Dec".toList]

/-- The element `names[i]` of an array of names. An index outside the array
is undefined in C (`gmtime` gives none); here it yields the empty name. -/
def name_at (names : List (List Char)) (i : Int) : List Char :=
  if 0 ≤ i then names.getD i.toNat [] else []

/-- The `http_response_date` of `handler.c`: the text `snprintf` stores in a
buffer of `buf_len` bytes, which is cut to `buf_len - 1` bytes. -/
def http_response_date (buf_len : Nat) (t : tm) : List Char :=
  (name_at days t.tm_wday ++ ", ".toList ++ fmt_d t.tm_mday ++ " ".toList
    ++ name_at months t.tm_mon ++ " ".toList ++ fmt_d (t.tm_year + 1900) ++ " ".toList
    ++ fmt_02d t.tm_hour ++ ":".toList ++ fmt_02d t.tm_min ++ ":".toList ++ fmt_02d t.tm_sec
    ++ " GMT".toList).take (buf_len - 1)

/-- The `make_date_header` of `handler.c`. -/
def make_date_header (h : host) : http_header :=
  make_header "Date".toList (cstr (http_response_date 4096 h.clock))

/-- One step of the loop of `process_request_write`: go on with a new state,
or leave the function. -/
inductive loop_step
  | go (m : machine)
  | stop (o : outcome Unit)

/-- The first half of the loop body of `process_request_write`: when the
buffer is empty or drained, read the next bytes of the body file into it. -/
def process_request_write_fill (h : host) (m : machine) : loop_step :=
  if m.conn.read_buf_len = 0 ∨ m.conn.read_buf_cursor = m.conn.read_buf_len then
    let m1 := { m with file_reads := m.file_reads + 1 }
    match h.file_read m.file_reads m.conn.read_buf_size with
    | .error _ =>
      .stop (.aborted { m1 with conn := { m1.conn with state := CONN_ERR_UNRECOVERABLE } })
    | .ok bytes =>
      let chunk := bytes.take m.conn.read_buf_size
      if chunk.length = 0 then
        .stop (.ret () { m1 with conn := { m1.conn with state := CONN_COMPLETE } })
      else
        .go { m1 with conn := { m1.conn with
                read_buf := some chunk, read_buf_len := chunk.length, read_buf_cursor := 0 } }
  else .go m

/-- The second half of the loop body of `process_request_write`: offer the
bytes of the buffer from the cursor on to the socket. -/
def process_request_write_send (h : host) (m : machine) : loop_step :=
  if ¬ (m.conn.read_buf_len > m.conn.read_buf_cursor) then .stop (.assert_failed m)
  else
    let offered := (((m.conn.read_buf).getD []).drop m.conn.read_buf_cursor).take
      (m.conn.read_buf_len - m.conn.read_buf_cursor)
    let m1 := { m with sock_writes := m.sock_writes + 1 }
    match h.sock_write m.sock_writes offered with
    | .error e =>
      if e = EAGAIN then .stop (.ret () m1)
      else .stop (.aborted { m1 with conn := { m1.conn with state := CONN_ERR_UNRECOVERABLE } })
    | .ok n =>
      let nwritten := min n offered.length
      .go { m1 with
            sock_out := m1.sock_out ++ offered.take nwritten,
            conn := { m1.conn with read_buf_cursor := m1.conn.read_buf_cursor + nwritten } }

/-- The `for (;;)` loop of `process_request_write`, run for at most `fuel`
iterations. -/
def process_request_write_loop (h : host) : Nat → machine → outcome Unit
  | 0, m => .out_of_fuel m
  | fuel + 1, m =>
    match process_request_write_fill h m with
    | .stop o => o
    | .go m1 =>
      match process_request_write_send h m1 with
      | .stop o => o
      | .go m2 => process_request_write_loop h fuel m2

/-- The `process_request_write` of `handler.c`. -/
def process_request_write (h : host) (fuel : Nat) (m : machine) : outcome Unit :=
  if m.conn.file_fd = -1 then .assert_failed m
  else process_request_write_loop h fuel m

/-- The size of the array `buffer` of `send_response`. -/
def HEADER_BUF_SIZE : Nat := 4096

/-- One `snprintf(buffer + cursor, sizeof(buffer) - cursor, ...)` of
`send_response`, producing `text`. The pair is the bytes stored in `buffer` so
far (without the terminator) and `cursor`. `snprintf` stores what fits before
the last byte of the array and answers the full length of `text`; with
`cursor` beyond the array the call is undefined (`none`). -/
def header_snprintf (buf : List Char × Nat) (text : List Char) : Option (List Char × Nat) :=
  if buf.2 > HEADER_BUF_SIZE then none
  else some (buf.1 ++ text.take (HEADER_BUF_SIZE - buf.2 - 1), buf.2 + text.length)

/-- The text `"%s: %s\r\n"` of one header. -/
def header_line (hd : http_header) : List Char :=
  cstr hd.name ++ ": ".toList ++ cstr hd.value ++ "\r\n".toList

/-- The text `"HTTP/1.1 %d %s\r\n"` of the status line. -/
def status_line (code : http_status_code) : List Char :=
  "HTTP/1.1 ".toList ++ fmt_d (http_status_code_int code) ++ " ".toList
    ++ http_status_code_str code ++ "\r\n".toList

/-- The `foreach` loop of `send_response` over the headers. -/
def header_snprintf_all : List Char × Nat → List http_header → Option (List Char × Nat)
  | buf, [] => some buf
  | buf, hd :: rest =>
    match header_snprintf buf (header_line hd) with
    | none => none
    | some buf1 => header_snprintf_all buf1 rest

/-- The first part of `send_response`: the array `buffer` and `cursor` when the
`write` is reached. -/
def send_response_buffer (resp : http_response) : Option (List Char × Nat) :=
  match header_snprintf ([], 0) (status_line resp.code) with
  | none => none
  | some buf0 =>
    match header_snprintf_all buf0 resp.headers with
    | none => none
    | some buf1 =>
      match resp.req with
      | some req =>
        if req.method ≠ HTTP_HEAD then header_snprintf buf1 "\r\n".toList else some buf1
      | none => some buf1

/-- The `cursor` bytes at the start of `buffer` that `send_response` hands to
`write`: the bytes stored, and the terminator of the last `snprintf` when the
text filled the array; reading beyond the array is undefined (`none`). -/
def header_bytes (buf : List Char × Nat) : Option (List Char) :=
  if buf.2 < HEADER_BUF_SIZE then some buf.1
  else if buf.2 = HEADER_BUF_SIZE then some (buf.1 ++ [NUL])
  else none

/-- The `set_nonblocking` of `handler.c` on the socket of the connection. -/
def set_nonblocking (h : host) : Bool :=
  h.set_nonblocking_ok

/-- The `send_response` of `handler.c`. -/
def send_response (h : host) (fuel : Nat) (resp : http_response) (m : machine) : outcome Unit :=
  match (send_response_buffer resp).bind header_bytes with
  | none => .undefined
  | some bytes =>
    let m1 := { m with sock_writes := m.sock_writes + 1 }
    match h.sock_write m.sock_writes bytes with
    | .error _ => .aborted { m1 with conn := { m1.conn with state := CONN_ERR_UNRECOVERABLE } }
    | .ok n =>
      let m2 := { m1 with sock_out := m1.sock_out ++ bytes.take n }
      if resp.req.isNone ∨ (resp.req.map (fun r => r.method)) = some HTTP_HEAD then
        .ret () { m2 with conn := { m2.conn with state := CONN_COMPLETE } }
      else if ¬ set_nonblocking h then
        .aborted { m2 with conn := { m2.conn with state := CONN_ERR_UNRECOVERABLE } }
      else if m2.conn.file_fd ≠ -1 then
        process_request_write h fuel { m2 with conn := { m2.conn with state := CONN_SENDING } }
      else
        match resp.body with
        | some body =>
          let offered := body.take resp.body_size
          let m3 := { m2 with sock_writes := m2.sock_writes + 1 }
          match h.sock_write m2.sock_writes offered with
          | .error _ =>
            .aborted { m3 with conn := { m3.conn with state := CONN_ERR_UNRECOVERABLE } }
          | .ok k =>
            let m4 := { m3 with sock_out := m3.sock_out ++ offered.take k }
            if min k offered.length ≠ resp.body_size then
              .aborted { m4 with conn := { m4.conn with state := CONN_ERR_UNRECOVERABLE } }
            else .ret () { m4 with conn := { m4.conn with state := CONN_COMPLETE } }
        | none => .ret () { m2 with conn := { m2.conn with state := CONN_COMPLETE } }

/-- The `error_response` of `handler.c`. -/
def error_response (h : host) (fuel : Nat) (code : http_status_code) (m : machine) :
    outcome Unit :=
  let resp : http_response :=
    { req := none, code := code,
      headers := [make_date_header h, make_header "Content-Length".toList "0".toList],
      body_size := 0, body := none }
  send_response h fuel resp m

/-- The status with which `resolve_path`, `get_file_info` and
`serve_get_request` answer a failed system call: their `switch (err)`. -/
def errno_status (err : Nat) : http_status_code :=
  if err = EACCES then HTTP_FORBIDDEN
  else if err = ENOTDIR ∨ err = ENOENT then HTTP_NOT_FOUND
  else HTTP_INTERNAL_SERVER_ERROR

/-- The `struct file_info`. -/
structure file_info where
  size : Nat
  ct : http_content_type
  deriving DecidableEq, Repr

/-- The `get_file_info` of `handler.c`; the value is `none` for `false` and the
filled record for `true`. -/
def get_file_info (h : host) (fuel : Nat) (full_path : List Char) (m : machine) :
    outcome (Option file_info) :=
  let m1 := { m with fs_calls := m.fs_calls ++ [fs_call.stat (cstr full_path)] }
  match h.stat_size (cstr full_path) with
  | .error err => (error_response h fuel (errno_status err) m1).and_then fun _ m2 => .ret none m2
  | .ok size => .ret (some ⟨size, http_conten_type_from_filename full_path⟩) m1

/-- The text `resolve_path` composes in `path_buf` with `"%s/%s"`, cut by
`snprintf` to the 4095 bytes that fit before the terminator. -/
def resolve_path_buf (static_dir uri : List Char) : List Char :=
  let uri1 := if strcmp_eq uri "/".toList || strcmp_eq uri "".toList then "index.html".toList else uri
  (cstr static_dir ++ "/".toList ++ cstr uri1).take 4095

/-- The `resolve_path` of `handler.c`; the value is `none` for the null
pointer and otherwise the C string returned. -/
def resolve_path (h : host) (fuel : Nat) (uri : List Char) (settings : server_settings)
    (m : machine) : outcome (Option (List Char)) :=
  let path_buf := resolve_path_buf settings.static_dir uri
  let m1 := { m with fs_calls := m.fs_calls ++ [fs_call.realpath path_buf] }
  match h.realpath path_buf with
  | .error err => (error_response h fuel (errno_status err) m1).and_then fun _ m2 => .ret none m2
  | .ok full_path =>
    if ¬ strncmp_eq full_path settings.static_dir (strlen settings.static_dir) then
      (error_response h fuel HTTP_FORBIDDEN m1).and_then fun _ m2 => .ret none m2
    else
      let len := strlen full_path
      if ¬ h.arena_alloc_ok then
        (error_response h fuel HTTP_INTERNAL_SERVER_ERROR m1).and_then fun _ m2 => .ret none m2
      else .ret (some (full_path.take len)) m1

/-- The `server_memfmt("%zu", n)` of the two serving functions. -/
def server_memfmt_zu (n : Nat) : List Char :=
  cstr ((fmt_u n).take 4095)

/-- The response `serve_head_request` and `serve_get_request` build for a file. -/
def file_response (h : host) (req : http_req) (info : file_info) (body_size : Nat) :
    http_response :=
  { req := some req, code := HTTP_OK,
    headers := [make_date_header h,
      make_header "Content-Length".toList (server_memfmt_zu info.size),
      make_header "Content-Type".toList (http_content_type_str info.ct),
      make_header "Connection".toList "Close".toList],
    body_size := body_size, body := none }

/-- The `serve_head_request` of `handler.c`. -/
def serve_head_request (h : host) (fuel : Nat) (req : http_req) (settings : server_settings)
    (m : machine) : outcome Unit :=
  (resolve_path h fuel req.uri settings m).and_then fun full_path m1 =>
    match full_path with
    | none => .ret () m1
    | some full_path =>
      (get_file_info h fuel full_path m1).and_then fun info m2 =>
        match info with
        | none => .ret () m2
        | some info => send_response h fuel (file_response h req info 0) m2

/-- The `serve_get_request` of `handler.c`. -/
def serve_get_request (h : host) (fuel : Nat) (req : http_req) (settings : server_settings)
    (m : machine) : outcome Unit :=
  (resolve_path h fuel req.uri settings m).and_then fun full_path m1 =>
    match full_path with
    | none => .ret () m1
    | some full_path =>
      (get_file_info h fuel full_path m1).and_then fun info m2 =>
        match info with
        | none => .ret () m2
        | some info =>
          let m3 := { m2 with fs_calls := m2.fs_calls ++ [fs_call.open_file (cstr full_path)] }
          match h.open_file (cstr full_path) with
          | .error err => error_response h fuel (errno_status err) m3
          | .ok fd =>
            if m3.conn.file_fd ≠ -1 then .assert_failed m3
            else
              send_response h fuel (file_response h req info info.size)
                { m3 with conn := { m3.conn with file_fd := fd } }

/-- The `serve_request` of `handler.c`. -/
def serve_request (h : host) (fuel : Nat) (req : http_req) (settings : server_settings)
    (m : machine) : outcome Unit :=
  match req.method with
  | HTTP_GET => serve_get_request h fuel req settings m
  | HTTP_HEAD => serve_head_request h fuel req settings m

/-- The part of `process_request` that follows the `switch (read_result)`:
parse the request and answer it. `req_data` is `none` for the null pointer,
on which `parse_http_req` is undefined. -/
def process_request_parsed (h : host) (fuel : Nat) (settings : server_settings)
    (req_data : Option (List Char)) (m : machine) : outcome Unit :=
  match req_data with
  | none => .undefined
  | some str =>
    match parse_http_req settings.uri_length_limit str with
    | (PARSE_HTTP_OK, some req) => serve_request h fuel req settings m
    | (PARSE_HTTP_OK, none) => .undefined
    | (PARSE_HTTP_INVALID_SYNTAX, _) => error_response h fuel HTTP_BAD_REQUEST m
    | (PARSE_HTTP_INVALID_VERSION, _) => error_response h fuel HTTP_VERSION_NO_SUPPORTED m
    | (PARSE_HTTP_URI_TOO_LONG, _) => error_response h fuel HTTP_URI_TOO_LONG m
    | (PARSE_HTTP_INVALID_METHOD, _) => error_response h fuel HTTP_METHOD_NOT_ALLOWED m

/-- The `process_request` of `handler.c`. -/
def process_request (h : host) (fuel : Nat) (settings : server_settings) (m : machine) :
    outcome Unit :=
  (read_req_data h settings m).and_then fun r m1 =>
    match r.1 with
    | READ_REQ_DATA_OK => process_request_parsed h fuel settings r.2 m1
    | READ_REQ_DATA_EMPTY => .ret () m1
    | READ_REQ_DATA_TOO_LARGE =>
      (error_response h fuel HTTP_BAD_REQUEST m1).and_then fun _ m2 =>
        process_request_parsed h fuel settings r.2 m2

/-- The machine a run ends with, when the way it ends leaves one. -/
def outcome.final {α : Type} : outcome α → Option machine
  | .ret _ m => some m
  | .aborted m => some m
  | .assert_failed m => some m
  | .exited m => some m
  | .undefined => none
  | .out_of_fuel m => some m

/-- The status number the specification lists for each result of the parser
that rejects a request: InvalidSyntax 400, InvalidMethod 405, UriTooLong 514,
InvalidVersion 505. -/
def spec_reject_status : parse_http_req_result → Option Int
  | PARSE_HTTP_OK => none
  | PARSE_HTTP_INVALID_SYNTAX => some 400
  | PARSE_HTTP_INVALID_METHOD => some 405
  | PARSE_HTTP_URI_TOO_LONG => some 514
  | PARSE_HTTP_INVALID_VERSION => some 505

/-! ## Concrete hosts and requests

The scenarios of the specification: the document root `/srv/www` holds
`index.html` with the six bytes `hello\n`, the link `escape` leads to
`/etc/passwd`, and beside the root lies the directory `/srv/wwwfoo` with a
file `x` of the same six bytes. -/

/-- The connection record as `conn_loop` sets it up after `accept`, with
nothing written to the socket yet. -/
def fresh_machine : machine :=
  { conn := { state := CONN_WAITING, file_fd := -1, read_buf_size := 0, read_buf_len := 0,
              read_buf_cursor := 0, read_buf := none },
    sock_out := [], sock_writes := 0, file_reads := 0, fs_calls := [] }

/-- The settings of the scenarios. -/
def scenario_settings : server_settings :=
  { uri_length_limit := 100, read_buf_size := 4096, static_dir := "/srv/www".toList }

/-- The host of the scenarios, on Tuesday 7 January 2025 at 14:03:09 GMT, with
a socket that delivers `request` and accepts every byte offered. -/
def scenario_host (request : List Char) : host :=
  { sock_read := .ok request
    clock := ⟨9, 3, 14, 7, 0, 125, 2⟩
    realpath := fun path =>
      if path = "/srv/www/index.html".toList then .ok "/srv/www/index.html".toList
      else if path = "/srv/www//escape".toList then .ok "/etc/passwd".toList
      else if path = "/srv/www//../wwwfoo/x".toList then .ok "/srv/wwwfoo/x".toList
      else .error ENOENT
    stat_size := fun path =>
      if path = "/srv/www/index.html".toList then .ok 6
      else if path = "/srv/wwwfoo/x".toList then .ok 6
      else .error ENOENT
    open_file := fun path =>
      if path = "/srv/www/index.html".toList then .ok 7
      else if path = "/srv/wwwfoo/x".toList then .ok 7
      else .error ENOENT
    arena_alloc_ok := true
    set_nonblocking_ok := true
    sock_write := fun _ offered => .ok offered.length
    file_read := fun k _ => if k = 0 then .ok "hello\n".toList else .ok [] }

/-! ## The tables of the specification -/

/-- The status numbers and reason phrases the specification lists. -/
def spec_status_table : List (Int × List Char) :=
  [(200, "OK".toList), (400, "Bad Request".toList), (403, "Forbidden".toList),
   (404, "Not Found".toList), (405, "Method Not Allowed".toList),
   (500, "Internal Server Error".toList), (505, "Version Not Supported".toList),
   (514, "URI Too Long".toList)]

/-- The content-type table of the specification: extension and MIME type. -/
def spec_content_types : List (List Char × List Char) :=
  [("bin".toList, "application/octet-stream".toList), ("bmp".toList, "image/bmp".toList),
   ("css".toList, "text/css".toList), ("csv".toList, "text/csv".toList),
   ("gif".toList, "image/gif".toList), ("html".toList, "text/html".toList),
   ("htm".toList, "text/html".toList), ("jpeg".toList, "image/jpeg".toList),
   ("jpg".toList, "image/jpeg".toList), ("js".toList, "text/javascript".toList),
   ("mjs".toList, "text/javascript".toList), ("json".toList, "application/json".toList),
   ("mp3".toList, "audio/mpeg".toList), ("mp4".toList, "video/mp4".toList),
   ("otf".toList, "font/otf".toList), ("png".toList, "image/png".toList),
   ("pdf".toList, "application/pdf".toList), ("svg".toList, "image/svg+xml".toList),
   ("ttf".toList, "font/ttf".toList), ("txt".toList, "text/plain".toList)]

/-! ## The response text of the specification -/

/-- The header section as the specification words it: the status line
`HTTP/1.1 <code> <reason>\r\n`, one line `Name: Value\r\n` for each header in
order, and the terminating blank line `\r\n` when there is one. -/
def spec_header_section (code : Int) (reason : List Char)
    (headers : List (List Char × List Char)) (blank : Bool) : List Char :=
  "HTTP/1.1 ".toList ++ (toString code).toList ++ " ".toList ++ reason ++ "\r\n".toList
    ++ (headers.map fun nv => nv.1 ++ ": ".toList ++ nv.2 ++ "\r\n".toList).flatten
    ++ (if blank then "\r\n".toList else [])

/-- The names and values of the headers of a response, as C strings, in the
order of the list. -/
def header_fields (resp : http_response) : List (List Char × List Char) :=
  resp.headers.map fun hd => (cstr hd.name, cstr hd.value)

/-- Whether `send_response` adds the blank line: its test
`resp->req && resp->req->method != HTTP_HEAD`. -/
def blank_line_follows (resp : http_response) : Bool :=
  match resp.req with
  | some req => decide (req.method ≠ HTTP_HEAD)
  | none => false

/-- The header section of a response in the words of the specification, with
the number and reason phrase of its status and with the blank line where
`send_response` adds it. -/
def spec_response_section (resp : http_response) : List Char :=
  spec_header_section (http_status_code_int resp.code) (http_status_code_str resp.code)
    (header_fields resp) (blank_line_follows resp)

/-- The fields of a `struct tm` are C `int`s of 32 bits, and so is the year
`tm_year + 1900`. -/
def tm_fields_int (t : tm) : Prop :=
  (-2147483648 ≤ t.tm_sec ∧ t.tm_sec ≤ 2147483647)
  ∧ (-2147483648 ≤ t.tm_min ∧ t.tm_min ≤ 2147483647)
  ∧ (-2147483648 ≤ t.tm_hour ∧ t.tm_hour ≤ 2147483647)
  ∧ (-2147483648 ≤ t.tm_mday ∧ t.tm_mday ≤ 2147483647)
  ∧ (-2147483648 ≤ t.tm_mon ∧ t.tm_mon ≤ 2147483647)
  ∧ (-2147483648 ≤ t.tm_year + 1900 ∧ t.tm_year + 1900 ≤ 2147483647)
  ∧ (-2147483648 ≤ t.tm_wday ∧ t.tm_wday ≤ 2147483647)

/-- The English name of the day of the week, Sunday being day 0. -/
def spec_day_name : Nat → List Char
  | 0 => "Sun".toList
  | 1 => "Mon".toList
  | 2 => "Tue".toList
  | 3 => "Wed".toList
  | 4 => "Thu".toList
  | 5 => "Fri".toList
  | 6 => "Sat".toList
  | _ => []

/-- The English name of the month, January being month 0. -/
def spec_month_name : Nat → List Char
  | 0 => "Jan".toList
  | 1 => "Feb".toList
  | 2 => "Mar".toList
  | 3 => "Apr".toList
  | 4 => "May".toList
  | 5 => "Jun".toList
  | 6 => "Jul".toList
  | 7 => "Aug".toList
  | 8 => "Sep".toList
  | 9 => "Oct".toList
  | 10 => "Nov".toList
  | 11 => "Dec".toList
  | _ => []

/-- A number below 100 in two decimal digits. -/
def spec_two_digits (n : Nat) : List Char :=
  [Nat.digitChar (n / 10), Nat.digitChar (n % 10)]

/-- The date as the specification words it:
`<Day>, <D> <Mon> <YYYY> <HH>:<MM>:<SS> GMT`, the day of the month and the
year `tm_year + 1900` in decimal without padding, the hour, minute and second
in two digits. -/
def spec_date (t : tm) : List Char :=
  spec_day_name t.tm_wday.toNat ++ ", ".toList ++ (toString t.tm_mday).toList ++ " ".toList
    ++ spec_month_name t.tm_mon.toNat ++ " ".toList ++ (toString (t.tm_year + 1900)).toList
    ++ " ".toList ++ spec_two_digits t.tm_hour.toNat ++ ":".toList
    ++ spec_two_digits t.tm_min.toNat ++ ":".toList ++ spec_two_digits t.tm_sec.toNat
    ++ " GMT".toList

/-- The response `error_response` builds for a status. -/
def error_response_record (h : host) (code : http_status_code) : http_response :=
  { req := none, code := code,
    headers := [make_date_header h, make_header "Content-Length".toList "0".toList],
    body_size := 0, body := none }

/-- The `errno` value `ECONNRESET` (Linux). -/
def ECONNRESET : Nat := 104

/-- The host of the scenarios with a socket whose peer has reset the
connection: every `write` fails with `ECONNRESET`. -/
def reset_host (request : List Char) : host :=
  { scenario_host request with sock_write := fun _ _ => .error ECONNRESET }

/-- The host of the scenarios with a file system on which `index.html` can be
examined but not read: every `open` fails with `EACCES`. -/
def unreadable_host : host :=
  { scenario_host [] with open_file := fun _ => .error EACCES }

/-! ## The failing file-system calls -/

/-- The status number the specification lists for the `errno` of a failed
file-system call: Permission 403, NotFound and NotADirectory 404, anything
else 500. -/
def spec_errno_status (err : Nat) : Int :=
  if err = EACCES then 403 else if err = ENOENT ∨ err = ENOTDIR then 404 else 500

/-- The URI of a request resolves to the canonical path `full`: `realpath`
answers `full` for the path composed from the document root and the URI,
`full` passes the prefix check of `resolve_path`, and the arena has the memory
for the copy. -/
def resolves_to (h : host) (settings : server_settings) (uri full : List Char) : Prop :=
  h.realpath (resolve_path_buf settings.static_dir uri) = .ok full
  ∧ strncmp_eq full settings.static_dir (strlen settings.static_dir) = true
  ∧ h.arena_alloc_ok = true

/-- The `errno` value `EMFILE` (Linux). -/
def EMFILE : Nat := 24

/-- The host of the scenarios with a file system that refuses every `stat`
with `EACCES`. -/
def stat_denied_host : host :=
  { scenario_host [] with stat_size := fun _ => .error EACCES }

/-- The host of the scenarios with a process that has no descriptor left:
every `open` fails with `EMFILE`. -/
def open_failing_host : host :=
  { scenario_host [] with open_file := fun _ => .error EMFILE }

/-! ## The ways a call of `process_request_write` ends -/

/-- The bytes `process_request_write` offers to the socket: those of the buffer
from the cursor up to the filled length. -/
def write_offer (m : machine) : List Char :=
  (((m.conn.read_buf).getD []).drop m.conn.read_buf_cursor).take
    (m.conn.read_buf_len - m.conn.read_buf_cursor)

/-- A connection in state Sending, as `send_response` and the streaming loop
leave it: a body file is open, the cursor is not beyond the filled length, and
the buffer holds the filled bytes. -/
def sending_conn (m : machine) : Prop :=
  m.conn.state = CONN_SENDING ∧ m.conn.file_fd ≠ -1
    ∧ m.conn.read_buf_cursor ≤ m.conn.read_buf_len
    ∧ m.conn.read_buf_len ≤ ((m.conn.read_buf).getD []).length

/-- The call ends on a socket that would block: in a state `m1` the `write`
reports `EAGAIN` (which is `EWOULDBLOCK`), and the call returns with what `m1`
holds, the state Sending, the filled length and the cursor included; only the
count of the `write` calls made has grown. -/
def ends_would_block (h : host) (o : outcome Unit) : Prop :=
  ∃ m1, sending_conn m1 ∧ h.sock_write m1.sock_writes (write_offer m1) = .error EAGAIN
    ∧ o = .ret () { m1 with sock_writes := m1.sock_writes + 1 }

/-- The call ends at the end of the file: in a state `m1` with a drained buffer
the `read` on the file delivers no byte, and the call returns with the state
Complete. -/
def ends_at_eof (h : host) (o : outcome Unit) : Prop :=
  ∃ m1 bytes, sending_conn m1 ∧ m1.conn.read_buf_cursor = m1.conn.read_buf_len
    ∧ h.file_read m1.file_reads m1.conn.read_buf_size = .ok bytes
    ∧ bytes.take m1.conn.read_buf_size = []
    ∧ o = .ret () { m1 with file_reads := m1.file_reads + 1,
                            conn := { m1.conn with state := CONN_COMPLETE } }

/-- The call ends on an error: in a state `m1` the `read` on the file fails, or
the `write` on the socket fails with an `errno` other than `EAGAIN`, and the
call sets the state ErrUnrecoverable and aborts. -/
def ends_in_error (h : host) (o : outcome Unit) : Prop :=
  ∃ m1 e, sending_conn m1
    ∧ ((m1.conn.read_buf_cursor = m1.conn.read_buf_len
        ∧ h.file_read m1.file_reads m1.conn.read_buf_size = .error e
        ∧ o = .aborted { m1 with file_reads := m1.file_reads + 1,
                                 conn := { m1.conn with state := CONN_ERR_UNRECOVERABLE } })
      ∨ (h.sock_write m1.sock_writes (write_offer m1) = .error e ∧ e ≠ EAGAIN
        ∧ o = .aborted { m1 with sock_writes := m1.sock_writes + 1,
                                 conn := { m1.conn with state := CONN_ERR_UNRECOVERABLE } }))

/-- A connection of the scenarios in state Sending: the file of `/` is open and
nothing of it has been read yet. -/
def sending_machine : machine :=
  { fresh_machine with
    conn := { fresh_machine.conn with
      state := CONN_SENDING, file_fd := 7, read_buf := some [], read_buf_size := 4096 } }

/-- The state after the loop of `process_request_write` has read `chunk` from
the file into the buffer. -/
def after_fill (m : machine) (chunk : List Char) : machine :=
  { m with file_reads := m.file_reads + 1,
           conn := { m.conn with read_buf := some chunk, read_buf_len := chunk.length,
                                 read_buf_cursor := 0 } }

/-- The state after the socket has accepted the first `n` of the bytes offered. -/
def after_send (m : machine) (n : Nat) : machine :=
  { m with sock_writes := m.sock_writes + 1,
           sock_out := m.sock_out ++ (write_offer m).take n,
           conn := { m.conn with read_buf_cursor := m.conn.read_buf_cursor + n } }

/-- The state `m1` in which the loop body, entered in state `m`, reaches its
`write`: `m` itself when bytes are left in the buffer, and otherwise `m` after
a `read` on the file that delivered bytes. -/
def write_reached (h : host) (m m1 : machine) : Prop :=
  sending_conn m1 ∧ m1.conn.read_buf_cursor < m1.conn.read_buf_len
    ∧ ((m1 = m ∧ m.conn.read_buf_cursor ≠ m.conn.read_buf_len)
      ∨ (m.conn.read_buf_cursor = m.conn.read_buf_len
        ∧ ∃ bytes, h.file_read m.file_reads m.conn.read_buf_size = .ok bytes
          ∧ bytes.take m.conn.read_buf_size ≠ []
          ∧ m1 = after_fill m (bytes.take m.conn.read_buf_size)))

/-! ## Streaming a file over several calls -/

/-- The calls of `process_request_write` that `conn_loop` makes for one
connection, at most `calls` of them: one in each iteration in which the socket
is writable, for as long as the call before returned with the state Sending. -/
def process_request_write_calls (h : host) (fuel : Nat) : Nat → machine → outcome Unit
  | 0, m => .out_of_fuel m
  | calls + 1, m =>
    match process_request_write h fuel m with
    | .ret _ m1 =>
      if m1.conn.state = CONN_SENDING then process_request_write_calls h fuel calls m1
      else .ret () m1
    | o => o

/-- A schedule on which the file with the content `chunks.flatten` is streamed
from state `m` on: the reads on the file deliver the chunks one after the
other, each with at least one byte and no more than the buffer takes, and then
nothing; a `write` on the socket accepts at least one and at most all of the
bytes offered, or reports `EAGAIN`. -/
def streaming_schedule (h : host) (m : machine) (chunks : List (List Char)) : Prop :=
  (∀ c ∈ chunks, c ≠ [] ∧ c.length ≤ m.conn.read_buf_size)
    ∧ (∀ k, h.file_read (m.file_reads + k) m.conn.read_buf_size = .ok (chunks.getD k []))
    ∧ (∀ k offered, offered ≠ [] →
        h.sock_write k offered = .error EAGAIN
          ∨ ∃ n, 0 < n ∧ n ≤ offered.length ∧ h.sock_write k offered = .ok n)

/-- What holds of a state `m1` reached while the file is streamed from `m0` on:
the connection is Sending with the same buffer size, `j` chunks have been read,
and the bytes the socket has got, the bytes left in the buffer and the chunks
not yet read make up the bytes the socket had got in `m0` and the file. -/
def stream_inv (m0 : machine) (chunks : List (List Char)) (m1 : machine) : Prop :=
  ∃ j, sending_conn m1 ∧ m1.conn.read_buf_size = m0.conn.read_buf_size
    ∧ m1.file_reads = m0.file_reads + j
    ∧ m0.sock_out.length ≤ m1.sock_out.length
    ∧ m1.sock_out ++ write_offer m1 ++ (chunks.drop j).flatten
        = m0.sock_out ++ chunks.flatten

/-- A host whose file is read in the two chunks `hel` and `lo\n`, and whose
socket reports `EAGAIN` at the first and the third `write` and accepts at most
two bytes at every other one. -/
def trickle_host : host :=
  { scenario_host [] with
    file_read := fun k _ => .ok (["hel".toList, "lo\n".toList].getD k [])
    sock_write := fun k offered =>
      if k = 0 ∨ k = 2 then .error EAGAIN else .ok (min 2 offered.length) }

/-! ## A short write of the header -/

/-- The host of the scenarios with a socket that accepts only ten bytes of the
first `write` and all the bytes of every later one. -/
def short_write_host (request : List Char) : host :=
  { scenario_host request with
    sock_write := fun k offered => if k = 0 then .ok 10 else .ok offered.length }

/-! ## `server.c`: one iteration of `conn_loop` -/

/-- A call `conn_loop` makes to release what a connection holds: `close` on a
descriptor, `arena_clear` on the arena of the record at an address, and
`server_free` on the record. -/
inductive release_call
  | close (fd : Int)
  | arena_clear (conn : Nat)
  | server_free (conn : Nat)
  deriving DecidableEq, Repr

/-- A connection of the list `active_conns`: the address of its record, its
socket, what the system calls made for it answer, and the state its handlers
work on. -/
structure live_conn where
  addr : Nat
  sock_fd : Int
  hst : host
  m : machine

/-- What `select` answers: `-1` with `EINTR`, `-1` with another `errno`, or the
descriptors that are ready for reading and for writing. -/
inductive select_answer
  | interrupted
  | failed
  | ready (read_set write_set : Int → Bool)

/-- What `accept` answers: `-1` with `EAGAIN`, `-1` with another `errno`, or a
new socket; with it come the address `calloc` finds for the record (`none` when
it finds no memory) and what the system calls on the new connection will
answer. -/
inductive accept_answer
  | would_block
  | failed
  | accepted (fd : Int) (record : Option Nat) (hst : host)

/-- What the body of the loop over the connections does with one of them: it
appends the connection to `new_conns`, or it releases the connection with the
calls listed, or the process ends in it. -/
inductive conn_step
  | kept (c : live_conn)
  | released (c : live_conn) (calls : List release_call)
  | stopped (o : outcome Unit)

/-- How one call of `conn_loop` ends: it returns with the new list
`active_conns` and the releasing calls made, the process ends in a handler or
an assertion, or the process exits on a failed `select`, `accept` or `calloc`. -/
inductive loop_result
  | returned (conns : List live_conn) (calls : List release_call)
  | stopped (o : outcome Unit)
  | exited

/-- The calls under the label `complete` of `conn_loop`. -/
def release_calls (addr : Nat) (sock_fd : Int) (m : machine) : List release_call :=
  (if m.conn.file_fd ≠ -1 then [release_call.close m.conn.file_fd] else [])
    ++ [release_call.close sock_fd, release_call.arena_clear addr, release_call.server_free addr]

/-- The code under the label `complete` of `conn_loop`: the connection, in the
state `m`, is released. -/
def conn_complete (c : live_conn) (m : machine) : conn_step :=
  .released { c with m := m } (release_calls c.addr c.sock_fd m)

/-- What follows the `setjmp` block of `case CONN_ERR_RECOVERABLE`; `o` is how
`error_response` ended in it: after a return or an abort the code under
`complete` runs. -/
def conn_recover_end (c : live_conn) (o : outcome Unit) : conn_step :=
  match o with
  | .ret _ m2 => conn_complete c m2
  | .aborted m2 => conn_complete c m2
  | o2 => .stopped o2

/-- The `case CONN_ERR_RECOVERABLE` of the second `switch` of the loop body:
`error_response` for status 500 under a `setjmp`, and then the code under
`complete`. -/
def conn_recover (fuel : Nat) (c : live_conn) (m1 : machine) : conn_step :=
  conn_recover_end c (error_response c.hst fuel HTTP_INTERNAL_SERVER_ERROR m1)

/-- The second `switch` of the loop body, on the state `m1` in which the
handler has left the connection. -/
def after_state (fuel : Nat) (c : live_conn) (m1 : machine) : conn_step :=
  match m1.conn.state with
  | CONN_WAITING => .stopped (.assert_failed m1)
  | CONN_SENDING => .kept { c with m := m1 }
  | CONN_COMPLETE => conn_complete c m1
  | CONN_ERR_RECOVERABLE => conn_recover fuel c m1
  | CONN_ERR_UNRECOVERABLE => conn_complete c m1

/-- What the loop body does after the handler; `o` is how the handler ended. A
handler that calls `abort_req` comes back to the `setjmp` of the loop, which
goes on as after a return. -/
def after_handler (fuel : Nat) (c : live_conn) (o : outcome Unit) : conn_step :=
  match o with
  | .ret _ m1 => after_state fuel c m1
  | .aborted m1 => after_state fuel c m1
  | o1 => .stopped o1

/-- The body of the loop of `conn_loop` over `active_conns`, for one
connection. -/
def conn_loop_conn (settings : server_settings) (fuel : Nat) (read_set write_set : Int → Bool)
    (c : live_conn) : conn_step :=
  match c.m.conn.state with
  | CONN_WAITING =>
    if ¬ read_set c.sock_fd then .kept c
    else after_handler fuel c (process_request c.hst fuel settings c.m)
  | CONN_SENDING =>
    if ¬ write_set c.sock_fd then .kept c
    else after_handler fuel c (process_request_write c.hst fuel c.m)
  | _ => .stopped (.assert_failed c.m)

/-- The loop of `conn_loop` over `active_conns`, with the list `new_conns` and
the releasing calls made so far. -/
def conn_loop_conns (settings : server_settings) (fuel : Nat) (read_set write_set : Int → Bool) :
    List live_conn → List live_conn → List release_call → loop_result
  | [], new_conns, calls => .returned new_conns calls
  | c :: rest, new_conns, calls =>
    match conn_loop_conn settings fuel read_set write_set c with
    | .kept c1 => conn_loop_conns settings fuel read_set write_set rest (new_conns ++ [c1]) calls
    | .released _ made =>
      conn_loop_conns settings fuel read_set write_set rest new_conns (calls ++ made)
    | .stopped o => .stopped o

/-- The first loop of `conn_loop`, which builds the descriptor sets: the
connection on which its `assert(0)` fails, if there is one. -/
def conn_loop_check : List live_conn → Option live_conn
  | [] => none
  | c :: rest =>
    match c.m.conn.state with
    | CONN_WAITING => conn_loop_check rest
    | CONN_SENDING => conn_loop_check rest
    | _ => some c

/-- The `conn_loop` of `server.c`: one iteration of the loop of a worker, on
the listening socket `listen_fd`. -/
def conn_loop (settings : server_settings) (fuel : Nat) (listen_fd : Int)
    (sel : select_answer) (acc : accept_answer) (conns : List live_conn) : loop_result :=
  match conn_loop_check conns with
  | some c => .stopped (.assert_failed c.m)
  | none =>
    match sel with
    | .interrupted => .returned conns []
    | .failed => .exited
    | .ready read_set write_set =>
      if read_set listen_fd then
        match acc with
        | .would_block => conn_loop_conns settings fuel read_set write_set conns [] []
        | .failed => .exited
        | .accepted _ none _ => .exited
        | .accepted fd (some addr) hst =>
          conn_loop_conns settings fuel read_set write_set conns
            [{ addr := addr, sock_fd := fd, hst := hst, m := fresh_machine }] []
      else conn_loop_conns settings fuel read_set write_set conns [] []

/-- The connection a step of the loop appends to `new_conns`, if it does. -/
def conn_step.kept_conn : conn_step → Option live_conn
  | .kept c => some c
  | _ => none

/-- The releasing calls a step of the loop makes. -/
def conn_step.calls : conn_step → List release_call
  | .released _ made => made
  | _ => []

/-- Whether the loop calls the handler of a connection: the connection is
Waiting and its socket readable, or Sending and its socket writable. -/
def handler_called (read_set write_set : Int → Bool) (c : live_conn) : Prop :=
  (c.m.conn.state = CONN_WAITING ∧ read_set c.sock_fd = true)
    ∨ (c.m.conn.state = CONN_SENDING ∧ write_set c.sock_fd = true)

/-- The run of the handler the loop calls for a connection: `process_request`
for one that is Waiting, `process_request_write` for one that is Sending. -/
def handler_run (settings : server_settings) (fuel : Nat) (c : live_conn) : outcome Unit :=
  match c.m.conn.state with
  | CONN_WAITING => process_request c.hst fuel settings c.m
  | _ => process_request_write c.hst fuel c.m

/-- A connection is in one of the two states in which `conn_loop` keeps it in
`active_conns`. -/
def waiting_or_sending (c : live_conn) : Prop :=
  c.m.conn.state = CONN_WAITING ∨ c.m.conn.state = CONN_SENDING

/-- The connection `accept` adds to `new_conns`, if it adds one. -/
def accepted_conns (listen_fd : Int) (sel : select_answer) (acc : accept_answer) :
    List live_conn :=
  match sel, acc with
  | .ready read_set _, .accepted fd (some addr) hst =>
    if read_set listen_fd then [{ addr := addr, sock_fd := fd, hst := hst, m := fresh_machine }]
    else []
  | _, _ => []

/-- Two connections of a worker for the scenarios: at address 1000, on socket
5, a connection that is Waiting and whose request is for a missing file; at
address 2000, on socket 6, a connection that is Sending the file of `/`. -/
def scenario_conns : List live_conn :=
  [{ addr := 1000, sock_fd := 5,
     hst := scenario_host "GET /nothing HTTP/1.1\r\n\r\n".toList, m := fresh_machine },
   { addr := 2000, sock_fd := 6, hst := scenario_host [], m := sending_machine }]

/-- The answer of `select` in which socket 5 alone is ready. -/
def scenario_select : select_answer :=
  .ready (fun fd => fd == 5) (fun _ => false)

/-- The host of the scenarios with a socket on which the `read` fails with
`ECONNRESET`. -/
def read_error_host : host :=
  { scenario_host [] with sock_read := .error ECONNRESET }

/-! ## `memory.c`: the arena

Sizes and addresses are `size_t` values: natural numbers below `SIZE_MOD`, all
arithmetic on them wrapping at `SIZE_MOD`. The memory is a map from addresses
to bytes. The host allocator is an oracle: `calloc k` is the address of the
`k` bytes that `calloc(1, k)` returns, or `none` for the null pointer. -/

/-- The `sizeof(struct memory_arena_block)`: two `size_t` and two pointers. -/
def BLOCK_HEADER_SIZE : Nat := 32

/-- The `struct memory_arena_block`, without its link `next`. -/
structure memory_arena_block where
  size : Nat
  used : Nat
  base : Nat
  deriving DecidableEq, Repr

/-- The `struct memory_arena`: the chain of blocks from `current_block` on,
following `next`, and `minimum_block_size`. -/
structure memory_arena where
  blocks : List memory_arena_block
  minimum_block_size : Nat
  deriving DecidableEq, Repr

/-- How `arena_alloc` ends: it returns the null pointer; it returns the pointer
`ptr`, at `block_offset` bytes from the base of the current block; or one of
its assertions fails. Each time the arena and the memory are as the call leaves
them. -/
inductive arena_alloc_result
  | null (arena : memory_arena) (mem : Nat → Char)
  | region (arena : memory_arena) (block_offset ptr : Nat) (mem : Nat → Char)
  | assert_failed (arena : memory_arena) (mem : Nat → Char)

/-- C `memset(p, 0, n)`. -/
def memset_zero (mem : Nat → Char) (p n : Nat) : Nat → Char :=
  fun a => if p ≤ a ∧ a < p + n then NUL else mem a

/-- The `get_alignment_offset` of `memory.c`, for the current block `block`. -/
def get_alignment_offset (block : memory_arena_block) (align : Nat) : Nat :=
  let result_ptr := (block.base + block.used) % SIZE_MOD
  let align_mask := (align + SIZE_MOD - 1) % SIZE_MOD
  if result_ptr &&& align_mask ≠ 0 then (align + SIZE_MOD - (result_ptr &&& align_mask)) % SIZE_MOD
  else 0

/-- The second part of `arena_alloc`, from its first assertion on: `block` is
the current block, `rest` the blocks behind it. -/
def arena_alloc_place (block : memory_arena_block) (rest : List memory_arena_block)
    (minimum_block_size : Nat) (mem : Nat → Char) (size size_init : Nat) :
    arena_alloc_result :=
  let arena : memory_arena := ⟨block :: rest, minimum_block_size⟩
  if ¬ ((block.used + size) % SIZE_MOD ≤ block.size) then .assert_failed arena mem
  else
    let align_offset := get_alignment_offset block 16
    let block_offset := (block.used + align_offset) % SIZE_MOD
    if ¬ ((block_offset + size) % SIZE_MOD ≤ block.size) then .assert_failed arena mem
    else
      let result := (block.base + block_offset) % SIZE_MOD
      let arena1 : memory_arena :=
        ⟨{ block with used := (block.used + size) % SIZE_MOD } :: rest, minimum_block_size⟩
      if ¬ (size ≥ size_init) then .assert_failed arena1 mem
      else .region arena1 block_offset result (memset_zero mem result size_init)

/-- The test of `arena_alloc` for a new block: there is no current block, or
the bytes used in it and `size` together, as a `size_t`, exceed its size. -/
def arena_needs_block (arena : memory_arena) (size : Nat) : Bool :=
  match arena.blocks with
  | [] => true
  | block :: _ => decide ((block.used + size) % SIZE_MOD > block.size)

/-- The `arena_alloc` of `memory.c`. The mask `~15` is the `size_t`
`SIZE_MOD - 16`. -/
def arena_alloc (calloc : Nat → Option Nat) (arena : memory_arena) (mem : Nat → Char)
    (size_init : Nat) : arena_alloc_result :=
  if size_init = 0 then .null arena mem
  else
    let size := ((size_init + 15) % SIZE_MOD) &&& (SIZE_MOD - 16)
    if arena_needs_block arena size then
      let minimum_block_size :=
        if arena.minimum_block_size = 0 then 65536 else arena.minimum_block_size
      let block_size := if minimum_block_size > size_init then minimum_block_size else size_init
      match calloc ((block_size + BLOCK_HEADER_SIZE) % SIZE_MOD) with
      | none => .null { arena with minimum_block_size := minimum_block_size } mem
      | some new_block =>
        arena_alloc_place
          { size := block_size, used := 0, base := (new_block + BLOCK_HEADER_SIZE) % SIZE_MOD }
          arena.blocks minimum_block_size mem size_init size_init
    else
      match arena.blocks with
      | [] => .assert_failed arena mem
      | block :: rest => arena_alloc_place block rest arena.minimum_block_size mem size size_init

/-- How `server_alloc` ends: it returns a pointer, with the arena bound to
`g_memory_arena` and the memory as they are then; it calls `exit`; or an
assertion of `arena_alloc` fails. -/
inductive server_alloc_result
  | allocated (arena : Option memory_arena) (ptr : Nat) (mem : Nat → Char)
  | exited
  | assert_failed

/-- The `server_alloc` of `memory.c`; `g_memory_arena` is `none` when it is the
null pointer. -/
def server_alloc (calloc : Nat → Option Nat) (g_memory_arena : Option memory_arena)
    (mem : Nat → Char) (size : Nat) : server_alloc_result :=
  match g_memory_arena with
  | some arena =>
    match arena_alloc calloc arena mem size with
    | .null _ _ => .exited
    | .region arena1 _ ptr mem1 => .allocated (some arena1) ptr mem1
    | .assert_failed _ _ => .assert_failed
  | none =>
    match calloc size with
    | none => .exited
    | some ptr => .allocated none ptr (memset_zero mem ptr size)

/-- The zero-initialized arena. -/
def zero_arena : memory_arena := ⟨[], 0⟩

/-- The arena a call of `arena_alloc` leaves. -/
def arena_alloc_result.arena : arena_alloc_result → memory_arena
  | .null arena _ => arena
  | .region arena _ _ _ => arena
  | .assert_failed arena _ => arena

/-- Whether a call of `arena_alloc` has returned. -/
def arena_alloc_result.returned : arena_alloc_result → Bool
  | .null _ _ => true
  | .region _ _ _ _ => true
  | .assert_failed _ _ => false

/-- The arenas reached from the zero-initialized arena by calls of
`arena_alloc` that return, the host allocator answering each request of `k`
bytes with the null pointer or with an address that is a multiple of 16 and at
which the `k` bytes lie in the address space. -/
inductive arena_reached : memory_arena → Prop
  | zero : arena_reached zero_arena
  | alloc (calloc : Nat → Option Nat) (arena : memory_arena) (mem : Nat → Char)
      (size_init : Nat) :
      arena_reached arena →
      (∀ k p, calloc k = some p → p % 16 = 0 ∧ p + k ≤ SIZE_MOD) →
      size_init < SIZE_MOD →
      (arena_alloc calloc arena mem size_init).returned = true →
      arena_reached (arena_alloc calloc arena mem size_init).arena

/-- The arenas on which `arena_alloc` is safe for sizes below `2 ^ 63`:
`minimum_block_size` is 0 or 65536, and the current block, if there is one,
has a base that is a multiple of 16, lies in the address space, is smaller than
`2 ^ 63` bytes, and is full unless its size is a multiple of 16. -/
def arena_wf (arena : memory_arena) : Prop :=
  (arena.minimum_block_size = 0 ∨ arena.minimum_block_size = 65536)
    ∧ ∀ b ∈ arena.blocks.head?, b.base % 16 = 0 ∧ b.used ≤ b.size
        ∧ (b.size % 16 = 0 ∨ b.used = b.size) ∧ b.base + b.size ≤ SIZE_MOD ∧ b.size < 2 ^ 63

/-- A host allocator that answers every request of at most `2 ^ 32` bytes with
the address 4096 and has no memory for a larger one. -/
def scenario_calloc : Nat → Option Nat :=
  fun k => if k ≤ 4294967296 then some 4096 else none

/-- A memory of bytes `x`. -/
def scenario_mem : Nat → Char :=
  fun _ => Char.ofNat 120

/-- The size of a new block in the words of the specification:
`max(minimum_block_size, n)`, with `minimum_block_size` defaulting to 65536 when
it is 0. -/
def spec_block_size (arena : memory_arena) (n : Nat) : Nat :=
  max (if arena.minimum_block_size = 0 then 65536 else arena.minimum_block_size) n

/-- The test for a new block in the words of the specification: the arena has
no block, or the used count of the head block plus `n` rounded up to a multiple
of 16 exceeds the size of the head block. -/
def spec_needs_block (arena : memory_arena) (n : Nat) : Prop :=
  arena.blocks = [] ∨ ∃ b ∈ arena.blocks.head?, b.used + (n + 15) / 16 * 16 > b.size

/-- The run has returned or has called `abort_req`, and has left the state `m`. -/
def outcome.ended_with {α : Type} (o : outcome α) (m : machine) : Prop :=
  (∃ v, o = .ret v m) ∨ o = .aborted m

/-- The four states in which a handler may leave a connection. -/
def handled (s : connection_state) : Prop :=
  s = CONN_SENDING ∨ s = CONN_COMPLETE ∨ s = CONN_ERR_RECOVERABLE ∨ s = CONN_ERR_UNRECOVERABLE

/-! ## `memory.c`: `arena_clear`, `arena_realloc` and runs of `arena_alloc` -/

/-- The `free_last_block` of `memory.c`, for the current block `block` and the
blocks `rest` behind it: the arena it leaves and the block it hands to `free`. -/
def free_last_block (block : memory_arena_block) (rest : List memory_arena_block)
    (minimum_block_size : Nat) : memory_arena × memory_arena_block :=
  (⟨rest, minimum_block_size⟩, block)

/-- The loop of `arena_clear`, on the chain of blocks from `current_block` on;
`freed` lists the blocks handed to `free` so far, oldest call first. -/
def arena_clear_loop (minimum_block_size : Nat) :
    List memory_arena_block → List memory_arena_block → memory_arena × List memory_arena_block
  | [], freed => (⟨[], minimum_block_size⟩, freed)
  | block :: rest, freed =>
    let is_last_block := rest.isEmpty
    let step := free_last_block block rest minimum_block_size
    if is_last_block then (step.1, freed ++ [step.2])
    else arena_clear_loop minimum_block_size step.1.blocks (freed ++ [step.2])

/-- The `arena_clear` of `memory.c`: the arena it leaves and the blocks it has
handed to `free`, in the order of the calls. -/
def arena_clear (arena : memory_arena) : memory_arena × List memory_arena_block :=
  arena_clear_loop arena.minimum_block_size arena.blocks []

/-- C `memcpy(dst, src, n)`, for regions that do not overlap. -/
def memcpy (mem : Nat → Char) (dst src n : Nat) : Nat → Char :=
  fun a => if dst ≤ a ∧ a < dst + n then mem (src + (a - dst)) else mem a

/-- How `arena_realloc` ends: it returns the pointer `ptr`; its behaviour is
undefined, `memcpy` being called on the null pointer; or an assertion of
`arena_alloc` fails. -/
inductive arena_realloc_result
  | region (arena : memory_arena) (ptr : Nat) (mem : Nat → Char)
  | undefined
  | assert_failed (arena : memory_arena) (mem : Nat → Char)

/-- The `arena_realloc` of `memory.c`. -/
def arena_realloc (calloc : Nat → Option Nat) (arena : memory_arena) (mem : Nat → Char)
    (memory old_size new_size : Nat) : arena_realloc_result :=
  match arena_alloc calloc arena mem new_size with
  | .null _ _ => .undefined
  | .region arena1 _ new_mem mem1 =>
    .region arena1 new_mem
      (memcpy mem1 new_mem memory (if old_size < new_size then old_size else new_size))
  | .assert_failed arena1 mem1 => .assert_failed arena1 mem1

/-- The offset in a block below which lie all the bytes `arena_alloc` has handed
out in it: the used count rounded up to a multiple of 16, or the size of the
block when that is less. -/
def block_top (b : memory_arena_block) : Nat :=
  min b.size ((b.used + 15) / 16 * 16)

/-- The `n` bytes at `p` are bytes the arena has handed out: they lie in one of
its blocks, below the top of what has been handed out in it. -/
def arena_holds (arena : memory_arena) (p n : Nat) : Prop :=
  ∃ b ∈ arena.blocks, b.base ≤ p ∧ p + n ≤ b.base + block_top b

/-- The memory of two blocks, each with its header before its base, does not
overlap. -/
def blocks_apart (b c : memory_arena_block) : Prop :=
  b.base + b.size + BLOCK_HEADER_SIZE ≤ c.base ∨ c.base + c.size + BLOCK_HEADER_SIZE ≤ b.base

/-- An arena as calls of `arena_alloc` with sizes below `2 ^ 63` build it on a
host that hands out memory not in use: `arena_alloc` is safe on it, in no block
the used count exceeds the size, every block lies in the address space behind
its header, and no two blocks overlap. -/
def arena_ok (arena : memory_arena) : Prop :=
  arena_wf arena
    ∧ (∀ b ∈ arena.blocks, b.used ≤ b.size ∧ BLOCK_HEADER_SIZE ≤ b.base
        ∧ b.base + b.size ≤ SIZE_MOD)
    ∧ arena.blocks.Pairwise blocks_apart

/-- The contract of the host allocator towards an arena: the `k` bytes it
answers a request with start at a multiple of 16, lie in the address space, and
overlap with no block of the arena. -/
def calloc_fresh (arena : memory_arena) (calloc : Nat → Option Nat) : Prop :=
  ∀ k q, calloc k = some q → q % 16 = 0 ∧ q + k ≤ SIZE_MOD
    ∧ ∀ b ∈ arena.blocks, q + k + BLOCK_HEADER_SIZE ≤ b.base ∨ b.base + b.size ≤ q

/-- Two regions, each given by its address and its number of bytes, share no
byte. -/
def regions_apart (r s : Nat × Nat) : Prop :=
  r.1 + r.2 ≤ s.1 ∨ s.1 + s.2 ≤ r.1

/-- The runs of successful `arena_alloc` calls from the zero-initialized arena,
with sizes from 1 to below `2 ^ 63`, the host allocator keeping its contract at
each call: the arena reached and the regions returned, the last one first. -/
inductive alloc_run : memory_arena → List (Nat × Nat) → Prop
  | zero : alloc_run zero_arena []
  | alloc (calloc : Nat → Option Nat) (arena arena1 : memory_arena) (mem mem1 : Nat → Char)
      (n off p : Nat) (regions : List (Nat × Nat)) :
      alloc_run arena regions →
      calloc_fresh arena calloc →
      1 ≤ n → n < 2 ^ 63 →
      arena_alloc calloc arena mem n = .region arena1 off p mem1 →
      alloc_run arena1 ((p, n) :: regions)

/-- A host allocator that answers every request of at most `2 ^ 32` bytes with
the address 1048576 and has no memory for a larger one. -/
def scenario_calloc_high : Nat → Option Nat :=
  fun k => if k ≤ 4294967296 then some 1048576 else none

/-! ## The record of a connection between the handler calls -/

/-- The predicate of the specification on the record of a connection: in the
state Waiting no file is open and the buffer holds no byte; in the state
Sending a body file is open, the cursor is not beyond the filled length, and
the filled length is not beyond the size of the buffer. -/
def conn_inv (c : active_connection) : Prop :=
  (c.state = CONN_WAITING → c.file_fd = -1 ∧ c.read_buf_len = 0)
    ∧ (c.state = CONN_SENDING → c.file_fd ≠ -1 ∧ c.read_buf_cursor ≤ c.read_buf_len
        ∧ c.read_buf_len ≤ c.read_buf_size)

/-- No byte has been written to the socket of the connection, and no `write`
on it has been tried. -/
def unwritten (m : machine) : Prop :=
  m.sock_out = [] ∧ m.sock_writes = 0

/-- A run `o` of a handler function, entered with the machine `m`, is in order:
if it has returned or aborted, the record satisfies the predicate of the
specification, what the socket had got is still the start of what it has got,
and the state is Sending, Complete or ErrUnrecoverable; if it has aborted, the
state is ErrUnrecoverable; and no assertion has failed in it. -/
def run_in_order (m : machine) (o : outcome Unit) : Prop :=
  (∀ m', o.ended_with m' →
      conn_inv m'.conn ∧ m.sock_writes ≤ m'.sock_writes ∧ m.sock_out <+: m'.sock_out
        ∧ (m'.conn.state = CONN_SENDING ∨ m'.conn.state = CONN_COMPLETE
          ∨ m'.conn.state = CONN_ERR_UNRECOVERABLE))
    ∧ (∀ m', o = .aborted m' → m'.conn.state = CONN_ERR_UNRECOVERABLE)
    ∧ ∀ m', o ≠ .assert_failed m'

/-- A run `o` of `process_request`, entered with the machine `m`, is in order:
if it has returned or aborted, the record satisfies the predicate of the
specification, what the socket had got is still the start of what it has got,
and in the states Waiting and ErrRecoverable the socket has got nothing more
and no `write` has been made; if it has aborted, the state is ErrRecoverable or
ErrUnrecoverable; and if an assertion has failed, it is one of the two
assertions of `read_req_data`, on a buffer that is not as `accept` left it. -/
def request_in_order (m : machine) (o : outcome Unit) : Prop :=
  (∀ m', o.ended_with m' →
      conn_inv m'.conn ∧ m.sock_writes ≤ m'.sock_writes ∧ m.sock_out <+: m'.sock_out
        ∧ ((m'.conn.state = CONN_WAITING ∨ m'.conn.state = CONN_ERR_RECOVERABLE) →
            m'.sock_out = m.sock_out ∧ m'.sock_writes = m.sock_writes))
    ∧ (∀ m', o = .aborted m' →
        m'.conn.state = CONN_ERR_UNRECOVERABLE ∨ m'.conn.state = CONN_ERR_RECOVERABLE)
    ∧ ∀ m', o = .assert_failed m' →
        m' = m ∧ (m.conn.read_buf ≠ none ∨ m.conn.read_buf_size ≠ 0)

/-! ## `server.c`: the binding `g_memory_arena` in `conn_loop`

The handlers read `g_memory_arena` and never assign it; `conn_loop` assigns it
around each handler call. `none` is the null pointer, `some a` the arena of the
record at the address `a`. -/

/-- A point of `conn_loop` at which `g_memory_arena` is read, with its value
`g` there: the `server_alloc` of the record of a new connection; an `lappend`
to `new_conns`; a call of a handler (`process_request`,
`process_request_write` or `error_response`) for the connection whose record is
at `conn`; an `assert(g_memory_arena == NULL)`; the `arena_clear` and the
`server_free` of a record; and the `list_free` of the old list. -/
inductive arena_use
  | server_alloc (g : Option Nat)
  | lappend (g : Option Nat)
  | handler (g : Option Nat) (conn : Nat)
  | assert_null (g : Option Nat)
  | arena_clear (g : Option Nat) (conn : Nat)
  | server_free (g : Option Nat) (conn : Nat)
  | list_free (g : Option Nat)
  deriving DecidableEq, Repr

/-- The binding as a run of `conn_loop` has it: the points passed so far,
oldest first, and the value of `g_memory_arena`. -/
structure arena_run where
  uses : List arena_use
  g : Option Nat
  deriving DecidableEq, Repr

/-- A point is passed: it is recorded with the binding as it is. -/
def arena_run.pass (r : arena_run) (u : Option Nat → arena_use) : arena_run :=
  { r with uses := r.uses ++ [u r.g] }

/-- The lines around a handler call: `g_memory_arena = &conn->arena`, the call
under `setjmp`, in which the handler ends as `o`, and `g_memory_arena = NULL`,
which is reached when the handler returns and when it jumps back with
`abort_req`. -/
def handler_bound (c : live_conn) (o : outcome Unit) (r : arena_run) : arena_run :=
  let r1 : arena_run := { uses := r.uses ++ [.handler (some c.addr) c.addr], g := some c.addr }
  match o with
  | .ret _ _ => { r1 with g := none }
  | .aborted _ => { r1 with g := none }
  | _ => r1

/-- The code under the label `complete` of `conn_loop`, with its assertion on
the binding. -/
def conn_complete_arena (c : live_conn) (m : machine) (r : arena_run) : conn_step × arena_run :=
  let r1 := r.pass .assert_null
  if r.g ≠ none then (.stopped (.assert_failed m), r1)
  else (conn_complete c m, (r1.pass (.arena_clear · c.addr)).pass (.server_free · c.addr))

/-- What follows the `setjmp` block of `case CONN_ERR_RECOVERABLE`, with the
binding; `o` is how `error_response` ended in it. -/
def conn_recover_end_arena (c : live_conn) (o : outcome Unit) (r : arena_run) :
    conn_step × arena_run :=
  match o with
  | .ret _ m2 => conn_complete_arena c m2 r
  | .aborted m2 => conn_complete_arena c m2 r
  | o2 => (.stopped o2, r)

/-- The second `switch` of the loop body, with the binding. -/
def after_state_arena (fuel : Nat) (c : live_conn) (m1 : machine) (r : arena_run) :
    conn_step × arena_run :=
  match m1.conn.state with
  | CONN_WAITING => (.stopped (.assert_failed m1), r)
  | CONN_SENDING =>
    let r1 := r.pass .assert_null
    if r.g ≠ none then (.stopped (.assert_failed m1), r1)
    else (.kept { c with m := m1 }, r1.pass .lappend)
  | CONN_COMPLETE => conn_complete_arena c m1 r
  | CONN_ERR_RECOVERABLE =>
    conn_recover_end_arena c (error_response c.hst fuel HTTP_INTERNAL_SERVER_ERROR m1)
      (handler_bound c (error_response c.hst fuel HTTP_INTERNAL_SERVER_ERROR m1) r)
  | CONN_ERR_UNRECOVERABLE => conn_complete_arena c m1 r

/-- What the loop body does after the handler, with the binding; `o` is how
the handler ended and `r` the binding as the lines around the call leave it. -/
def after_handler_arena (fuel : Nat) (c : live_conn) (o : outcome Unit) (r : arena_run) :
    conn_step × arena_run :=
  match o with
  | .ret _ m1 => after_state_arena fuel c m1 r
  | .aborted m1 => after_state_arena fuel c m1 r
  | o1 => (.stopped o1, r)

/-- The body of the loop of `conn_loop` over `active_conns`, for one
connection, with the binding. -/
def conn_loop_conn_arena (settings : server_settings) (fuel : Nat)
    (read_set write_set : Int → Bool) (c : live_conn) (r : arena_run) : conn_step × arena_run :=
  match c.m.conn.state with
  | CONN_WAITING =>
    if ¬ read_set c.sock_fd then (.kept c, r.pass .lappend)
    else
      after_handler_arena fuel c (process_request c.hst fuel settings c.m)
        (handler_bound c (process_request c.hst fuel settings c.m) r)
  | CONN_SENDING =>
    if ¬ write_set c.sock_fd then (.kept c, r.pass .lappend)
    else
      after_handler_arena fuel c (process_request_write c.hst fuel c.m)
        (handler_bound c (process_request_write c.hst fuel c.m) r)
  | _ => (.stopped (.assert_failed c.m), r)

/-- The loop of `conn_loop` over `active_conns`, with the binding. -/
def conn_loop_conns_arena (settings : server_settings) (fuel : Nat)
    (read_set write_set : Int → Bool) :
    List live_conn → List live_conn → List release_call → arena_run → loop_result × arena_run
  | [], new_conns, calls, r => (.returned new_conns calls, r.pass .list_free)
  | c :: rest, new_conns, calls, r =>
    match conn_loop_conn_arena settings fuel read_set write_set c r with
    | (.kept c1, r1) =>
      conn_loop_conns_arena settings fuel read_set write_set rest (new_conns ++ [c1]) calls r1
    | (.released _ made, r1) =>
      conn_loop_conns_arena settings fuel read_set write_set rest new_conns (calls ++ made) r1
    | (.stopped o, r1) => (.stopped o, r1)

/-- The `conn_loop` of `server.c` with the binding `g_memory_arena`, which is
`r.g` when the function is entered. -/
def conn_loop_arena (settings : server_settings) (fuel : Nat) (listen_fd : Int)
    (sel : select_answer) (acc : accept_answer) (conns : List live_conn) (r : arena_run) :
    loop_result × arena_run :=
  match conn_loop_check conns with
  | some c => (.stopped (.assert_failed c.m), r)
  | none =>
    match sel with
    | .interrupted => (.returned conns [], r)
    | .failed => (.exited, r)
    | .ready read_set write_set =>
      if read_set listen_fd then
        match acc with
        | .would_block => conn_loop_conns_arena settings fuel read_set write_set conns [] [] r
        | .failed => (.exited, r)
        | .accepted _ none _ => (.exited, r.pass .server_alloc)
        | .accepted fd (some addr) hst =>
          conn_loop_conns_arena settings fuel read_set write_set conns
            [{ addr := addr, sock_fd := fd, hst := hst, m := fresh_machine }] []
            ((r.pass .server_alloc).pass .lappend)
      else conn_loop_conns_arena settings fuel read_set write_set conns [] [] r

/-- The binding is as the specification has it at a point of the loop: the
arena of the connection during a handler call for it, and null at every other
point. -/
def arena_use.in_order : arena_use → Prop
  | .handler g conn => g = some conn
  | .server_alloc g => g = none
  | .lappend g => g = none
  | .assert_null g => g = none
  | .arena_clear g _ => g = none
  | .server_free g _ => g = none
  | .list_free g => g = none

/-- The binding is null and has been in order at every point passed. -/
def arena_run.in_order (r : arena_run) : Prop :=
  r.g = none ∧ ∀ u ∈ r.uses, u.in_order

/-- Whether the process goes on after a step of the loop: the connection has
been kept or released. -/
def conn_step.goes_on : conn_step → Bool
  | .stopped _ => false
  | _ => true

/-- Whether a call of `conn_loop` has returned. -/
def loop_result.has_returned : loop_result → Bool
  | .returned _ _ => true
  | _ => false

/-! ## `pg_list.c`: the lists

A list is a header (`struct List`) and a chain of cells (`struct ListCell`),
all obtained from `server_alloc`. Addresses are numbers, 0 being the null
pointer; the headers and the cells in memory are two maps from addresses.
Reading through the null pointer or a freed pointer is undefined in C; the
functions here check the pointers they are handed and read the maps otherwise.
The functions on pointer lists and on `int` lists are the same code on the two
members of the union `data`, which is a number here. -/

/-- The `struct ListCell`: `data` is the union of a pointer and an `int`, and
`next` the address of the next cell. -/
structure ListCell where
  data : Int
  next : Nat
  deriving DecidableEq, Repr

/-- The `struct List` of `pg_list.h`. -/
structure pg_list where
  length : Int
  head : Nat
  tail : Nat
  deriving DecidableEq, Repr

/-- The memory of the list functions: the cells and the headers by address,
and the addresses that `server_alloc` has handed out and that are not freed,
those of cells in `live` and those of headers in `live_list`. -/
structure list_heap where
  cells : Nat → ListCell
  lists : Nat → pg_list
  live : Nat → Bool
  live_list : Nat → Bool

/-- The addresses in use, of a cell or of a header. -/
def list_heap.in_use (h : list_heap) (a : Nat) : Bool :=
  h.live a || h.live_list a

/-- The host of the list functions: `alloc used` is the address `server_alloc`
gets when the addresses `used` are in use, `none` when there is no memory;
`arena_bound` says whether `g_memory_arena` is bound, in which case
`server_free` does nothing. -/
structure list_host where
  alloc : (Nat → Bool) → Option Nat
  arena_bound : Bool

/-- The ways a list function ends: it returns a value and leaves a memory; it
calls `exit`, `server_alloc` having found no memory; an `assert` fails; its
behaviour is undefined in C; or the fuel given to its loops ran out. -/
inductive list_outcome (α : Type)
  | ret (value : α) (h : list_heap)
  | exited
  | assert_failed
  | undefined
  | out_of_fuel

/-- Sequencing: continue with `f` after a run that returned. -/
def list_outcome.and_then {α β : Type} (o : list_outcome α)
    (f : α → list_heap → list_outcome β) : list_outcome β :=
  match o with
  | .ret v h => f v h
  | .exited => .exited
  | .assert_failed => .assert_failed
  | .undefined => .undefined
  | .out_of_fuel => .out_of_fuel

/-- The largest `int`. -/
def INT_MAX : Int := 2147483647

/-- The sum of two `int`s, which is undefined (`none`) when it is no `int`. -/
def int_add (a b : Int) : Option Int :=
  if a + b > INT_MAX ∨ a + b < -INT_MAX - 1 then none else some (a + b)

/-- The assignment `cell->next = n`. -/
def list_heap.set_next (h : list_heap) (cell n : Nat) : list_heap :=
  { h with cells := Function.update h.cells cell { h.cells cell with next := n } }

/-- The assignment `cell->data = d`. -/
def list_heap.set_data (h : list_heap) (cell : Nat) (d : Int) : list_heap :=
  { h with cells := Function.update h.cells cell { h.cells cell with data := d } }

/-- The assignment of the fields of the header at `l`. -/
def list_heap.set_list (h : list_heap) (l : Nat) (v : pg_list) : list_heap :=
  { h with lists := Function.update h.lists l v }

/-- The `server_alloc(sizeof(ListCell))`: the address of the cell, which is
cleared, and the memory with it; `none` when `server_alloc` calls `exit`. -/
def alloc_cell (host : list_host) (h : list_heap) : Option (Nat × list_heap) :=
  match host.alloc h.in_use with
  | none => none
  | some p =>
    if p = 0 then none
    else some (p, { h with live := Function.update h.live p true,
                           cells := Function.update h.cells p ⟨0, 0⟩ })

/-- The `server_alloc(sizeof(List))`. -/
def alloc_list (host : list_host) (h : list_heap) : Option (Nat × list_heap) :=
  match host.alloc h.in_use with
  | none => none
  | some p =>
    if p = 0 then none
    else some (p, { h with live_list := Function.update h.live_list p true,
                           lists := Function.update h.lists p ⟨0, 0, 0⟩ })

/-- The `server_free` of `memory.c` on the address of a cell. -/
def list_server_free (host : list_host) (h : list_heap) (p : Nat) : list_heap :=
  if host.arena_bound then h else { h with live := Function.update h.live p false }

/-- The `server_free` of `memory.c` on the address of a header. -/
def list_server_free_list (host : list_host) (h : list_heap) (p : Nat) : list_heap :=
  if host.arena_bound then h else { h with live_list := Function.update h.live_list p false }

/-- The `list_head` of `pg_list.h`. -/
def list_head (h : list_heap) (l : Nat) : Nat :=
  if l = 0 then 0 else (h.lists l).head

/-- The `list_tail` of `pg_list.h`. -/
def list_tail (h : list_heap) (l : Nat) : Nat :=
  if l = 0 then 0 else (h.lists l).tail

/-- The `list_length` of `pg_list.h`. -/
def list_length (h : list_heap) (l : Nat) : Int :=
  if l = 0 then 0 else (h.lists l).length

/-- The `check_list_invariants` of `pg_list.c`. -/
def check_list_invariants (list : Nat) (h : list_heap) : list_outcome Unit :=
  if list = 0 then .ret () h
  else if ¬ ((h.lists list).length > 0) then .assert_failed
  else if (h.lists list).head = 0 then .assert_failed
  else if (h.lists list).tail = 0 then .assert_failed
  else if (h.lists list).length = 1 ∧ (h.lists list).head ≠ (h.lists list).tail then
    .assert_failed
  else if (h.lists list).length = 2 ∧ (h.cells (h.lists list).head).next ≠ (h.lists list).tail then
    .assert_failed
  else if (h.cells (h.lists list).tail).next ≠ 0 then .assert_failed
  else .ret () h

/-- The `new_list` of `pg_list.c`. -/
def new_list (host : list_host) (h : list_heap) : list_outcome Nat :=
  match alloc_cell host h with
  | none => .exited
  | some (new_head, h1) =>
    let h2 := h1.set_next new_head 0
    match alloc_list host h2 with
    | none => .exited
    | some (new_list, h3) => .ret new_list (h3.set_list new_list ⟨1, new_head, new_head⟩)

/-- The `new_head_cell` of `pg_list.c`. -/
def new_head_cell (host : list_host) (list : Nat) (h : list_heap) : list_outcome Unit :=
  if list = 0 then .undefined
  else
    match alloc_cell host h with
    | none => .exited
    | some (new_head, h1) =>
      let h2 := h1.set_next new_head (h1.lists list).head
      match int_add (h2.lists list).length 1 with
      | none => .undefined
      | some len => .ret () (h2.set_list list { (h2.lists list) with head := new_head, length := len })

/-- The `new_tail_cell` of `pg_list.c`. -/
def new_tail_cell (host : list_host) (list : Nat) (h : list_heap) : list_outcome Unit :=
  if list = 0 then .undefined
  else
    match alloc_cell host h with
    | none => .exited
    | some (new_tail, h1) =>
      let h2 := h1.set_next new_tail 0
      if (h2.lists list).tail = 0 then .undefined
      else
        let h3 := h2.set_next (h2.lists list).tail new_tail
        match int_add (h3.lists list).length 1 with
        | none => .undefined
        | some len => .ret () (h3.set_list list { (h3.lists list) with tail := new_tail, length := len })

/-- The `lappend` of `pg_list.c`, and `lappend_int`. -/
def lappend (host : list_host) (list : Nat) (datum : Int) (h : list_heap) : list_outcome Nat :=
  (if list = 0 then new_list host h
   else (new_tail_cell host list h).and_then fun _ h1 => .ret list h1).and_then fun list1 h1 =>
    (check_list_invariants list1 (h1.set_data (h1.lists list1).tail datum)).and_then
      fun _ h2 => .ret list1 h2

/-- The `lcons` of `pg_list.c`, and `lcons_int`. -/
def lcons (host : list_host) (datum : Int) (list : Nat) (h : list_heap) : list_outcome Nat :=
  (if list = 0 then new_list host h
   else (new_head_cell host list h).and_then fun _ h1 => .ret list h1).and_then fun list1 h1 =>
    (check_list_invariants list1 (h1.set_data (h1.lists list1).head datum)).and_then
      fun _ h2 => .ret list1 h2

/-- The `add_new_cell` of `pg_list.c`. -/
def add_new_cell (host : list_host) (list prev_cell : Nat) (h : list_heap) : list_outcome Nat :=
  if list = 0 ∨ prev_cell = 0 then .undefined
  else
    match alloc_cell host h with
    | none => .exited
    | some (new_cell, h1) =>
      let h2 := h1.set_next new_cell (h1.cells prev_cell).next
      let h3 := h2.set_next prev_cell new_cell
      let h4 :=
        if (h3.lists list).tail = prev_cell then
          h3.set_list list { (h3.lists list) with tail := new_cell }
        else h3
      match int_add (h4.lists list).length 1 with
      | none => .undefined
      | some len => .ret new_cell (h4.set_list list { (h4.lists list) with length := len })

/-- The `lappend_cell` of `pg_list.c`, and `lappend_cell_int`. -/
def lappend_cell (host : list_host) (list prev : Nat) (datum : Int) (h : list_heap) :
    list_outcome Nat :=
  (add_new_cell host list prev h).and_then fun new_cell h1 =>
    (check_list_invariants list (h1.set_data new_cell datum)).and_then
      fun _ h2 => .ret new_cell h2

/-- The `list_concat` of `pg_list.c`. -/
def list_concat (list1 list2 : Nat) (h : list_heap) : list_outcome Nat :=
  if list1 = 0 then .ret list2 h
  else if list2 = 0 then .ret list1 h
  else if list1 = list2 then .exited
  else
    match int_add (h.lists list1).length (h.lists list2).length with
    | none => .undefined
    | some len =>
      let h1 := h.set_list list1 { (h.lists list1) with length := len }
      if (h1.lists list1).tail = 0 then .undefined
      else
        let h2 := h1.set_next (h1.lists list1).tail (h1.lists list2).head
        let h3 := h2.set_list list1 { (h2.lists list1) with tail := (h2.lists list2).tail }
        (check_list_invariants list1 h3).and_then fun _ h4 => .ret list1 h4

/-- The `foreach` loop of `list_truncate`, from the cell at `cell` on, which is
the `n`-th of the list; when the loop ends, `assert(false)` is reached. -/
def list_truncate_loop (list : Nat) (new_size : Int) :
    Nat → Int → Nat → list_heap → list_outcome Nat
  | 0, _, _, _ => .out_of_fuel
  | fuel + 1, n, cell, h =>
    if cell = 0 then .assert_failed
    else if n = new_size then
      let h1 := h.set_next cell 0
      let h2 := h1.set_list list { (h1.lists list) with tail := cell, length := new_size }
      (check_list_invariants list h2).and_then fun _ h3 => .ret list h3
    else list_truncate_loop list new_size fuel (n + 1) (h.cells cell).next h

/-- The `list_truncate` of `pg_list.c`. -/
def list_truncate (fuel : Nat) (list : Nat) (new_size : Int) (h : list_heap) :
    list_outcome Nat :=
  if new_size ≤ 0 then .ret 0 h
  else if new_size ≥ list_length h list then .ret list h
  else list_truncate_loop list new_size fuel 1 (list_head h list) h

/-- The `foreach` loop of `list_member_ptr`, from the cell at `cell` on. -/
def list_member_loop (datum : Int) : Nat → Nat → list_heap → list_outcome Bool
  | 0, _, _ => .out_of_fuel
  | fuel + 1, cell, h =>
    if cell = 0 then .ret false h
    else if (h.cells cell).data = datum then .ret true h
    else list_member_loop datum fuel (h.cells cell).next h

/-- The `list_member_ptr` of `pg_list.c`, and `list_member_int`. -/
def list_member_ptr (fuel : Nat) (list : Nat) (datum : Int) (h : list_heap) :
    list_outcome Bool :=
  (check_list_invariants list h).and_then fun _ h1 =>
    list_member_loop datum fuel (list_head h1 list) h1

/-- The loop of `list_free_private` with `deep` false, from the cell at `cell`
on. -/
def list_free_loop (host : list_host) : Nat → Nat → list_heap → list_outcome Unit
  | 0, _, _ => .out_of_fuel
  | fuel + 1, cell, h =>
    if cell = 0 then .ret () h
    else list_free_loop host fuel (h.cells cell).next (list_server_free host h cell)

/-- The `list_free` of `pg_list.c`. -/
def list_free (host : list_host) (fuel : Nat) (list : Nat) (h : list_heap) : list_outcome Unit :=
  (check_list_invariants list h).and_then fun _ h1 =>
    (list_free_loop host fuel (list_head h1 list) h1).and_then fun _ h2 =>
      if list ≠ 0 then .ret () (list_server_free_list host h2 list) else .ret () h2

/-- The `list_delete_cell` of `pg_list.c`; `prev` is 0 for the null pointer. -/
def list_delete_cell (host : list_host) (fuel : Nat) (list cell prev : Nat) (h : list_heap) :
    list_outcome Nat :=
  (check_list_invariants list h).and_then fun _ h1 =>
    if prev ≠ 0 ∧ (h1.cells prev).next ≠ cell then .assert_failed
    else if prev = 0 ∧ list_head h1 list ≠ cell then .assert_failed
    else if list = 0 then .undefined
    else if (h1.lists list).length = 1 then
      (list_free host fuel list h1).and_then fun _ h2 => .ret 0 h2
    else
      match int_add (h1.lists list).length (-1) with
      | none => .undefined
      | some len =>
        let h2 := h1.set_list list { (h1.lists list) with length := len }
        if cell = 0 then .undefined
        else
          let h3 :=
            if prev ≠ 0 then h2.set_next prev (h2.cells cell).next
            else h2.set_list list { (h2.lists list) with head := (h2.cells cell).next }
          let h4 :=
            if (h3.lists list).tail = cell then h3.set_list list { (h3.lists list) with tail := prev }
            else h3
          .ret list (list_server_free host h4 cell)

/-- The `foreach` loop of `list_delete_ptr`, from the cell at `cell` on, with
the cell before it at `prev`. -/
def list_delete_loop (host : list_host) (list : Nat) (datum : Int) (fuel0 : Nat) :
    Nat → Nat → Nat → list_heap → list_outcome Nat
  | 0, _, _, _ => .out_of_fuel
  | fuel + 1, cell, prev, h =>
    if cell = 0 then .ret list h
    else if (h.cells cell).data = datum then list_delete_cell host fuel0 list cell prev h
    else list_delete_loop host list datum fuel0 fuel (h.cells cell).next cell h

/-- The `list_delete_ptr` of `pg_list.c`, and `list_delete_int`. -/
def list_delete_ptr (host : list_host) (fuel : Nat) (list : Nat) (datum : Int) (h : list_heap) :
    list_outcome Nat :=
  (check_list_invariants list h).and_then fun _ h1 =>
    list_delete_loop host list datum fuel fuel (list_head h1 list) 0 h1

/-- The `list_delete_first` of `pg_list.c`. -/
def list_delete_first (host : list_host) (fuel : Nat) (list : Nat) (h : list_heap) :
    list_outcome Nat :=
  (check_list_invariants list h).and_then fun _ h1 =>
    if list = 0 then .ret 0 h1
    else list_delete_cell host fuel list (list_head h1 list) 0 h1

/-- The `while (oldlist_cur)` loop of `list_copy` and `list_copy_tail`: the
address of the last cell of the copy and the memory. -/
def list_copy_loop (host : list_host) : Nat → Nat → Nat → list_heap → list_outcome Nat
  | 0, _, _, _ => .out_of_fuel
  | fuel + 1, newlist_prev, oldlist_cur, h =>
    if oldlist_cur = 0 then .ret newlist_prev h
    else
      match alloc_cell host h with
      | none => .exited
      | some (newlist_cur, h1) =>
        let h2 := h1.set_data newlist_cur (h1.cells oldlist_cur).data
        if newlist_prev = 0 then .undefined
        else
          let h3 := h2.set_next newlist_prev newlist_cur
          list_copy_loop host fuel newlist_cur (h3.cells oldlist_cur).next h3

/-- The end of `list_copy` and `list_copy_tail`, from the copy of the first
cell on. -/
def list_copy_rest (host : list_host) (fuel : Nat) (newlist oldlist_cur : Nat) (h : list_heap) :
    list_outcome Nat :=
  if oldlist_cur = 0 then .undefined
  else
    let h1 := h.set_data (h.lists newlist).head (h.cells oldlist_cur).data
    (list_copy_loop host fuel (h1.lists newlist).head (h1.cells oldlist_cur).next h1).and_then
      fun newlist_prev h2 =>
        let h3 := h2.set_next newlist_prev 0
        let h4 := h3.set_list newlist { (h3.lists newlist) with tail := newlist_prev }
        (check_list_invariants newlist h4).and_then fun _ h5 => .ret newlist h5

/-- The `list_copy` of `pg_list.c`. -/
def list_copy (host : list_host) (fuel : Nat) (oldlist : Nat) (h : list_heap) :
    list_outcome Nat :=
  if oldlist = 0 then .ret 0 h
  else
    (new_list host h).and_then fun newlist h1 =>
      let h2 := h1.set_list newlist { (h1.lists newlist) with length := (h1.lists oldlist).length }
      list_copy_rest host fuel newlist (h2.lists oldlist).head h2

/-- The loop `while (nskip-- > 0)` of `list_copy_tail`. -/
def list_skip_loop : Nat → Int → Nat → list_heap → list_outcome Nat
  | 0, _, _, _ => .out_of_fuel
  | fuel + 1, nskip, oldlist_cur, h =>
    if nskip > 0 then
      if oldlist_cur = 0 then .undefined
      else list_skip_loop fuel (nskip - 1) (h.cells oldlist_cur).next h
    else .ret oldlist_cur h

/-- The `list_copy_tail` of `pg_list.c`. -/
def list_copy_tail (host : list_host) (fuel : Nat) (oldlist : Nat) (nskip : Int)
    (h : list_heap) : list_outcome Nat :=
  let nskip1 := if nskip < 0 then 0 else nskip
  if oldlist = 0 then .ret 0 h
  else if nskip1 ≥ (h.lists oldlist).length then .ret 0 h
  else
    (new_list host h).and_then fun newlist h1 =>
      let h2 := h1.set_list newlist
        { (h1.lists newlist) with length := (h1.lists oldlist).length - nskip1 }
      (list_skip_loop fuel nskip1 (h2.lists oldlist).head h2).and_then fun oldlist_cur h3 =>
        list_copy_rest host fuel newlist oldlist_cur h3

/-- The `foreach` loop of `list_union_ptr` and `list_concat_unique_ptr` over
the second list, from the cell at `cell` on: a datum that is no member of
`result` is appended to it. -/
def list_add_loop (host : list_host) (fuel0 : Nat) :
    Nat → Nat → Nat → list_heap → list_outcome Nat
  | 0, _, _, _ => .out_of_fuel
  | fuel + 1, result, cell, h =>
    if cell = 0 then .ret result h
    else
      (list_member_ptr fuel0 result (h.cells cell).data h).and_then fun found h1 =>
        (if ¬ found then lappend host result (h1.cells cell).data h1
         else .ret result h1).and_then fun result1 h2 =>
          list_add_loop host fuel0 fuel result1 (h2.cells cell).next h2

/-- The `list_union_ptr` of `pg_list.c`, and `list_union_int`. -/
def list_union_ptr (host : list_host) (fuel : Nat) (list1 list2 : Nat) (h : list_heap) :
    list_outcome Nat :=
  (list_copy host fuel list1 h).and_then fun result h1 =>
    (list_add_loop host fuel fuel result (list_head h1 list2) h1).and_then fun result1 h2 =>
      (check_list_invariants result1 h2).and_then fun _ h3 => .ret result1 h3

/-- The `list_concat_unique_ptr` of `pg_list.c`, and `list_concat_unique_int`. -/
def list_concat_unique_ptr (host : list_host) (fuel : Nat) (list1 list2 : Nat) (h : list_heap) :
    list_outcome Nat :=
  (list_add_loop host fuel fuel list1 (list_head h list2) h).and_then fun list1a h1 =>
    (check_list_invariants list1a h1).and_then fun _ h2 => .ret list1a h2

/-- The `foreach` loop of `list_difference_ptr` over the first list, from the
cell at `cell` on: a datum that is no member of `list2` is appended to
`result`. -/
def list_difference_loop (host : list_host) (fuel0 : Nat) (list2 : Nat) :
    Nat → Nat → Nat → list_heap → list_outcome Nat
  | 0, _, _, _ => .out_of_fuel
  | fuel + 1, result, cell, h =>
    if cell = 0 then .ret result h
    else
      (list_member_ptr fuel0 list2 (h.cells cell).data h).and_then fun found h1 =>
        (if ¬ found then lappend host result (h1.cells cell).data h1
         else .ret result h1).and_then fun result1 h2 =>
          list_difference_loop host fuel0 list2 fuel result1 (h2.cells cell).next h2

/-- The `list_difference_ptr` of `pg_list.c`, and `list_difference_int`. -/
def list_difference_ptr (host : list_host) (fuel : Nat) (list1 list2 : Nat) (h : list_heap) :
    list_outcome Nat :=
  if list2 = 0 then list_copy host fuel list1 h
  else
    (list_difference_loop host fuel list2 fuel 0 (list_head h list1) h).and_then
      fun result h1 =>
        (check_list_invariants result h1).and_then fun _ h2 => .ret result h2

/-- The `list_append_unique_ptr` of `pg_list.c`, and `list_append_unique_int`. -/
def list_append_unique_ptr (host : list_host) (fuel : Nat) (list : Nat) (datum : Int)
    (h : list_heap) : list_outcome Nat :=
  (list_member_ptr fuel list datum h).and_then fun found h1 =>
    if found then .ret list h1 else lappend host list datum h1

/-- The loop of `foreach`: the data of the cells visited from the cell at
`cell` on, in the order of the visits; `none` when the fuel runs out. -/
def foreach_data (h : list_heap) : Nat → Nat → Option (List Int)
  | 0, _ => none
  | fuel + 1, cell =>
    if cell = 0 then some []
    else (foreach_data h fuel (h.cells cell).next).map fun rest => (h.cells cell).data :: rest

/-- The cells from the address `p` on, following `next` to the null pointer,
are those at the addresses `cs`. -/
def chain (cells : Nat → ListCell) : Nat → List Nat → Prop
  | p, [] => p = 0
  | p, c :: cs => p = c ∧ c ≠ 0 ∧ chain cells (cells c).next cs

/-- The header at `l` is that of a valid list with the cells at `cs`: header
and cells are in use, there is at least one cell, the length field is the
number of cells reached from `head`, `tail` is the last of them, and its `next`
is null. -/
def is_list (h : list_heap) (l : Nat) (cs : List Nat) : Prop :=
  l ≠ 0 ∧ h.live_list l = true ∧ (∀ c ∈ cs, h.live c = true)
    ∧ chain h.cells (h.lists l).head cs
    ∧ (h.lists l).length = cs.length ∧ cs.getLast? = some (h.lists l).tail

/-- A valid list: `NIL`, or a header with its cells. -/
def list_valid (h : list_heap) (l : Nat) : Prop :=
  l = 0 ∨ ∃ cs, is_list h l cs

/-- The data of the cells at `cs`. -/
def cells_data (h : list_heap) (cs : List Nat) : List Int :=
  cs.map fun c => (h.cells c).data

/-- The element sequence of the list `l` is `xs`: `l` is `NIL` and `xs` is
empty, or `l` is a valid list whose cells hold `xs`. -/
def list_elems (h : list_heap) (l : Nat) (xs : List Int) : Prop :=
  (l = 0 ∧ xs = []) ∨ ∃ cs, is_list h l cs ∧ cells_data h cs = xs

/-- The contract of `server_alloc`: the address it hands out is not in use. -/
def alloc_fresh (host : list_host) : Prop :=
  ∀ used p, host.alloc used = some p → used p = false

/-- A host that hands out the lowest address from 1 on, below 64, that is not
in use, and has no memory when there is none. -/
def scenario_list_host : list_host :=
  { alloc := fun used => (List.range 64).find? fun p => p != 0 && !used p
    arena_bound := true }

/-- A memory with nothing in use. -/
def empty_heap : list_heap :=
  { cells := fun _ => ⟨0, 0⟩, lists := fun _ => ⟨0, 0, 0⟩, live := fun _ => false,
    live_list := fun _ => false }

/-- All that is in use in the memory `h` is kept in `h1`, but for the `next`
of the cell at `t` and the header at `l`: the addresses in use stay in use, the
cells in use other than `t` and the headers in use other than `l` are as they
were, and so are the data of all cells in use. -/
def heap_keeps (h h1 : list_heap) (t l : Nat) : Prop :=
  (∀ a, h.live a = true → h1.live a = true)
    ∧ (∀ a, h.live a = true → a ≠ t → h1.cells a = h.cells a)
    ∧ (∀ a, h.live a = true → (h1.cells a).data = (h.cells a).data)
    ∧ (∀ a, h.live_list a = true → a ≠ l → h1.lists a = h.lists a)
    ∧ (∀ a, h.live_list a = true → h1.live_list a = true)

/-- The cells of the list `l` are those at `cs`: `l` is `NIL` and there is
none, or `l` is a valid list with the cells at `cs`. -/
def list_cells (h : list_heap) (l : Nat) (cs : List Nat) : Prop :=
  (l = 0 ∧ cs = []) ∨ is_list h l cs

/-- A list built only by `lappend`: the data `xs` are appended to the list `l`
one after the other, each call on the list the call before returned. -/
def lappend_all (host : list_host) : List Int → Nat → list_heap → list_outcome Nat
  | [], l, h => .ret l h
  | x :: xs, l, h => (lappend host l x h).and_then fun l1 h1 => lappend_all host xs l1 h1

/-- A memory with one list in use: the header at 3, with the cells at 1 and 2,
which hold 10 and 20. -/
def scenario_heap : list_heap :=
  { cells := fun a => if a = 1 then ⟨10, 2⟩ else if a = 2 then ⟨20, 0⟩ else ⟨0, 0⟩
    lists := fun a => if a = 3 then ⟨2, 1, 2⟩ else ⟨0, 0, 0⟩
    live := fun a => decide (a = 1 ∨ a = 2)
    live_list := fun a => decide (a = 3) }


/-- The number of the data `ds` that are not among `xs`. -/
def missing (xs ds : List Int) : Nat :=
  (ds.filter fun d => decide (d ∉ xs)).length


/-- A call that gets memory from `server_alloc` ends the process for lack of
memory or returns a valid list. -/
def returns_valid (o : list_outcome Nat) : Prop :=
  o = .exited ∨ ∃ v hr, o = .ret v hr ∧ list_valid hr v

/-- A call returns a valid list. -/
def returns_list (o : list_outcome Nat) : Prop :=
  ∃ v hr, o = .ret v hr ∧ list_valid hr v


/-- A memory with two lists in use: the header at 3, with the cells at 1 and 2,
which hold 10 and 20, and the header at 6, with the cells at 4 and 5, which
hold 20 and 40. -/
def scenario_heap_two : list_heap :=
  { cells := fun a =>
      if a = 1 then ⟨10, 2⟩ else if a = 2 then ⟨20, 0⟩
      else if a = 4 then ⟨20, 5⟩ else if a = 5 then ⟨40, 0⟩ else ⟨0, 0⟩
    lists := fun a => if a = 3 then ⟨2, 1, 2⟩ else if a = 6 then ⟨2, 4, 5⟩ else ⟨0, 0, 0⟩
    live := fun a => decide (a = 1 ∨ a = 2 ∨ a = 4 ∨ a = 5)
    live_list := fun a => decide (a = 3 ∨ a = 6) }

/-- The data that `foreach` visits, with the fuel 16, in the list that a call
returned; `none` when the call did not return. -/
def returned_elems (o : list_outcome Nat) : Option (List Int) :=
  match o with
  | .ret v hr => foreach_data hr 16 (list_head hr v)
  | _ => none

/-! ## Facts about the C string functions -/

theorem NUL_ne_CR : NUL ≠ CR := by decide

theorem NUL_ne_SP : NUL ≠ SP := by decide

theorem SP_ne_CR : SP ≠ CR := by decide

theorem ptr_diff_size_add_left (a b : Nat) : ptr_diff_size (a + b) a = b := by
  simp [ptr_diff_size]

theorem ptr_diff_size_add_add (c a b : Nat) :
    ptr_diff_size (c + a) (c + b) = ptr_diff_size a b := by
  unfold ptr_diff_size
  by_cases h : b ≤ a
  · have h2 : c + b ≤ c + a := by omega
    simp only [h, h2, if_true]
    omega
  · have h2 : ¬ (c + b ≤ c + a) := by omega
    simp only [h, h2, if_false]
    congr 1
    omega

theorem strchr_append (p t : List Char) (c : Char) (hc : c ∉ p) (hn : NUL ∉ p) :
    strchr (p ++ c :: t) c = some p.length := by
  induction p with
  | nil => simp [strchr]
  | cons b rest ih =>
    simp only [List.mem_cons, not_or] at hc hn
    have hbc : b ≠ c := fun e => hc.1 e.symm
    have hbn : b ≠ NUL := fun e => hn.1 e.symm
    simp [strchr, hbc, hbn, ih hc.2 hn.2]

theorem strchr_none_of_not_mem (s : List Char) (c : Char) (hcn : c ≠ NUL) (hc : c ∉ s) :
    strchr s c = none := by
  induction s with
  | nil => simp [strchr, hcn]
  | cons b rest ih =>
    simp only [List.mem_cons, not_or] at hc
    have hbc : b ≠ c := fun e => hc.1 e.symm
    by_cases hbn : b = NUL
    · simp [strchr, hbc, hbn, hcn.symm]
    · simp [strchr, hbc, hbn, ih hc.2]

theorem strchr_nul_first (p t : List Char) (c : Char) (hcn : c ≠ NUL) (hc : c ∉ p) :
    strchr (p ++ NUL :: t) c = none := by
  induction p with
  | nil => simp [strchr, hcn.symm]
  | cons b rest ih =>
    simp only [List.mem_cons, not_or] at hc
    have hbc : b ≠ c := fun e => hc.1 e.symm
    by_cases hbn : b = NUL
    · simp [strchr, hbc, hbn, hcn.symm]
    · simp [strchr, hbc, hbn, ih hc.2]

theorem strchr_some_inv (s : List Char) (c : Char) (i : Nat) (hcn : c ≠ NUL)
    (h : strchr s c = some i) :
    ∃ p t, s = p ++ c :: t ∧ p.length = i ∧ c ∉ p ∧ NUL ∉ p := by
  induction s generalizing i with
  | nil => simp [strchr, hcn] at h
  | cons b rest ih =>
    by_cases hbc : b = c
    · subst hbc
      simp [strchr] at h
      exact ⟨[], rest, by simp, by simp [h], by simp, by simp⟩
    · by_cases hbn : b = NUL
      · simp [strchr, hbc, hbn] at h
        exact absurd h.1.symm hcn
      · simp only [strchr, hbc, hbn, if_false, Option.map_eq_some'] at h
        obtain ⟨j, hj, rfl⟩ := h
        obtain ⟨p, t, hs, hl, hc, hn⟩ := ih j hj
        refine ⟨b :: p, t, by simp [hs], by simp [hl], ?_, ?_⟩
        · simp only [List.mem_cons, not_or]
          exact ⟨fun e => hbc e.symm, hc⟩
        · simp only [List.mem_cons, not_or]
          exact ⟨fun e => hbn e.symm, hn⟩

theorem strpbrk_append (p t : List Char) (hc : SP ∉ p) (hn : NUL ∉ p) :
    strpbrk (p ++ SP :: t) [SP] = some p.length := by
  induction p with
  | nil => simp [strpbrk, NUL_ne_SP.symm]
  | cons b rest ih =>
    simp only [List.mem_cons, not_or] at hc hn
    have hbc : b ≠ SP := fun e => hc.1 e.symm
    have hbn : b ≠ NUL := fun e => hn.1 e.symm
    simp [strpbrk, hbc, hbn, ih hc.2 hn.2]

theorem strpbrk_none_of_not_mem (s : List Char) (hc : SP ∉ s) : strpbrk s [SP] = none := by
  induction s with
  | nil => simp [strpbrk]
  | cons b rest ih =>
    simp only [List.mem_cons, not_or] at hc
    have hbc : b ≠ SP := fun e => hc.1 e.symm
    by_cases hbn : b = NUL
    · simp [strpbrk, hbn]
    · simp [strpbrk, hbc, hbn, ih hc.2]

theorem strpbrk_some_inv (s : List Char) (i : Nat) (h : strpbrk s [SP] = some i) :
    ∃ p t, s = p ++ SP :: t ∧ p.length = i ∧ SP ∉ p ∧ NUL ∉ p := by
  induction s generalizing i with
  | nil => simp [strpbrk] at h
  | cons b rest ih =>
    by_cases hbn : b = NUL
    · simp [strpbrk, hbn] at h
    · by_cases hbc : b = SP
      · subst hbc
        simp [strpbrk, hbn] at h
        exact ⟨[], rest, by simp, by simp [h], by simp, by simp⟩
      · simp only [strpbrk, hbc, hbn, if_false, List.mem_singleton, Option.map_eq_some'] at h
        obtain ⟨j, hj, rfl⟩ := h
        obtain ⟨p, t, hs, hl, hc, hn⟩ := ih j hj
        refine ⟨b :: p, t, by simp [hs], by simp [hl], ?_, ?_⟩
        · simp only [List.mem_cons, not_or]
          exact ⟨fun e => hbc e.symm, hc⟩
        · simp only [List.mem_cons, not_or]
          exact ⟨fun e => hbn e.symm, hn⟩

theorem strspn_replicate (k : Nat) (t : List Char) (ht : t.head? ≠ some SP) :
    strspn (List.replicate k SP ++ t) [SP] = k := by
  induction k with
  | zero =>
    cases t with
    | nil => simp [strspn]
    | cons b rest =>
      have hb : b ≠ SP := by simpa using ht
      simp [strspn, hb]
  | succ n ih => simp [List.replicate_succ, strspn, NUL_ne_SP.symm, ih]

theorem strspn_inv (s : List Char) :
    ∃ t, s = List.replicate (strspn s [SP]) SP ++ t ∧ t.head? ≠ some SP := by
  induction s with
  | nil => exact ⟨[], by simp [strspn], by simp⟩
  | cons b rest ih =>
    by_cases hbc : b = SP
    · subst hbc
      obtain ⟨t, ht, hh⟩ := ih
      refine ⟨t, ?_, hh⟩
      simp only [strspn, NUL_ne_SP.symm, if_false, List.mem_singleton, if_true,
        List.replicate_succ, List.cons_append]
      rw [← ht]
    · refine ⟨b :: rest, ?_, by simpa using hbc⟩
      by_cases hbn : b = NUL
      · simp [strspn, hbn]
      · simp [strspn, hbn, hbc]

/-! ## Facts about the request parser -/

theorem http_method_str_clean (meth : http_method) :
    SP ∉ http_method_str meth ∧ CR ∉ http_method_str meth ∧ NUL ∉ http_method_str meth := by
  cases meth <;> decide

theorem parse_http_method_str (meth : http_method) (rest : List Char) :
    parse_http_method (http_method_str meth ++ rest) 0 (http_method_str meth).length
      = some meth := by
  cases meth <;> simp [parse_http_method, http_method_str, ptr_diff_size, memcmp_eq]

/-- The result of `parse_http_req` on a region that starts with a method
token, `k ≥ 1` spaces, a URI token `u`, a space and a rest `g` of the line, the
line having no NUL byte. -/
theorem parse_http_req_shape (limit : Nat) (meth : http_method) (k : Nat) (u g t : List Char)
    (hk : 0 < k) (hu : u ≠ []) (hus : SP ∉ u) (huc : CR ∉ u) (hun : NUL ∉ u)
    (hgc : CR ∉ g) (hgn : NUL ∉ g) :
    parse_http_req limit
        (http_method_str meth ++ (List.replicate k SP ++ (u ++ SP :: (g ++ CR :: t))))
      = if u.length > limit then (PARSE_HTTP_URI_TOO_LONG, none)
        else if ptr_diff_size (g.length + 1) k = 8
            && memcmp_eq ((SP :: (g ++ CR :: t)).drop k) "HTTP/1.1".toList 8 then
          (PARSE_HTTP_OK, some ⟨meth, u, HTTP_11⟩)
        else if ptr_diff_size (g.length + 1) k = 8
            && memcmp_eq ((SP :: (g ++ CR :: t)).drop k) "HTTP/1.0".toList 8 then
          (PARSE_HTTP_OK, some ⟨meth, u, HTTP_10⟩)
        else (PARSE_HTTP_INVALID_VERSION, none) := by
  obtain ⟨hms, hmc, hmn⟩ := http_method_str_clean meth
  set mt := http_method_str meth with hmt
  set s := mt ++ (List.replicate k SP ++ (u ++ SP :: (g ++ CR :: t))) with hs
  have h1 : strchr s CR = some (mt.length + (k + (u.length + (1 + g.length)))) := by
    have e : s = (mt ++ (List.replicate k SP ++ (u ++ SP :: g))) ++ CR :: t := by
      simp [hs]
    rw [e, strchr_append]
    · simp
      omega
    · simp [hmc, huc, hgc, SP_ne_CR, SP_ne_CR.symm]
    · simp [hmn, hun, hgn, NUL_ne_SP, NUL_ne_SP.symm]
  have h2 : strpbrk s [SP] = some mt.length := by
    obtain ⟨j, rfl⟩ : ∃ j, k = j + 1 := ⟨k - 1, by omega⟩
    have e : s = mt ++ SP :: (List.replicate j SP ++ (u ++ SP :: (g ++ CR :: t))) := by
      simp [hs, List.replicate_succ]
    rw [e, strpbrk_append _ _ hms hmn]
  have h3 : parse_http_method s 0 mt.length = some meth := parse_http_method_str meth _
  have h4 : s.drop mt.length = List.replicate k SP ++ (u ++ SP :: (g ++ CR :: t)) := by
    simp [hs]
  have hhead : (u ++ SP :: (g ++ CR :: t)).head? ≠ some SP := by
    cases u with
    | nil => exact absurd rfl hu
    | cons b rest =>
      simp only [List.mem_cons, not_or] at hus
      simpa using fun e => hus.1 e.symm
  have h5 : strspn (s.drop mt.length) [SP] = k := by
    rw [h4, strspn_replicate _ _ hhead]
  have h6 : s.drop (mt.length + k) = u ++ SP :: (g ++ CR :: t) := by
    rw [← List.drop_drop, h4]
    simp
  have h7 : strpbrk (s.drop (mt.length + k)) [SP] = some u.length := by
    rw [h6, strpbrk_append _ _ hus hun]
  have h8 : (s.drop (mt.length + k)).take u.length = u := by
    rw [h6]
    exact List.take_left u _
  have h9 : s.drop (mt.length + k + u.length + k) = (SP :: (g ++ CR :: t)).drop k := by
    rw [show mt.length + k + u.length + k = (mt.length + k) + (u.length + k) by omega,
      ← List.drop_drop, h6, List.drop_append]
  have h10 : ptr_diff_size (mt.length + (k + (u.length + (1 + g.length))))
      (mt.length + k + u.length + k) = ptr_diff_size (g.length + 1) k := by
    rw [show mt.length + (k + (u.length + (1 + g.length)))
        = (mt.length + k + u.length) + (g.length + 1) by omega,
      ptr_diff_size_add_add]
  have h11 : ptr_diff_size (mt.length + k + u.length) (mt.length + k) = u.length :=
    ptr_diff_size_add_left _ _
  have hk0 : k ≠ 0 := by omega
  have hle1 : ¬ (mt.length > mt.length + (k + (u.length + (1 + g.length)))) := by omega
  have hle2 : ¬ (mt.length + k + u.length > mt.length + (k + (u.length + (1 + g.length)))) := by
    omega
  unfold parse_http_req
  simp only [h1, h2, h3, h5, h7, h8, h9, h10, h11, hk0, hle1, hle2, if_false]

theorem takeWhile_ne_append (c : Char) (p t : List Char) (hc : c ∉ p) :
    (p ++ c :: t).takeWhile (fun b => b != c) = p := by
  induction p with
  | nil => simp
  | cons b rest ih =>
    simp only [List.mem_cons, not_or] at hc
    have hbc : b ≠ c := fun e => hc.1 e.symm
    simp [List.takeWhile_cons, hbc, ih hc.2]

theorem split_first (c : Char) (s : List Char) (h : c ∈ s) :
    ∃ p t, s = p ++ c :: t ∧ c ∉ p := by
  induction s with
  | nil => simp at h
  | cons b rest ih =>
    by_cases hbc : b = c
    · exact ⟨[], rest, by simp [hbc], by simp⟩
    · have hr : c ∈ rest := by
        rcases List.mem_cons.mp h with e | e
        · exact absurd e.symm hbc
        · exact e
      obtain ⟨p, t, hs, hp⟩ := ih hr
      refine ⟨b :: p, t, by simp [hs], ?_⟩
      simp only [List.mem_cons, not_or]
      exact ⟨fun e => hbc e.symm, hp⟩

theorem request_line_append (p t : List Char) (hc : CR ∉ p) :
    request_line (p ++ CR :: t) = p :=
  takeWhile_ne_append CR p t hc

theorem request_line_split (s : List Char) (h : CR ∈ s) :
    ∃ t, s = request_line s ++ CR :: t ∧ CR ∉ request_line s := by
  obtain ⟨p, t, hs, hp⟩ := split_first CR s h
  have e : request_line s = p := by rw [hs]; exact request_line_append p t hp
  exact ⟨t, by rw [e]; exact hs, by rw [e]; exact hp⟩

theorem request_line_no_cr (s : List Char) : CR ∉ request_line s := by
  intro h
  have := List.mem_takeWhile_imp h
  simp at this

theorem strchr_line (s : List Char) (hcr : CR ∈ s) (hn : NUL ∉ request_line s) :
    strchr s CR = some (request_line s).length := by
  obtain ⟨t, hs, hp⟩ := request_line_split s hcr
  conv_lhs => rw [hs]
  exact strchr_append _ _ _ hp hn

theorem strchr_nul_in_line (s : List Char) (hn : NUL ∈ request_line s) :
    strchr s CR = none := by
  by_cases hcr : CR ∈ s
  · obtain ⟨t, hs, hp⟩ := request_line_split s hcr
    obtain ⟨p, q, hl, _⟩ := split_first NUL _ hn
    have e : s = p ++ NUL :: (q ++ CR :: t) := by
      conv_lhs => rw [hs, hl]
      simp
    have hpc : CR ∉ p := by
      intro hm
      apply hp
      rw [hl]
      exact List.mem_append_left _ hm
    rw [e]
    exact strchr_nul_first _ _ _ NUL_ne_CR.symm hpc
  · exact strchr_none_of_not_mem s CR NUL_ne_CR.symm hcr

theorem strpbrk_ge_of_not_mem (a b : List Char) (j : Nat) (ha : SP ∉ a)
    (h : strpbrk (a ++ b) [SP] = some j) : a.length ≤ j := by
  induction a generalizing j with
  | nil => simp
  | cons c rest ih =>
    simp only [List.mem_cons, not_or] at ha
    have hc : c ≠ SP := fun e => ha.1 e.symm
    by_cases hcn : c = NUL
    · simp [strpbrk, hcn] at h
    · simp only [List.cons_append, strpbrk, hcn, hc, if_false, List.mem_singleton,
        Option.map_eq_some'] at h
      obtain ⟨i, hi, rfl⟩ := h
      have := ih i ha.2 hi
      simp
      omega

theorem parse_http_req_no_line_end (limit : Nat) (s : List Char) (h : strchr s CR = none) :
    parse_http_req limit s = (PARSE_HTTP_INVALID_SYNTAX, none) := by
  unfold parse_http_req
  simp only [h]

theorem http_version_str_clean (ver : http_version) :
    CR ∉ http_version_str ver ∧ NUL ∉ http_version_str ver
      ∧ (http_version_str ver).length = 8 := by
  cases ver <;> decide

/-! ## The claims on the request parser -/

/-- C3: for a method GET or HEAD, a non-empty URI `u` free of space, CR and NUL
bytes and no longer than `uri_length_limit`, a version HTTP/1.0 or HTTP/1.1 and
any trailing bytes `t`, `parse_http_req` on
method, space, `u`, space, version, CR, `t` returns `PARSE_HTTP_OK` with that
method, the URI `u` byte for byte, and that version. -/
theorem parse_http_req_accepts (limit : Nat) (meth : http_method) (ver : http_version)
    (u t : List Char) (hu : u ≠ []) (hus : SP ∉ u) (huc : CR ∉ u) (hun : NUL ∉ u)
    (hlen : u.length ≤ limit) :
    parse_http_req limit
        (http_method_str meth ++ [SP] ++ u ++ [SP] ++ http_version_str ver ++ [CR] ++ t)
      = (PARSE_HTTP_OK, some ⟨meth, u, ver⟩) := by
  obtain ⟨hvc, hvn, hvl⟩ := http_version_str_clean ver
  have e : http_method_str meth ++ [SP] ++ u ++ [SP] ++ http_version_str ver ++ [CR] ++ t
      = http_method_str meth
          ++ (List.replicate 1 SP ++ (u ++ SP :: (http_version_str ver ++ CR :: t))) := by
    simp
  rw [e, parse_http_req_shape limit meth 1 u _ t (by omega) hu hus huc hun hvc hvn]
  have hl : ¬ u.length > limit := by omega
  cases ver <;> simp [hl, http_version_str, ptr_diff_size, memcmp_eq]

/-- The request `GET / HTTP/1.1` followed by an empty line is parsed as GET,
`/`, HTTP/1.1. -/
theorem parse_http_req_accepts_witness :
    parse_http_req 100 "GET / HTTP/1.1\r\n\r\n".toList
      = (PARSE_HTTP_OK, some ⟨HTTP_GET, "/".toList, HTTP_11⟩) :=
  parse_http_req_accepts 100 HTTP_GET HTTP_11 "/".toList "\n\r\n".toList
    (by decide) (by decide) (by decide) (by decide) (by decide)

theorem parse_http_method_inv (str : List Char) (n : Nat) (meth : http_method)
    (h : parse_http_method str 0 n = some meth) :
    n = (http_method_str meth).length ∧ str.take n = http_method_str meth := by
  unfold parse_http_method at h
  simp only [ptr_diff_size, Nat.zero_le, if_true, Nat.sub_zero, List.drop_zero, memcmp_eq,
    Bool.and_eq_true, decide_eq_true_eq, beq_iff_eq] at h
  split_ifs at h with h3 h4
  · obtain ⟨rfl, e⟩ := h3
    cases h
    exact ⟨rfl, by simpa using e⟩
  · obtain ⟨rfl, e⟩ := h4
    cases h
    exact ⟨rfl, by simpa using e⟩

/-- What `parse_http_req` has computed when it returns `PARSE_HTTP_OK`. -/
theorem parse_http_req_ok_inv (limit : Nat) (str : List Char)
    (h : (parse_http_req limit str).1 = PARSE_HTTP_OK) :
    ∃ line_end method_end meth uri_off ver,
      strchr str CR = some line_end ∧ strpbrk str [SP] = some method_end
      ∧ parse_http_method str 0 method_end = some meth
      ∧ strspn (str.drop method_end) [SP] ≠ 0
      ∧ strpbrk (str.drop (method_end + strspn (str.drop method_end) [SP])) [SP] = some uri_off
      ∧ method_end + strspn (str.drop method_end) [SP] + uri_off ≤ line_end
      ∧ ptr_diff_size line_end
          (method_end + strspn (str.drop method_end) [SP] + uri_off
            + strspn (str.drop method_end) [SP]) = 8
      ∧ memcmp_eq (str.drop (method_end + strspn (str.drop method_end) [SP] + uri_off
            + strspn (str.drop method_end) [SP])) (http_version_str ver) 8 = true
      ∧ (parse_http_req limit str).2
          = some ⟨meth, (str.drop (method_end + strspn (str.drop method_end) [SP])).take uri_off,
              ver⟩ := by
  unfold parse_http_req at h ⊢
  cases h1 : strchr str CR with
  | none => simp [h1] at h
  | some line_end =>
    cases h2 : strpbrk str [SP] with
    | none => simp [h1, h2] at h
    | some method_end =>
      by_cases h3 : method_end > line_end
      · simp [h1, h2, h3] at h
      · cases h4 : parse_http_method str 0 method_end with
        | none => simp [h1, h2, h3, h4] at h
        | some meth =>
          by_cases h5 : strspn (str.drop method_end) [SP] = 0
          · simp [h1, h2, h3, h4, h5] at h
          · cases h6 : strpbrk (str.drop (method_end + strspn (str.drop method_end) [SP])) [SP] with
            | none => simp [h1, h2, h3, h4, h5, h6] at h
            | some uri_off =>
              by_cases h7 : method_end + strspn (str.drop method_end) [SP] + uri_off > line_end
              · simp [h1, h2, h3, h4, h5, h6, h7] at h
              · simp only [h1, h2, h3, h4, h5, h6, h7, if_false, ptr_diff_size_add_left] at h ⊢
                by_cases h8 : uri_off > limit
                · simp [h8] at h
                · simp only [h8, if_false] at h ⊢
                  split_ifs at h ⊢ with h9 h10
                  · simp only [Bool.and_eq_true, decide_eq_true_eq] at h9
                    exact ⟨line_end, method_end, meth, uri_off, HTTP_11, rfl, rfl, h4, h5, h6,
                      by omega, h9.1, h9.2, rfl⟩
                  · simp only [Bool.and_eq_true, decide_eq_true_eq] at h10
                    exact ⟨line_end, method_end, meth, uri_off, HTTP_10, rfl, rfl, h4, h5, h6,
                      by omega, h10.1, h10.2, rfl⟩

/-- C4, as amended: when `parse_http_req` returns `PARSE_HTTP_OK` on a region
(shorter than `2 ^ 63` bytes, as every C object is), the request line starts
with the method token GET or HEAD, followed by one or more spaces, followed by
the URI returned, which is non-empty and space-free, followed by a space; and
the line ends with the token of the version returned, `HTTP/1.0` or
`HTTP/1.1`. -/
theorem parse_http_req_ok_line (limit : Nat) (str : List Char) (hlen : str.length < 2 ^ 63)
    (h : (parse_http_req limit str).1 = PARSE_HTTP_OK) :
    ∃ req k g, (parse_http_req limit str).2 = some req ∧ 0 < k ∧ req.uri ≠ [] ∧ SP ∉ req.uri
      ∧ request_line str = http_method_str req.method ++ List.replicate k SP ++ req.uri
          ++ SP :: g ++ http_version_str req.version := by
  obtain ⟨le, me, meth, uo, ver, h1, h2, h4, h5, h6, h7, h9, h10, hr⟩ :=
    parse_http_req_ok_inv limit str h
  obtain ⟨L, t, hsL, hLlen, hLc, hLn⟩ := strchr_some_inv str CR le NUL_ne_CR.symm h1
  obtain ⟨p, t1, hsp, hplen, hps, hpn⟩ := strpbrk_some_inv str me h2
  obtain ⟨hmlen, hmtake⟩ := parse_http_method_inv str me meth h4
  have hp : p = http_method_str meth := by
    rw [← hmtake, hsp, ← hplen]
    simp
  obtain ⟨t2, ht2, hhead⟩ := strspn_inv (str.drop me)
  generalize hk : strspn (str.drop me) [SP] = k at h5 h6 h7 h9 h10 hr ht2
  have hd2 : str.drop (me + k) = t2 := by
    rw [← List.drop_drop, ht2]
    simp
  rw [hd2] at h6 hr
  obtain ⟨u, t3, ht3, hulen, hus, hun⟩ := strpbrk_some_inv t2 uo h6
  have hune : u ≠ [] := by
    rintro rfl
    rw [ht3] at hhead
    simp at hhead
  have hstr : str = p ++ (List.replicate k SP ++ (u ++ SP :: t3)) := by
    have e := List.take_append_drop me str
    rw [ht2, ht3, hmtake, ← hp] at e
    exact e.symm
  have hstrlen : str.length = le + 1 + t.length := by
    rw [hsL]
    simp [hLlen]
    omega
  have hle : le = me + k + uo + k + 8 := by
    unfold ptr_diff_size at h9
    have hS : SIZE_MOD = 18446744073709551616 := by norm_num [SIZE_MOD]
    have hB : (2 : Nat) ^ 63 = 9223372036854775808 := by norm_num
    split_ifs at h9 with hc
    · omega
    · omega
  have hline : request_line str = L := by
    rw [hsL]
    exact request_line_append L t hLc
  have hLtake : L = str.take le := by
    rw [hsL, ← hLlen]
    simp
  have hprot : str.drop (me + k + uo + k) = t3.drop (k - 1) := by
    conv_lhs => rw [hstr]
    rw [show me + k + uo + k = p.length + ((List.replicate k SP).length + (u.length + (1 + (k - 1))))
      by simp; omega]
    rw [List.drop_append, List.drop_append, List.drop_append, Nat.add_comm 1 (k - 1),
      List.drop_succ_cons]
  obtain ⟨hvc, hvn, hvl⟩ := http_version_str_clean ver
  have hv : (t3.drop (k - 1)).take 8 = http_version_str ver := by
    rw [hprot] at h10
    simp only [memcmp_eq, beq_iff_eq] at h10
    rw [h10]
    exact List.take_of_length_le (by omega)
  refine ⟨⟨meth, u, ver⟩, k, t3.take (k - 1), ?_, by omega, hune, hus, ?_⟩
  · rw [hr, ht3, ← hulen]
    simp
  · rw [hline, hLtake]
    conv_lhs => rw [hstr]
    rw [show le = p.length + ((List.replicate k SP).length + (u.length + (1 + ((k - 1) + 8))))
      by simp; omega]
    rw [List.take_append, List.take_append, List.take_append]
    simp only [List.take_succ_cons, show 1 + (k - 1 + 8) = (k - 1 + 8) + 1 by omega,
      List.take_add, hv, hp]
    simp

/-- A request with two spaces after the method and after the URI satisfies the
amended C4: its line is GET, two spaces, `/`, a space, a further byte,
`HTTP/1.1`. -/
theorem parse_http_req_ok_line_witness :
    ∃ req k g, (parse_http_req 100 "GET  /  HTTP/1.1\r\n".toList).2 = some req ∧ 0 < k
      ∧ req.uri ≠ [] ∧ SP ∉ req.uri
      ∧ request_line "GET  /  HTTP/1.1\r\n".toList
          = http_method_str req.method ++ List.replicate k SP ++ req.uri
            ++ SP :: g ++ http_version_str req.version :=
  parse_http_req_ok_line 100 "GET  /  HTTP/1.1\r\n".toList (by decide) (by decide)

/-- C4 fails as stated: `GET  /  HTTP/1.1` with two spaces after the method and
two after the URI is accepted, and its request line is not a method, one
space, a non-empty space-free URI, one space and a version. -/
theorem parse_http_req_ok_extra_spaces :
    (parse_http_req 100 "GET  /  HTTP/1.1\r\n".toList).1 = PARSE_HTTP_OK
      ∧ ¬ ∃ m u v : List Char, (m = "GET".toList ∨ m = "HEAD".toList) ∧ u ≠ [] ∧ SP ∉ u
          ∧ (v = "HTTP/1.0".toList ∨ v = "HTTP/1.1".toList)
          ∧ request_line "GET  /  HTTP/1.1\r\n".toList = m ++ [SP] ++ u ++ [SP] ++ v := by
  refine ⟨by decide, ?_⟩
  rintro ⟨m, u, v, hm, hu, hus, -, heq⟩
  have hl : request_line "GET  /  HTTP/1.1\r\n".toList = "GET".toList ++ [SP] ++ SP :: "/  HTTP/1.1".toList := by
    decide
  rw [hl] at heq
  rcases hm with rfl | rfl
  · cases u with
    | nil => exact hu rfl
    | cons b rest =>
      simp only [List.append_assoc, List.cons_append, List.append_cancel_left_eq,
        List.nil_append, List.cons.injEq, true_and] at heq
      exact hus (by rw [← heq.1]; exact List.mem_cons_self _ _)
  · simp [SP] at heq

/-- C5, as amended: for every region in which a space precedes the first CR and
no NUL byte does, if the bytes before the first space are not exactly `GET`
or `HEAD`, `parse_http_req` returns `PARSE_HTTP_INVALID_METHOD`, whatever
follows the space. -/
theorem parse_http_req_invalid_method (limit : Nat) (str : List Char) (hcr : CR ∈ str)
    (hsp : SP ∈ request_line str) (hnul : NUL ∉ request_line str)
    (hget : str.takeWhile (fun b => b != SP) ≠ "GET".toList)
    (hhead : str.takeWhile (fun b => b != SP) ≠ "HEAD".toList) :
    (parse_http_req limit str).1 = PARSE_HTTP_INVALID_METHOD := by
  obtain ⟨t, hs, hLc⟩ := request_line_split str hcr
  obtain ⟨p, q, hL, hps⟩ := split_first SP _ hsp
  have hpn : NUL ∉ p := by
    intro hm
    apply hnul
    rw [hL]
    exact List.mem_append_left _ hm
  have hstr : str = p ++ SP :: (q ++ CR :: t) := by
    conv_lhs => rw [hs, hL]
    simp
  have htok : str.takeWhile (fun b => b != SP) = p := by
    rw [hstr]
    exact takeWhile_ne_append SP p _ hps
  rw [htok] at hget hhead
  have h1 : strchr str CR = some (request_line str).length := strchr_line str hcr hnul
  have h2 : strpbrk str [SP] = some p.length := by
    rw [hstr]
    exact strpbrk_append p _ hps hpn
  have h3 : ¬ (p.length > (request_line str).length) := by
    rw [hL]
    simp
  have h4 : parse_http_method str 0 p.length = none := by
    cases hm : parse_http_method str 0 p.length with
    | none => rfl
    | some meth =>
      obtain ⟨-, htake⟩ := parse_http_method_inv str p.length meth hm
      have : p = http_method_str meth := by
        rw [← htake, hstr]
        simp
      cases meth
      · exact absurd this hget
      · exact absurd this hhead
  unfold parse_http_req
  simp only [h1, h2, h3, h4, if_false]

/-- The request `POST / HTTP/1.1` is rejected with `PARSE_HTTP_INVALID_METHOD`. -/
theorem parse_http_req_invalid_method_witness :
    (parse_http_req 100 "POST / HTTP/1.1\r\n\r\n".toList).1 = PARSE_HTTP_INVALID_METHOD :=
  parse_http_req_invalid_method 100 "POST / HTTP/1.1\r\n\r\n".toList
    (by decide) (by decide) (by decide) (by decide) (by decide)

/-- C5 fails as stated: in `PO\0ST / HTTP/1.1` a space precedes the first CR and
the bytes before the first space are neither `GET` nor `HEAD`, yet the result
is `PARSE_HTTP_INVALID_SYNTAX`, the NUL byte ending the string before any CR. -/
theorem parse_http_req_nul_in_method :
    CR ∈ "PO\x00ST / HTTP/1.1\r\n".toList
      ∧ SP ∈ request_line "PO\x00ST / HTTP/1.1\r\n".toList
      ∧ "PO\x00ST / HTTP/1.1\r\n".toList.takeWhile (fun b => b != SP) ≠ "GET".toList
      ∧ "PO\x00ST / HTTP/1.1\r\n".toList.takeWhile (fun b => b != SP) ≠ "HEAD".toList
      ∧ (parse_http_req 100 "PO\x00ST / HTTP/1.1\r\n".toList).1 = PARSE_HTTP_INVALID_SYNTAX
      ∧ (parse_http_req 100 "PO\x00ST / HTTP/1.1\r\n".toList).1 ≠ PARSE_HTTP_INVALID_METHOD := by
  decide

theorem request_line_append_left (a b : List Char) (ha : CR ∉ a) :
    request_line (a ++ b) = a ++ request_line b := by
  unfold request_line
  apply List.takeWhile_append_of_pos
  intro c hc
  have : c ≠ CR := fun e => ha (e ▸ hc)
  simpa using this

/-- C6, as amended: for every region that consists of GET or HEAD, a single
space and a URI token `u` terminated by a space that precedes the first CR: if
`u` is longer than `uri_length_limit` and no NUL byte precedes the first CR,
`parse_http_req` returns `PARSE_HTTP_URI_TOO_LONG`; if the length of `u` is
exactly `uri_length_limit`, the result is not `PARSE_HTTP_URI_TOO_LONG`. -/
theorem parse_http_req_uri_limit (limit : Nat) (meth : http_method) (u rest : List Char)
    (hu : u ≠ []) (hus : SP ∉ u) (huc : CR ∉ u) (hcr : CR ∈ rest) :
    (u.length > limit → NUL ∉ u → NUL ∉ request_line rest →
        (parse_http_req limit (http_method_str meth ++ [SP] ++ u ++ [SP] ++ rest)).1
          = PARSE_HTTP_URI_TOO_LONG)
    ∧ (u.length = limit →
        (parse_http_req limit (http_method_str meth ++ [SP] ++ u ++ [SP] ++ rest)).1
          ≠ PARSE_HTTP_URI_TOO_LONG) := by
  obtain ⟨t, hrest, hgc⟩ := request_line_split rest hcr
  have e : http_method_str meth ++ [SP] ++ u ++ [SP] ++ rest
      = http_method_str meth
          ++ (List.replicate 1 SP ++ (u ++ SP :: (request_line rest ++ CR :: t))) := by
    conv_lhs => rw [hrest]
    simp
  have hshape := fun hun hgn =>
    parse_http_req_shape limit meth 1 u (request_line rest) t (by omega) hu hus huc hun hgc hgn
  constructor
  · intro hlong hun hgn
    rw [e, hshape hun hgn]
    simp [hlong]
  · intro hlim
    by_cases hn : NUL ∈ u ∨ NUL ∈ request_line rest
    · have hline : NUL ∈ request_line (http_method_str meth ++ [SP] ++ u ++ [SP] ++ rest) := by
        obtain ⟨hms, hmc, hmn⟩ := http_method_str_clean meth
        rw [show http_method_str meth ++ [SP] ++ u ++ [SP] ++ rest
            = (http_method_str meth ++ [SP] ++ u ++ [SP]) ++ rest by simp,
          request_line_append_left _ _ (by simp [hmc, huc, SP_ne_CR, SP_ne_CR.symm])]
        rcases hn with hn | hn
        · simp [hn]
        · simp [hn]
      rw [parse_http_req_no_line_end _ _ (strchr_nul_in_line _ hline)]
      decide
    · simp only [not_or] at hn
      rw [e, hshape hn.1 hn.2]
      have : ¬ u.length > limit := by omega
      simp only [this, if_false]
      split_ifs <;> simp

/-- With a limit of 4, the URI `/abcd` of five bytes is too long, and the URI
`/abc` of four bytes is not. -/
theorem parse_http_req_uri_limit_witness :
    (parse_http_req 4 (http_method_str HTTP_GET ++ [SP] ++ "/abcd".toList ++ [SP]
        ++ "HTTP/1.1\r\n".toList)).1 = PARSE_HTTP_URI_TOO_LONG
    ∧ (parse_http_req 4 (http_method_str HTTP_GET ++ [SP] ++ "/abc".toList ++ [SP]
        ++ "HTTP/1.1\r\n".toList)).1 ≠ PARSE_HTTP_URI_TOO_LONG :=
  ⟨(parse_http_req_uri_limit 4 HTTP_GET "/abcd".toList "HTTP/1.1\r\n".toList
      (by decide) (by decide) (by decide) (by decide)).1 (by decide) (by decide) (by decide),
   (parse_http_req_uri_limit 4 HTTP_GET "/abc".toList "HTTP/1.1\r\n".toList
      (by decide) (by decide) (by decide) (by decide)).2 (by decide)⟩

/-- C6 fails as stated: with a limit of 4, `GET /abcd \0\r\n` has the URI token
`/abcd` of five bytes, terminated by a space that precedes the first CR, yet
the result is `PARSE_HTTP_INVALID_SYNTAX`, the NUL byte ending the string
before any CR. -/
theorem parse_http_req_nul_after_uri :
    "GET /abcd \x00\r\n".toList
        = http_method_str HTTP_GET ++ [SP] ++ "/abcd".toList ++ [SP] ++ "\x00\r\n".toList
      ∧ SP ∉ "/abcd".toList ∧ CR ∉ "/abcd".toList ∧ CR ∈ "\x00\r\n".toList
      ∧ "/abcd".toList.length > 4
      ∧ (parse_http_req 4 "GET /abcd \x00\r\n".toList).1 = PARSE_HTTP_INVALID_SYNTAX
      ∧ (parse_http_req 4 "GET /abcd \x00\r\n".toList).1 ≠ PARSE_HTTP_URI_TOO_LONG := by
  decide

/-- C7, as amended: for a method GET or HEAD, a non-empty URI `u` free of space,
CR and NUL bytes and within the length limit, and a version field `v` free of
CR and NUL bytes other than exactly `HTTP/1.0` or `HTTP/1.1`, `parse_http_req`
on method, space, `u`, space, `v`, CR and any trailing bytes returns
`PARSE_HTTP_INVALID_VERSION`. -/
theorem parse_http_req_invalid_version (limit : Nat) (meth : http_method) (u v t : List Char)
    (hu : u ≠ []) (hus : SP ∉ u) (huc : CR ∉ u) (hun : NUL ∉ u) (hlen : u.length ≤ limit)
    (hvc : CR ∉ v) (hvn : NUL ∉ v)
    (hv0 : v ≠ "HTTP/1.0".toList) (hv1 : v ≠ "HTTP/1.1".toList) :
    (parse_http_req limit (http_method_str meth ++ [SP] ++ u ++ [SP] ++ v ++ [CR] ++ t)).1
      = PARSE_HTTP_INVALID_VERSION := by
  have e : http_method_str meth ++ [SP] ++ u ++ [SP] ++ v ++ [CR] ++ t
      = http_method_str meth ++ (List.replicate 1 SP ++ (u ++ SP :: (v ++ CR :: t))) := by
    simp
  rw [e, parse_http_req_shape limit meth 1 u v t (by omega) hu hus huc hun hvc hvn]
  have hl : ¬ u.length > limit := by omega
  have hd : ptr_diff_size (v.length + 1) 1 = v.length := by simp [ptr_diff_size]
  have hm : ∀ lit : List Char, lit.length = 8 → v ≠ lit →
      (decide (v.length = 8) && memcmp_eq ((SP :: (v ++ CR :: t)).drop 1) lit 8) = false := by
    intro lit hlit hne
    by_cases h8 : v.length = 8
    · have : (v ++ CR :: t).take 8 = v := by
        rw [← h8]
        exact List.take_left v _
      simp [memcmp_eq, this, List.take_of_length_le (Nat.le_of_eq hlit), hne]
    · simp [h8]
  simp only [hl, if_false, hd, hm "HTTP/1.1".toList rfl hv1, hm "HTTP/1.0".toList rfl hv0,
    Bool.false_eq_true]

/-- The request `GET / HTTP/2.0` is rejected with `PARSE_HTTP_INVALID_VERSION`. -/
theorem parse_http_req_invalid_version_witness :
    (parse_http_req 100 (http_method_str HTTP_GET ++ [SP] ++ "/".toList ++ [SP]
        ++ "HTTP/2.0".toList ++ [CR] ++ "\n\r\n".toList)).1 = PARSE_HTTP_INVALID_VERSION :=
  parse_http_req_invalid_version 100 HTTP_GET "/".toList "HTTP/2.0".toList "\n\r\n".toList
    (by decide) (by decide) (by decide) (by decide) (by decide) (by decide) (by decide)
    (by decide) (by decide)

/-- C7 fails as stated: the version field `HTTP/2.0\0` is free of CR and is
neither `HTTP/1.0` nor `HTTP/1.1`, yet `GET / HTTP/2.0\0` followed by CR is
answered `PARSE_HTTP_INVALID_SYNTAX`, the NUL byte ending the string before any
CR. -/
theorem parse_http_req_nul_in_version :
    "GET / HTTP/2.0\x00\r\n".toList
        = http_method_str HTTP_GET ++ [SP] ++ "/".toList ++ [SP] ++ "HTTP/2.0\x00".toList
            ++ [CR] ++ "\n".toList
      ∧ CR ∉ "HTTP/2.0\x00".toList
      ∧ "HTTP/2.0\x00".toList ≠ "HTTP/1.0".toList ∧ "HTTP/2.0\x00".toList ≠ "HTTP/1.1".toList
      ∧ (parse_http_req 100 "GET / HTTP/2.0\x00\r\n".toList).1 = PARSE_HTTP_INVALID_SYNTAX
      ∧ (parse_http_req 100 "GET / HTTP/2.0\x00\r\n".toList).1 ≠ PARSE_HTTP_INVALID_VERSION := by
  decide

/-- The result of `parse_http_req` on a region whose line holds a method token
alone, or a method token, a space and a space-free rest. -/
theorem parse_http_req_short_line (limit : Nat) (meth : http_method) (w t : List Char)
    (hws : SP ∉ w) (hwc : CR ∉ w) :
    parse_http_req limit (http_method_str meth ++ CR :: t) = (PARSE_HTTP_INVALID_SYNTAX, none)
    ∧ parse_http_req limit (http_method_str meth ++ SP :: (w ++ CR :: t))
        = (PARSE_HTTP_INVALID_SYNTAX, none) := by
  obtain ⟨hms, hmc, hmn⟩ := http_method_str_clean meth
  constructor
  · have h1 : strchr (http_method_str meth ++ CR :: t) CR = some (http_method_str meth).length :=
      strchr_append _ _ _ hmc hmn
    unfold parse_http_req
    simp only [h1]
    cases h2 : strpbrk (http_method_str meth ++ CR :: t) [SP] with
    | none => rfl
    | some j =>
      have hj : (http_method_str meth ++ [CR]).length ≤ j := by
        apply strpbrk_ge_of_not_mem _ t j (by simp [hms, SP_ne_CR])
        simpa using h2
      have : j > (http_method_str meth).length := by
        simp at hj
        omega
      simp only [this, if_true]
  · by_cases hwn : NUL ∈ w
    · apply parse_http_req_no_line_end
      apply strchr_nul_in_line
      rw [show http_method_str meth ++ SP :: (w ++ CR :: t)
          = (http_method_str meth ++ [SP]) ++ (w ++ CR :: t) by simp,
        request_line_append_left _ _ (by simp [hmc, SP_ne_CR, SP_ne_CR.symm]),
        request_line_append w t hwc]
      simp [hwn]
    · set s := http_method_str meth ++ SP :: (w ++ CR :: t) with hs
      have h1 : strchr s CR = some ((http_method_str meth).length + 1 + w.length) := by
        have e : s = (http_method_str meth ++ SP :: w) ++ CR :: t := by simp [hs]
        rw [e, strchr_append]
        · simp
          omega
        · simp [hmc, hwc, SP_ne_CR, SP_ne_CR.symm]
        · simp [hmn, hwn, NUL_ne_SP, NUL_ne_SP.symm]
      have h2 : strpbrk s [SP] = some (http_method_str meth).length :=
        strpbrk_append _ _ hms hmn
      have h3 : parse_http_method s 0 (http_method_str meth).length = some meth :=
        parse_http_method_str meth _
      have h4 : s.drop (http_method_str meth).length = List.replicate 1 SP ++ (w ++ CR :: t) := by
        simp [hs]
      have hhead : (w ++ CR :: t).head? ≠ some SP := by
        cases w with
        | nil => simpa using SP_ne_CR.symm
        | cons b rest =>
          simp only [List.mem_cons, not_or] at hws
          simpa using fun e => hws.1 e.symm
      have h5 : strspn (s.drop (http_method_str meth).length) [SP] = 1 := by
        rw [h4, strspn_replicate _ _ hhead]
      have h6 : s.drop ((http_method_str meth).length + 1) = w ++ CR :: t := by
        simp [hs]
      unfold parse_http_req
      simp only [h1, h2, h3, h5, h6]
      have hle : ¬ ((http_method_str meth).length
          > (http_method_str meth).length + 1 + w.length) := by omega
      simp only [hle, if_false, one_ne_zero]
      cases h7 : strpbrk (w ++ CR :: t) [SP] with
      | none => rfl
      | some j =>
        have hj : (w ++ [CR]).length ≤ j := by
          apply strpbrk_ge_of_not_mem _ t j (by simp [hws, SP_ne_CR])
          simpa using h7
        have : (http_method_str meth).length + 1 + j
            > (http_method_str meth).length + 1 + w.length := by
          simp at hj
          omega
        simp only [this, if_true]

/-- C8: `parse_http_req` returns `PARSE_HTTP_INVALID_SYNTAX` for every region `s`
that contains no CR byte, and for every region whose request line is a method
token GET or HEAD alone, or such a token, a space and a rest `w` free of
spaces: a line whose URI or version field is missing. -/
theorem parse_http_req_missing_field (limit : Nat) (s : List Char) (meth : http_method)
    (w t : List Char) (hs : CR ∉ s) (hws : SP ∉ w) (hwc : CR ∉ w) :
    (parse_http_req limit s).1 = PARSE_HTTP_INVALID_SYNTAX
    ∧ (parse_http_req limit (http_method_str meth ++ [CR] ++ t)).1 = PARSE_HTTP_INVALID_SYNTAX
    ∧ (parse_http_req limit (http_method_str meth ++ [SP] ++ w ++ [CR] ++ t)).1
        = PARSE_HTTP_INVALID_SYNTAX := by
  obtain ⟨h1, h2⟩ := parse_http_req_short_line limit meth w t hws hwc
  refine ⟨?_, ?_, ?_⟩
  · rw [parse_http_req_no_line_end limit s (strchr_none_of_not_mem s CR NUL_ne_CR.symm hs)]
  · rw [show http_method_str meth ++ [CR] ++ t = http_method_str meth ++ CR :: t by simp, h1]
  · rw [show http_method_str meth ++ [SP] ++ w ++ [CR] ++ t
        = http_method_str meth ++ SP :: (w ++ CR :: t) by simp, h2]

/-- The regions `GET / HTTP/1.1` (no CR), `GET` CR LF and `GET /` CR LF are
answered `PARSE_HTTP_INVALID_SYNTAX`. -/
theorem parse_http_req_missing_field_witness :
    (parse_http_req 100 "GET / HTTP/1.1".toList).1 = PARSE_HTTP_INVALID_SYNTAX
    ∧ (parse_http_req 100 (http_method_str HTTP_GET ++ [CR] ++ "\n".toList)).1
        = PARSE_HTTP_INVALID_SYNTAX
    ∧ (parse_http_req 100 (http_method_str HTTP_GET ++ [SP] ++ "/".toList ++ [CR]
        ++ "\n".toList)).1 = PARSE_HTTP_INVALID_SYNTAX :=
  parse_http_req_missing_field 100 "GET / HTTP/1.1".toList HTTP_GET "/".toList "\n".toList
    (by decide) (by decide) (by decide)

/-- C9, as amended: for a method GET or HEAD followed by one or more spaces, a
non-empty URI `u` free of space, CR and NUL bytes, one or more spaces and a
rest `v` of the line free of CR and NUL bytes, the result of `parse_http_req`
is never `PARSE_HTTP_INVALID_SYNTAX`: it is `PARSE_HTTP_URI_TOO_LONG` when `u`
is longer than `uri_length_limit`, and `PARSE_HTTP_OK` or
`PARSE_HTTP_INVALID_VERSION` otherwise. -/
theorem parse_http_req_space_runs (limit : Nat) (meth : http_method) (k j : Nat)
    (u v t : List Char) (hk : 0 < k) (hj : 0 < j)
    (hu : u ≠ []) (hus : SP ∉ u) (huc : CR ∉ u) (hun : NUL ∉ u)
    (hvc : CR ∉ v) (hvn : NUL ∉ v) :
    (parse_http_req limit (http_method_str meth ++ List.replicate k SP ++ u
        ++ List.replicate j SP ++ v ++ [CR] ++ t)).1 ≠ PARSE_HTTP_INVALID_SYNTAX
    ∧ (u.length > limit →
        (parse_http_req limit (http_method_str meth ++ List.replicate k SP ++ u
          ++ List.replicate j SP ++ v ++ [CR] ++ t)).1 = PARSE_HTTP_URI_TOO_LONG)
    ∧ (u.length ≤ limit →
        (parse_http_req limit (http_method_str meth ++ List.replicate k SP ++ u
          ++ List.replicate j SP ++ v ++ [CR] ++ t)).1 = PARSE_HTTP_OK
        ∨ (parse_http_req limit (http_method_str meth ++ List.replicate k SP ++ u
          ++ List.replicate j SP ++ v ++ [CR] ++ t)).1 = PARSE_HTTP_INVALID_VERSION) := by
  obtain ⟨i, rfl⟩ : ∃ i, j = i + 1 := ⟨j - 1, by omega⟩
  have e : http_method_str meth ++ List.replicate k SP ++ u
        ++ List.replicate (i + 1) SP ++ v ++ [CR] ++ t
      = http_method_str meth
          ++ (List.replicate k SP ++ (u ++ SP :: ((List.replicate i SP ++ v) ++ CR :: t))) := by
    simp [List.replicate_succ]
  have hgc : CR ∉ List.replicate i SP ++ v := by
    simp only [List.mem_append, not_or]
    exact ⟨fun h => SP_ne_CR (List.eq_of_mem_replicate h).symm, hvc⟩
  have hgn : NUL ∉ List.replicate i SP ++ v := by
    simp only [List.mem_append, not_or]
    exact ⟨fun h => NUL_ne_SP (List.eq_of_mem_replicate h), hvn⟩
  rw [e, parse_http_req_shape limit meth k u _ t hk hu hus huc hun hgc hgn]
  refine ⟨?_, ?_, ?_⟩
  · split_ifs <;> simp
  · intro hlong
    simp [hlong]
  · intro hshort
    have : ¬ u.length > limit := by omega
    simp only [this, if_false]
    split_ifs <;> simp

/-- Two spaces after the method and two after the URI: the request is not
answered `PARSE_HTTP_INVALID_SYNTAX`. -/
theorem parse_http_req_space_runs_witness :
    (parse_http_req 100 (http_method_str HTTP_GET ++ List.replicate 2 SP ++ "/".toList
        ++ List.replicate 2 SP ++ "HTTP/1.1".toList ++ [CR] ++ "\n".toList)).1
      ≠ PARSE_HTTP_INVALID_SYNTAX :=
  (parse_http_req_space_runs 100 HTTP_GET 2 2 "/".toList "HTTP/1.1".toList "\n".toList
    (by decide) (by decide) (by decide) (by decide) (by decide) (by decide) (by decide)
    (by decide)).1

/-- C9 fails as stated: with two spaces between the method and the URI, or two
between the URI and the version, the result is `PARSE_HTTP_INVALID_VERSION`,
and with both it is `PARSE_HTTP_OK`; it is not `PARSE_HTTP_INVALID_SYNTAX`. -/
theorem parse_http_req_double_space :
    (parse_http_req 100 "GET  / HTTP/1.1\r\n".toList).1 = PARSE_HTTP_INVALID_VERSION
    ∧ (parse_http_req 100 "GET /  HTTP/1.1\r\n".toList).1 = PARSE_HTTP_INVALID_VERSION
    ∧ (parse_http_req 100 "GET  /  HTTP/1.1\r\n".toList).1 = PARSE_HTTP_OK
    ∧ (parse_http_req 100 "GET  / HTTP/1.1\r\n".toList).1 ≠ PARSE_HTTP_INVALID_SYNTAX
    ∧ (parse_http_req 100 "GET /  HTTP/1.1\r\n".toList).1 ≠ PARSE_HTTP_INVALID_SYNTAX := by
  decide

/-! ## Facts about the handler -/

theorem cstr_cons_of_ne (b : Char) (rest : List Char) (hb : b ≠ NUL) :
    cstr (b :: rest) = b :: cstr rest := by
  simp [cstr, List.takeWhile_cons, hb]

theorem cstr_of_head_nul (a : List Char) (h : a.headD NUL = NUL) : cstr a = [] := by
  cases a with
  | nil => rfl
  | cons b rest =>
    have hb : b = NUL := by simpa using h
    simp [cstr, List.takeWhile_cons, hb]

theorem cstr_of_head_ne (a : List Char) (h : a.headD NUL ≠ NUL) :
    cstr a = a.headD NUL :: cstr a.tail := by
  cases a with
  | nil => simp at h
  | cons b rest =>
    have hb : b ≠ NUL := by simpa using h
    simp [cstr_cons_of_ne b rest hb]

/-- `strncmp` answers 0 exactly when the two C strings agree on their first `n`
bytes. -/
theorem strncmp_eq_iff (a b : List Char) (n : Nat) :
    strncmp_eq a b n = true ↔ (cstr a).take n = (cstr b).take n := by
  induction n generalizing a b with
  | zero => simp [strncmp_eq]
  | succ n ih =>
    unfold strncmp_eq
    have iht := ih a.tail b.tail
    by_cases ha : a.headD NUL = NUL
    · by_cases hb : b.headD NUL = NUL
      · rw [cstr_of_head_nul a ha, cstr_of_head_nul b hb]
        generalize a.headD NUL = x at ha
        generalize b.headD NUL = y at hb
        simp [ha, hb]
      · rw [cstr_of_head_nul a ha, cstr_of_head_ne b hb]
        generalize a.headD NUL = x at ha
        generalize b.headD NUL = y at hb
        have : x ≠ y := fun e => hb (e ▸ ha)
        simp [this]
    · by_cases hb : b.headD NUL = NUL
      · rw [cstr_of_head_ne a ha, cstr_of_head_nul b hb]
        generalize a.headD NUL = x at ha
        generalize b.headD NUL = y at hb
        have : x ≠ y := fun e => ha (e ▸ hb)
        simp [this]
      · rw [cstr_of_head_ne a ha, cstr_of_head_ne b hb]
        generalize a.headD NUL = x at ha
        generalize b.headD NUL = y at hb
        by_cases hxy : x = y
        · subst hxy
          simp [ha, iht]
        · simp [hxy]

/-- The document-root check of `resolve_path` passes exactly when the document root
is a byte prefix of the canonical path. -/
theorem strncmp_eq_strlen (full_path static_dir : List Char) :
    strncmp_eq full_path static_dir (strlen static_dir) = true
      ↔ cstr static_dir <+: cstr full_path := by
  rw [strncmp_eq_iff, strlen, List.take_length, List.prefix_iff_eq_take]
  exact eq_comm

theorem take_strlen (s : List Char) : s.take (strlen s) = cstr s := by
  induction s with
  | nil => rfl
  | cons b rest ih =>
    by_cases hb : b = NUL
    · simp [strlen, cstr, List.takeWhile_cons, hb]
    · simp only [strlen, cstr_cons_of_ne b rest hb, List.length_cons, List.take_succ_cons]
      rw [← strlen, ih]

theorem and_then_ret_none_ne {α : Type} (o : outcome α) (p : List Char) (m' : machine) :
    o.and_then (fun _ m2 => (outcome.ret none m2 : outcome (Option (List Char))))
      ≠ outcome.ret (some p) m' := by
  cases o <;> simp [outcome.and_then]

/-- A response without a request (an error response) touches neither the file
system nor the file descriptor of the connection, however the run ends. -/
theorem send_response_no_req (h : host) (fuel : Nat) (resp : http_response) (m m' : machine)
    (hreq : resp.req = none) (hf : (send_response h fuel resp m).final = some m') :
    m'.fs_calls = m.fs_calls ∧ m'.conn.file_fd = m.conn.file_fd := by
  unfold send_response at hf
  cases hb : (send_response_buffer resp).bind header_bytes with
  | none => simp [hb, outcome.final] at hf
  | some bytes =>
    simp only [hb] at hf
    cases hw : h.sock_write m.sock_writes bytes with
    | error e =>
      simp only [hw, outcome.final, Option.some.injEq] at hf
      subst hf
      exact ⟨rfl, rfl⟩
    | ok n =>
      simp only [hw, hreq, Option.isNone_none, true_or, if_true, outcome.final,
        Option.some.injEq] at hf
      subst hf
      exact ⟨rfl, rfl⟩

/-! ## The claims on the handler -/

/-- C1, the code at the failing input: with the document root `/srv/www`, the
URI `/../wwwfoo/x` is canonicalized to `/srv/wwwfoo/x`, which is neither the
root nor a path that begins with the root followed by `/`; `resolve_path`
sends no 403 and returns this path. -/
theorem resolve_path_accepts_sibling :
    resolve_path (scenario_host []) 0 "/../wwwfoo/x".toList scenario_settings fresh_machine
      = .ret (some "/srv/wwwfoo/x".toList)
          { fresh_machine with
            fs_calls := [fs_call.realpath "/srv/www//../wwwfoo/x".toList] }
    ∧ "/srv/wwwfoo/x".toList ≠ scenario_settings.static_dir
    ∧ ¬ (scenario_settings.static_dir ++ "/".toList <+: "/srv/wwwfoo/x".toList) := by
  decide

/-- C2: when the canonical path `P` that `realpath` answers does not have the
document root as a byte prefix, `resolve_path` calls `error_response` with 403
Forbidden and returns the null pointer, never a path; and a path that
`resolve_path` returns is byte for byte the canonical path `P`. -/
theorem resolve_path_root_check (h : host) (fuel : Nat) (uri : List Char)
    (settings : server_settings) (m : machine) (P p : List Char) (m' : machine)
    (hreal : h.realpath (resolve_path_buf settings.static_dir uri) = .ok P) :
    (¬ (cstr settings.static_dir <+: cstr P) →
      resolve_path h fuel uri settings m
          = (error_response h fuel HTTP_FORBIDDEN
              { m with fs_calls := m.fs_calls
                  ++ [fs_call.realpath (resolve_path_buf settings.static_dir uri)] }).and_then
              (fun _ m2 => .ret none m2)
        ∧ resolve_path h fuel uri settings m ≠ .ret (some p) m')
    ∧ (resolve_path h fuel uri settings m = .ret (some p) m' → p = cstr P) := by
  constructor
  · intro hpre
    have hcmp : strncmp_eq P settings.static_dir (strlen settings.static_dir) = false := by
      rw [Bool.eq_false_iff, Ne, strncmp_eq_strlen]
      exact hpre
    have e : resolve_path h fuel uri settings m
        = (error_response h fuel HTTP_FORBIDDEN
            { m with fs_calls := m.fs_calls
                ++ [fs_call.realpath (resolve_path_buf settings.static_dir uri)] }).and_then
            (fun _ m2 => .ret none m2) := by
      unfold resolve_path
      simp [hreal, hcmp]
    exact ⟨e, by rw [e]; exact and_then_ret_none_ne _ p m'⟩
  · intro hret
    unfold resolve_path at hret
    simp only [hreal] at hret
    by_cases h1 : strncmp_eq P settings.static_dir (strlen settings.static_dir) = true
    · by_cases h2 : h.arena_alloc_ok = true
      · simp only [h1, h2, not_true_eq_false, if_false, outcome.ret.injEq,
          Option.some.injEq] at hret
        rw [← hret.1, take_strlen]
      · simp only [h1, h2, not_true_eq_false, not_false_eq_true, if_false, if_true] at hret
        exact absurd hret (and_then_ret_none_ne _ p m')
    · simp only [h1, not_false_eq_true, if_true] at hret
      exact absurd hret (and_then_ret_none_ne _ p m')

/-- In the scenario of the specification, the URI `/escape` is canonicalized to
`/etc/passwd`, outside the root `/srv/www`, and is answered 403; the URI `/` is
canonicalized to `/srv/www/index.html`, and this is the path returned. -/
theorem resolve_path_root_check_witness :
    (resolve_path (scenario_host []) 0 "/escape".toList scenario_settings fresh_machine
        = (error_response (scenario_host []) 0 HTTP_FORBIDDEN
            { fresh_machine with fs_calls := fresh_machine.fs_calls
                ++ [fs_call.realpath
                      (resolve_path_buf scenario_settings.static_dir "/escape".toList)] }).and_then
            (fun _ m2 => .ret none m2)
      ∧ resolve_path (scenario_host []) 0 "/escape".toList scenario_settings fresh_machine
        ≠ .ret (some "/etc/passwd".toList) fresh_machine)
    ∧ "/srv/www/index.html".toList = cstr "/srv/www/index.html".toList :=
  ⟨(resolve_path_root_check (scenario_host []) 0 "/escape".toList scenario_settings fresh_machine
      "/etc/passwd".toList "/etc/passwd".toList fresh_machine rfl).1 (by decide),
   (resolve_path_root_check (scenario_host []) 0 "/".toList scenario_settings fresh_machine
      "/srv/www/index.html".toList "/srv/www/index.html".toList
      { fresh_machine with fs_calls := [fs_call.realpath "/srv/www/index.html".toList] }
      rfl).2 (by decide)⟩

/-- C10: when the socket delivers a request that `parse_http_req` rejects,
`process_request` does what `error_response` does for a status that depends on
the parse result alone, and whose number is the one the specification lists:
InvalidSyntax 400, InvalidMethod 405, UriTooLong 514, InvalidVersion 505. However
the run ends, it has made no call on the file system (no path resolved, no
file opened) and has stored no file descriptor in the connection. -/
theorem process_request_rejected (h : host) (fuel : Nat) (settings : server_settings)
    (m : machine) (bytes : List Char)
    (hbuf : m.conn.read_buf = none) (hsize : m.conn.read_buf_size = 0)
    (hroom : settings.read_buf_size ≠ 0) (hread : h.sock_read = .ok bytes)
    (hdata : bytes.take (settings.read_buf_size - 1) ≠ [])
    (hrej : (parse_http_req settings.uri_length_limit
        (bytes.take (settings.read_buf_size - 1))).1 ≠ PARSE_HTTP_OK) :
    ∃ code : http_status_code,
      spec_reject_status (parse_http_req settings.uri_length_limit
          (bytes.take (settings.read_buf_size - 1))).1 = some (http_status_code_int code)
      ∧ process_request h fuel settings m
          = error_response h fuel code
              { m with conn := { m.conn with
                  read_buf := some (bytes.take (settings.read_buf_size - 1)),
                  read_buf_size := settings.read_buf_size } }
      ∧ ∀ m', (process_request h fuel settings m).final = some m' →
          m'.fs_calls = m.fs_calls ∧ m'.conn.file_fd = m.conn.file_fd := by
  have hlen : (bytes.take (settings.read_buf_size - 1)).length ≠ 0 := by
    intro e
    exact hdata (List.length_eq_zero.mp e)
  have hrun : ∀ code : http_status_code,
      (∀ m', (error_response h fuel code
          { m with conn := { m.conn with
              read_buf := some (bytes.take (settings.read_buf_size - 1)),
              read_buf_size := settings.read_buf_size } }).final = some m' →
        m'.fs_calls = m.fs_calls ∧ m'.conn.file_fd = m.conn.file_fd) := by
    intro code m' hf
    have := send_response_no_req h fuel _ _ m' rfl hf
    exact this
  have hstep : process_request h fuel settings m
      = process_request_parsed h fuel settings (some (bytes.take (settings.read_buf_size - 1)))
          { m with conn := { m.conn with
              read_buf := some (bytes.take (settings.read_buf_size - 1)),
              read_buf_size := settings.read_buf_size } } := by
    have hr : read_req_data h settings m
        = .ret (READ_REQ_DATA_OK, some (bytes.take (settings.read_buf_size - 1)))
            { m with conn := { m.conn with
                read_buf := some (bytes.take (settings.read_buf_size - 1)),
                read_buf_size := settings.read_buf_size } } := by
      unfold read_req_data
      simp only [hbuf, hsize, hroom, hread, hlen, ne_eq, not_true_eq_false, if_false]
    unfold process_request
    rw [hr]
    rfl
  rw [hstep]
  rcases hp : parse_http_req settings.uri_length_limit
      (bytes.take (settings.read_buf_size - 1)) with ⟨r, req⟩
  rw [hp] at hrej
  have hparsed : ∀ code : http_status_code,
      (∀ m1, process_request_parsed h fuel settings
          (some (bytes.take (settings.read_buf_size - 1))) m1 = error_response h fuel code m1) →
      spec_reject_status r = some (http_status_code_int code) →
      ∃ code : http_status_code,
        spec_reject_status (r, req).1 = some (http_status_code_int code)
        ∧ process_request_parsed h fuel settings (some (bytes.take (settings.read_buf_size - 1)))
              { m with conn := { m.conn with
                  read_buf := some (bytes.take (settings.read_buf_size - 1)),
                  read_buf_size := settings.read_buf_size } }
            = error_response h fuel code
              { m with conn := { m.conn with
                  read_buf := some (bytes.take (settings.read_buf_size - 1)),
                  read_buf_size := settings.read_buf_size } }
        ∧ ∀ m', (process_request_parsed h fuel settings
              (some (bytes.take (settings.read_buf_size - 1)))
              { m with conn := { m.conn with
                  read_buf := some (bytes.take (settings.read_buf_size - 1)),
                  read_buf_size := settings.read_buf_size } }).final = some m' →
            m'.fs_calls = m.fs_calls ∧ m'.conn.file_fd = m.conn.file_fd := by
    intro code hcode hspec
    refine ⟨code, hspec, hcode _, ?_⟩
    rw [hcode _]
    exact hrun code
  cases r with
  | PARSE_HTTP_OK => exact absurd rfl hrej
  | PARSE_HTTP_INVALID_SYNTAX =>
    exact hparsed HTTP_BAD_REQUEST
      (fun m1 => by unfold process_request_parsed; simp only [hp]) rfl
  | PARSE_HTTP_INVALID_VERSION =>
    exact hparsed HTTP_VERSION_NO_SUPPORTED
      (fun m1 => by unfold process_request_parsed; simp only [hp]) rfl
  | PARSE_HTTP_URI_TOO_LONG =>
    exact hparsed HTTP_URI_TOO_LONG
      (fun m1 => by unfold process_request_parsed; simp only [hp]) rfl
  | PARSE_HTTP_INVALID_METHOD =>
    exact hparsed HTTP_METHOD_NOT_ALLOWED
      (fun m1 => by unfold process_request_parsed; simp only [hp]) rfl

/-- The requests `POST / HTTP/1.1` and `GET / HTTP/2.0` of the specification:
the bytes that reach the socket start with `HTTP/1.1 405 Method Not Allowed`
and with `HTTP/1.1 505 Version Not Supported`, and no call is made on the file
system. -/
theorem process_request_rejected_scenarios :
    process_request (scenario_host "POST / HTTP/1.1\r\n\r\n".toList) 0 scenario_settings
        fresh_machine
      = .ret () { fresh_machine with
          conn := { fresh_machine.conn with
            state := CONN_COMPLETE, read_buf_size := 4096,
            read_buf := some "POST / HTTP/1.1\r\n\r\n".toList },
          sock_out := ("HTTP/1.1 405 Method Not Allowed\r\n"
            ++ "Date: Tue, 7 Jan 2025 14:03:09 GMT\r\nContent-Length: 0\r\n").toList,
          sock_writes := 1 }
    ∧ process_request (scenario_host "GET / HTTP/2.0\r\n\r\n".toList) 0 scenario_settings
        fresh_machine
      = .ret () { fresh_machine with
          conn := { fresh_machine.conn with
            state := CONN_COMPLETE, read_buf_size := 4096,
            read_buf := some "GET / HTTP/2.0\r\n\r\n".toList },
          sock_out := ("HTTP/1.1 505 Version Not Supported\r\n"
            ++ "Date: Tue, 7 Jan 2025 14:03:09 GMT\r\nContent-Length: 0\r\n").toList,
          sock_writes := 1 } := by
  decide

/-- The request `POST / HTTP/1.1` is answered as `error_response` does for a
status of number 405, without a call on the file system. -/
theorem process_request_rejected_witness :
    ∃ code : http_status_code,
      spec_reject_status (parse_http_req scenario_settings.uri_length_limit
          ("POST / HTTP/1.1\r\n\r\n".toList.take (scenario_settings.read_buf_size - 1))).1
        = some (http_status_code_int code)
      ∧ process_request (scenario_host "POST / HTTP/1.1\r\n\r\n".toList) 0 scenario_settings
          fresh_machine
          = error_response (scenario_host "POST / HTTP/1.1\r\n\r\n".toList) 0 code
              { fresh_machine with conn := { fresh_machine.conn with
                  read_buf := some ("POST / HTTP/1.1\r\n\r\n".toList.take
                    (scenario_settings.read_buf_size - 1)),
                  read_buf_size := scenario_settings.read_buf_size } }
      ∧ ∀ m', (process_request (scenario_host "POST / HTTP/1.1\r\n\r\n".toList) 0
            scenario_settings fresh_machine).final = some m' →
          m'.fs_calls = fresh_machine.fs_calls ∧ m'.conn.file_fd = fresh_machine.conn.file_fd :=
  process_request_rejected (scenario_host "POST / HTTP/1.1\r\n\r\n".toList) 0 scenario_settings
    fresh_machine "POST / HTTP/1.1\r\n\r\n".toList rfl rfl (by decide) rfl (by decide) (by decide)

/-! ## Later claims on the request parser -/

theorem parse_http_method_of_tail (p rest : List Char) :
    parse_http_method (p ++ rest) 0 p.length = parse_http_method p 0 p.length := by
  unfold parse_http_method
  simp only [ptr_diff_size, Nat.zero_le, if_true, Nat.sub_zero, List.drop_zero, memcmp_eq]
  by_cases h3 : p.length = 3
  · have : (p ++ rest).take 3 = p.take 3 := by
      rw [← h3, List.take_left, List.take_length]
    simp [h3, this]
  · by_cases h4 : p.length = 4
    · have : (p ++ rest).take 4 = p.take 4 := by
        rw [← h4, List.take_left, List.take_length]
      simp [h4, this]
    · simp [h3, h4]

/-- A line without a space is answered `PARSE_HTTP_INVALID_SYNTAX`, whatever
follows the CR. -/
theorem parse_http_req_no_space (limit : Nat) (l t : List Char)
    (hs : SP ∉ l) (hc : CR ∉ l) (hn : NUL ∉ l) :
    parse_http_req limit (l ++ CR :: t) = (PARSE_HTTP_INVALID_SYNTAX, none) := by
  have h1 : strchr (l ++ CR :: t) CR = some l.length := strchr_append _ _ _ hc hn
  unfold parse_http_req
  simp only [h1]
  cases h2 : strpbrk (l ++ CR :: t) [SP] with
  | none => rfl
  | some j =>
    have hj : (l ++ [CR]).length ≤ j := by
      apply strpbrk_ge_of_not_mem _ t j (by simp [hs, SP_ne_CR])
      simpa using h2
    have : j > l.length := by
      simp at hj
      omega
    simp only [this, if_true]

/-- A line whose first token is no method is answered
`PARSE_HTTP_INVALID_METHOD`, whatever follows the CR. -/
theorem parse_http_req_bad_method (limit : Nat) (p q t : List Char)
    (hps : SP ∉ p) (hpc : CR ∉ p) (hpn : NUL ∉ p) (hqc : CR ∉ q) (hqn : NUL ∉ q)
    (hm : parse_http_method p 0 p.length = none) :
    parse_http_req limit (p ++ SP :: (q ++ CR :: t)) = (PARSE_HTTP_INVALID_METHOD, none) := by
  have h1 : strchr (p ++ SP :: (q ++ CR :: t)) CR = some (p.length + 1 + q.length) := by
    have e : p ++ SP :: (q ++ CR :: t) = (p ++ SP :: q) ++ CR :: t := by simp
    rw [e, strchr_append]
    · simp
      omega
    · simp [hpc, hqc, SP_ne_CR, SP_ne_CR.symm]
    · simp [hpn, hqn, NUL_ne_SP, NUL_ne_SP.symm]
  have h2 : strpbrk (p ++ SP :: (q ++ CR :: t)) [SP] = some p.length :=
    strpbrk_append _ _ hps hpn
  have h3 : parse_http_method (p ++ SP :: (q ++ CR :: t)) 0 p.length = none := by
    rw [parse_http_method_of_tail, hm]
  have hle : ¬ (p.length > p.length + 1 + q.length) := by omega
  unfold parse_http_req
  simp only [h1, h2, h3, hle, if_false]

/-- A line that ends within or right after the URI token is answered
`PARSE_HTTP_INVALID_SYNTAX`, whatever follows the CR. -/
theorem parse_http_req_no_uri_end (limit : Nat) (meth : http_method) (k : Nat)
    (r t : List Char) (hk : 0 < k) (hrs : SP ∉ r) (hrc : CR ∉ r) (hrn : NUL ∉ r) :
    parse_http_req limit (http_method_str meth ++ (List.replicate k SP ++ (r ++ CR :: t)))
      = (PARSE_HTTP_INVALID_SYNTAX, none) := by
  obtain ⟨hms, hmc, hmn⟩ := http_method_str_clean meth
  set mt := http_method_str meth with hmt
  set s := mt ++ (List.replicate k SP ++ (r ++ CR :: t)) with hs
  have h1 : strchr s CR = some (mt.length + k + r.length) := by
    have e : s = (mt ++ (List.replicate k SP ++ r)) ++ CR :: t := by simp [hs]
    rw [e, strchr_append]
    · simp
      omega
    · simp [hmc, hrc, SP_ne_CR, SP_ne_CR.symm]
    · simp [hmn, hrn, NUL_ne_SP, NUL_ne_SP.symm]
  have h2 : strpbrk s [SP] = some mt.length := by
    obtain ⟨j, rfl⟩ : ∃ j, k = j + 1 := ⟨k - 1, by omega⟩
    have e : s = mt ++ SP :: (List.replicate j SP ++ (r ++ CR :: t)) := by
      simp [hs, List.replicate_succ]
    rw [e, strpbrk_append _ _ hms hmn]
  have h3 : parse_http_method s 0 mt.length = some meth := parse_http_method_str meth _
  have h4 : s.drop mt.length = List.replicate k SP ++ (r ++ CR :: t) := by
    simp [hs]
  have hhead : (r ++ CR :: t).head? ≠ some SP := by
    cases r with
    | nil => simpa using SP_ne_CR.symm
    | cons b rest =>
      simp only [List.mem_cons, not_or] at hrs
      simpa using fun e => hrs.1 e.symm
  have h5 : strspn (s.drop mt.length) [SP] = k := by
    rw [h4, strspn_replicate _ _ hhead]
  have h6 : s.drop (mt.length + k) = r ++ CR :: t := by
    rw [← List.drop_drop, h4]
    simp
  have hk0 : k ≠ 0 := by omega
  have hle : ¬ (mt.length > mt.length + k + r.length) := by omega
  unfold parse_http_req
  simp only [h1, h2, h3, h5, h6, hk0, hle, if_false]
  cases h7 : strpbrk (r ++ CR :: t) [SP] with
  | none => rfl
  | some j =>
    have hj : (r ++ [CR]).length ≤ j := by
      apply strpbrk_ge_of_not_mem _ t j (by simp [hrs, SP_ne_CR])
      simpa using h7
    have : mt.length + k + j > mt.length + k + r.length := by
      simp at hj
      omega
    simp only [this, if_true]

theorem version_check_of_tail (k : Nat) (g t lit : List Char) (hk : k < 2 ^ 63) :
    (decide (ptr_diff_size (g.length + 1) k = 8)
        && memcmp_eq ((SP :: (g ++ CR :: t)).drop k) lit 8)
      = (decide (ptr_diff_size (g.length + 1) k = 8) && memcmp_eq ((SP :: g).drop k) lit 8) := by
  by_cases hp : ptr_diff_size (g.length + 1) k = 8
  · have hS : SIZE_MOD = 18446744073709551616 := by norm_num [SIZE_MOD]
    have hB : (2 : Nat) ^ 63 = 9223372036854775808 := by norm_num
    have hkg : k ≤ g.length + 1 ∧ g.length + 1 - k = 8 := by
      unfold ptr_diff_size at hp
      split_ifs at hp with hc
      · exact ⟨hc, hp⟩
      · omega
    have e : (SP :: (g ++ CR :: t)).drop k = (SP :: g).drop k ++ CR :: t := by
      rw [show SP :: (g ++ CR :: t) = (SP :: g) ++ CR :: t by simp]
      exact List.drop_append_of_le_length (by simpa using hkg.1)
    have hl : ((SP :: g).drop k).length = 8 := by
      simp only [List.length_drop, List.length_cons]
      exact hkg.2
    have : ((SP :: g).drop k ++ CR :: t).take 8 = ((SP :: g).drop k).take 8 := by
      rw [← hl, List.take_left, List.take_length]
    simp only [memcmp_eq, e, this]
  · simp [hp]

/-- The result of `parse_http_req` is fixed by the request line: for a line
`l` free of CR and NUL bytes there is one result for all the bytes that may
follow its CR. -/
theorem parse_http_req_of_line (limit : Nat) (l : List Char)
    (hc : CR ∉ l) (hn : NUL ∉ l) (hlen : l.length < 2 ^ 63) :
    ∃ res, ∀ t, parse_http_req limit (l ++ CR :: t) = res := by
  by_cases hs : SP ∈ l
  · obtain ⟨p, q, hl, hps⟩ := split_first SP l hs
    have hpc : CR ∉ p := fun hm => hc (by rw [hl]; exact List.mem_append_left _ hm)
    have hpn : NUL ∉ p := fun hm => hn (by rw [hl]; exact List.mem_append_left _ hm)
    have hqc : CR ∉ q := fun hm =>
      hc (by rw [hl]; exact List.mem_append_right _ (List.mem_cons_of_mem _ hm))
    have hqn : NUL ∉ q := fun hm =>
      hn (by rw [hl]; exact List.mem_append_right _ (List.mem_cons_of_mem _ hm))
    have hstr : ∀ t, l ++ CR :: t = p ++ SP :: (q ++ CR :: t) := by
      intro t
      rw [hl]
      simp
    cases hm : parse_http_method p 0 p.length with
    | none =>
      refine ⟨(PARSE_HTTP_INVALID_METHOD, none), fun t => ?_⟩
      rw [hstr]
      exact parse_http_req_bad_method limit p q t hps hpc hpn hqc hqn hm
    | some meth =>
      obtain ⟨-, hp⟩ := parse_http_method_inv p p.length meth hm
      rw [List.take_length] at hp
      subst hp
      obtain ⟨r, hr, hhead⟩ := strspn_inv (SP :: q)
      have hk : 0 < strspn (SP :: q) [SP] := by
        simp [strspn, NUL_ne_SP.symm]
      generalize strspn (SP :: q) [SP] = k at hr hk
      have hrc : CR ∉ r := by
        intro hm
        have : CR ∈ SP :: q := by
          rw [hr]
          exact List.mem_append_right _ hm
        rcases List.mem_cons.mp this with e | e
        · exact SP_ne_CR e.symm
        · exact hqc e
      have hrn : NUL ∉ r := by
        intro hm
        have : NUL ∈ SP :: q := by
          rw [hr]
          exact List.mem_append_right _ hm
        rcases List.mem_cons.mp this with e | e
        · exact NUL_ne_SP e
        · exact hqn e
      have hklen : k < 2 ^ 63 := by
        have e : (SP :: q).length = k + r.length := by
          rw [hr]
          simp
        have e2 : l.length = (http_method_str meth).length + (SP :: q).length := by
          rw [hl]
          simp
        omega
      have hstr2 : ∀ t, l ++ CR :: t
          = http_method_str meth ++ (List.replicate k SP ++ (r ++ CR :: t)) := by
        intro t
        rw [hstr, show SP :: (q ++ CR :: t) = (SP :: q) ++ CR :: t by simp, hr]
        simp
      by_cases hrs : SP ∈ r
      · obtain ⟨u, g, hug, hus⟩ := split_first SP r hrs
        have hu : u ≠ [] := by
          rintro rfl
          rw [hug] at hhead
          simp at hhead
        have huc : CR ∉ u := fun hm => hrc (by rw [hug]; exact List.mem_append_left _ hm)
        have hun : NUL ∉ u := fun hm => hrn (by rw [hug]; exact List.mem_append_left _ hm)
        have hgc : CR ∉ g := fun hm =>
          hrc (by rw [hug]; exact List.mem_append_right _ (List.mem_cons_of_mem _ hm))
        have hgn : NUL ∉ g := fun hm =>
          hrn (by rw [hug]; exact List.mem_append_right _ (List.mem_cons_of_mem _ hm))
        refine ⟨if u.length > limit then (PARSE_HTTP_URI_TOO_LONG, none)
          else if ptr_diff_size (g.length + 1) k = 8
              && memcmp_eq ((SP :: g).drop k) "HTTP/1.1".toList 8 then
            (PARSE_HTTP_OK, some ⟨meth, u, HTTP_11⟩)
          else if ptr_diff_size (g.length + 1) k = 8
              && memcmp_eq ((SP :: g).drop k) "HTTP/1.0".toList 8 then
            (PARSE_HTTP_OK, some ⟨meth, u, HTTP_10⟩)
          else (PARSE_HTTP_INVALID_VERSION, none), fun t => ?_⟩
        rw [hstr2, hug,
          show (u ++ SP :: g) ++ CR :: t = u ++ SP :: (g ++ CR :: t) by simp,
          parse_http_req_shape limit meth k u g t hk hu hus huc hun hgc hgn,
          version_check_of_tail k g t _ hklen, version_check_of_tail k g t _ hklen]
      · refine ⟨(PARSE_HTTP_INVALID_SYNTAX, none), fun t => ?_⟩
        rw [hstr2]
        exact parse_http_req_no_uri_end limit meth k r t hk hrs hrc hrn
  · exact ⟨(PARSE_HTTP_INVALID_SYNTAX, none),
      fun t => parse_http_req_no_space limit l t hs hc hn⟩

/-- C11: for every request line `l` free of CR and NUL bytes (and shorter than
`2 ^ 63` bytes, as every C object is) and all byte strings `t1` and `t2`,
`parse_http_req` returns the same result on `l`, CR, `t1` and on `l`, CR, `t2`:
the same result code and, with it, the same method, URI and version. No byte
after the first CR has a part in the result. -/
theorem parse_http_req_ignores_tail (limit : Nat) (l t1 t2 : List Char)
    (hc : CR ∉ l) (hn : NUL ∉ l) (hlen : l.length < 2 ^ 63) :
    parse_http_req limit (l ++ [CR] ++ t1) = parse_http_req limit (l ++ [CR] ++ t2) := by
  obtain ⟨res, hres⟩ := parse_http_req_of_line limit l hc hn hlen
  rw [show l ++ [CR] ++ t1 = l ++ CR :: t1 by simp,
    show l ++ [CR] ++ t2 = l ++ CR :: t2 by simp, hres t1, hres t2]

/-- The line `GET / HTTP/1.1` is parsed alike with and without a `Host` header
after it. -/
theorem parse_http_req_ignores_tail_witness :
    parse_http_req 100 ("GET / HTTP/1.1".toList ++ [CR] ++ "\nHost: a b\r\n\r\n".toList)
      = parse_http_req 100 ("GET / HTTP/1.1".toList ++ [CR] ++ "\n\r\n".toList) :=
  parse_http_req_ignores_tail 100 "GET / HTTP/1.1".toList "\nHost: a b\r\n\r\n".toList
    "\n\r\n".toList (by decide) (by decide) (by decide)

/-! ## The claims on the tables of `http.c` -/

/-- C12: `http_status_code_int` is injective, its values are exactly 200, 400,
403, 404, 405, 500, 505 and 514, the status for a URI that is too long has the
number 514, and each status has the number and the reason phrase of one line
of the table of the specification. -/
theorem http_status_code_table :
    Function.Injective http_status_code_int
    ∧ (∀ n : Int, (∃ c, http_status_code_int c = n)
        ↔ n ∈ ([200, 400, 403, 404, 405, 500, 505, 514] : List Int))
    ∧ http_status_code_int HTTP_URI_TOO_LONG = 514
    ∧ (∀ c, (http_status_code_int c, http_status_code_str c) ∈ spec_status_table)
    ∧ http_status_code_str HTTP_URI_TOO_LONG = "URI Too Long".toList := by
  refine ⟨?_, ?_, rfl, ?_, rfl⟩
  · intro a b hab
    cases a <;> cases b <;> first | rfl | (simp [http_status_code_int] at hab)
  · intro n
    constructor
    · rintro ⟨c, rfl⟩
      cases c <;> simp [http_status_code_int]
    · intro hn
      simp only [List.mem_cons, List.mem_singleton, List.not_mem_nil, or_false] at hn
      rcases hn with rfl | rfl | rfl | rfl | rfl | rfl | rfl | rfl
      · exact ⟨HTTP_OK, rfl⟩
      · exact ⟨HTTP_BAD_REQUEST, rfl⟩
      · exact ⟨HTTP_FORBIDDEN, rfl⟩
      · exact ⟨HTTP_NOT_FOUND, rfl⟩
      · exact ⟨HTTP_METHOD_NOT_ALLOWED, rfl⟩
      · exact ⟨HTTP_INTERNAL_SERVER_ERROR, rfl⟩
      · exact ⟨HTTP_VERSION_NO_SUPPORTED, rfl⟩
      · exact ⟨HTTP_URI_TOO_LONG, rfl⟩
  · intro c
    cases c <;> decide

theorem cstr_idem (s : List Char) : cstr (cstr s) = cstr s := by
  induction s with
  | nil => rfl
  | cons b rest ih =>
    by_cases hb : b = NUL
    · simp [cstr, List.takeWhile_cons, hb]
    · rw [cstr_cons_of_ne b rest hb, cstr_cons_of_ne b _ hb, ih]

theorem http_conten_type_from_ext_cstr (ext : List Char) :
    http_conten_type_from_ext (some (cstr ext)) = http_conten_type_from_ext (some ext) := by
  simp only [http_conten_type_from_ext, strcmp_eq, cstr_idem]

theorem from_ext_of_entry (ext e mime : List Char) :
    (e, mime) ∈ spec_content_types → cstr ext = e →
      http_content_type_str (http_conten_type_from_ext (some ext)) = mime := by
  intro hmem hext
  rw [← http_conten_type_from_ext_cstr, hext]
  simp only [spec_content_types, List.mem_cons, List.mem_singleton, Prod.mk.injEq,
    List.not_mem_nil, or_false] at hmem
  rcases hmem with h | h | h | h | h | h | h | h | h | h | h | h | h | h | h | h | h | h | h | h
  all_goals
    obtain ⟨rfl, rfl⟩ := h
    decide

theorem from_ext_of_no_entry (ext : List Char) :
    (∀ p ∈ spec_content_types, cstr ext ≠ p.1) →
      http_content_type_str (http_conten_type_from_ext (some ext))
        = "application/octet-stream".toList := by
  intro hno
  have key : ∀ lit : List Char, lit ∈ spec_content_types.map Prod.fst →
      strcmp_eq ext lit = false := by
    intro lit hlit
    obtain ⟨p, hp, rfl⟩ := List.mem_map.mp hlit
    have hc : cstr p.1 = p.1 := by
      revert p
      decide
    simp only [strcmp_eq, hc, beq_eq_false_iff_ne, ne_eq]
    exact hno p hp
  unfold http_conten_type_from_ext
  simp only [key _ (by decide : "bin".toList ∈ spec_content_types.map Prod.fst),
    key _ (by decide : "bmp".toList ∈ spec_content_types.map Prod.fst),
    key _ (by decide : "css".toList ∈ spec_content_types.map Prod.fst),
    key _ (by decide : "csv".toList ∈ spec_content_types.map Prod.fst),
    key _ (by decide : "gif".toList ∈ spec_content_types.map Prod.fst),
    key _ (by decide : "html".toList ∈ spec_content_types.map Prod.fst),
    key _ (by decide : "htm".toList ∈ spec_content_types.map Prod.fst),
    key _ (by decide : "jpeg".toList ∈ spec_content_types.map Prod.fst),
    key _ (by decide : "jpg".toList ∈ spec_content_types.map Prod.fst),
    key _ (by decide : "js".toList ∈ spec_content_types.map Prod.fst),
    key _ (by decide : "mjs".toList ∈ spec_content_types.map Prod.fst),
    key _ (by decide : "json".toList ∈ spec_content_types.map Prod.fst),
    key _ (by decide : "mp3".toList ∈ spec_content_types.map Prod.fst),
    key _ (by decide : "mp4".toList ∈ spec_content_types.map Prod.fst),
    key _ (by decide : "otf".toList ∈ spec_content_types.map Prod.fst),
    key _ (by decide : "png".toList ∈ spec_content_types.map Prod.fst),
    key _ (by decide : "pdf".toList ∈ spec_content_types.map Prod.fst),
    key _ (by decide : "svg".toList ∈ spec_content_types.map Prod.fst),
    key _ (by decide : "ttf".toList ∈ spec_content_types.map Prod.fst),
    key _ (by decide : "txt".toList ∈ spec_content_types.map Prod.fst),
    Bool.false_eq_true, if_false, Bool.or_self]
  rfl

/-- C13: an extension that is an entry of the table of the specification gets
the MIME type listed with it; a missing extension (the null pointer) and an
extension that is no entry of the table get `application/octet-stream`. -/
theorem content_type_table (ext e mime : List Char) :
    ((e, mime) ∈ spec_content_types → cstr ext = e →
      http_content_type_str (http_conten_type_from_ext (some ext)) = mime)
    ∧ ((∀ p ∈ spec_content_types, cstr ext ≠ p.1) →
      http_content_type_str (http_conten_type_from_ext (some ext))
        = "application/octet-stream".toList)
    ∧ http_content_type_str (http_conten_type_from_ext none)
        = "application/octet-stream".toList := by
  exact ⟨from_ext_of_entry ext e mime, from_ext_of_no_entry ext, rfl⟩

/-- The extension `svg` gets `image/svg+xml`, and the extension `exe`, which is
no entry of the table, gets `application/octet-stream`. -/
theorem content_type_table_witness :
    http_content_type_str (http_conten_type_from_ext (some "svg".toList))
        = "image/svg+xml".toList
    ∧ http_content_type_str (http_conten_type_from_ext (some "exe".toList))
        = "application/octet-stream".toList :=
  ⟨(content_type_table "svg".toList "svg".toList "image/svg+xml".toList).1
      (by decide) (by decide),
   (content_type_table "exe".toList [] []).2.1 (by decide)⟩

theorem strrchr_none (t : List Char) (c : Char) (hc : c ∉ cstr t) : strrchr t c = none := by
  induction t with
  | nil => rfl
  | cons b rest ih =>
    by_cases hb : b = NUL
    · simp [strrchr, hb]
    · rw [cstr_cons_of_ne b rest hb] at hc
      simp only [List.mem_cons, not_or] at hc
      have hbc : b ≠ c := fun e => hc.1 e.symm
      simp [strrchr, hb, ih hc.2, hbc]

theorem strrchr_append (p t : List Char) (c : Char) (hn : NUL ∉ p) (hcn : c ≠ NUL)
    (hc : c ∉ cstr t) : strrchr (p ++ c :: t) c = some p.length := by
  induction p with
  | nil => simp [strrchr, hcn, strrchr_none t c hc]
  | cons b rest ih =>
    simp only [List.mem_cons, not_or] at hn
    have hb : b ≠ NUL := fun e => hn.1 e.symm
    simp [strrchr, hb, ih hn.2]

theorem from_filename_of_ext (stem ext : List Char) (hstem : NUL ∉ stem)
    (hdot : Char.ofNat 46 ∉ cstr ext) :
    http_conten_type_from_filename (stem ++ [Char.ofNat 46] ++ ext)
      = http_conten_type_from_ext (some ext) := by
  have e : stem ++ [Char.ofNat 46] ++ ext = stem ++ Char.ofNat 46 :: ext := by simp
  unfold http_conten_type_from_filename
  rw [e, strrchr_append stem ext _ hstem (by decide) hdot]
  simp

/-- C14, as amended: for every file name that ends in a dot and an extension
`ext` without a further dot, `http_conten_type_from_filename` returns the
content type of the table entry that `ext` equals byte for byte; the lookup is
case-sensitive, and an extension that equals no entry byte for byte gets
`application/octet-stream`. -/
theorem content_type_exact_case (stem ext e mime : List Char) (hstem : NUL ∉ stem)
    (hdot : Char.ofNat 46 ∉ cstr ext) :
    ((e, mime) ∈ spec_content_types → cstr ext = e →
      http_content_type_str (http_conten_type_from_filename (stem ++ [Char.ofNat 46] ++ ext))
        = mime)
    ∧ ((∀ p ∈ spec_content_types, cstr ext ≠ p.1) →
      http_content_type_str (http_conten_type_from_filename (stem ++ [Char.ofNat 46] ++ ext))
        = "application/octet-stream".toList) := by
  rw [from_filename_of_ext stem ext hstem hdot]
  exact ⟨from_ext_of_entry ext e mime, from_ext_of_no_entry ext⟩

/-- The name `index.html` gets `text/html`; the name `INDEX.HTML`, whose
extension is no entry of the table, gets `application/octet-stream`. -/
theorem content_type_exact_case_witness :
    http_content_type_str (http_conten_type_from_filename
        ("index".toList ++ [Char.ofNat 46] ++ "html".toList)) = "text/html".toList
    ∧ http_content_type_str (http_conten_type_from_filename
        ("INDEX".toList ++ [Char.ofNat 46] ++ "HTML".toList))
      = "application/octet-stream".toList :=
  ⟨(content_type_exact_case "index".toList "html".toList "html".toList "text/html".toList
      (by decide) (by decide)).1 (by decide) (by decide),
   (content_type_exact_case "INDEX".toList "HTML".toList [] [] (by decide) (by decide)).2
      (by decide)⟩

/-- C14 fails as stated: the extensions of `INDEX.HTML`, `photo.JPG` and `a.Txt`
are entries of the table after lowercasing, with the types `text/html`,
`image/jpeg` and `text/plain`, yet the three names get
`application/octet-stream`. -/
theorem content_type_upper_case :
    ("HTML".toList.map Char.toLower, "text/html".toList) ∈ spec_content_types
    ∧ ("JPG".toList.map Char.toLower, "image/jpeg".toList) ∈ spec_content_types
    ∧ ("Txt".toList.map Char.toLower, "text/plain".toList) ∈ spec_content_types
    ∧ http_content_type_str (http_conten_type_from_filename "INDEX.HTML".toList)
        = "application/octet-stream".toList
    ∧ http_content_type_str (http_conten_type_from_filename "photo.JPG".toList)
        = "application/octet-stream".toList
    ∧ http_content_type_str (http_conten_type_from_filename "a.Txt".toList)
        = "application/octet-stream".toList
    ∧ http_content_type_str (http_conten_type_from_filename "INDEX.HTML".toList)
        ≠ "text/html".toList := by
  decide

/-! ## Facts about the response writer -/

theorem fmt_d_eq_toString (i : Int) : fmt_d i = (toString i).toList := by
  unfold fmt_d fmt_u
  cases i with
  | ofNat m =>
    have : ¬ (Int.ofNat m < 0) := by simp
    simp only [this, if_false]
    rfl
  | negSucc m =>
    have : Int.negSucc m < 0 := Int.negSucc_lt_zero m
    simp only [this, if_true]
    rfl

theorem header_snprintf_fit (bytes text : List Char)
    (hfit : bytes.length + text.length < HEADER_BUF_SIZE) :
    header_snprintf (bytes, bytes.length) text = some (bytes ++ text, (bytes ++ text).length) := by
  unfold header_snprintf
  have h1 : ¬ (bytes.length > HEADER_BUF_SIZE) := by omega
  have h2 : text.take (HEADER_BUF_SIZE - bytes.length - 1) = text :=
    List.take_of_length_le (by omega)
  simp only [h1, if_false, h2, List.length_append]

theorem header_snprintf_all_fit (hs : List http_header) (bytes : List Char)
    (hfit : bytes.length + ((hs.map header_line).flatten).length < HEADER_BUF_SIZE) :
    header_snprintf_all (bytes, bytes.length) hs
      = some (bytes ++ (hs.map header_line).flatten,
          (bytes ++ (hs.map header_line).flatten).length) := by
  induction hs generalizing bytes with
  | nil => simp [header_snprintf_all]
  | cons hd rest ih =>
    simp only [List.map_cons, List.flatten_cons, List.length_append] at hfit
    unfold header_snprintf_all
    rw [header_snprintf_fit bytes (header_line hd) (by omega)]
    simp only
    rw [ih (bytes ++ header_line hd) (by simp only [List.length_append]; omega)]
    simp

/-- The text the `snprintf` calls of `send_response` produce is the header
section in the words of the specification. -/
theorem header_text_eq_spec (resp : http_response) :
    status_line resp.code ++ (resp.headers.map header_line).flatten
        ++ (if blank_line_follows resp then "\r\n".toList else [])
      = spec_response_section resp := by
  have hmap : resp.headers.map header_line
      = (header_fields resp).map
          (fun nv => nv.1 ++ ": ".toList ++ nv.2 ++ "\r\n".toList) := by
    unfold header_fields
    rw [List.map_map]
    rfl
  unfold spec_response_section spec_header_section status_line
  rw [fmt_d_eq_toString, hmap]

/-- When the header section with its terminator fits in the array, the bytes
`send_response` hands to `write` are the header section. -/
theorem send_response_buffer_fit (resp : http_response)
    (hfit : (spec_response_section resp).length < HEADER_BUF_SIZE) :
    (send_response_buffer resp).bind header_bytes = some (spec_response_section resp) := by
  rw [← header_text_eq_spec] at hfit ⊢
  simp only [List.length_append] at hfit
  unfold send_response_buffer
  have h0 := header_snprintf_fit [] (status_line resp.code) (by simp; omega)
  simp only [List.length_nil, List.nil_append] at h0
  rw [h0]
  simp only
  rw [header_snprintf_all_fit resp.headers (status_line resp.code) (by omega)]
  simp only
  have hbytes : ∀ bytes : List Char, bytes.length < HEADER_BUF_SIZE →
      header_bytes (bytes, bytes.length) = some bytes := by
    intro bytes hb
    unfold header_bytes
    simp only [hb, if_true]
  cases hreq : resp.req with
  | none =>
    have hb : blank_line_follows resp = false := by simp [blank_line_follows, hreq]
    rw [hb] at hfit ⊢
    simp only [Bool.false_eq_true, if_false, List.append_nil, Option.bind_some,
      List.length_nil, Nat.add_zero] at hfit ⊢
    exact hbytes _ (by simp only [List.length_append]; omega)
  | some req =>
    by_cases hm : req.method = HTTP_HEAD
    · have hb : blank_line_follows resp = false := by simp [blank_line_follows, hreq, hm]
      rw [hb] at hfit ⊢
      simp only [hm, ne_eq, not_true_eq_false, Bool.false_eq_true, if_false, List.append_nil,
        Option.bind_some, List.length_nil, Nat.add_zero] at hfit ⊢
      exact hbytes _ (by simp only [List.length_append]; omega)
    · have hb : blank_line_follows resp = true := by simp [blank_line_follows, hreq, hm]
      rw [hb] at hfit ⊢
      simp only [hm, ne_eq, not_false_eq_true, if_true] at hfit ⊢
      rw [header_snprintf_fit _ "\r\n".toList (by simp only [List.length_append]; omega)]
      exact hbytes _ (by simp only [List.length_append]; omega)

theorem fmt_u_length (n e : Nat) (hlt : n < 10 ^ e) (he : 0 < e) : (fmt_u n).length ≤ e :=
  Nat.toDigitsCore_length 10 (by decide) (n + 1) n e hlt he

theorem fmt_d_length (i : Int) (hlo : -2147483648 ≤ i) (hhi : i ≤ 2147483647) :
    (fmt_d i).length ≤ 11 := by
  have hn : i.natAbs < 10 ^ 10 := by omega
  have := fmt_u_length i.natAbs 10 hn (by decide)
  unfold fmt_d
  split_ifs <;> simp <;> omega

theorem fmt_02d_length (i : Int) (hlo : -2147483648 ≤ i) (hhi : i ≤ 2147483647) :
    (fmt_02d i).length ≤ 11 := by
  have hn : i.natAbs < 10 ^ 10 := by omega
  have := fmt_u_length i.natAbs 10 hn (by decide)
  unfold fmt_02d
  split_ifs <;> simp <;> omega

theorem getD_length_le (names : List (List Char)) (k : Nat)
    (hall : ∀ x ∈ names, x.length ≤ k) (n : Nat) : (names.getD n []).length ≤ k := by
  induction names generalizing n with
  | nil => simp
  | cons x rest ih =>
    cases n with
    | zero => simpa using hall x (List.mem_cons_self _ _)
    | succ j => simpa using ih (fun y hy => hall y (List.mem_cons_of_mem _ hy)) j

theorem name_at_length (names : List (List Char)) (hall : ∀ x ∈ names, x.length ≤ 3)
    (i : Int) : (name_at names i).length ≤ 3 := by
  unfold name_at
  split_ifs
  · exact getD_length_le names 3 hall _
  · simp

/-- The date text of a clock reading with `int` fields has at most 72 bytes. -/
theorem http_response_date_length (t : tm) (ht : tm_fields_int t) :
    (name_at days t.tm_wday ++ ", ".toList ++ fmt_d t.tm_mday ++ " ".toList
      ++ name_at months t.tm_mon ++ " ".toList ++ fmt_d (t.tm_year + 1900) ++ " ".toList
      ++ fmt_02d t.tm_hour ++ ":".toList ++ fmt_02d t.tm_min ++ ":".toList ++ fmt_02d t.tm_sec
      ++ " GMT".toList).length ≤ 72 := by
  obtain ⟨hs, hmi, hh, hd, -, hy, -⟩ := ht
  have h1 := name_at_length days (by decide) t.tm_wday
  have h2 := fmt_d_length t.tm_mday hd.1 hd.2
  have h3 := name_at_length months (by decide) t.tm_mon
  have h4 := fmt_d_length (t.tm_year + 1900) hy.1 hy.2
  have h5 := fmt_02d_length t.tm_hour hh.1 hh.2
  have h6 := fmt_02d_length t.tm_min hmi.1 hmi.2
  have h7 := fmt_02d_length t.tm_sec hs.1 hs.2
  simp only [List.length_append]
  have e1 : ", ".toList.length = 2 := rfl
  have e2 : " ".toList.length = 1 := rfl
  have e3 : ":".toList.length = 1 := rfl
  have e4 : " GMT".toList.length = 4 := rfl
  omega

theorem http_response_date_full (t : tm) (ht : tm_fields_int t) :
    http_response_date 4096 t
      = name_at days t.tm_wday ++ ", ".toList ++ fmt_d t.tm_mday ++ " ".toList
        ++ name_at months t.tm_mon ++ " ".toList ++ fmt_d (t.tm_year + 1900) ++ " ".toList
        ++ fmt_02d t.tm_hour ++ ":".toList ++ fmt_02d t.tm_min ++ ":".toList ++ fmt_02d t.tm_sec
        ++ " GMT".toList := by
  unfold http_response_date
  exact List.take_of_length_le (by have := http_response_date_length t ht; omega)

theorem cstr_length_le (s : List Char) : (cstr s).length ≤ s.length :=
  (List.takeWhile_sublist _).length_le

theorem status_line_length (code : http_status_code) : (status_line code).length ≤ 36 := by
  cases code <;> decide

theorem make_date_header_line_length (h : host) (ht : tm_fields_int h.clock) :
    (header_line (make_date_header h)).length ≤ 80 := by
  have h1 := cstr_length_le (http_response_date 4096 h.clock)
  rw [http_response_date_full h.clock ht] at h1
  have h2 := http_response_date_length h.clock ht
  have e : cstr "Date".toList = "Date".toList := by decide
  unfold header_line make_date_header make_header
  simp only [List.length_append, e, cstr_idem]
  rw [http_response_date_full h.clock ht]
  have e1 : "Date".toList.length = 4 := rfl
  have e2 : ": ".toList.length = 2 := rfl
  have e3 : "\r\n".toList.length = 2 := rfl
  omega

/-- What a machine keeps of an earlier one while bytes are streamed: the bytes
already written, the trace of file-system calls and the file descriptor. -/
theorem process_request_write_fill_keeps (h : host) (m : machine) :
    (∀ o m', process_request_write_fill h m = .stop o → o.final = some m' →
      m'.sock_out = m.sock_out ∧ m'.fs_calls = m.fs_calls ∧ m'.conn.file_fd = m.conn.file_fd)
    ∧ (∀ m1, process_request_write_fill h m = .go m1 →
      m1.sock_out = m.sock_out ∧ m1.fs_calls = m.fs_calls ∧ m1.conn.file_fd = m.conn.file_fd) := by
  unfold process_request_write_fill
  constructor
  · intro o m' hs hf
    split_ifs at hs with hc
    · cases hr : h.file_read m.file_reads m.conn.read_buf_size with
      | error e =>
        simp only [hr, loop_step.stop.injEq] at hs
        subst hs
        simp only [outcome.final, Option.some.injEq] at hf
        subst hf
        exact ⟨rfl, rfl, rfl⟩
      | ok bytes =>
        simp only [hr] at hs
        split_ifs at hs with hl
        simp only [loop_step.stop.injEq] at hs
        subst hs
        simp only [outcome.final, Option.some.injEq] at hf
        subst hf
        exact ⟨rfl, rfl, rfl⟩
  · intro m1 hg
    split_ifs at hg with hc
    · cases hr : h.file_read m.file_reads m.conn.read_buf_size with
      | error e => simp [hr] at hg
      | ok bytes =>
        simp only [hr] at hg
        split_ifs at hg with hl
        simp only [loop_step.go.injEq] at hg
        subst hg
        exact ⟨rfl, rfl, rfl⟩
    · simp only [loop_step.go.injEq] at hg
      subst hg
      exact ⟨rfl, rfl, rfl⟩

theorem process_request_write_send_keeps (h : host) (m : machine) :
    (∀ o m', process_request_write_send h m = .stop o → o.final = some m' →
      m'.sock_out = m.sock_out ∧ m'.fs_calls = m.fs_calls ∧ m'.conn.file_fd = m.conn.file_fd)
    ∧ (∀ m1, process_request_write_send h m = .go m1 →
      m.sock_out <+: m1.sock_out ∧ m1.fs_calls = m.fs_calls
        ∧ m1.conn.file_fd = m.conn.file_fd) := by
  unfold process_request_write_send
  constructor
  · intro o m' hs hf
    split_ifs at hs with hc
    · simp only at hs
      split at hs
      · split_ifs at hs
        all_goals
          simp only [loop_step.stop.injEq] at hs
          subst hs
          simp only [outcome.final, Option.some.injEq] at hf
          subst hf
          exact ⟨rfl, rfl, rfl⟩
      · simp at hs
    · simp only [loop_step.stop.injEq] at hs
      subst hs
      simp only [outcome.final, Option.some.injEq] at hf
      subst hf
      exact ⟨rfl, rfl, rfl⟩
  · intro m1 hg
    split_ifs at hg with hc
    simp only at hg
    split at hg
    · split_ifs at hg
    · simp only [loop_step.go.injEq] at hg
      subst hg
      exact ⟨List.prefix_append _ _, rfl, rfl⟩

theorem process_request_write_loop_keeps (h : host) (fuel : Nat) (m m' : machine)
    (hf : (process_request_write_loop h fuel m).final = some m') :
    m.sock_out <+: m'.sock_out ∧ m'.fs_calls = m.fs_calls
      ∧ m'.conn.file_fd = m.conn.file_fd := by
  induction fuel generalizing m with
  | zero =>
    simp only [process_request_write_loop, outcome.final, Option.some.injEq] at hf
    subst hf
    exact ⟨List.prefix_refl _, rfl, rfl⟩
  | succ fuel ih =>
    unfold process_request_write_loop at hf
    cases hfill : process_request_write_fill h m with
    | stop o =>
      simp only [hfill] at hf
      obtain ⟨h1, h2, h3⟩ := (process_request_write_fill_keeps h m).1 o m' hfill hf
      exact ⟨h1 ▸ List.prefix_refl _, h2, h3⟩
    | go m1 =>
      simp only [hfill] at hf
      obtain ⟨a1, a2, a3⟩ := (process_request_write_fill_keeps h m).2 m1 hfill
      cases hsend : process_request_write_send h m1 with
      | stop o =>
        simp only [hsend] at hf
        obtain ⟨h1, h2, h3⟩ := (process_request_write_send_keeps h m1).1 o m' hsend hf
        exact ⟨by rw [h1, a1], by rw [h2, a2], by rw [h3, a3]⟩
      | go m2 =>
        simp only [hsend] at hf
        obtain ⟨b1, b2, b3⟩ := (process_request_write_send_keeps h m1).2 m2 hsend
        obtain ⟨c1, c2, c3⟩ := ih m2 hf
        exact ⟨(a1 ▸ b1).trans c1, by rw [c2, b2, a2], by rw [c3, b3, a3]⟩

/-- What `send_response` does with the bytes of its header array. -/
theorem send_response_writes (h : host) (fuel : Nat) (resp : http_response) (m : machine)
    (bytes : List Char) (hb : (send_response_buffer resp).bind header_bytes = some bytes) :
    (∀ e, h.sock_write m.sock_writes bytes = .error e →
      send_response h fuel resp m
        = .aborted { m with sock_writes := m.sock_writes + 1,
                            conn := { m.conn with state := CONN_ERR_UNRECOVERABLE } })
    ∧ (∀ n m', h.sock_write m.sock_writes bytes = .ok n →
      (send_response h fuel resp m).final = some m' →
        m.sock_out ++ bytes.take n <+: m'.sock_out)
    ∧ (∀ n, h.sock_write m.sock_writes bytes = .ok n →
      (resp.req = none ∨ resp.req.map (fun r => r.method) = some HTTP_HEAD) →
        send_response h fuel resp m
          = .ret () { m with sock_writes := m.sock_writes + 1,
                             sock_out := m.sock_out ++ bytes.take n,
                             conn := { m.conn with state := CONN_COMPLETE } }) := by
  refine ⟨?_, ?_, ?_⟩
  · intro e hw
    unfold send_response
    simp only [hb, hw]
  · intro n m' hw hf
    unfold send_response at hf
    simp only [hb, hw] at hf
    split_ifs at hf with h1 h2 h3
    · simp only [outcome.final, Option.some.injEq] at hf
      subst hf
      exact List.prefix_refl _
    · unfold process_request_write at hf
      split_ifs at hf with h4
      · simp only [outcome.final, Option.some.injEq] at hf
        subst hf
        exact List.prefix_refl _
      · exact (process_request_write_loop_keeps h fuel _ m' hf).1
    · split at hf
      · split at hf
        · simp only [outcome.final, Option.some.injEq] at hf
          subst hf
          exact List.prefix_refl _
        · split_ifs at hf
          all_goals
            simp only [outcome.final, Option.some.injEq] at hf
            subst hf
            exact List.prefix_append _ _
      · simp only [outcome.final, Option.some.injEq] at hf
        subst hf
        exact List.prefix_refl _
    · simp only [outcome.final, Option.some.injEq] at hf
      subst hf
      exact List.prefix_refl _
  · intro n hw hreq
    unfold send_response
    simp only [hb, hw]
    have hc : resp.req.isNone = true ∨ Option.map (fun r => r.method) resp.req = some HTTP_HEAD := by
      rcases hreq with e | e
      · exact Or.inl (by simp [e])
      · exact Or.inr e
    simp only [hc, if_true]

/-- C15: when the header section of a response, with the terminator `snprintf`
appends, fits in the array of 4096 bytes, the bytes `send_response` hands to
its `write` are the status line `HTTP/1.1 <code> <reason>\r\n` with the number
and the reason phrase of the status, then one line `Name: Value\r\n` for each
header in the order of the list, then the blank line when one is added, and
nothing else. If the `write` fails nothing reaches the socket; if it accepts
`n` bytes, the socket gets the first `n` of them, before anything else. -/
theorem send_response_header_section (h : host) (fuel : Nat) (resp : http_response)
    (m : machine) (hfit : (spec_response_section resp).length < HEADER_BUF_SIZE) :
    (send_response_buffer resp).bind header_bytes
        = some (spec_header_section (http_status_code_int resp.code)
            (http_status_code_str resp.code) (header_fields resp) (blank_line_follows resp))
    ∧ (∀ e, h.sock_write m.sock_writes (spec_response_section resp) = .error e →
      send_response h fuel resp m
        = .aborted { m with sock_writes := m.sock_writes + 1,
                            conn := { m.conn with state := CONN_ERR_UNRECOVERABLE } })
    ∧ (∀ n m', h.sock_write m.sock_writes (spec_response_section resp) = .ok n →
      (send_response h fuel resp m).final = some m' →
        m.sock_out ++ (spec_response_section resp).take n <+: m'.sock_out) := by
  have hb := send_response_buffer_fit resp hfit
  obtain ⟨h1, h2, -⟩ := send_response_writes h fuel resp m _ hb
  exact ⟨hb, h1, h2⟩

/-- The response to `GET /` of the scenarios: status line, the four headers in
their order, and the blank line. -/
theorem send_response_header_section_witness :
    (send_response_buffer
        (file_response (scenario_host []) ⟨HTTP_GET, "/".toList, HTTP_11⟩ ⟨6, HTTP_CT_HTML⟩ 6)).bind
        header_bytes
      = some ("HTTP/1.1 200 OK\r\nDate: Tue, 7 Jan 2025 14:03:09 GMT\r\n"
          ++ "Content-Length: 6\r\nContent-Type: text/html\r\nConnection: Close\r\n\r\n").toList :=
  (send_response_header_section (scenario_host []) 0
    (file_response (scenario_host []) ⟨HTTP_GET, "/".toList, HTTP_11⟩ ⟨6, HTTP_CT_HTML⟩ 6)
    fresh_machine (by decide)).1

/-- C16, as amended: when the header section fits in the array, the header bytes
`send_response` writes end with the terminating blank line for every response
to a request whose method is not HEAD; a response without a request, which is
what `error_response` builds, gets no blank line after its last header, like a
response to a HEAD request. -/
theorem send_response_blank_line (resp : http_response)
    (hfit : (spec_response_section resp).length < HEADER_BUF_SIZE) :
    (∀ req, resp.req = some req → req.method ≠ HTTP_HEAD →
      (send_response_buffer resp).bind header_bytes
        = some (spec_header_section (http_status_code_int resp.code)
            (http_status_code_str resp.code) (header_fields resp) true))
    ∧ ((resp.req = none ∨ resp.req.map (fun r => r.method) = some HTTP_HEAD) →
      (send_response_buffer resp).bind header_bytes
        = some (spec_header_section (http_status_code_int resp.code)
            (http_status_code_str resp.code) (header_fields resp) false)) := by
  have hb := send_response_buffer_fit resp hfit
  constructor
  · intro req hreq hm
    rw [hb, spec_response_section]
    simp [blank_line_follows, hreq, hm]
  · intro hreq
    rw [hb, spec_response_section]
    rcases hreq with e | e
    · simp [blank_line_follows, e]
    · cases hr : resp.req with
      | none => simp [blank_line_follows, hr]
      | some req =>
        rw [hr] at e
        simp only [Option.map_some', Option.some.injEq] at e
        simp [blank_line_follows, hr, e]

/-- The response to `GET /` of the scenarios ends with the blank line; the 404
response of `error_response` ends with its last header. -/
theorem send_response_blank_line_witness :
    (send_response_buffer
        (file_response (scenario_host []) ⟨HTTP_GET, "/".toList, HTTP_11⟩ ⟨6, HTTP_CT_HTML⟩ 6)).bind
        header_bytes
      = some (spec_header_section 200 "OK".toList
          (header_fields (file_response (scenario_host []) ⟨HTTP_GET, "/".toList, HTTP_11⟩
            ⟨6, HTTP_CT_HTML⟩ 6)) true)
    ∧ (send_response_buffer (error_response_record (scenario_host []) HTTP_NOT_FOUND)).bind
        header_bytes
      = some (spec_header_section 404 "Not Found".toList
          (header_fields (error_response_record (scenario_host []) HTTP_NOT_FOUND)) false) :=
  ⟨(send_response_blank_line
      (file_response (scenario_host []) ⟨HTTP_GET, "/".toList, HTTP_11⟩ ⟨6, HTTP_CT_HTML⟩ 6)
      (by decide)).1 ⟨HTTP_GET, "/".toList, HTTP_11⟩ rfl (by decide),
   (send_response_blank_line (error_response_record (scenario_host []) HTTP_NOT_FOUND)
      (by decide)).2 (Or.inl rfl)⟩

/-- C16 fails as stated: the 404 response that `error_response` sends in the
scenarios is the status line and the two headers, and ends with the line of
the last header; no blank line follows. -/
theorem error_response_no_blank_line :
    error_response (scenario_host []) 0 HTTP_NOT_FOUND fresh_machine
      = .ret () { fresh_machine with
          conn := { fresh_machine.conn with state := CONN_COMPLETE },
          sock_out := ("HTTP/1.1 404 Not Found\r\nDate: Tue, 7 Jan 2025 14:03:09 GMT\r\n"
            ++ "Content-Length: 0\r\n").toList,
          sock_writes := 1 }
    ∧ ¬ ("\r\n\r\n".toList
          <:+ ("HTTP/1.1 404 Not Found\r\nDate: Tue, 7 Jan 2025 14:03:09 GMT\r\n"
            ++ "Content-Length: 0\r\n").toList)
    ∧ (send_response_buffer (error_response_record (scenario_host []) HTTP_NOT_FOUND)).bind
        header_bytes
      ≠ some (spec_header_section 404 "Not Found".toList
          (header_fields (error_response_record (scenario_host []) HTTP_NOT_FOUND)) true) := by
  decide

theorem send_response_no_req_one_write (h : host) (fuel : Nat) (resp : http_response)
    (m m' : machine) (hreq : resp.req = none)
    (hf : (send_response h fuel resp m).final = some m') :
    m'.sock_writes = m.sock_writes + 1 := by
  unfold send_response at hf
  cases hb : (send_response_buffer resp).bind header_bytes with
  | none => simp [hb, outcome.final] at hf
  | some bytes =>
    simp only [hb] at hf
    cases hw : h.sock_write m.sock_writes bytes with
    | error e =>
      simp only [hw, outcome.final, Option.some.injEq] at hf
      subst hf
      rfl
    | ok n =>
      simp only [hw, hreq, Option.isNone_none, true_or, if_true, outcome.final,
        Option.some.injEq] at hf
      subst hf
      rfl

/-- C17: for every status `c` and every clock reading with `int` fields,
`error_response` sends the response with the status `c` and the header list
Date, `Content-Length: 0`: the bytes handed to `write` are the status line of
`c` and these two header lines. However the run ends, it has made this one
`write` (no body byte follows), no call on the file system and has stored no
file descriptor; and when the `write` does not fail, the connection is left in
state Complete. -/
theorem error_response_sends (h : host) (fuel : Nat) (c : http_status_code) (m : machine)
    (hclock : tm_fields_int h.clock) :
    error_response h fuel c m
        = send_response h fuel
            { req := none, code := c,
              headers := [make_header "Date".toList (cstr (http_response_date 4096 h.clock)),
                          make_header "Content-Length".toList "0".toList],
              body_size := 0, body := none } m
    ∧ (send_response_buffer (error_response_record h c)).bind header_bytes
        = some (spec_header_section (http_status_code_int c) (http_status_code_str c)
            [("Date".toList, cstr (http_response_date 4096 h.clock)),
             ("Content-Length".toList, "0".toList)] false)
    ∧ (∀ m', (error_response h fuel c m).final = some m' →
        m'.sock_writes = m.sock_writes + 1 ∧ m'.fs_calls = m.fs_calls
          ∧ m'.conn.file_fd = m.conn.file_fd)
    ∧ (∀ n, h.sock_write m.sock_writes
          (spec_header_section (http_status_code_int c) (http_status_code_str c)
            [("Date".toList, cstr (http_response_date 4096 h.clock)),
             ("Content-Length".toList, "0".toList)] false) = .ok n →
        error_response h fuel c m
          = .ret () { m with
              sock_writes := m.sock_writes + 1,
              sock_out := m.sock_out
                ++ (spec_header_section (http_status_code_int c) (http_status_code_str c)
                      [("Date".toList, cstr (http_response_date 4096 h.clock)),
                       ("Content-Length".toList, "0".toList)] false).take n,
              conn := { m.conn with state := CONN_COMPLETE } }) := by
  have hsec : spec_response_section (error_response_record h c)
      = spec_header_section (http_status_code_int c) (http_status_code_str c)
          [("Date".toList, cstr (http_response_date 4096 h.clock)),
           ("Content-Length".toList, "0".toList)] false := by
    have e1 : cstr "Date".toList = "Date".toList := by decide
    have e2 : cstr "Content-Length".toList = "Content-Length".toList := by decide
    have e3 : cstr "0".toList = "0".toList := by decide
    simp only [spec_response_section, error_response_record, header_fields, blank_line_follows,
      make_date_header, make_header, List.map_cons, List.map_nil, cstr_idem, e1, e2, e3]
  have hfit : (spec_response_section (error_response_record h c)).length < HEADER_BUF_SIZE := by
    rw [← header_text_eq_spec]
    have h1 := status_line_length c
    have h2 := make_date_header_line_length h hclock
    have h3 : (header_line (make_header "Content-Length".toList "0".toList)).length = 19 := by
      decide
    simp only [error_response_record, blank_line_follows, List.map_cons, List.map_nil,
      List.flatten_cons, List.flatten_nil, List.length_append, Bool.false_eq_true, if_false,
      List.length_nil, List.append_nil, h3, HEADER_BUF_SIZE]
    omega
  have hb := send_response_buffer_fit _ hfit
  rw [hsec] at hb
  obtain ⟨-, -, h3⟩ := send_response_writes h fuel (error_response_record h c) m _ hb
  refine ⟨rfl, hb, ?_, fun n hwrite => h3 n hwrite (Or.inl rfl)⟩
  intro m' hf
  have hf' : (send_response h fuel (error_response_record h c) m).final = some m' := hf
  obtain ⟨a1, a2⟩ := send_response_no_req h fuel _ m m' rfl hf'
  exact ⟨send_response_no_req_one_write h fuel _ m m' rfl hf', a1, a2⟩

/-- The 404 response of the scenarios: the socket accepts all the bytes and the
connection ends in state Complete. -/
theorem error_response_sends_witness :
    error_response (scenario_host []) 0 HTTP_NOT_FOUND fresh_machine
      = .ret () { fresh_machine with
          sock_writes := fresh_machine.sock_writes + 1,
          sock_out := fresh_machine.sock_out
            ++ (spec_header_section (http_status_code_int HTTP_NOT_FOUND)
                  (http_status_code_str HTTP_NOT_FOUND)
                  [("Date".toList, cstr (http_response_date 4096 (scenario_host []).clock)),
                   ("Content-Length".toList, "0".toList)] false).take 79,
          conn := { fresh_machine.conn with state := CONN_COMPLETE } } :=
  (error_response_sends (scenario_host []) 0 HTTP_NOT_FOUND fresh_machine
    (by unfold tm_fields_int; decide)).2.2.2 79 rfl

/-! ## The date text -/

theorem fmt_02d_two_digits (n : Nat) (hn : n < 100) :
    fmt_02d (n : Int) = spec_two_digits n := by
  interval_cases n <;> decide

theorem fmt_02d_of_range (i : Int) (hlo : 0 ≤ i) (hhi : i ≤ 99) :
    fmt_02d i = spec_two_digits i.toNat := by
  obtain ⟨n, rfl⟩ := Int.eq_ofNat_of_zero_le hlo
  have hn : n < 100 := by omega
  simpa using fmt_02d_two_digits n hn

theorem name_at_days (i : Int) (hlo : 0 ≤ i) (hhi : i ≤ 6) :
    name_at days i = spec_day_name i.toNat := by
  obtain ⟨n, rfl⟩ := Int.eq_ofNat_of_zero_le hlo
  have hn : n < 7 := by omega
  simp only [Int.toNat_ofNat]
  interval_cases n <;> decide

theorem name_at_months (i : Int) (hlo : 0 ≤ i) (hhi : i ≤ 11) :
    name_at months i = spec_month_name i.toNat := by
  obtain ⟨n, rfl⟩ := Int.eq_ofNat_of_zero_le hlo
  have hn : n < 12 := by omega
  simp only [Int.toNat_ofNat]
  interval_cases n <;> decide

/-- C19: for every broken-down time with weekday 0..6, month 0..11, day 1..31,
hour 0..23, minute 0..59 and second 0..60 (and a year `tm_year + 1900` that is
an `int`), `http_response_date` produces `<Day>, <D> <Mon> <YYYY> <HH>:<MM>:<SS>
GMT`: the three-letter English names of the day and the month, the day of the
month and the year `tm_year + 1900` in decimal without padding, and the hour,
minute and second in two digits each. -/
theorem http_response_date_format (t : tm)
    (hwday : 0 ≤ t.tm_wday ∧ t.tm_wday ≤ 6) (hmon : 0 ≤ t.tm_mon ∧ t.tm_mon ≤ 11)
    (hmday : 1 ≤ t.tm_mday ∧ t.tm_mday ≤ 31) (hhour : 0 ≤ t.tm_hour ∧ t.tm_hour ≤ 23)
    (hmin : 0 ≤ t.tm_min ∧ t.tm_min ≤ 59) (hsec : 0 ≤ t.tm_sec ∧ t.tm_sec ≤ 60)
    (hyear : -2147483648 ≤ t.tm_year + 1900 ∧ t.tm_year + 1900 ≤ 2147483647) :
    http_response_date 4096 t = spec_date t := by
  have ht : tm_fields_int t := by
    unfold tm_fields_int
    omega
  rw [http_response_date_full t ht]
  unfold spec_date
  rw [name_at_days _ hwday.1 hwday.2, name_at_months _ hmon.1 hmon.2,
    fmt_d_eq_toString, fmt_d_eq_toString,
    fmt_02d_of_range _ hhour.1 (by omega), fmt_02d_of_range _ hmin.1 (by omega),
    fmt_02d_of_range _ hsec.1 (by omega)]

/-- Tuesday 7 January 2025 at 14:03:09 gives `Tue, 7 Jan 2025 14:03:09 GMT`. -/
theorem http_response_date_format_witness :
    http_response_date 4096 ⟨9, 3, 14, 7, 0, 125, 2⟩ = "Tue, 7 Jan 2025 14:03:09 GMT".toList :=
  (http_response_date_format ⟨9, 3, 14, 7, 0, 125, 2⟩ (by decide) (by decide) (by decide)
    (by decide) (by decide) (by decide) (by decide)).trans (by decide)

/-! ## The serving functions -/

theorem and_then_none_stop {α : Type} (o : outcome Unit)
    (F : Option α → machine → outcome Unit) (hF : ∀ m, F none m = .ret () m) :
    (o.and_then (fun _ m2 => (outcome.ret none m2 : outcome (Option α)))).and_then F = o := by
  cases o <;> simp [outcome.and_then, hF]

theorem error_response_keeps (h : host) (fuel : Nat) (c : http_status_code) (m m' : machine)
    (hf : (error_response h fuel c m).final = some m') :
    m'.fs_calls = m.fs_calls ∧ m'.conn.file_fd = m.conn.file_fd :=
  send_response_no_req h fuel _ m m' rfl hf

theorem resolve_path_realpath_error (h : host) (fuel : Nat) (uri : List Char)
    (settings : server_settings) (m : machine) (e : Nat)
    (hreal : h.realpath (resolve_path_buf settings.static_dir uri) = .error e) :
    resolve_path h fuel uri settings m
      = (error_response h fuel (errno_status e)
          { m with fs_calls := m.fs_calls
              ++ [fs_call.realpath (resolve_path_buf settings.static_dir uri)] }).and_then
          (fun _ m2 => .ret none m2) := by
  unfold resolve_path
  simp only [hreal]

theorem resolve_path_of_resolves (h : host) (fuel : Nat) (uri : List Char)
    (settings : server_settings) (m : machine) (full : List Char)
    (hres : resolves_to h settings uri full) :
    resolve_path h fuel uri settings m
      = .ret (some (cstr full))
          { m with fs_calls := m.fs_calls
              ++ [fs_call.realpath (resolve_path_buf settings.static_dir uri)] } := by
  obtain ⟨h1, h2, h3⟩ := hres
  unfold resolve_path
  simp only [h1, h2, h3, not_true_eq_false, if_false, take_strlen]

theorem get_file_info_stat_error (h : host) (fuel : Nat) (full : List Char) (m : machine)
    (e : Nat) (hstat : h.stat_size (cstr full) = .error e) :
    get_file_info h fuel (cstr full) m
      = (error_response h fuel (errno_status e)
          { m with fs_calls := m.fs_calls ++ [fs_call.stat (cstr full)] }).and_then
          (fun _ m2 => .ret none m2) := by
  unfold get_file_info
  simp only [cstr_idem, hstat]

theorem get_file_info_stat_ok (h : host) (fuel : Nat) (full : List Char) (m : machine)
    (size : Nat) (hstat : h.stat_size (cstr full) = .ok size) :
    get_file_info h fuel (cstr full) m
      = .ret (some ⟨size, http_conten_type_from_filename (cstr full)⟩)
          { m with fs_calls := m.fs_calls ++ [fs_call.stat (cstr full)] } := by
  unfold get_file_info
  simp only [cstr_idem, hstat]

theorem errno_status_int (e : Nat) :
    http_status_code_int (errno_status e) = spec_errno_status e := by
  unfold errno_status spec_errno_status
  by_cases h1 : e = EACCES
  · simp only [h1, if_true]
    rfl
  · by_cases h2 : e = ENOENT
    · simp only [h2, if_true, or_true, true_or]
      rfl
    · by_cases h3 : e = ENOTDIR
      · simp only [h3, if_true, or_true, true_or]
        rfl
      · simp only [h1, h2, h3, if_false, or_self]
        rfl

/-- C20: for every `errno` value `e` that `realpath` reports in `resolve_path`,
`stat` in `get_file_info` or `open` in `serve_get_request`, the request is
answered by `error_response` with the status of number 403 for `EACCES`, 404
for `ENOENT` and `ENOTDIR`, and 500 for every other value; the run is the run of
this `error_response` right after the failed call and nothing more, and however
it ends, no further call on the file system has been made and the file
descriptor of the connection is the one it had. -/
theorem serve_request_errno (h : host) (fuel : Nat) (req : http_req)
    (settings : server_settings) (m : machine) (e : Nat) :
    http_status_code_int (errno_status e) = spec_errno_status e
    ∧ (h.realpath (resolve_path_buf settings.static_dir req.uri) = .error e →
        serve_request h fuel req settings m
          = error_response h fuel (errno_status e)
              { m with fs_calls := m.fs_calls
                  ++ [fs_call.realpath (resolve_path_buf settings.static_dir req.uri)] }
        ∧ ∀ m', (serve_request h fuel req settings m).final = some m' →
            m'.conn.file_fd = m.conn.file_fd
            ∧ m'.fs_calls = m.fs_calls
                ++ [fs_call.realpath (resolve_path_buf settings.static_dir req.uri)])
    ∧ (∀ full, resolves_to h settings req.uri full → h.stat_size (cstr full) = .error e →
        serve_request h fuel req settings m
          = error_response h fuel (errno_status e)
              { m with fs_calls := m.fs_calls
                  ++ [fs_call.realpath (resolve_path_buf settings.static_dir req.uri)]
                  ++ [fs_call.stat (cstr full)] }
        ∧ ∀ m', (serve_request h fuel req settings m).final = some m' →
            m'.conn.file_fd = m.conn.file_fd
            ∧ m'.fs_calls = m.fs_calls
                ++ [fs_call.realpath (resolve_path_buf settings.static_dir req.uri)]
                ++ [fs_call.stat (cstr full)])
    ∧ (∀ full size, resolves_to h settings req.uri full →
        h.stat_size (cstr full) = .ok size → h.open_file (cstr full) = .error e →
        serve_get_request h fuel req settings m
          = error_response h fuel (errno_status e)
              { m with fs_calls := m.fs_calls
                  ++ [fs_call.realpath (resolve_path_buf settings.static_dir req.uri)]
                  ++ [fs_call.stat (cstr full)] ++ [fs_call.open_file (cstr full)] }
        ∧ ∀ m', (serve_get_request h fuel req settings m).final = some m' →
            m'.conn.file_fd = m.conn.file_fd
            ∧ m'.fs_calls = m.fs_calls
                ++ [fs_call.realpath (resolve_path_buf settings.static_dir req.uri)]
                ++ [fs_call.stat (cstr full)] ++ [fs_call.open_file (cstr full)]) := by
  refine ⟨errno_status_int e, ?_, ?_, ?_⟩
  · intro hreal
    have e1 : serve_request h fuel req settings m
        = error_response h fuel (errno_status e)
            { m with fs_calls := m.fs_calls
                ++ [fs_call.realpath (resolve_path_buf settings.static_dir req.uri)] } := by
      unfold serve_request serve_get_request serve_head_request
      rw [resolve_path_realpath_error h fuel req.uri settings m e hreal]
      cases req.method
      · exact and_then_none_stop _ _ (fun _ => rfl)
      · exact and_then_none_stop _ _ (fun _ => rfl)
    refine ⟨e1, fun m' hf => ?_⟩
    rw [e1] at hf
    obtain ⟨a1, a2⟩ := error_response_keeps h fuel _ _ m' hf
    exact ⟨a2, a1⟩
  · intro full hres hstat
    have e1 : serve_request h fuel req settings m
        = error_response h fuel (errno_status e)
            { m with fs_calls := m.fs_calls
                ++ [fs_call.realpath (resolve_path_buf settings.static_dir req.uri)]
                ++ [fs_call.stat (cstr full)] } := by
      unfold serve_request serve_get_request serve_head_request
      rw [resolve_path_of_resolves h fuel req.uri settings m full hres]
      simp only [outcome.and_then]
      rw [get_file_info_stat_error h fuel full _ e hstat]
      cases req.method
      · exact and_then_none_stop _ _ (fun _ => rfl)
      · exact and_then_none_stop _ _ (fun _ => rfl)
    refine ⟨e1, fun m' hf => ?_⟩
    rw [e1] at hf
    obtain ⟨a1, a2⟩ := error_response_keeps h fuel _ _ m' hf
    exact ⟨a2, a1⟩
  · intro full size hres hstat hopen
    have e1 : serve_get_request h fuel req settings m
        = error_response h fuel (errno_status e)
            { m with fs_calls := m.fs_calls
                ++ [fs_call.realpath (resolve_path_buf settings.static_dir req.uri)]
                ++ [fs_call.stat (cstr full)] ++ [fs_call.open_file (cstr full)] } := by
      unfold serve_get_request
      rw [resolve_path_of_resolves h fuel req.uri settings m full hres]
      simp only [outcome.and_then]
      rw [get_file_info_stat_ok h fuel full _ size hstat]
      simp only [outcome.and_then, cstr_idem, hopen]
    refine ⟨e1, fun m' hf => ?_⟩
    rw [e1] at hf
    obtain ⟨a1, a2⟩ := error_response_keeps h fuel _ _ m' hf
    exact ⟨a2, a1⟩

/-- Three runs of the scenarios: a missing file (`realpath` reports `ENOENT`) is
answered 404, a `stat` refused with `EACCES` is answered 403, and an `open` that
fails with `EMFILE` is answered 500. -/
theorem serve_request_errno_witness :
    serve_request (scenario_host []) 0 ⟨HTTP_GET, "/missing.txt".toList, HTTP_11⟩
        scenario_settings fresh_machine
      = error_response (scenario_host []) 0 HTTP_NOT_FOUND
          { fresh_machine with
            fs_calls := [fs_call.realpath "/srv/www//missing.txt".toList] }
    ∧ serve_request stat_denied_host 0 ⟨HTTP_HEAD, "/".toList, HTTP_11⟩
        scenario_settings fresh_machine
      = error_response stat_denied_host 0 HTTP_FORBIDDEN
          { fresh_machine with
            fs_calls := [fs_call.realpath "/srv/www/index.html".toList,
                         fs_call.stat "/srv/www/index.html".toList] }
    ∧ serve_get_request open_failing_host 0 ⟨HTTP_GET, "/".toList, HTTP_11⟩
        scenario_settings fresh_machine
      = error_response open_failing_host 0 HTTP_INTERNAL_SERVER_ERROR
          { fresh_machine with
            fs_calls := [fs_call.realpath "/srv/www/index.html".toList,
                         fs_call.stat "/srv/www/index.html".toList,
                         fs_call.open_file "/srv/www/index.html".toList] } :=
  ⟨((serve_request_errno (scenario_host []) 0 ⟨HTTP_GET, "/missing.txt".toList, HTTP_11⟩
      scenario_settings fresh_machine ENOENT).2.1 rfl).1,
   ((serve_request_errno stat_denied_host 0 ⟨HTTP_HEAD, "/".toList, HTTP_11⟩
      scenario_settings fresh_machine EACCES).2.2.1 "/srv/www/index.html".toList
      ⟨rfl, by decide, rfl⟩ rfl).1,
   ((serve_request_errno open_failing_host 0 ⟨HTTP_GET, "/".toList, HTTP_11⟩
      scenario_settings fresh_machine EMFILE).2.2.2 "/srv/www/index.html".toList 6
      ⟨rfl, by decide, rfl⟩ rfl rfl).1⟩

/-! ## The responses for a file -/

theorem toDigitsCore_mem (f n : Nat) (ds : List Char) (c : Char)
    (hc : c ∈ Nat.toDigitsCore 10 f n ds) : c ∈ ds ∨ ∃ k, k < 10 ∧ c = Nat.digitChar k := by
  induction f generalizing n ds with
  | zero =>
    simp only [Nat.toDigitsCore] at hc
    exact Or.inl hc
  | succ f ih =>
    simp only [Nat.toDigitsCore] at hc
    split_ifs at hc
    · rcases List.mem_cons.1 hc with h | h
      · exact Or.inr ⟨n % 10, Nat.mod_lt _ (by decide), h⟩
      · exact Or.inl h
    · rcases ih _ _ hc with h | h
      · rcases List.mem_cons.1 h with h | h
        · exact Or.inr ⟨n % 10, Nat.mod_lt _ (by decide), h⟩
        · exact Or.inl h
      · exact Or.inr h

theorem fmt_u_no_nul (n : Nat) : NUL ∉ fmt_u n := by
  intro hc
  rcases toDigitsCore_mem _ _ _ _ hc with h | ⟨k, hk, h⟩
  · simp at h
  · interval_cases k <;> exact absurd h (by decide)

theorem cstr_of_not_mem (s : List Char) (h : NUL ∉ s) : cstr s = s := by
  unfold cstr
  rw [List.takeWhile_eq_self_iff]
  intro x hx
  have : x ≠ NUL := fun e => h (e ▸ hx)
  simpa using this

/-- The text `server_memfmt("%zu", n)` gives for a `size_t` is the decimal
numeral of `n`. -/
theorem server_memfmt_zu_eq (n : Nat) (hn : n < 2 ^ 64) :
    server_memfmt_zu n = (toString n).toList := by
  have hl := fmt_u_length n 20 (by norm_num at hn ⊢; omega) (by decide)
  unfold server_memfmt_zu
  rw [List.take_of_length_le (by omega), cstr_of_not_mem _ (fmt_u_no_nul n)]
  rfl

theorem http_content_type_str_clean (ct : http_content_type) :
    cstr (http_content_type_str ct) = http_content_type_str ct
      ∧ (http_content_type_str ct).length ≤ 24 := by
  cases ct <;> decide

/-- The header list of the response built for a file: Date, Content-Length with
the decimal size, Content-Type, and `Connection: Close`. -/
theorem file_response_fields (h : host) (req : http_req) (info : file_info) (body_size : Nat)
    (hsize : info.size < 2 ^ 64) :
    header_fields (file_response h req info body_size)
      = [("Date".toList, cstr (http_response_date 4096 h.clock)),
         ("Content-Length".toList, (toString info.size).toList),
         ("Content-Type".toList, http_content_type_str info.ct),
         ("Connection".toList, "Close".toList)] := by
  have e1 : cstr "Date".toList = "Date".toList := by decide
  have e2 : cstr "Content-Length".toList = "Content-Length".toList := by decide
  have e3 : cstr "Content-Type".toList = "Content-Type".toList := by decide
  have e4 : cstr "Connection".toList = "Connection".toList := by decide
  have e5 : cstr "Close".toList = "Close".toList := by decide
  have e6 : cstr (server_memfmt_zu info.size) = (toString info.size).toList := by
    rw [← server_memfmt_zu_eq info.size hsize]
    unfold server_memfmt_zu
    exact cstr_idem _
  simp only [header_fields, file_response, make_date_header, make_header, List.map_cons,
    List.map_nil, cstr_idem, e1, e2, e3, e4, e5, e6, (http_content_type_str_clean info.ct).1]

/-- The header section of the response built for a file fits in the array of
`send_response`. -/
theorem file_response_fit (h : host) (req : http_req) (info : file_info) (body_size : Nat)
    (hclock : tm_fields_int h.clock) (hsize : info.size < 2 ^ 64) :
    (spec_response_section (file_response h req info body_size)).length < HEADER_BUF_SIZE := by
  have h1 := cstr_length_le (http_response_date 4096 h.clock)
  rw [http_response_date_full h.clock hclock] at h1
  have h2 := http_response_date_length h.clock hclock
  have h3 : (toString info.size).toList.length ≤ 20 :=
    fmt_u_length info.size 20 (by norm_num at hsize ⊢; omega) (by decide)
  have h4 := (http_content_type_str_clean info.ct).2
  have h5 : (http_status_code_str HTTP_OK).length = 2 := rfl
  have h6 : (toString (http_status_code_int HTTP_OK)).toList.length = 3 := rfl
  unfold spec_response_section
  rw [file_response_fields h req info body_size hsize]
  have hc : (file_response h req info body_size).code = HTTP_OK := rfl
  rw [hc]
  unfold spec_header_section
  simp only [List.map_cons, List.map_nil, List.flatten_cons, List.flatten_nil,
    List.length_append, List.length_nil, HEADER_BUF_SIZE, h5, h6]
  rw [http_response_date_full h.clock hclock]
  have l1 : "HTTP/1.1 ".toList.length = 9 := rfl
  have l2 : " ".toList.length = 1 := rfl
  have l3 : "\r\n".toList.length = 2 := rfl
  have l4 : "Date".toList.length = 4 := rfl
  have l5 : ": ".toList.length = 2 := rfl
  have l6 : "Content-Length".toList.length = 14 := rfl
  have l7 : "Content-Type".toList.length = 12 := rfl
  have l8 : "Connection".toList.length = 10 := rfl
  have l9 : "Close".toList.length = 5 := rfl
  have l10 : (if blank_line_follows (file_response h req info body_size) = true
      then "\r\n".toList else []).length ≤ 2 := by
    split_ifs <;> simp
  omega

/-- C18, as amended: for every file that resolves, that `stat` finds with a
size that is a `size_t` and that `open` opens, on a connection that holds no
file descriptor and at one clock reading, `serve_head_request` and
`serve_get_request` end in `send_response` with responses of the same status
200 and the same header list: Date, Content-Length with the decimal file size,
Content-Type, and `Connection: Close`, in that order. The HEAD path makes no
`open` call, stores no file descriptor and makes one `write`, of bytes of the
header section only; when this `write` does not fail, it returns with the
connection in state Complete. -/
theorem serve_head_get_same_headers (h : host) (fuel : Nat) (req : http_req)
    (settings : server_settings) (m : machine) (full : List Char) (size fd : Nat)
    (hclock : tm_fields_int h.clock) (hres : resolves_to h settings req.uri full)
    (hstat : h.stat_size (cstr full) = .ok size) (hsize : size < 2 ^ 64)
    (hopen : h.open_file (cstr full) = .ok fd) (hfd : m.conn.file_fd = -1) :
    (serve_request h fuel { req with method := HTTP_HEAD } settings m
        = send_response h fuel
            (file_response h { req with method := HTTP_HEAD }
              ⟨size, http_conten_type_from_filename (cstr full)⟩ 0)
            { m with fs_calls := m.fs_calls
                ++ [fs_call.realpath (resolve_path_buf settings.static_dir req.uri)]
                ++ [fs_call.stat (cstr full)] }
      ∧ serve_request h fuel { req with method := HTTP_GET } settings m
        = send_response h fuel
            (file_response h { req with method := HTTP_GET }
              ⟨size, http_conten_type_from_filename (cstr full)⟩ size)
            { m with
              fs_calls := m.fs_calls
                ++ [fs_call.realpath (resolve_path_buf settings.static_dir req.uri)]
                ++ [fs_call.stat (cstr full)] ++ [fs_call.open_file (cstr full)],
              conn := { m.conn with file_fd := fd } })
    ∧ ((file_response h { req with method := HTTP_HEAD }
          ⟨size, http_conten_type_from_filename (cstr full)⟩ 0).code = HTTP_OK
      ∧ (file_response h { req with method := HTTP_GET }
          ⟨size, http_conten_type_from_filename (cstr full)⟩ size).code = HTTP_OK
      ∧ http_status_code_int HTTP_OK = 200)
    ∧ (header_fields (file_response h { req with method := HTTP_HEAD }
          ⟨size, http_conten_type_from_filename (cstr full)⟩ 0)
        = [("Date".toList, cstr (http_response_date 4096 h.clock)),
           ("Content-Length".toList, (toString size).toList),
           ("Content-Type".toList,
              http_content_type_str (http_conten_type_from_filename (cstr full))),
           ("Connection".toList, "Close".toList)]
      ∧ header_fields (file_response h { req with method := HTTP_GET }
          ⟨size, http_conten_type_from_filename (cstr full)⟩ size)
        = [("Date".toList, cstr (http_response_date 4096 h.clock)),
           ("Content-Length".toList, (toString size).toList),
           ("Content-Type".toList,
              http_content_type_str (http_conten_type_from_filename (cstr full))),
           ("Connection".toList, "Close".toList)])
    ∧ (∀ m', (serve_request h fuel { req with method := HTTP_HEAD } settings m).final = some m' →
        m'.fs_calls = m.fs_calls
            ++ [fs_call.realpath (resolve_path_buf settings.static_dir req.uri)]
            ++ [fs_call.stat (cstr full)]
        ∧ m'.conn.file_fd = m.conn.file_fd
        ∧ m'.sock_writes = m.sock_writes + 1
        ∧ ∃ k, m'.sock_out = m.sock_out
            ++ (spec_header_section 200 "OK".toList
                  [("Date".toList, cstr (http_response_date 4096 h.clock)),
                   ("Content-Length".toList, (toString size).toList),
                   ("Content-Type".toList,
                      http_content_type_str (http_conten_type_from_filename (cstr full))),
                   ("Connection".toList, "Close".toList)] false).take k)
    ∧ (∀ n, h.sock_write m.sock_writes
          (spec_header_section 200 "OK".toList
            [("Date".toList, cstr (http_response_date 4096 h.clock)),
             ("Content-Length".toList, (toString size).toList),
             ("Content-Type".toList,
                http_content_type_str (http_conten_type_from_filename (cstr full))),
             ("Connection".toList, "Close".toList)] false) = .ok n →
        serve_request h fuel { req with method := HTTP_HEAD } settings m
          = .ret () { m with
              fs_calls := m.fs_calls
                ++ [fs_call.realpath (resolve_path_buf settings.static_dir req.uri)]
                ++ [fs_call.stat (cstr full)],
              sock_writes := m.sock_writes + 1,
              sock_out := m.sock_out
                ++ (spec_header_section 200 "OK".toList
                      [("Date".toList, cstr (http_response_date 4096 h.clock)),
                       ("Content-Length".toList, (toString size).toList),
                       ("Content-Type".toList,
                          http_content_type_str (http_conten_type_from_filename (cstr full))),
                       ("Connection".toList, "Close".toList)] false).take n,
              conn := { m.conn with state := CONN_COMPLETE } }) := by
  have hresolve := fun m0 => resolve_path_of_resolves h fuel req.uri settings m0 full hres
  have hinfo := fun m0 => get_file_info_stat_ok h fuel full m0 size hstat
  have ehead : serve_request h fuel { req with method := HTTP_HEAD } settings m
      = send_response h fuel
          (file_response h { req with method := HTTP_HEAD }
            ⟨size, http_conten_type_from_filename (cstr full)⟩ 0)
          { m with fs_calls := m.fs_calls
              ++ [fs_call.realpath (resolve_path_buf settings.static_dir req.uri)]
              ++ [fs_call.stat (cstr full)] } := by
    simp only [serve_request, serve_head_request, hresolve, outcome.and_then, hinfo]
  have eget : serve_request h fuel { req with method := HTTP_GET } settings m
      = send_response h fuel
          (file_response h { req with method := HTTP_GET }
            ⟨size, http_conten_type_from_filename (cstr full)⟩ size)
          { m with
            fs_calls := m.fs_calls
              ++ [fs_call.realpath (resolve_path_buf settings.static_dir req.uri)]
              ++ [fs_call.stat (cstr full)] ++ [fs_call.open_file (cstr full)],
            conn := { m.conn with file_fd := fd } } := by
    simp only [serve_request, serve_get_request, hresolve, outcome.and_then, hinfo, cstr_idem,
      hopen, hfd, ne_eq, not_true_eq_false, if_false]
  have hfields := fun r b =>
    file_response_fields h r ⟨size, http_conten_type_from_filename (cstr full)⟩ b hsize
  have hfit := file_response_fit h { req with method := HTTP_HEAD }
    ⟨size, http_conten_type_from_filename (cstr full)⟩ 0 hclock hsize
  have hb := send_response_buffer_fit _ hfit
  have hsec : spec_response_section (file_response h { req with method := HTTP_HEAD }
        ⟨size, http_conten_type_from_filename (cstr full)⟩ 0)
      = spec_header_section 200 "OK".toList
          [("Date".toList, cstr (http_response_date 4096 h.clock)),
           ("Content-Length".toList, (toString size).toList),
           ("Content-Type".toList,
              http_content_type_str (http_conten_type_from_filename (cstr full))),
           ("Connection".toList, "Close".toList)] false := by
    unfold spec_response_section
    rw [hfields]
    rfl
  rw [hsec] at hb
  obtain ⟨w1, -, w3⟩ := send_response_writes h fuel
    (file_response h { req with method := HTTP_HEAD }
      ⟨size, http_conten_type_from_filename (cstr full)⟩ 0)
    { m with fs_calls := m.fs_calls
        ++ [fs_call.realpath (resolve_path_buf settings.static_dir req.uri)]
        ++ [fs_call.stat (cstr full)] } _ hb
  refine ⟨⟨ehead, eget⟩, ⟨rfl, rfl, rfl⟩, ⟨hfields _ _, hfields _ _⟩, ?_, ?_⟩
  · intro m' hf
    rw [ehead] at hf
    cases hw : h.sock_write m.sock_writes
        (spec_header_section 200 "OK".toList
          [("Date".toList, cstr (http_response_date 4096 h.clock)),
           ("Content-Length".toList, (toString size).toList),
           ("Content-Type".toList,
              http_content_type_str (http_conten_type_from_filename (cstr full))),
           ("Connection".toList, "Close".toList)] false) with
    | error e =>
      rw [w1 e hw] at hf
      simp only [outcome.final, Option.some.injEq] at hf
      subst hf
      exact ⟨rfl, rfl, rfl, 0, by simp⟩
    | ok n =>
      rw [w3 n hw (Or.inr rfl)] at hf
      simp only [outcome.final, Option.some.injEq] at hf
      subst hf
      exact ⟨rfl, rfl, rfl, n, rfl⟩
  · intro n hw
    rw [ehead]
    exact w3 n hw (Or.inr rfl)

/-- The file `/` of the scenarios: `HEAD /` and `GET /` carry the same four
headers, and `HEAD /` is answered with the header section alone and leaves the
connection in state Complete. -/
theorem serve_head_get_same_headers_witness :
    header_fields (file_response (scenario_host []) ⟨HTTP_GET, "/".toList, HTTP_11⟩
        ⟨6, HTTP_CT_HTML⟩ 6)
      = [("Date".toList, "Tue, 7 Jan 2025 14:03:09 GMT".toList),
         ("Content-Length".toList, "6".toList),
         ("Content-Type".toList, "text/html".toList),
         ("Connection".toList, "Close".toList)]
    ∧ serve_request (scenario_host []) 0 ⟨HTTP_HEAD, "/".toList, HTTP_11⟩ scenario_settings
        fresh_machine
      = .ret () { fresh_machine with
          fs_calls := [fs_call.realpath "/srv/www/index.html".toList,
                       fs_call.stat "/srv/www/index.html".toList],
          sock_writes := 1,
          sock_out := ("HTTP/1.1 200 OK\r\nDate: Tue, 7 Jan 2025 14:03:09 GMT\r\n"
            ++ "Content-Length: 6\r\nContent-Type: text/html\r\nConnection: Close\r\n").toList,
          conn := { fresh_machine.conn with state := CONN_COMPLETE } } :=
  ⟨(serve_head_get_same_headers (scenario_host []) 0 ⟨HTTP_GET, "/".toList, HTTP_11⟩
      scenario_settings fresh_machine "/srv/www/index.html".toList 6 7
      (by unfold tm_fields_int; decide) ⟨rfl, by decide, rfl⟩ rfl (by norm_num) rfl
      rfl).2.2.1.2.trans (by decide),
   ((serve_head_get_same_headers (scenario_host []) 0 ⟨HTTP_GET, "/".toList, HTTP_11⟩
      scenario_settings fresh_machine "/srv/www/index.html".toList 6 7
      (by unfold tm_fields_int; decide) ⟨rfl, by decide, rfl⟩ rfl (by norm_num) rfl
      rfl).2.2.2.2 116 rfl).trans (by decide)⟩

/-- C18 as worded fails at two inputs of the scenarios, in both of which the
file of `/` resolves and `stat` finds its six bytes. When the peer has reset
the connection, the `write` of `send_response` fails and the HEAD path ends in
`abort_req` with the connection in state ErrUnrecoverable, not Complete. When
the file cannot be opened for reading, `serve_head_request`, which opens
nothing, sends status 200 with the four headers, while `serve_get_request`
sends status 403 with the two headers of an error response. -/
theorem serve_head_get_diverge :
    (resolves_to (reset_host []) scenario_settings "/".toList "/srv/www/index.html".toList
      ∧ (reset_host []).stat_size "/srv/www/index.html".toList = .ok 6
      ∧ serve_head_request (reset_host []) 0 ⟨HTTP_HEAD, "/".toList, HTTP_11⟩ scenario_settings
          fresh_machine
        = .aborted { fresh_machine with
            fs_calls := [fs_call.realpath "/srv/www/index.html".toList,
                         fs_call.stat "/srv/www/index.html".toList],
            sock_writes := 1,
            conn := { fresh_machine.conn with state := CONN_ERR_UNRECOVERABLE } })
    ∧ (resolves_to unreadable_host scenario_settings "/".toList "/srv/www/index.html".toList
      ∧ unreadable_host.stat_size "/srv/www/index.html".toList = .ok 6
      ∧ serve_head_request unreadable_host 0 ⟨HTTP_HEAD, "/".toList, HTTP_11⟩ scenario_settings
          fresh_machine
        = .ret () { fresh_machine with
            fs_calls := [fs_call.realpath "/srv/www/index.html".toList,
                         fs_call.stat "/srv/www/index.html".toList],
            sock_writes := 1,
            sock_out := ("HTTP/1.1 200 OK\r\nDate: Tue, 7 Jan 2025 14:03:09 GMT\r\n"
              ++ "Content-Length: 6\r\nContent-Type: text/html\r\nConnection: Close\r\n").toList,
            conn := { fresh_machine.conn with state := CONN_COMPLETE } }
      ∧ serve_get_request unreadable_host 0 ⟨HTTP_GET, "/".toList, HTTP_11⟩ scenario_settings
          fresh_machine
        = .ret () { fresh_machine with
            fs_calls := [fs_call.realpath "/srv/www/index.html".toList,
                         fs_call.stat "/srv/www/index.html".toList,
                         fs_call.open_file "/srv/www/index.html".toList],
            sock_writes := 1,
            sock_out := ("HTTP/1.1 403 Forbidden\r\nDate: Tue, 7 Jan 2025 14:03:09 GMT\r\n"
              ++ "Content-Length: 0\r\n").toList,
            conn := { fresh_machine.conn with state := CONN_COMPLETE } }) :=
  ⟨⟨⟨rfl, by decide, rfl⟩, rfl, by decide⟩, ⟨⟨rfl, by decide, rfl⟩, rfl, by decide, by decide⟩⟩

/-! ## The path handed to `realpath` -/

theorem final_and_then_ret_none {α : Type} (o : outcome Unit) :
    (o.and_then (fun _ m2 => (outcome.ret none m2 : outcome (Option α)))).final = o.final := by
  cases o <;> rfl

/-- However `resolve_path` ends, the one call on the file system it has made is
the `realpath` of the composed path. -/
theorem resolve_path_fs_calls (h : host) (fuel : Nat) (uri : List Char)
    (settings : server_settings) (m m' : machine)
    (hf : (resolve_path h fuel uri settings m).final = some m') :
    m'.fs_calls = m.fs_calls ++ [fs_call.realpath (resolve_path_buf settings.static_dir uri)] := by
  unfold resolve_path at hf
  simp only at hf
  split at hf
  · rw [final_and_then_ret_none] at hf
    exact (error_response_keeps h fuel _ _ m' hf).1
  · split_ifs at hf
    all_goals
      first
      | (rw [final_and_then_ret_none] at hf
         exact (error_response_keeps h fuel _ _ m' hf).1)
      | (simp only [outcome.final, Option.some.injEq] at hf
         subst hf
         rfl)

theorem strcmp_eq_of_clean (a b : List Char) (ha : NUL ∉ a) (hb : NUL ∉ b) :
    strcmp_eq a b = true ↔ a = b := by
  unfold strcmp_eq
  rw [cstr_of_not_mem a ha, cstr_of_not_mem b hb]
  simp

/-- C21: for every document root `R` and URI `u` (C strings) whose composition
fits, with its terminator, in the 4096 bytes of `path_buf`, the path that
`resolve_path` composes is `R/index.html` when `u` is empty or `/`, and `R`,
`/`, `u` for every other `u`; and this is the path `resolve_path` hands to
`realpath`: however its run ends, that one call is what it has added to the
calls on the file system. -/
theorem resolve_path_composition (h : host) (fuel : Nat) (R u : List Char)
    (settings : server_settings) (m : machine) (hR : NUL ∉ R) (hu : NUL ∉ u)
    (hdir : settings.static_dir = R) :
    ((u = [] ∨ u = "/".toList) → (R ++ "/index.html".toList).length < 4096 →
      resolve_path_buf R u = R ++ "/index.html".toList)
    ∧ (u ≠ [] → u ≠ "/".toList → (R ++ "/".toList ++ u).length < 4096 →
      resolve_path_buf R u = R ++ "/".toList ++ u)
    ∧ ∀ m', (resolve_path h fuel u settings m).final = some m' →
        m'.fs_calls = m.fs_calls ++ [fs_call.realpath (resolve_path_buf R u)] := by
  have h1 : NUL ∉ "/".toList := by decide
  have h2 : NUL ∉ ([] : List Char) := by decide
  have e1 := strcmp_eq_of_clean u "/".toList hu h1
  have e2 := strcmp_eq_of_clean u [] hu h2
  have e3 : cstr "index.html".toList = "index.html".toList := by decide
  refine ⟨?_, ?_, ?_⟩
  · intro hcase hfit
    have hc : (strcmp_eq u "/".toList || strcmp_eq u "".toList) = true := by
      rcases hcase with e | e
      · rw [Bool.or_eq_true]
        exact Or.inr (e2.2 e)
      · rw [Bool.or_eq_true]
        exact Or.inl (e1.2 e)
    unfold resolve_path_buf
    simp only [hc, if_true, cstr_of_not_mem R hR, e3]
    rw [List.take_of_length_le]
    · simp
    · simp only [List.length_append] at hfit ⊢
      have l1 : "/index.html".toList.length = 11 := rfl
      have l2 : "/".toList.length = 1 := rfl
      have l3 : "index.html".toList.length = 10 := rfl
      omega
  · intro hne hns hfit
    have hc : (strcmp_eq u "/".toList || strcmp_eq u "".toList) = false := by
      rw [Bool.or_eq_false_iff]
      constructor
      · rw [Bool.eq_false_iff]
        exact fun e => hns (e1.1 e)
      · rw [Bool.eq_false_iff]
        exact fun e => hne (e2.1 e)
    unfold resolve_path_buf
    simp only [hc, Bool.false_eq_true, if_false, cstr_of_not_mem R hR, cstr_of_not_mem u hu]
    exact List.take_of_length_le (by omega)
  · intro m' hf
    have := resolve_path_fs_calls h fuel u settings m m' hf
    rw [hdir] at this
    exact this

/-- With the root `/srv/www`, the URI `/` is composed to `/srv/www/index.html`
and the URI `/a.txt` to `/srv/www//a.txt`. -/
theorem resolve_path_composition_witness :
    resolve_path_buf "/srv/www".toList "/".toList = "/srv/www/index.html".toList
    ∧ resolve_path_buf "/srv/www".toList "/a.txt".toList = "/srv/www//a.txt".toList :=
  ⟨(resolve_path_composition (scenario_host []) 0 "/srv/www".toList "/".toList scenario_settings
      fresh_machine (by decide) (by decide) rfl).1 (Or.inr rfl) (by decide),
   (resolve_path_composition (scenario_host []) 0 "/srv/www".toList "/a.txt".toList
      scenario_settings fresh_machine (by decide) (by decide) rfl).2.1 (by decide) (by decide)
      (by decide)⟩

/-! ## The streaming loop -/

theorem sending_conn_drained (m : machine) (hm : sending_conn m) :
    (m.conn.read_buf_len = 0 ∨ m.conn.read_buf_cursor = m.conn.read_buf_len)
      ↔ m.conn.read_buf_cursor = m.conn.read_buf_len := by
  obtain ⟨-, -, h3, -⟩ := hm
  constructor
  · rintro (h | h)
    · omega
    · exact h
  · exact Or.inr

theorem write_offer_length (m : machine) (hm : sending_conn m) :
    (write_offer m).length = m.conn.read_buf_len - m.conn.read_buf_cursor := by
  obtain ⟨-, -, h3, h4⟩ := hm
  unfold write_offer
  rw [List.length_take, List.length_drop]
  omega

/-- The first half of the loop body in a state with bytes left in the buffer:
nothing is read. -/
theorem fill_of_pending (h : host) (m : machine) (hm : sending_conn m)
    (hp : m.conn.read_buf_cursor ≠ m.conn.read_buf_len) :
    process_request_write_fill h m = .go m := by
  have := (sending_conn_drained m hm).not.2 hp
  unfold process_request_write_fill
  rw [if_neg this]

theorem fill_of_error (h : host) (m : machine) (hm : sending_conn m) (e : Nat)
    (hd : m.conn.read_buf_cursor = m.conn.read_buf_len)
    (hr : h.file_read m.file_reads m.conn.read_buf_size = .error e) :
    process_request_write_fill h m
      = .stop (.aborted { m with file_reads := m.file_reads + 1,
                                 conn := { m.conn with state := CONN_ERR_UNRECOVERABLE } }) := by
  have := (sending_conn_drained m hm).2 hd
  unfold process_request_write_fill
  rw [if_pos this]
  simp only [hr]

theorem fill_of_eof (h : host) (m : machine) (hm : sending_conn m) (bytes : List Char)
    (hd : m.conn.read_buf_cursor = m.conn.read_buf_len)
    (hr : h.file_read m.file_reads m.conn.read_buf_size = .ok bytes)
    (he : bytes.take m.conn.read_buf_size = []) :
    process_request_write_fill h m
      = .stop (.ret () { m with file_reads := m.file_reads + 1,
                                conn := { m.conn with state := CONN_COMPLETE } }) := by
  have := (sending_conn_drained m hm).2 hd
  unfold process_request_write_fill
  rw [if_pos this]
  simp only [hr, he, List.length_nil, if_true]

theorem fill_of_data (h : host) (m : machine) (hm : sending_conn m) (bytes : List Char)
    (hd : m.conn.read_buf_cursor = m.conn.read_buf_len)
    (hr : h.file_read m.file_reads m.conn.read_buf_size = .ok bytes)
    (he : bytes.take m.conn.read_buf_size ≠ []) :
    process_request_write_fill h m
      = .go { m with file_reads := m.file_reads + 1,
                     conn := { m.conn with
                       read_buf := some (bytes.take m.conn.read_buf_size),
                       read_buf_len := (bytes.take m.conn.read_buf_size).length,
                       read_buf_cursor := 0 } } := by
  have := (sending_conn_drained m hm).2 hd
  have hl : (bytes.take m.conn.read_buf_size).length ≠ 0 := by
    rwa [Ne, List.length_eq_zero]
  unfold process_request_write_fill
  rw [if_pos this]
  simp only [hr, hl, if_false]

theorem sending_conn_filled (m : machine) (hm : sending_conn m) (chunk : List Char) (k : Nat) :
    sending_conn { m with file_reads := k,
                          conn := { m.conn with read_buf := some chunk,
                                                read_buf_len := chunk.length,
                                                read_buf_cursor := 0 } } := by
  obtain ⟨h1, h2, -, -⟩ := hm
  exact ⟨h1, h2, Nat.zero_le _, le_refl _⟩

/-- The second half of the loop body when the socket reports an error. -/
theorem send_of_error (h : host) (m : machine) (e : Nat)
    (hp : m.conn.read_buf_cursor < m.conn.read_buf_len)
    (hw : h.sock_write m.sock_writes (write_offer m) = .error e) :
    process_request_write_send h m
      = if e = EAGAIN then .stop (.ret () { m with sock_writes := m.sock_writes + 1 })
        else .stop (.aborted { m with sock_writes := m.sock_writes + 1,
                                      conn := { m.conn with state := CONN_ERR_UNRECOVERABLE } }) := by
  unfold write_offer at hw
  unfold process_request_write_send
  rw [if_neg (by omega)]
  simp only [hw]

/-- The second half of the loop body when the socket accepts bytes. -/
theorem send_of_ok (h : host) (m : machine) (n : Nat)
    (hp : m.conn.read_buf_cursor < m.conn.read_buf_len)
    (hw : h.sock_write m.sock_writes (write_offer m) = .ok n) :
    process_request_write_send h m
      = .go { m with
              sock_writes := m.sock_writes + 1,
              sock_out := m.sock_out ++ (write_offer m).take (min n (write_offer m).length),
              conn := { m.conn with
                read_buf_cursor := m.conn.read_buf_cursor + min n (write_offer m).length } } := by
  unfold write_offer at hw ⊢
  unfold process_request_write_send
  rw [if_neg (by omega)]
  simp only [hw]

theorem sending_conn_sent (m : machine) (hm : sending_conn m) (out : List Char) (k n : Nat)
    (hn : n ≤ (write_offer m).length) :
    sending_conn { m with sock_writes := k, sock_out := out,
                          conn := { m.conn with
                            read_buf_cursor := m.conn.read_buf_cursor + n } } := by
  have hl := write_offer_length m hm
  obtain ⟨h1, h2, h3, h4⟩ := hm
  refine ⟨h1, h2, ?_, h4⟩
  show m.conn.read_buf_cursor + n ≤ m.conn.read_buf_len
  omega

/-- From a Sending state the loop body reaches its `write`, unless the `read`
on the file fails or delivers nothing. -/
theorem loop_body_fill (h : host) (m : machine) (hm : sending_conn m) :
    (∃ e, m.conn.read_buf_cursor = m.conn.read_buf_len
        ∧ h.file_read m.file_reads m.conn.read_buf_size = .error e
        ∧ process_request_write_fill h m
          = .stop (.aborted { m with file_reads := m.file_reads + 1,
                                     conn := { m.conn with state := CONN_ERR_UNRECOVERABLE } }))
    ∨ (∃ bytes, m.conn.read_buf_cursor = m.conn.read_buf_len
        ∧ h.file_read m.file_reads m.conn.read_buf_size = .ok bytes
        ∧ bytes.take m.conn.read_buf_size = []
        ∧ process_request_write_fill h m
          = .stop (.ret () { m with file_reads := m.file_reads + 1,
                                    conn := { m.conn with state := CONN_COMPLETE } }))
    ∨ (∃ m1, write_reached h m m1 ∧ process_request_write_fill h m = .go m1) := by
  by_cases hd : m.conn.read_buf_cursor = m.conn.read_buf_len
  · cases hr : h.file_read m.file_reads m.conn.read_buf_size with
    | error e => exact Or.inl ⟨e, hd, rfl, fill_of_error h m hm e hd hr⟩
    | ok bytes =>
      by_cases he : bytes.take m.conn.read_buf_size = []
      · exact Or.inr (Or.inl ⟨bytes, hd, rfl, he, fill_of_eof h m hm bytes hd hr he⟩)
      · refine Or.inr (Or.inr ⟨after_fill m (bytes.take m.conn.read_buf_size), ⟨?_, ?_, ?_⟩,
          fill_of_data h m hm bytes hd hr he⟩)
        · exact sending_conn_filled m hm _ _
        · exact List.length_pos.2 he
        · exact Or.inr ⟨hd, bytes, hr, he, rfl⟩
  · refine Or.inr (Or.inr ⟨m, ⟨hm, ?_, Or.inl ⟨rfl, hd⟩⟩, fill_of_pending h m hm hd⟩)
    have := hm.2.2.1
    omega

/-- What one pass through the loop body does from a Sending state `m`: the
five cases of the code. -/
theorem loop_unfold (h : host) (fuel : Nat) (m : machine) (hm : sending_conn m) :
    (∃ e, m.conn.read_buf_cursor = m.conn.read_buf_len
        ∧ h.file_read m.file_reads m.conn.read_buf_size = .error e
        ∧ process_request_write_loop h (fuel + 1) m
          = .aborted { m with file_reads := m.file_reads + 1,
                              conn := { m.conn with state := CONN_ERR_UNRECOVERABLE } })
    ∨ (∃ bytes, m.conn.read_buf_cursor = m.conn.read_buf_len
        ∧ h.file_read m.file_reads m.conn.read_buf_size = .ok bytes
        ∧ bytes.take m.conn.read_buf_size = []
        ∧ process_request_write_loop h (fuel + 1) m
          = .ret () { m with file_reads := m.file_reads + 1,
                             conn := { m.conn with state := CONN_COMPLETE } })
    ∨ (∃ m1, write_reached h m m1
        ∧ h.sock_write m1.sock_writes (write_offer m1) = .error EAGAIN
        ∧ process_request_write_loop h (fuel + 1) m
          = .ret () { m1 with sock_writes := m1.sock_writes + 1 })
    ∨ (∃ m1 e, write_reached h m m1
        ∧ h.sock_write m1.sock_writes (write_offer m1) = .error e ∧ e ≠ EAGAIN
        ∧ process_request_write_loop h (fuel + 1) m
          = .aborted { m1 with sock_writes := m1.sock_writes + 1,
                               conn := { m1.conn with state := CONN_ERR_UNRECOVERABLE } })
    ∨ (∃ m1 n, write_reached h m m1
        ∧ h.sock_write m1.sock_writes (write_offer m1) = .ok n
        ∧ sending_conn (after_send m1 (min n (write_offer m1).length))
        ∧ process_request_write_loop h (fuel + 1) m
          = process_request_write_loop h fuel
              (after_send m1 (min n (write_offer m1).length))) := by
  rcases loop_body_fill h m hm with ⟨e, hd, hr, hfill⟩ | ⟨bytes, hd, hr, he, hfill⟩
    | ⟨m1, hreach, hfill⟩
  · exact Or.inl ⟨e, hd, hr, by rw [process_request_write_loop, hfill]⟩
  · exact Or.inr (Or.inl ⟨bytes, hd, hr, he, by rw [process_request_write_loop, hfill]⟩)
  · have hm1 := hreach.1
    have hp := hreach.2.1
    cases hw : h.sock_write m1.sock_writes (write_offer m1) with
    | error e =>
      have hsend := send_of_error h m1 e hp hw
      by_cases he : e = EAGAIN
      · rw [if_pos he] at hsend
        rw [he] at hw
        exact Or.inr (Or.inr (Or.inl ⟨m1, hreach, hw,
          by rw [process_request_write_loop, hfill]; simp only [hsend]⟩))
      · rw [if_neg he] at hsend
        exact Or.inr (Or.inr (Or.inr (Or.inl ⟨m1, e, hreach, hw, he,
          by rw [process_request_write_loop, hfill]; simp only [hsend]⟩)))
    | ok n =>
      have hsend := send_of_ok h m1 n hp hw
      refine Or.inr (Or.inr (Or.inr (Or.inr ⟨m1, n, hreach, hw, ?_, ?_⟩)))
      · exact sending_conn_sent m1 hm1 _ _ _ (Nat.min_le_right _ _)
      · rw [process_request_write_loop, hfill]
        simp only [hsend]
        rfl

/-- Whatever the fuel, a call of the loop from a Sending state has run out of
fuel or has ended in one of the three ways. -/
theorem loop_ends (h : host) (fuel : Nat) (m : machine) (hm : sending_conn m) :
    (∃ m', process_request_write_loop h fuel m = .out_of_fuel m')
    ∨ ends_would_block h (process_request_write_loop h fuel m)
    ∨ ends_at_eof h (process_request_write_loop h fuel m)
    ∨ ends_in_error h (process_request_write_loop h fuel m) := by
  induction fuel generalizing m with
  | zero => exact Or.inl ⟨m, rfl⟩
  | succ fuel ih =>
    rcases loop_unfold h fuel m hm with ⟨e, hd, hr, ho⟩ | ⟨bytes, hd, hr, he, ho⟩
      | ⟨m1, hreach, hw, ho⟩ | ⟨m1, e, hreach, hw, he, ho⟩ | ⟨m1, n, hreach, hw, hs, ho⟩
    · exact Or.inr (Or.inr (Or.inr ⟨m, e, hm, Or.inl ⟨hd, hr, ho⟩⟩))
    · exact Or.inr (Or.inr (Or.inl ⟨m, bytes, hm, hd, hr, he, ho⟩))
    · exact Or.inr (Or.inl ⟨m1, hreach.1, hw, ho⟩)
    · exact Or.inr (Or.inr (Or.inr ⟨m1, e, hreach.1, Or.inr ⟨hw, he, ho⟩⟩))
    · rw [ho]
      exact ih _ hs

theorem ends_exclusive (h : host) (o : outcome Unit) :
    ¬ (ends_would_block h o ∧ ends_at_eof h o) ∧ ¬ (ends_would_block h o ∧ ends_in_error h o)
      ∧ ¬ (ends_at_eof h o ∧ ends_in_error h o) := by
  refine ⟨?_, ?_, ?_⟩
  · rintro ⟨⟨m1, hm1, -, e1⟩, ⟨m2, bytes, -, -, -, -, e2⟩⟩
    rw [e1] at e2
    simp only [outcome.ret.injEq, true_and] at e2
    have hs := hm1.1
    have : m1.conn.state = CONN_COMPLETE := by
      have := congrArg (fun x => x.conn.state) e2
      exact this
    rw [hs] at this
    exact absurd this (by decide)
  · rintro ⟨⟨m1, -, -, e1⟩, ⟨m2, e, -, hc⟩⟩
    rw [e1] at hc
    rcases hc with ⟨-, -, e2⟩ | ⟨-, -, e2⟩ <;> exact absurd e2 (by simp)
  · rintro ⟨⟨m1, bytes, -, -, -, -, e1⟩, ⟨m2, e, -, hc⟩⟩
    rw [e1] at hc
    rcases hc with ⟨-, -, e2⟩ | ⟨-, -, e2⟩ <;> exact absurd e2 (by simp)

theorem after_fill_size (m : machine) (chunk : List Char) :
    (after_fill m chunk).conn.read_buf_size = m.conn.read_buf_size := rfl

theorem after_send_size (m : machine) (n : Nat) :
    (after_send m n).conn.read_buf_size = m.conn.read_buf_size := rfl

/-- The loop ends within a number of passes that the bytes left in the buffer
and the reads left before the end of the file bound, when every `write` that
succeeds takes at least one byte. -/
theorem loop_terminates (h : host) (size bound : Nat)
    (hpos : ∀ k offered n, h.sock_write k offered = .ok n → offered ≠ [] → 0 < n)
    (hfin : ∀ k bytes, bound ≤ k → h.file_read k size = .ok bytes → bytes.take size = [])
    (fuel : Nat) (m : machine) (hm : sending_conn m) (hsize : m.conn.read_buf_size = size)
    (hfuel : (m.conn.read_buf_len - m.conn.read_buf_cursor) + (bound - m.file_reads) * size
      < fuel) (m' : machine) :
    process_request_write_loop h fuel m ≠ .out_of_fuel m' := by
  induction fuel generalizing m with
  | zero => omega
  | succ fuel ih =>
    rcases loop_unfold h fuel m hm with ⟨e, hd, hr, ho⟩ | ⟨bytes, hd, hr, he, ho⟩
      | ⟨m1, hreach, hw, ho⟩ | ⟨m1, e, hreach, hw, he, ho⟩ | ⟨m1, n, hreach, hw, hs, ho⟩
    · rw [ho]; simp
    · rw [ho]; simp
    · rw [ho]; simp
    · rw [ho]; simp
    · rw [ho]
      obtain ⟨hm1, hp, hcase⟩ := hreach
      have hlen := write_offer_length m1 hm1
      have hne : write_offer m1 ≠ [] := by
        intro e
        rw [e] at hlen
        simp only [List.length_nil] at hlen
        omega
      have hn := hpos _ _ _ hw hne
      have hmin : 0 < min n (write_offer m1).length := by
        rw [hlen]
        omega
      have hmin2 : min n (write_offer m1).length ≤ m1.conn.read_buf_len
          - m1.conn.read_buf_cursor := by
        rw [← hlen]
        exact Nat.min_le_right _ _
      rcases hcase with ⟨rfl, hpend⟩ | ⟨hd, bytes, hr, hdata, rfl⟩
      · refine ih _ hs hsize ?_
        show (m1.conn.read_buf_len - (m1.conn.read_buf_cursor + min n (write_offer m1).length))
          + (bound - m1.file_reads) * size < fuel
        omega
      · have hlt : m.file_reads < bound := by
          by_contra hge
          rw [hsize] at hr hdata
          exact hdata (hfin _ _ (by omega) hr)
        have hchunk : (bytes.take m.conn.read_buf_size).length ≤ size := by
          rw [List.length_take, hsize]
          exact Nat.min_le_left _ _
        refine ih _ hs hsize ?_
        show ((bytes.take m.conn.read_buf_size).length
            - (0 + min n (write_offer (after_fill m (bytes.take m.conn.read_buf_size))).length))
          + (bound - (m.file_reads + 1)) * size < fuel
        have hmul : (bound - m.file_reads) * size
            = (bound - (m.file_reads + 1)) * size + size := by
          have : bound - m.file_reads = (bound - (m.file_reads + 1)) + 1 := by omega
          rw [this, Nat.add_mul, Nat.one_mul]
        have hl1 : (after_fill m (bytes.take m.conn.read_buf_size)).conn.read_buf_len
            = (bytes.take m.conn.read_buf_size).length := rfl
        have hc1 : (after_fill m (bytes.take m.conn.read_buf_size)).conn.read_buf_cursor
            = 0 := rfl
        rw [hl1, hc1] at hmin2
        rw [hmul] at hfuel
        omega

/-- C25: a call of `process_request_write` on a connection in state Sending
(with its body file open and the cursor within the filled buffer) ends, when it
ends, in exactly one of three ways: a `write` on the socket reports `EAGAIN`,
which is `EWOULDBLOCK`, and the call returns with the state Sending and the
buffer, its filled length and its cursor as they were at that `write`; the
`read` on the file delivers no byte while the buffer is drained, and the state
becomes Complete; or the `read` or the `write` fails with another error, and
the state becomes ErrUnrecoverable before the abort. No assertion fails. The
call does end when every `write` that succeeds takes a byte and the file has an
end: fuel beyond the bytes left in the buffer plus the buffer size for every
`read` left before the end of the file is enough. -/
theorem process_request_write_ends (h : host) (fuel : Nat) (m : machine)
    (hm : sending_conn m) :
    ((∃ m', process_request_write h fuel m = .out_of_fuel m')
      ∨ ends_would_block h (process_request_write h fuel m)
      ∨ ends_at_eof h (process_request_write h fuel m)
      ∨ ends_in_error h (process_request_write h fuel m))
    ∧ (¬ (ends_would_block h (process_request_write h fuel m)
          ∧ ends_at_eof h (process_request_write h fuel m))
      ∧ ¬ (ends_would_block h (process_request_write h fuel m)
          ∧ ends_in_error h (process_request_write h fuel m))
      ∧ ¬ (ends_at_eof h (process_request_write h fuel m)
          ∧ ends_in_error h (process_request_write h fuel m)))
    ∧ ∀ bound,
        (∀ k offered n, h.sock_write k offered = .ok n → offered ≠ [] → 0 < n) →
        (∀ k bytes, bound ≤ k → h.file_read k m.conn.read_buf_size = .ok bytes →
          bytes.take m.conn.read_buf_size = []) →
        (m.conn.read_buf_len - m.conn.read_buf_cursor)
            + (bound - m.file_reads) * m.conn.read_buf_size < fuel →
        ∀ m', process_request_write h fuel m ≠ .out_of_fuel m' := by
  have e : process_request_write h fuel m = process_request_write_loop h fuel m := by
    unfold process_request_write
    rw [if_neg hm.2.1]
  rw [e]
  exact ⟨loop_ends h fuel m hm, ends_exclusive h _,
    fun bound hpos hfin hfuel m' =>
      loop_terminates h _ bound hpos hfin fuel m hm rfl hfuel m'⟩

/-- The file of `/` of the scenarios, six bytes read in one piece into a
buffer of 4096 bytes: the call ends in one of the three ways, and fuel 4097 is
enough for it to end. -/
theorem process_request_write_ends_witness :
    ((∃ m', process_request_write (scenario_host []) 4097 sending_machine = .out_of_fuel m')
      ∨ ends_would_block (scenario_host [])
          (process_request_write (scenario_host []) 4097 sending_machine)
      ∨ ends_at_eof (scenario_host [])
          (process_request_write (scenario_host []) 4097 sending_machine)
      ∨ ends_in_error (scenario_host [])
          (process_request_write (scenario_host []) 4097 sending_machine))
    ∧ ∀ m', process_request_write (scenario_host []) 4097 sending_machine ≠ .out_of_fuel m' :=
  ⟨(process_request_write_ends (scenario_host []) 4097 sending_machine
      ⟨rfl, by decide, by decide, by decide⟩).1,
   (process_request_write_ends (scenario_host []) 4097 sending_machine
      ⟨rfl, by decide, by decide, by decide⟩).2.2 1
      (fun _ offered n hw hne => by
        have e : offered.length = n := by
          simpa [scenario_host] using hw
        rw [← e]
        exact List.length_pos.2 hne)
      (fun k bytes hk hr => by
        have e : k ≠ 0 := by omega
        have : bytes = [] := by
          simpa [scenario_host, e] using hr.symm
        rw [this]
        rfl)
      (by decide)⟩

/-! ## Streaming a file over several calls -/

theorem write_offer_of_drained (m : machine)
    (hd : m.conn.read_buf_cursor = m.conn.read_buf_len) : write_offer m = [] := by
  unfold write_offer
  rw [hd, Nat.sub_self, List.take_zero]

theorem write_offer_after_fill (m : machine) (chunk : List Char) :
    write_offer (after_fill m chunk) = chunk := by
  simp [write_offer, after_fill]

theorem write_offer_after_send (m : machine) (n : Nat) :
    write_offer (after_send m n) = (write_offer m).drop n := by
  unfold write_offer
  simp only [after_send]
  rw [List.drop_take, List.drop_drop]
  congr 1
  omega

theorem getD_take_eq_nil (chunks : List (List Char)) (size j : Nat)
    (hc : ∀ c ∈ chunks, c ≠ [] ∧ c.length ≤ size)
    (he : (chunks.getD j []).take size = []) : chunks.drop j = [] := by
  by_contra hne
  have hj : j < chunks.length := by
    by_contra hge
    exact hne (List.drop_eq_nil_of_le (by omega))
  have hmem : chunks.getD j [] ∈ chunks := by
    rw [List.getD_eq_getElem _ _ hj]
    exact List.getElem_mem _
  obtain ⟨h1, h2⟩ := hc _ hmem
  rw [List.take_of_length_le h2] at he
  exact h1 he

theorem getD_take_ne_nil (chunks : List (List Char)) (size j : Nat)
    (hc : ∀ c ∈ chunks, c ≠ [] ∧ c.length ≤ size)
    (he : (chunks.getD j []).take size ≠ []) :
    chunks.drop j = (chunks.getD j []).take size :: chunks.drop (j + 1) := by
  have hj : j < chunks.length := by
    by_contra hge
    rw [List.getD_eq_default _ _ (by omega)] at he
    exact he (by simp)
  have hmem : chunks.getD j [] ∈ chunks := by
    rw [List.getD_eq_getElem _ _ hj]
    exact List.getElem_mem _
  rw [List.take_of_length_le (hc _ hmem).2, List.getD_eq_getElem _ _ hj]
  exact List.drop_eq_getElem_cons hj

/-- The invariant holds again in the state in which the loop body reaches its
`write`. -/
theorem stream_inv_write_reached (h : host) (m0 : machine) (chunks : List (List Char))
    (hsched : streaming_schedule h m0 chunks) (m m1 : machine)
    (hinv : stream_inv m0 chunks m) (hreach : write_reached h m m1) :
    stream_inv m0 chunks m1 ∧ m1.sock_writes = m.sock_writes := by
  obtain ⟨hm1, -, hcase⟩ := hreach
  rcases hcase with ⟨rfl, -⟩ | ⟨hd, bytes, hr, hdata, rfl⟩
  · exact ⟨hinv, rfl⟩
  · obtain ⟨j, hm, hsize, hreads, hlen, heq⟩ := hinv
    obtain ⟨hc, hfile, -⟩ := hsched
    rw [hreads, hsize, hfile j] at hr
    have hb : bytes = chunks.getD j [] := by
      injection hr with e
      exact e.symm
    rw [hsize, hb] at hdata
    refine ⟨⟨j + 1, hm1, hsize, ?_, hlen, ?_⟩, rfl⟩
    · show m.file_reads + 1 = m0.file_reads + (j + 1)
      omega
    · rw [write_offer_after_fill, hsize, hb]
      rw [write_offer_of_drained m hd, getD_take_ne_nil chunks _ j hc hdata] at heq
      rw [← heq]
      simp [after_fill]

theorem stream_inv_after_send (m0 : machine) (chunks : List (List Char)) (m1 : machine)
    (n : Nat) (hinv : stream_inv m0 chunks m1) (hn : n ≤ (write_offer m1).length)
    (hs : sending_conn (after_send m1 n)) :
    stream_inv m0 chunks (after_send m1 n)
      ∧ (after_send m1 n).sock_out.length = m1.sock_out.length + n := by
  obtain ⟨j, hm, hsize, hreads, hlen, heq⟩ := hinv
  have hout : (after_send m1 n).sock_out = m1.sock_out ++ (write_offer m1).take n := rfl
  refine ⟨⟨j, hs, hsize, hreads, ?_, ?_⟩, ?_⟩
  · rw [hout, List.length_append]
    omega
  · rw [write_offer_after_send, hout, ← heq, List.append_assoc m1.sock_out,
      List.take_append_drop]
  · rw [hout, List.length_append, List.length_take, Nat.min_eq_left hn]

theorem stream_inv_length (m0 : machine) (chunks : List (List Char)) (m1 : machine)
    (hinv : stream_inv m0 chunks m1) :
    m1.sock_out.length ≤ m0.sock_out.length + chunks.flatten.length := by
  obtain ⟨j, -, -, -, -, heq⟩ := hinv
  have := congrArg List.length heq
  simp only [List.length_append] at this
  omega

/-- A run of the loop on a streaming schedule: it runs out of fuel only when the
fuel is less than the bytes still to send; otherwise it returns, either at the
end of the file, with all the bytes of the file sent, or on a socket that would
block, with the invariant. -/
theorem stream_loop (h : host) (m0 : machine) (chunks : List (List Char))
    (hsched : streaming_schedule h m0 chunks) (fuel : Nat) (m1 : machine)
    (hinv : stream_inv m0 chunks m1) :
    (∃ m', process_request_write_loop h fuel m1 = .out_of_fuel m'
        ∧ fuel + m1.sock_out.length ≤ m0.sock_out.length + chunks.flatten.length)
    ∨ (∃ m2, process_request_write_loop h fuel m1 = .ret () m2
        ∧ m2.conn.state = CONN_COMPLETE ∧ m2.sock_out = m0.sock_out ++ chunks.flatten)
    ∨ (∃ m2 k offered, process_request_write_loop h fuel m1 = .ret () m2
        ∧ stream_inv m0 chunks m2 ∧ m1.sock_writes ≤ k ∧ m2.sock_writes = k + 1
        ∧ h.sock_write k offered = .error EAGAIN) := by
  induction fuel generalizing m1 with
  | zero =>
    exact Or.inl ⟨m1, rfl, by have := stream_inv_length m0 chunks m1 hinv; omega⟩
  | succ fuel ih =>
    have hm1 : sending_conn m1 := by
      obtain ⟨j, hm, -⟩ := hinv
      exact hm
    rcases loop_unfold h fuel m1 hm1 with ⟨e, hd, hr, ho⟩ | ⟨bytes, hd, hr, he, ho⟩
      | ⟨m2, hreach, hw, ho⟩ | ⟨m2, e, hreach, hw, he, ho⟩ | ⟨m2, n, hreach, hw, hs, ho⟩
    · obtain ⟨j, -, hsize, hreads, -, -⟩ := hinv
      rw [hreads, hsize, hsched.2.1 j] at hr
      exact absurd hr (by simp)
    · obtain ⟨j, -, hsize, hreads, -, heq⟩ := hinv
      rw [hreads, hsize, hsched.2.1 j] at hr
      have hb : bytes = chunks.getD j [] := by
        injection hr with e
        exact e.symm
      rw [hsize, hb] at he
      rw [write_offer_of_drained m1 hd, getD_take_eq_nil chunks _ j hsched.1 he] at heq
      refine Or.inr (Or.inl ⟨_, ho, rfl, ?_⟩)
      simpa using heq
    · obtain ⟨hinv2, hwr⟩ := stream_inv_write_reached h m0 chunks hsched m1 m2 hinv hreach
      refine Or.inr (Or.inr ⟨_, m2.sock_writes, write_offer m2, ho, ?_, by omega, rfl, hw⟩)
      obtain ⟨j, hm, hsize, hreads, hlen, heq⟩ := hinv2
      exact ⟨j, ⟨hm.1, hm.2.1, hm.2.2.1, hm.2.2.2⟩, hsize, hreads, hlen, heq⟩
    · have hlen := write_offer_length m2 hreach.1
      have hne : write_offer m2 ≠ [] := by
        intro e0
        rw [e0] at hlen
        simp only [List.length_nil] at hlen
        have := hreach.2.1
        omega
      rcases hsched.2.2 m2.sock_writes _ hne with hx | ⟨n, -, -, hx⟩
      · rw [hx] at hw
        injection hw with e0
        exact absurd e0.symm he
      · rw [hx] at hw
        exact absurd hw (by simp)
    · obtain ⟨hinv2, hwr⟩ := stream_inv_write_reached h m0 chunks hsched m1 m2 hinv hreach
      have hlen := write_offer_length m2 hreach.1
      have hne : write_offer m2 ≠ [] := by
        intro e0
        rw [e0] at hlen
        simp only [List.length_nil] at hlen
        have := hreach.2.1
        omega
      have hn : 0 < n ∧ n ≤ (write_offer m2).length := by
        rcases hsched.2.2 m2.sock_writes _ hne with hx | ⟨n', h1, h2, hx⟩
        · rw [hx] at hw
          exact absurd hw (by simp)
        · rw [hx] at hw
          injection hw with e0
          rw [← e0]
          exact ⟨h1, h2⟩
      rw [Nat.min_eq_left hn.2] at hs ho
      obtain ⟨hinv3, hout⟩ := stream_inv_after_send m0 chunks m2 n hinv2 hn.2 hs
      have hout2 : m2.sock_out = m1.sock_out := by
        rcases hreach.2.2 with ⟨rfl, -⟩ | ⟨-, bytes, -, -, rfl⟩
        · rfl
        · rfl
      have hw3 : (after_send m2 n).sock_writes = m2.sock_writes + 1 := rfl
      rw [ho]
      rcases ih _ hinv3 with ⟨m', e1, e2⟩ | ⟨m3, e1, e2, e3⟩ | ⟨m3, k, offered, e1, e2, e3, e4, e5⟩
      · exact Or.inl ⟨m', e1, by rw [hout, hout2] at e2; omega⟩
      · exact Or.inr (Or.inl ⟨m3, e1, e2, e3⟩)
      · exact Or.inr (Or.inr ⟨m3, k, offered, e1, e2, by omega, e4, e5⟩)

theorem process_request_write_of_sending (h : host) (fuel : Nat) (m : machine)
    (hm : sending_conn m) :
    process_request_write h fuel m = process_request_write_loop h fuel m := by
  unfold process_request_write
  rw [if_neg hm.2.1]

/-- The calls made on a streaming schedule run out of fuel (or of calls) or
return at the end of the file with all its bytes sent. -/
theorem stream_calls_cases (h : host) (m0 : machine) (chunks : List (List Char))
    (hsched : streaming_schedule h m0 chunks) (fuel calls : Nat) (m1 : machine)
    (hinv : stream_inv m0 chunks m1) :
    (∃ m', process_request_write_calls h fuel calls m1 = .out_of_fuel m')
    ∨ (∃ m2, process_request_write_calls h fuel calls m1 = .ret () m2
        ∧ m2.conn.state = CONN_COMPLETE ∧ m2.sock_out = m0.sock_out ++ chunks.flatten) := by
  induction calls generalizing m1 with
  | zero => exact Or.inl ⟨m1, rfl⟩
  | succ calls ih =>
    have hm1 : sending_conn m1 := by
      obtain ⟨j, hm, -⟩ := hinv
      exact hm
    rw [process_request_write_calls, process_request_write_of_sending h fuel m1 hm1]
    rcases stream_loop h m0 chunks hsched fuel m1 hinv with ⟨m', e1, -⟩ | ⟨m2, e1, e2, e3⟩
      | ⟨m2, k, offered, e1, e2, -, -, -⟩
    · rw [e1]
      exact Or.inl ⟨m', rfl⟩
    · rw [e1]
      simp only [e2]
      exact Or.inr ⟨m2, by simp, e2, e3⟩
    · rw [e1]
      have hs : m2.conn.state = CONN_SENDING := by
        obtain ⟨j, hm, -⟩ := e2
        exact hm.1
      simp only [hs, if_true]
      exact ih m2 e2

/-- With fuel beyond the length of the file for each call, and more calls than
there are `write`s that report `EAGAIN`, the calls reach the end of the file. -/
theorem stream_calls_total (h : host) (m0 : machine) (chunks : List (List Char))
    (hsched : streaming_schedule h m0 chunks) (fuel last : Nat)
    (hlive : ∀ k offered, last ≤ k → h.sock_write k offered ≠ .error EAGAIN)
    (hfuel : chunks.flatten.length < fuel) (calls : Nat) (m1 : machine)
    (hinv : stream_inv m0 chunks m1) (hcalls : last - m1.sock_writes < calls) :
    ∃ m2, process_request_write_calls h fuel calls m1 = .ret () m2
      ∧ m2.conn.state = CONN_COMPLETE ∧ m2.sock_out = m0.sock_out ++ chunks.flatten := by
  induction calls generalizing m1 with
  | zero => omega
  | succ calls ih =>
    have hm1 : sending_conn m1 := by
      obtain ⟨j, hm, -⟩ := hinv
      exact hm
    have hlen : m0.sock_out.length ≤ m1.sock_out.length := by
      obtain ⟨j, -, -, -, hl, -⟩ := hinv
      exact hl
    rw [process_request_write_calls, process_request_write_of_sending h fuel m1 hm1]
    rcases stream_loop h m0 chunks hsched fuel m1 hinv with ⟨m', -, e2⟩ | ⟨m2, e1, e2, e3⟩
      | ⟨m2, k, offered, e1, e2, e3, e4, e5⟩
    · omega
    · rw [e1]
      simp only [e2]
      exact ⟨m2, by simp, e2, e3⟩
    · rw [e1]
      have hs : m2.conn.state = CONN_SENDING := by
        obtain ⟨j, hm, -⟩ := e2
        exact hm.1
      simp only [hs, if_true]
      have hk : k < last := by
        by_contra hge
        exact hlive k offered (by omega) e5
      exact ih m2 e2 (by omega)

theorem stream_inv_start (m : machine) (chunks : List (List Char)) (hm : sending_conn m)
    (hd : m.conn.read_buf_cursor = m.conn.read_buf_len) : stream_inv m chunks m :=
  ⟨0, hm, rfl, rfl, le_refl _, by rw [write_offer_of_drained m hd]; simp⟩

/-- C24: let a connection in state Sending with a drained buffer stream a file
whose reads deliver the chunks of `chunks` one after the other, each with at
least one byte and no more than the buffer takes, and then nothing, over a
socket whose `write` accepts at least one and at most all of the bytes offered
or reports `EAGAIN`. Whenever the calls of `process_request_write` end, they
end with the call that sets Complete, and then the socket has got, after what
it had got before, exactly the bytes of the file, `chunks.flatten`, in their
order; no call aborts or fails an assertion. And the calls do end so: with
fuel beyond the length of the file and more calls than there are `write`s
reporting `EAGAIN`. -/
theorem process_request_write_streams (h : host) (m : machine) (chunks : List (List Char))
    (hm : sending_conn m) (hd : m.conn.read_buf_cursor = m.conn.read_buf_len)
    (hsched : streaming_schedule h m chunks) :
    (∀ fuel calls,
      (∃ m', process_request_write_calls h fuel calls m = .out_of_fuel m')
      ∨ (∃ m', process_request_write_calls h fuel calls m = .ret () m'
          ∧ m'.conn.state = CONN_COMPLETE ∧ m'.sock_out = m.sock_out ++ chunks.flatten))
    ∧ (∀ fuel calls blocked,
        (∀ k offered, m.sock_writes + blocked ≤ k → h.sock_write k offered ≠ .error EAGAIN) →
        chunks.flatten.length < fuel → blocked < calls →
        ∃ m', process_request_write_calls h fuel calls m = .ret () m'
          ∧ m'.conn.state = CONN_COMPLETE ∧ m'.sock_out = m.sock_out ++ chunks.flatten) := by
  have hinv := stream_inv_start m chunks hm hd
  refine ⟨fun fuel calls => stream_calls_cases h m chunks hsched fuel calls m hinv, ?_⟩
  intro fuel calls blocked hlive hfuel hcalls
  exact stream_calls_total h m chunks hsched fuel (m.sock_writes + blocked) hlive hfuel calls m
    hinv (by omega)

/-- The six bytes `hello\n`, read in the chunks `hel` and `lo\n` and written two
bytes at a time, with the first and the third `write` reporting `EAGAIN`: after
three calls the socket has got `hello\n`, and the connection is Complete. -/
theorem process_request_write_streams_witness :
    ∃ m', process_request_write_calls trickle_host 7 4 sending_machine = .ret () m'
      ∧ m'.conn.state = CONN_COMPLETE
      ∧ m'.sock_out = sending_machine.sock_out
          ++ ["hel".toList, "lo\n".toList].flatten :=
  (process_request_write_streams trickle_host sending_machine ["hel".toList, "lo\n".toList]
    ⟨rfl, by decide, by decide, by decide⟩ rfl
    ⟨by decide, fun k => by simp [trickle_host, sending_machine, fresh_machine],
     fun k offered hne => by
      by_cases hk : k = 0 ∨ k = 2
      · exact Or.inl (by simp [trickle_host, hk])
      · refine Or.inr ⟨min 2 offered.length, ?_, Nat.min_le_right _ _, by simp [trickle_host, hk]⟩
        have := List.length_pos.2 hne
        omega⟩).2 7 4 3
    (fun k offered hk => by
      have h0 : ¬ (k = 0 ∨ k = 2) := by
        have : sending_machine.sock_writes = 0 := rfl
        omega
      simp [trickle_host, h0])
    (by decide) (by decide)

/-! ## A short write of the header -/

/-- C23, the code at the failing input: the socket accepts ten of the 118 bytes
of the header section of the response to `GET /`. `send_response` tests the
result of this `write` for `-1` only and goes on: the six bytes of the file
follow the ten bytes of the header on the socket, and the connection ends in
state Complete, not ErrUnrecoverable. On the 404 for a missing file the
connection ends in Complete after ten of its bytes. -/
theorem send_response_short_write :
    (spec_response_section (file_response (scenario_host [])
        ⟨HTTP_GET, "/".toList, HTTP_11⟩ ⟨6, HTTP_CT_HTML⟩ 6)).length = 118
    ∧ process_request (short_write_host "GET / HTTP/1.1\r\n\r\n".toList) 3 scenario_settings
        fresh_machine
      = .ret () { conn := { state := CONN_COMPLETE, file_fd := 7, read_buf_size := 4096,
                            read_buf_len := 6, read_buf_cursor := 6,
                            read_buf := some "hello\n".toList },
                  sock_out := "HTTP/1.1 2hello\n".toList, sock_writes := 2, file_reads := 2,
                  fs_calls := [fs_call.realpath "/srv/www/index.html".toList,
                               fs_call.stat "/srv/www/index.html".toList,
                               fs_call.open_file "/srv/www/index.html".toList] }
    ∧ process_request (short_write_host "GET /nothing HTTP/1.1\r\n\r\n".toList) 3
        scenario_settings fresh_machine
      = .ret () { conn := { state := CONN_COMPLETE, file_fd := -1, read_buf_size := 4096,
                            read_buf_len := 0, read_buf_cursor := 0,
                            read_buf := some "GET /nothing HTTP/1.1\r\n\r\n".toList },
                  sock_out := "HTTP/1.1 4".toList, sock_writes := 1, file_reads := 0,
                  fs_calls := [fs_call.realpath "/srv/www//nothing".toList] } := by
  decide

/-! ## One iteration of `conn_loop` -/

theorem conn_loop_conn_of_called (settings : server_settings) (fuel : Nat)
    (read_set write_set : Int → Bool) (c : live_conn)
    (hc : handler_called read_set write_set c) :
    conn_loop_conn settings fuel read_set write_set c
      = after_handler fuel c (handler_run settings fuel c) := by
  unfold conn_loop_conn handler_run
  rcases hc with ⟨h1, h2⟩ | ⟨h1, h2⟩
  · simp [h1, h2]
  · simp [h1, h2]

theorem after_state_kept (fuel : Nat) (c c1 : live_conn) (m1 : machine)
    (hk : after_state fuel c m1 = .kept c1) :
    c1.m.conn.state = CONN_SENDING ∧ c1.addr = c.addr ∧ c1.sock_fd = c.sock_fd := by
  unfold after_state at hk
  cases hs : m1.conn.state with
  | CONN_WAITING => simp [hs] at hk
  | CONN_SENDING =>
    simp only [hs, conn_step.kept.injEq] at hk
    subst hk
    exact ⟨hs, rfl, rfl⟩
  | CONN_COMPLETE => simp [hs, conn_complete] at hk
  | CONN_ERR_RECOVERABLE =>
    simp only [hs, conn_recover] at hk
    generalize error_response c.hst fuel HTTP_INTERNAL_SERVER_ERROR m1 = o at hk
    cases o <;> simp [conn_recover_end, conn_complete] at hk
  | CONN_ERR_UNRECOVERABLE => simp [hs, conn_complete] at hk

theorem after_handler_kept (fuel : Nat) (c c1 : live_conn) (o : outcome Unit)
    (hk : after_handler fuel c o = .kept c1) :
    c1.m.conn.state = CONN_SENDING ∧ c1.addr = c.addr ∧ c1.sock_fd = c.sock_fd := by
  cases o with
  | ret v m1 => exact after_state_kept fuel c c1 m1 hk
  | aborted m1 => exact after_state_kept fuel c c1 m1 hk
  | assert_failed m1 => simp [after_handler] at hk
  | exited m1 => simp [after_handler] at hk
  | undefined => simp [after_handler] at hk
  | out_of_fuel m1 => simp [after_handler] at hk

/-- A connection that a step of the loop keeps is Waiting or Sending, at the
address and with the socket it had. -/
theorem conn_loop_conn_kept (settings : server_settings) (fuel : Nat)
    (read_set write_set : Int → Bool) (c c1 : live_conn)
    (hk : conn_loop_conn settings fuel read_set write_set c = .kept c1) :
    waiting_or_sending c1 ∧ c1.addr = c.addr ∧ c1.sock_fd = c.sock_fd := by
  unfold conn_loop_conn at hk
  split at hk
  · rename_i hs
    split_ifs at hk
    · obtain ⟨a, b, d⟩ := after_handler_kept fuel c c1 _ hk
      exact ⟨Or.inr a, b, d⟩
    · simp only [conn_step.kept.injEq] at hk
      subst hk
      exact ⟨Or.inl hs, rfl, rfl⟩
  · rename_i hs
    split_ifs at hk
    · obtain ⟨a, b, d⟩ := after_handler_kept fuel c c1 _ hk
      exact ⟨Or.inr a, b, d⟩
    · simp only [conn_step.kept.injEq] at hk
      subst hk
      exact ⟨Or.inr hs, rfl, rfl⟩
  · simp at hk

/-- When the loop over the connections returns, no step has ended the process,
the new list is the connections kept, in order, after those it had, and the
calls made are those of the steps, in order. -/
theorem conn_loop_conns_returned (settings : server_settings) (fuel : Nat)
    (read_set write_set : Int → Bool) (conns new_conns : List live_conn)
    (calls : List release_call) (conns1 : List live_conn) (calls1 : List release_call)
    (hret : conn_loop_conns settings fuel read_set write_set conns new_conns calls
      = .returned conns1 calls1) :
    conns1 = new_conns ++ conns.filterMap
        (fun c => (conn_loop_conn settings fuel read_set write_set c).kept_conn)
    ∧ calls1 = calls ++ (conns.map
        (fun c => (conn_loop_conn settings fuel read_set write_set c).calls)).flatten
    ∧ ∀ c ∈ conns, ∀ o, conn_loop_conn settings fuel read_set write_set c ≠ .stopped o := by
  induction conns generalizing new_conns calls with
  | nil =>
    simp only [conn_loop_conns, loop_result.returned.injEq] at hret
    simp [hret.1, hret.2]
  | cons c rest ih =>
    rw [conn_loop_conns] at hret
    cases hstep : conn_loop_conn settings fuel read_set write_set c with
    | kept c1 =>
      simp only [hstep] at hret
      obtain ⟨a, b, d⟩ := ih _ _ hret
      refine ⟨?_, ?_, ?_⟩
      · rw [a]
        simp [List.filterMap_cons, hstep, conn_step.kept_conn]
      · rw [b]
        simp [hstep, conn_step.calls]
      · intro x hx o
        rcases List.mem_cons.1 hx with rfl | hx
        · rw [hstep]
          simp
        · exact d x hx o
    | released c1 made =>
      simp only [hstep] at hret
      obtain ⟨a, b, d⟩ := ih _ _ hret
      refine ⟨?_, ?_, ?_⟩
      · rw [a]
        simp [List.filterMap_cons, hstep, conn_step.kept_conn]
      · rw [b]
        simp [hstep, conn_step.calls]
      · intro x hx o
        rcases List.mem_cons.1 hx with rfl | hx
        · rw [hstep]
          simp
        · exact d x hx o
    | stopped o =>
      simp only [hstep] at hret
      exact absurd hret (by simp)

theorem conn_loop_check_none (conns : List live_conn) (hn : conn_loop_check conns = none) :
    ∀ c ∈ conns, waiting_or_sending c := by
  induction conns with
  | nil => simp
  | cons c rest ih =>
    rw [conn_loop_check] at hn
    intro x hx
    split at hn
    · rename_i hs
      rcases List.mem_cons.1 hx with rfl | hx
      · exact Or.inl hs
      · exact ih hn x hx
    · rename_i hs
      rcases List.mem_cons.1 hx with rfl | hx
      · exact Or.inr hs
      · exact ih hn x hx
    · simp at hn

theorem error_response_fit (h : host) (c : http_status_code) (hclock : tm_fields_int h.clock) :
    (spec_response_section (error_response_record h c)).length < HEADER_BUF_SIZE := by
  rw [← header_text_eq_spec]
  have h1 := status_line_length c
  have h2 := make_date_header_line_length h hclock
  have h3 : (header_line (make_header "Content-Length".toList "0".toList)).length = 19 := by
    decide
  simp only [error_response_record, blank_line_follows, List.map_cons, List.map_nil,
    List.flatten_cons, List.flatten_nil, List.length_append, Bool.false_eq_true, if_false,
    List.length_nil, List.append_nil, h3, HEADER_BUF_SIZE]
  omega

/-- With a clock of `int` fields, `error_response` ends in one of two ways: its
`write` fails and it aborts with the state ErrUnrecoverable and nothing sent, or
the `write` accepts bytes of the header section and it returns with the state
Complete. -/
theorem error_response_runs (h : host) (fuel : Nat) (c : http_status_code) (m : machine)
    (hclock : tm_fields_int h.clock) :
    (∀ e, h.sock_write m.sock_writes (spec_response_section (error_response_record h c))
        = .error e →
      error_response h fuel c m
        = .aborted { m with sock_writes := m.sock_writes + 1,
                            conn := { m.conn with state := CONN_ERR_UNRECOVERABLE } })
    ∧ (∀ n, h.sock_write m.sock_writes (spec_response_section (error_response_record h c))
        = .ok n →
      error_response h fuel c m
        = .ret () { m with sock_writes := m.sock_writes + 1,
                           sock_out := m.sock_out
                             ++ (spec_response_section (error_response_record h c)).take n,
                           conn := { m.conn with state := CONN_COMPLETE } }) := by
  have hb := send_response_buffer_fit _ (error_response_fit h c hclock)
  obtain ⟨w1, -, w3⟩ := send_response_writes h fuel (error_response_record h c) m _ hb
  exact ⟨w1, fun n hw => w3 n hw (Or.inl rfl)⟩

theorem after_handler_of_ended (fuel : Nat) (c : live_conn) (o : outcome Unit) (m1 : machine)
    (ho : o = .ret () m1 ∨ o = .aborted m1) :
    after_handler fuel c o = after_state fuel c m1 := by
  rcases ho with rfl | rfl <;> rfl

/-- A handler that has left the connection in the state Complete or
ErrUnrecoverable: the loop releases the connection as the handler left it. -/
theorem after_handler_of_terminal (fuel : Nat) (c : live_conn) (o : outcome Unit) (m1 : machine)
    (ho : o = .ret () m1 ∨ o = .aborted m1)
    (hs : m1.conn.state = CONN_COMPLETE ∨ m1.conn.state = CONN_ERR_UNRECOVERABLE) :
    after_handler fuel c o
      = .released { c with m := m1 } (release_calls c.addr c.sock_fd m1) := by
  rw [after_handler_of_ended fuel c o m1 ho]
  unfold after_state
  rcases hs with hs | hs <;> simp only [hs, conn_complete]

/-- A handler that has left the connection in the state ErrRecoverable: the
loop runs `error_response` for status 500 and releases the connection as this
run leaves it, unless the process ends in the run. -/
theorem after_handler_of_recoverable (fuel : Nat) (c : live_conn) (o : outcome Unit)
    (m1 : machine) (ho : o = .ret () m1 ∨ o = .aborted m1)
    (hs : m1.conn.state = CONN_ERR_RECOVERABLE) :
    (∃ m2, (error_response c.hst fuel HTTP_INTERNAL_SERVER_ERROR m1 = .ret () m2
          ∨ error_response c.hst fuel HTTP_INTERNAL_SERVER_ERROR m1 = .aborted m2)
        ∧ after_handler fuel c o
          = .released { c with m := m2 } (release_calls c.addr c.sock_fd m2))
    ∨ ∃ o2, after_handler fuel c o = .stopped o2 := by
  rw [after_handler_of_ended fuel c o m1 ho]
  unfold after_state
  simp only [hs, conn_recover]
  cases error_response c.hst fuel HTTP_INTERNAL_SERVER_ERROR m1 with
  | ret v m2 => exact Or.inl ⟨m2, Or.inl rfl, rfl⟩
  | aborted m2 => exact Or.inl ⟨m2, Or.inr rfl, rfl⟩
  | assert_failed m2 => exact Or.inr ⟨_, rfl⟩
  | exited m2 => exact Or.inr ⟨_, rfl⟩
  | undefined => exact Or.inr ⟨_, rfl⟩
  | out_of_fuel m2 => exact Or.inr ⟨_, rfl⟩

/-- A connection whose handler has left it in the state Complete, ErrRecoverable
or ErrUnrecoverable is released, by the calls under `complete`, unless the
process ends in the 500 response. -/
theorem after_handler_released (fuel : Nat) (c : live_conn) (o : outcome Unit) (m1 : machine)
    (ho : o = .ret () m1 ∨ o = .aborted m1)
    (hs : m1.conn.state = CONN_COMPLETE ∨ m1.conn.state = CONN_ERR_RECOVERABLE
      ∨ m1.conn.state = CONN_ERR_UNRECOVERABLE)
    (hns : ∀ o2, after_handler fuel c o ≠ .stopped o2) :
    ∃ m2, after_handler fuel c o
        = .released { c with m := m2 }
            ((if m1.conn.file_fd ≠ -1 then [release_call.close m1.conn.file_fd] else [])
              ++ [release_call.close c.sock_fd, release_call.arena_clear c.addr,
                  release_call.server_free c.addr])
      ∧ (m1.conn.state ≠ CONN_ERR_RECOVERABLE → m2 = m1) := by
  rcases hs with hs | hs | hs
  · exact ⟨m1, after_handler_of_terminal fuel c o m1 ho (Or.inl hs),
      fun _ => rfl⟩
  · rcases after_handler_of_recoverable fuel c o m1 ho hs with ⟨m2, he, hr⟩ | ⟨o2, hr⟩
    · refine ⟨m2, ?_, fun hne => absurd hs hne⟩
      have hfd : m2.conn.file_fd = m1.conn.file_fd := by
        rcases he with he | he
        · exact (error_response_keeps c.hst fuel _ m1 m2 (by rw [he]; rfl)).2
        · exact (error_response_keeps c.hst fuel _ m1 m2 (by rw [he]; rfl)).2
      rw [hr, release_calls, hfd]
    · exact absurd hr (hns o2)
  · exact ⟨m1, after_handler_of_terminal fuel c o m1 ho (Or.inr hs),
      fun _ => rfl⟩

theorem accepted_conns_fresh (listen_fd : Int) (sel : select_answer) (acc : accept_answer) :
    ∀ c ∈ accepted_conns listen_fd sel acc, waiting_or_sending c := by
  intro c hc
  unfold accepted_conns at hc
  split at hc
  · split_ifs at hc
    · rw [List.mem_singleton] at hc
      subst hc
      exact Or.inl rfl
    · simp at hc
  · simp at hc

theorem conn_loop_ready (settings : server_settings) (fuel : Nat) (listen_fd : Int)
    (read_set write_set : Int → Bool) (acc : accept_answer) (conns conns1 : List live_conn)
    (calls : List release_call)
    (hret : conn_loop settings fuel listen_fd (.ready read_set write_set) acc conns
      = .returned conns1 calls) :
    conn_loop_conns settings fuel read_set write_set conns
        (accepted_conns listen_fd (.ready read_set write_set) acc) []
      = .returned conns1 calls := by
  unfold conn_loop at hret
  unfold accepted_conns
  split at hret
  · simp at hret
  · simp only at hret
    split_ifs at hret with hl
    · cases acc with
      | would_block => simpa using hret
      | failed => simp at hret
      | accepted fd record hst =>
        cases record with
        | none => simp at hret
        | some addr => simpa [hl] using hret
    · cases acc with
      | would_block => simpa using hret
      | failed => simpa using hret
      | accepted fd record hst =>
        cases record with
        | none => simpa using hret
        | some addr => simpa [hl] using hret

/-- C26: let an iteration of `conn_loop` return. Every connection of the list
it started with, and every connection of the list it leaves, is Waiting or
Sending. When `select` was not interrupted, the list it leaves is the accepted
connection, if one was accepted, and the connections its steps kept, and the
releasing calls made are those of its steps. For each connection whose handler
was called and left it in the state Complete, ErrRecoverable or
ErrUnrecoverable, the step makes exactly these calls, each once: `close` on the
body file if one is open, `close` on the socket, `arena_clear` on the arena and
`server_free` on the record; the step keeps no connection, and no connection
at the address of the record is in the list the iteration leaves (the records
being at different addresses). -/
theorem conn_loop_releases (settings : server_settings) (fuel : Nat) (listen_fd : Int)
    (sel : select_answer) (acc : accept_answer) (conns conns1 : List live_conn)
    (calls : List release_call)
    (hret : conn_loop settings fuel listen_fd sel acc conns = .returned conns1 calls) :
    (∀ c ∈ conns, waiting_or_sending c) ∧ (∀ c ∈ conns1, waiting_or_sending c)
    ∧ ∀ read_set write_set, sel = .ready read_set write_set →
        conns1 = accepted_conns listen_fd sel acc ++ conns.filterMap
            (fun c => (conn_loop_conn settings fuel read_set write_set c).kept_conn)
        ∧ calls = (conns.map
            (fun c => (conn_loop_conn settings fuel read_set write_set c).calls)).flatten
        ∧ ∀ c ∈ conns, handler_called read_set write_set c → ∀ m1,
            (handler_run settings fuel c = .ret () m1
              ∨ handler_run settings fuel c = .aborted m1) →
            (m1.conn.state = CONN_COMPLETE ∨ m1.conn.state = CONN_ERR_RECOVERABLE
              ∨ m1.conn.state = CONN_ERR_UNRECOVERABLE) →
            (∃ m2, conn_loop_conn settings fuel read_set write_set c
                = .released { c with m := m2 }
                    ((if m1.conn.file_fd ≠ -1 then [release_call.close m1.conn.file_fd]
                      else [])
                      ++ [release_call.close c.sock_fd, release_call.arena_clear c.addr,
                          release_call.server_free c.addr]))
            ∧ (conn_loop_conn settings fuel read_set write_set c).kept_conn = none
            ∧ (((accepted_conns listen_fd sel acc ++ conns).map (fun x => x.addr)).Nodup →
                c.addr ∉ conns1.map (fun x => x.addr)) := by
  have hcheck : ∀ c ∈ conns, waiting_or_sending c := by
    apply conn_loop_check_none
    unfold conn_loop at hret
    cases hc : conn_loop_check conns with
    | none => rfl
    | some c => simp [hc] at hret
  have hchk : conn_loop_check conns = none := by
    unfold conn_loop at hret
    cases hc : conn_loop_check conns with
    | none => rfl
    | some c => simp [hc] at hret
  cases sel with
  | interrupted =>
    have e : conns1 = conns := by
      simp only [conn_loop, hchk, loop_result.returned.injEq] at hret
      exact hret.1.symm
    rw [e]
    exact ⟨hcheck, hcheck, fun rs ws h => by simp at h⟩
  | failed =>
    simp [conn_loop, hchk] at hret
  | ready rs ws =>
    have hloop := conn_loop_ready settings fuel listen_fd rs ws acc conns conns1 calls hret
    obtain ⟨a, b, d⟩ := conn_loop_conns_returned settings fuel rs ws conns _ _ conns1 calls hloop
    have hkept : ∀ c1 ∈ conns.filterMap
        (fun c => (conn_loop_conn settings fuel rs ws c).kept_conn),
        ∃ c ∈ conns, conn_loop_conn settings fuel rs ws c = .kept c1 := by
      intro c1 hc1
      obtain ⟨c, hc, hk⟩ := List.mem_filterMap.1 hc1
      refine ⟨c, hc, ?_⟩
      cases hstep : conn_loop_conn settings fuel rs ws c with
      | kept c2 =>
        rw [hstep] at hk
        simp only [conn_step.kept_conn, Option.some.injEq] at hk
        rw [hk]
      | released c2 made =>
        rw [hstep] at hk
        simp [conn_step.kept_conn] at hk
      | stopped o =>
        rw [hstep] at hk
        simp [conn_step.kept_conn] at hk
    refine ⟨hcheck, ?_, ?_⟩
    · intro c hc
      rw [a] at hc
      rcases List.mem_append.1 hc with hc | hc
      · exact accepted_conns_fresh _ _ _ c hc
      · obtain ⟨c0, -, hk⟩ := hkept c hc
        exact (conn_loop_conn_kept settings fuel rs ws c0 c hk).1
    · intro read_set write_set hsel
      injection hsel with e1 e2
      subst e1 e2
      refine ⟨a, by simpa using b, ?_⟩
      intro c hc hcalled m1 hrun hstate
      have hstep := conn_loop_conn_of_called settings fuel rs ws c hcalled
      have hns : ∀ o2, after_handler fuel c (handler_run settings fuel c) ≠ .stopped o2 := by
        intro o2
        rw [← hstep]
        exact d c hc o2
      obtain ⟨m2, hrel, -⟩ := after_handler_released fuel c _ m1 hrun hstate hns
      rw [← hstep] at hrel
      refine ⟨⟨m2, hrel⟩, by rw [hrel]; rfl, ?_⟩
      intro hnd hmem
      rw [a, List.map_append, List.mem_append] at hmem
      rw [List.map_append] at hnd
      rcases hmem with hmem | hmem
      · have hdis := List.disjoint_of_nodup_append hnd
        exact hdis hmem (List.mem_map_of_mem _ hc)
      · obtain ⟨c1, hc1, he⟩ := List.mem_map.1 hmem
        obtain ⟨c0, hc0, hk⟩ := hkept c1 hc1
        have haddr := (conn_loop_conn_kept settings fuel rs ws c0 c1 hk).2.1
        have hinj := List.inj_on_of_nodup_map hnd.of_append_right
        have : c0 = c := hinj hc0 hc (by rw [← haddr, he])
        subst this
        rw [hrel] at hk
        exact absurd hk (by simp)

/-- An iteration over the two connections of the scenarios in which socket 5
alone is ready: the connection on it gets its 404 and is released with `close`
on socket 5, `arena_clear` and `server_free`; the connection on socket 6, which
is Sending, stays in the list. -/
theorem conn_loop_releases_witness :
    conn_loop scenario_settings 3 3 scenario_select .would_block scenario_conns
      = .returned
          [{ addr := 2000, sock_fd := 6, hst := scenario_host [], m := sending_machine }]
          [release_call.close 5, release_call.arena_clear 1000, release_call.server_free 1000]
    ∧ ∀ c ∈ [({ addr := 2000, sock_fd := 6, hst := scenario_host [], m := sending_machine }
        : live_conn)], waiting_or_sending c :=
  ⟨rfl,
   (conn_loop_releases scenario_settings 3 3 scenario_select .would_block scenario_conns
    [{ addr := 2000, sock_fd := 6, hst := scenario_host [], m := sending_machine }]
    [release_call.close 5, release_call.arena_clear 1000, release_call.server_free 1000]
    rfl).2.1⟩

/-! ## A connection left Waiting -/

/-- C22, the code at the failing input: the peer of a Waiting connection has
closed it without sending a byte, so the `read` of `read_req_data` delivers
nothing. `process_request` returns at `case READ_REQ_DATA_EMPTY` with the state
still Waiting, and the `assert(0)` under `case CONN_WAITING` of the second
`switch` of `conn_loop` fails. -/
theorem process_request_empty_read :
    (scenario_host []).sock_read = .ok []
    ∧ process_request (scenario_host []) 0 scenario_settings fresh_machine
      = .ret () { fresh_machine with
          conn := { fresh_machine.conn with read_buf := some [], read_buf_size := 4096 } }
    ∧ ({ fresh_machine with
          conn := { fresh_machine.conn with read_buf := some [], read_buf_size := 4096 } }
        : machine).conn.state = CONN_WAITING
    ∧ conn_loop_conn scenario_settings 0 (fun _ => true) (fun _ => true)
        { addr := 1000, sock_fd := 5, hst := scenario_host [], m := fresh_machine }
      = .stopped (.assert_failed { fresh_machine with
          conn := { fresh_machine.conn with read_buf := some [], read_buf_size := 4096 } }) :=
  ⟨rfl, by decide, rfl, rfl⟩

/-! ## The errors of a request in the loop -/

theorem process_request_read_error (h : host) (fuel : Nat) (settings : server_settings)
    (m : machine) (e : Nat) (hbuf : m.conn.read_buf = none) (hsize : m.conn.read_buf_size = 0)
    (hroom : settings.read_buf_size ≠ 0) (hread : h.sock_read = .error e) :
    process_request h fuel settings m
      = .aborted { m with conn := { m.conn with
          read_buf := some [], read_buf_size := settings.read_buf_size,
          state := CONN_ERR_RECOVERABLE } } := by
  unfold process_request read_req_data
  simp [hbuf, hsize, hroom, hread, outcome.and_then]

/-- C27, as amended: in a step of the loop, with a clock of `int` fields. When
the `read` on the socket of a Waiting connection fails, the handler leaves the
state ErrRecoverable with no byte written, and the loop runs `error_response`
for status 500 and then releases the connection: the socket gets the bytes of
the 500 response that its `write` accepts. When a handler aborts with the state
ErrUnrecoverable, the loop releases the connection as the handler left it, with
no further `write`; and this is how a failing `write` of the header in
`send_response` and a failing `read` on the file or `write` on the socket in
`process_request_write` end, whether or not a byte of the response has been
written. -/
theorem conn_loop_conn_errors (settings : server_settings) (fuel : Nat)
    (read_set write_set : Int → Bool) (c : live_conn) (hclock : tm_fields_int c.hst.clock) :
    (c.m.conn.state = CONN_WAITING → read_set c.sock_fd = true → c.m.conn.read_buf = none →
      c.m.conn.read_buf_size = 0 → settings.read_buf_size ≠ 0 →
      ∀ e, c.hst.sock_read = .error e →
        (∀ n, c.hst.sock_write c.m.sock_writes
            (spec_response_section (error_response_record c.hst HTTP_INTERNAL_SERVER_ERROR))
            = .ok n →
          conn_loop_conn settings fuel read_set write_set c
            = .released
                { c with m := { c.m with
                    sock_writes := c.m.sock_writes + 1,
                    sock_out := c.m.sock_out ++ (spec_response_section
                      (error_response_record c.hst HTTP_INTERNAL_SERVER_ERROR)).take n,
                    conn := { c.m.conn with
                      read_buf := some [], read_buf_size := settings.read_buf_size,
                      state := CONN_COMPLETE } } }
                (release_calls c.addr c.sock_fd c.m))
        ∧ (∀ e2, c.hst.sock_write c.m.sock_writes
            (spec_response_section (error_response_record c.hst HTTP_INTERNAL_SERVER_ERROR))
            = .error e2 →
          conn_loop_conn settings fuel read_set write_set c
            = .released
                { c with m := { c.m with
                    sock_writes := c.m.sock_writes + 1,
                    conn := { c.m.conn with
                      read_buf := some [], read_buf_size := settings.read_buf_size,
                      state := CONN_ERR_UNRECOVERABLE } } }
                (release_calls c.addr c.sock_fd c.m)))
    ∧ (handler_called read_set write_set c → ∀ m1,
        handler_run settings fuel c = .aborted m1 →
        m1.conn.state = CONN_ERR_UNRECOVERABLE →
        conn_loop_conn settings fuel read_set write_set c
          = .released { c with m := m1 } (release_calls c.addr c.sock_fd m1))
    ∧ (∀ resp m bytes e, (send_response_buffer resp).bind header_bytes = some bytes →
        c.hst.sock_write m.sock_writes bytes = .error e →
        send_response c.hst fuel resp m
          = .aborted { m with sock_writes := m.sock_writes + 1,
                              conn := { m.conn with state := CONN_ERR_UNRECOVERABLE } })
    ∧ (∀ m, ends_in_error c.hst (process_request_write c.hst fuel m) →
        ∃ m1, process_request_write c.hst fuel m = .aborted m1
          ∧ m1.conn.state = CONN_ERR_UNRECOVERABLE) := by
  refine ⟨?_, ?_, ?_, ?_⟩
  · intro hs hr hbuf hsize hroom e hread
    have hcalled : handler_called read_set write_set c := Or.inl ⟨hs, hr⟩
    have hstep := conn_loop_conn_of_called settings fuel read_set write_set c hcalled
    have hrun : handler_run settings fuel c
        = .aborted { c.m with conn := { c.m.conn with
            read_buf := some [], read_buf_size := settings.read_buf_size,
            state := CONN_ERR_RECOVERABLE } } := by
      unfold handler_run
      simp only [hs]
      exact process_request_read_error c.hst fuel settings c.m e hbuf hsize hroom hread
    obtain ⟨r1, r2⟩ := error_response_runs c.hst fuel HTTP_INTERNAL_SERVER_ERROR
      { c.m with conn := { c.m.conn with
          read_buf := some [], read_buf_size := settings.read_buf_size,
          state := CONN_ERR_RECOVERABLE } } hclock
    have hafter : after_handler fuel c (.aborted { c.m with conn := { c.m.conn with
          read_buf := some [], read_buf_size := settings.read_buf_size,
          state := CONN_ERR_RECOVERABLE } })
        = conn_recover fuel c { c.m with conn := { c.m.conn with
          read_buf := some [], read_buf_size := settings.read_buf_size,
          state := CONN_ERR_RECOVERABLE } } := rfl
    constructor
    · intro n hw
      rw [hstep, hrun, hafter, conn_recover, r2 n hw]
      rfl
    · intro e2 hw
      rw [hstep, hrun, hafter, conn_recover, r1 e2 hw]
      rfl
  · intro hcalled m1 hrun hs
    rw [conn_loop_conn_of_called settings fuel read_set write_set c hcalled]
    exact after_handler_of_terminal fuel c _ m1 (Or.inr hrun) (Or.inr hs)
  · intro resp m bytes e hb hw
    exact (send_response_writes c.hst fuel resp m bytes hb).1 e hw
  · rintro m ⟨m1, e, -, hcase⟩
    rcases hcase with ⟨-, -, ho⟩ | ⟨-, -, ho⟩
    · exact ⟨_, ho, rfl⟩
    · exact ⟨_, ho, rfl⟩

/-- A Waiting connection of the scenarios on which the `read` fails: the loop
sends the 91 bytes of the 500 response and releases the connection. -/
theorem conn_loop_conn_errors_witness :
    conn_loop_conn scenario_settings 3 (fun _ => true) (fun _ => true)
        { addr := 1000, sock_fd := 5, hst := read_error_host, m := fresh_machine }
      = .released
          { addr := 1000, sock_fd := 5, hst := read_error_host,
            m := { fresh_machine with
              sock_writes := 1,
              sock_out := ("HTTP/1.1 500 Internal Server Error\r\n"
                ++ "Date: Tue, 7 Jan 2025 14:03:09 GMT\r\nContent-Length: 0\r\n").toList,
              conn := { fresh_machine.conn with
                read_buf := some [], read_buf_size := 4096, state := CONN_COMPLETE } } }
          [release_call.close 5, release_call.arena_clear 1000, release_call.server_free 1000] :=
  ((conn_loop_conn_errors scenario_settings 3 (fun _ => true) (fun _ => true)
      { addr := 1000, sock_fd := 5, hst := read_error_host, m := fresh_machine }
      (by unfold tm_fields_int; decide)).1 rfl rfl rfl rfl (by decide) ECONNRESET rfl).1 91 rfl

/-- C27 fails as stated: the `write` of the header of the response to `GET /`
fails with `ECONNRESET` when no byte of a response has been written. The
handler aborts with the state ErrUnrecoverable, and the loop closes the file and
the socket and releases the connection; the socket has got no byte, so no 500
response has been sent. -/
theorem conn_loop_conn_header_write_fails :
    conn_loop_conn scenario_settings 3 (fun _ => true) (fun _ => true)
        { addr := 1000, sock_fd := 5, hst := reset_host "GET / HTTP/1.1\r\n\r\n".toList,
          m := fresh_machine }
      = .released
          { addr := 1000, sock_fd := 5, hst := reset_host "GET / HTTP/1.1\r\n\r\n".toList,
            m := { conn := { state := CONN_ERR_UNRECOVERABLE, file_fd := 7,
                             read_buf_size := 4096, read_buf_len := 0, read_buf_cursor := 0,
                             read_buf := some "GET / HTTP/1.1\r\n\r\n".toList },
                   sock_out := [], sock_writes := 1, file_reads := 0,
                   fs_calls := [fs_call.realpath "/srv/www/index.html".toList,
                                fs_call.stat "/srv/www/index.html".toList,
                                fs_call.open_file "/srv/www/index.html".toList] } }
          [release_call.close 7, release_call.close 5, release_call.arena_clear 1000,
           release_call.server_free 1000] :=
  rfl

/-! ## The arena -/

theorem land_not_15 (x : Nat) (hx : x < 2 ^ 64) : x &&& (2 ^ 64 - 16) = x / 16 * 16 := by
  apply Nat.eq_of_testBit_eq
  intro i
  have e1 : (2 : Nat) ^ 64 - 16 = 2 ^ 64 - (15 + 1) := rfl
  have h15 : Nat.testBit 15 i = decide (i < 4) := Nat.testBit_two_pow_sub_one 4 i
  have hr : x / 16 * 16 = 2 ^ 4 * (x >>> 4) := by
    rw [Nat.shiftRight_eq_div_pow]
    norm_num
    exact Nat.mul_comm _ _
  rw [Nat.testBit_and, e1, Nat.testBit_two_pow_sub_succ (by norm_num : 15 < 2 ^ 64), h15, hr,
    Nat.testBit_mul_pow_two, Nat.testBit_shiftRight]
  by_cases h4 : i < 4
  · have : ¬ i ≥ 4 := by omega
    simp [h4, this]
  · have h4' : i ≥ 4 := by omega
    by_cases h64 : i < 64
    · simp [h4, h4', h64]
    · have hlt : x < 2 ^ i := lt_of_lt_of_le hx (Nat.pow_le_pow_right (by norm_num) (by omega))
      have hb : x.testBit i = false := Nat.testBit_lt_two_pow hlt
      have hb2 : x.testBit (4 + (i - 4)) = false := by
        rw [show 4 + (i - 4) = i by omega]
        exact hb
      simp [h64, hb, hb2]

theorem land_15 (x : Nat) : x &&& 15 = x % 16 :=
  Nat.and_pow_two_sub_one_eq_mod x 4

/-- The size `arena_alloc` computes with `(size_init + 15) & ~15` is
`size_init` rounded up to a multiple of 16, when `size_init + 15` is a
`size_t`. -/
theorem arena_round_up (n : Nat) (hn : n + 15 < SIZE_MOD) :
    ((n + 15) % SIZE_MOD) &&& (SIZE_MOD - 16) = (n + 15) / 16 * 16 := by
  rw [Nat.mod_eq_of_lt hn]
  exact land_not_15 _ hn

/-- The padding `get_alignment_offset` computes for 16 bytes. -/
theorem get_alignment_offset_16 (b : memory_arena_block) (hb : b.base + b.used < SIZE_MOD) :
    get_alignment_offset b 16
      = if (b.base + b.used) % 16 = 0 then 0 else 16 - (b.base + b.used) % 16 := by
  have hS : SIZE_MOD = 18446744073709551616 := by norm_num [SIZE_MOD]
  have hmask : (16 + SIZE_MOD - 1) % SIZE_MOD = 15 := by
    rw [hS]
  unfold get_alignment_offset
  simp only [hmask, Nat.mod_eq_of_lt hb, land_15]
  have hlt : (b.base + b.used) % 16 < 16 := Nat.mod_lt _ (by norm_num)
  by_cases h0 : (b.base + b.used) % 16 = 0
  · simp [h0]
  · simp only [h0, ne_eq, not_false_eq_true, if_true, if_false]
    rw [hS]
    omega

/-- The second part of `arena_alloc` when nothing wraps around and the bytes
fit behind the padded used count: it returns the region at the used count
rounded up to a multiple of 16. -/
theorem arena_alloc_place_ok (b : memory_arena_block) (rest : List memory_arena_block)
    (min : Nat) (mem : Nat → Char) (s n : Nat) (hbase : b.base % 16 = 0)
    (hspace : b.base + b.size ≤ SIZE_MOD) (hsize : b.size < 2 ^ 63) (hn : 1 ≤ n)
    (hns : n ≤ s) (hfit : (b.used + 15) / 16 * 16 + s ≤ b.size) :
    arena_alloc_place b rest min mem s n
      = .region ⟨{ b with used := b.used + s } :: rest, min⟩ ((b.used + 15) / 16 * 16)
          (b.base + (b.used + 15) / 16 * 16)
          (memset_zero mem (b.base + (b.used + 15) / 16 * 16) n) := by
  have hS : SIZE_MOD = 18446744073709551616 := by norm_num [SIZE_MOD]
  have h1 : (b.used + s) % SIZE_MOD = b.used + s := Nat.mod_eq_of_lt (by omega)
  have hal := get_alignment_offset_16 b (by omega)
  have h2 : (b.used + get_alignment_offset b 16) % SIZE_MOD = (b.used + 15) / 16 * 16 := by
    rw [hal]
    split_ifs with h0
    · rw [Nat.mod_eq_of_lt (by omega)]
      omega
    · rw [Nat.mod_eq_of_lt (by omega)]
      omega
  have h3 : ((b.used + 15) / 16 * 16 + s) % SIZE_MOD = (b.used + 15) / 16 * 16 + s :=
    Nat.mod_eq_of_lt (by omega)
  have h4 : (b.base + (b.used + 15) / 16 * 16) % SIZE_MOD = b.base + (b.used + 15) / 16 * 16 :=
    Nat.mod_eq_of_lt (by omega)
  unfold arena_alloc_place
  simp only [h1, h2, h3, h4]
  rw [if_neg (by omega), if_neg (by omega), if_neg (by omega)]

theorem arena_needs_block_iff (arena : memory_arena) (s : Nat)
    (hw : ∀ b ∈ arena.blocks.head?, b.used + s < SIZE_MOD) :
    arena_needs_block arena s = true
      ↔ arena.blocks = [] ∨ ∃ b ∈ arena.blocks.head?, b.used + s > b.size := by
  unfold arena_needs_block
  cases hb : arena.blocks with
  | nil => simp
  | cons b rest =>
    have := hw b (by simp [hb])
    simp [Nat.mod_eq_of_lt this]

theorem memset_zero_inside (mem : Nat → Char) (p n i : Nat) (hi : i < n) :
    memset_zero mem p n (p + i) = NUL := by
  unfold memset_zero
  rw [if_pos ⟨Nat.le_add_right _ _, by omega⟩]

/-- For sizes below `2 ^ 63`, on an arena on which `arena_alloc` is safe and
with a host allocator whose blocks start at multiples of 16 and lie in the
address space, C28 holds: `arena_alloc` returns the null pointer, when the
host provides no block, or a region of the current block at an offset that is
a multiple of 16, with its `n` bytes inside the block and all zero; no
assertion fails, and `arena_alloc` is safe on the arena the call leaves. -/
theorem arena_alloc_safe (calloc : Nat → Option Nat) (arena : memory_arena)
    (mem : Nat → Char) (n : Nat) (hwf : arena_wf arena)
    (hcalloc : ∀ k p, calloc k = some p → p % 16 = 0 ∧ p + k ≤ SIZE_MOD)
    (hn : 1 ≤ n) (hn2 : n < 2 ^ 63) :
    (∃ arena1, arena_alloc calloc arena mem n = .null arena1 mem
        ∧ arena1.blocks = arena.blocks ∧ arena_wf arena1)
    ∨ ∃ arena1 b rest off, arena1.blocks = b :: rest
        ∧ arena_alloc calloc arena mem n
          = .region arena1 off (b.base + off) (memset_zero mem (b.base + off) n)
        ∧ off % 16 = 0 ∧ off + n ≤ b.size
        ∧ (∀ i, i < n → memset_zero mem (b.base + off) n (b.base + off + i) = NUL)
        ∧ arena_wf arena1 := by
  have hS : SIZE_MOD = 18446744073709551616 := by norm_num [SIZE_MOD]
  have hround := arena_round_up n (by omega)
  obtain ⟨hmin, hhead⟩ := hwf
  have hmin1 : (if arena.minimum_block_size = 0 then 65536 else arena.minimum_block_size)
      = 65536 := by
    rcases hmin with h | h <;> simp [h]
  unfold arena_alloc
  rw [if_neg (by omega)]
  simp only [hround, hmin1]
  by_cases hneed : arena_needs_block arena ((n + 15) / 16 * 16) = true
  · rw [if_pos hneed]
    have hB : (if 65536 > n then 65536 else n) < 2 ^ 63 := by
      split_ifs <;> omega
    have hBn : n ≤ (if 65536 > n then 65536 else n) := by
      split_ifs <;> omega
    have hreq : ((if 65536 > n then 65536 else n) + BLOCK_HEADER_SIZE) % SIZE_MOD
        = (if 65536 > n then 65536 else n) + 32 := by
      rw [BLOCK_HEADER_SIZE, Nat.mod_eq_of_lt (by omega)]
    rw [hreq]
    cases hc : calloc ((if 65536 > n then 65536 else n) + 32) with
    | none =>
      exact Or.inl ⟨_, rfl, rfl, Or.inr rfl, hhead⟩
    | some p =>
      obtain ⟨hp1, hp2⟩ := hcalloc _ _ hc
      have hbase : (p + BLOCK_HEADER_SIZE) % SIZE_MOD = p + 32 := by
        rw [BLOCK_HEADER_SIZE, Nat.mod_eq_of_lt (by omega)]
      simp only [hbase]
      rw [arena_alloc_place_ok _ arena.blocks 65536 mem n n (by show (p + 32) % 16 = 0; omega)
        (by show p + 32 + (if 65536 > n then 65536 else n) ≤ SIZE_MOD; omega) hB hn (le_refl _)
        (by show (0 + 15) / 16 * 16 + n ≤ (if 65536 > n then 65536 else n); omega)]
      refine Or.inr ⟨_, ⟨if 65536 > n then 65536 else n, 0 + n, p + 32⟩, arena.blocks,
        (0 + 15) / 16 * 16, rfl, rfl, by norm_num, ?_, fun i hi =>
        memset_zero_inside _ _ _ _ hi, Or.inr rfl, ?_⟩
      · show (0 + 15) / 16 * 16 + n ≤ (if 65536 > n then 65536 else n)
        omega
      · intro b hb
        simp only [List.head?_cons, Option.mem_def, Option.some.injEq] at hb
        subst hb
        refine ⟨by show (p + 32) % 16 = 0; omega, by show 0 + n ≤ (if 65536 > n then 65536 else n); omega, ?_,
          by show p + 32 + (if 65536 > n then 65536 else n) ≤ SIZE_MOD; omega, hB⟩
        show (if 65536 > n then 65536 else n) % 16 = 0 ∨ 0 + n = (if 65536 > n then 65536 else n)
        split_ifs <;> omega
  · rw [if_neg hneed]
    cases hb : arena.blocks with
    | nil => simp [arena_needs_block, hb] at hneed
    | cons b rest =>
      obtain ⟨h1, h2, h3, h4, h5⟩ := hhead b (by simp [hb])
      have hno : ¬ ((b.used + (n + 15) / 16 * 16) % SIZE_MOD > b.size) := by
        simpa [arena_needs_block, hb] using hneed
      rw [Nat.mod_eq_of_lt (by omega)] at hno
      have hsz : b.size % 16 = 0 := by
        rcases h3 with h | h
        · exact h
        · omega
      simp only
      rw [arena_alloc_place_ok b rest _ mem _ n h1 h4 h5 hn (by omega) (by omega)]
      refine Or.inr ⟨_, { b with used := b.used + (n + 15) / 16 * 16 }, rest,
        (b.used + 15) / 16 * 16, rfl, rfl, by omega, by show _ ≤ b.size; omega, fun i hi =>
        memset_zero_inside _ _ _ _ hi, hmin, ?_⟩
      intro b1 hb1
      simp only [List.head?_cons, Option.mem_def, Option.some.injEq] at hb1
      subst hb1
      exact ⟨h1, by show b.used + _ ≤ b.size; omega, Or.inl hsz, h4, h5⟩

theorem arena_wf_zero : arena_wf zero_arena :=
  ⟨Or.inl rfl, by simp [zero_arena]⟩

/-- C28, the code at the failing input. The arena has been reached from the
zero-initialized arena by `arena_alloc(32)`: one block of 65536 bytes at a base
that is a multiple of 16, 32 bytes used. For `n = SIZE_MAX - 15`, which is
its own rounding to a multiple of 16, the sum of the used count and the size
wraps around to 16: no new block is asked for, both assertions pass, and
`arena_alloc` returns the region at offset 32 of the block and clears `n`
bytes from there on, far beyond the 65536 bytes of the block. -/
theorem arena_alloc_size_wraps :
    arena_alloc scenario_calloc zero_arena scenario_mem 32
      = .region ⟨[⟨65536, 32, 4128⟩], 65536⟩ 0 4128 (memset_zero scenario_mem 4128 32)
    ∧ arena_reached ⟨[⟨65536, 32, 4128⟩], 65536⟩
    ∧ (1 ≤ SIZE_MOD - 16 ∧ SIZE_MOD - 16 ≤ (SIZE_MOD - 1) - 15)
    ∧ arena_alloc scenario_calloc ⟨[⟨65536, 32, 4128⟩], 65536⟩ scenario_mem (SIZE_MOD - 16)
      = .region ⟨[⟨65536, 16, 4128⟩], 65536⟩ 32 4160
          (memset_zero scenario_mem 4160 (SIZE_MOD - 16))
    ∧ ¬ (32 + (SIZE_MOD - 16) ≤ 65536) := by
  refine ⟨rfl, ?_, by decide, rfl, by decide⟩
  exact arena_reached.alloc scenario_calloc zero_arena scenario_mem 32 arena_reached.zero
    (fun k p hk => by
      have hS : SIZE_MOD = 18446744073709551616 := by norm_num [SIZE_MOD]
      unfold scenario_calloc at hk
      split_ifs at hk with hle
      injection hk with e
      omega)
    (by decide) rfl

/-- The second part of `arena_alloc` returns no null pointer, and leaves the
chain as it found it, but for the used count of the current block. -/
theorem arena_alloc_place_arena (b : memory_arena_block) (rest : List memory_arena_block)
    (min : Nat) (mem : Nat → Char) (s n : Nat) :
    (∀ arena1 mem1, arena_alloc_place b rest min mem s n ≠ .null arena1 mem1)
    ∧ ∃ used, (arena_alloc_place b rest min mem s n).arena
        = ⟨{ b with used := used } :: rest, min⟩ := by
  unfold arena_alloc_place
  simp only
  split_ifs
  all_goals exact ⟨fun _ _ => by simp, _, rfl⟩

theorem arena_needs_block_spec (arena : memory_arena) (n : Nat)
    (hsum : ∀ b ∈ arena.blocks.head?, b.used + (n + 15) / 16 * 16 < SIZE_MOD) :
    arena_needs_block arena ((n + 15) / 16 * 16) = true ↔ spec_needs_block arena n :=
  arena_needs_block_iff arena _ hsum

/-- C29, as amended: let `n ≥ 1` be such that none of the sizes computed wraps
around: `n + 15`, the used count of the head block plus `n` rounded up to a
multiple of 16, and the size of a new block plus its header are all below
`SIZE_MOD`. When the arena has no block, or the used count of the head block
plus the rounded `n` exceeds the size of the head block, `arena_alloc` asks the
host for a block of `max(minimum_block_size, n)` bytes and its header,
`minimum_block_size` being taken as 65536 when it is 0; when the host provides
none, it returns the null pointer and the chain is as it was; when the host
provides one, the new block is the head of the chain and the blocks that were in
the chain follow it, in their order, each with its size and its used count.
Otherwise the host is not asked and no block is added. -/
theorem arena_alloc_new_block (calloc : Nat → Option Nat) (arena : memory_arena)
    (mem : Nat → Char) (n : Nat) (hn : 1 ≤ n) (hround : n + 15 < SIZE_MOD)
    (hsum : ∀ b ∈ arena.blocks.head?, b.used + (n + 15) / 16 * 16 < SIZE_MOD)
    (hreq : spec_block_size arena n + BLOCK_HEADER_SIZE < SIZE_MOD) :
    (spec_needs_block arena n →
      (calloc (spec_block_size arena n + BLOCK_HEADER_SIZE) = none →
        arena_alloc calloc arena mem n
          = .null ⟨arena.blocks,
              if arena.minimum_block_size = 0 then 65536 else arena.minimum_block_size⟩ mem)
      ∧ ∀ p, calloc (spec_block_size arena n + BLOCK_HEADER_SIZE) = some p →
          ∃ used, (arena_alloc calloc arena mem n).arena
            = ⟨⟨spec_block_size arena n, used, (p + BLOCK_HEADER_SIZE) % SIZE_MOD⟩
                :: arena.blocks,
               if arena.minimum_block_size = 0 then 65536 else arena.minimum_block_size⟩)
    ∧ (¬ spec_needs_block arena n →
        (arena_alloc calloc arena mem n).arena.blocks.length = arena.blocks.length
        ∧ ∀ calloc2, arena_alloc calloc2 arena mem n = arena_alloc calloc arena mem n) := by
  have hr := arena_round_up n hround
  have hspec := arena_needs_block_spec arena n hsum
  have hsize : (if (if arena.minimum_block_size = 0 then 65536 else arena.minimum_block_size) > n
      then (if arena.minimum_block_size = 0 then 65536 else arena.minimum_block_size) else n)
      = spec_block_size arena n := by
    unfold spec_block_size
    split_ifs <;> omega
  have hmod : (spec_block_size arena n + BLOCK_HEADER_SIZE) % SIZE_MOD
      = spec_block_size arena n + BLOCK_HEADER_SIZE := Nat.mod_eq_of_lt hreq
  constructor
  · intro hneed
    have hnb := hspec.2 hneed
    constructor
    · intro hc
      unfold arena_alloc
      rw [if_neg (by omega)]
      simp only [hr, hnb, if_true, hsize, hmod, hc]
    · intro p hc
      unfold arena_alloc
      rw [if_neg (by omega)]
      simp only [hr, hnb, if_true, hsize, hmod, hc]
      obtain ⟨-, used, hu⟩ := arena_alloc_place_arena
        ⟨spec_block_size arena n, 0, (p + BLOCK_HEADER_SIZE) % SIZE_MOD⟩ arena.blocks
        (if arena.minimum_block_size = 0 then 65536 else arena.minimum_block_size) mem n n
      exact ⟨used, hu⟩
  · intro hneed
    have hnb : arena_needs_block arena ((n + 15) / 16 * 16) = false := by
      rw [Bool.eq_false_iff]
      exact fun h => hneed (hspec.1 h)
    cases hb : arena.blocks with
    | nil => exact absurd (Or.inl hb) hneed
    | cons b rest =>
      have key : ∀ c, arena_alloc c arena mem n
          = arena_alloc_place b rest arena.minimum_block_size mem ((n + 15) / 16 * 16) n := by
        intro c
        unfold arena_alloc
        rw [if_neg (by omega)]
        simp only [hr, hnb, Bool.false_eq_true, if_false, hb]
      constructor
      · rw [key]
        obtain ⟨-, used, hu⟩ := arena_alloc_place_arena b rest arena.minimum_block_size mem
          ((n + 15) / 16 * 16) n
        simp only [hu, List.length_cons]
      · intro calloc2
        rw [key, key]

/-- On the zero-initialized arena, `arena_alloc(100)` gets a block of 65536
bytes from the host and links it at the head of the chain. -/
theorem arena_alloc_new_block_witness :
    ∃ used, (arena_alloc scenario_calloc zero_arena scenario_mem 100).arena
      = ⟨⟨spec_block_size zero_arena 100, used, (4096 + BLOCK_HEADER_SIZE) % SIZE_MOD⟩
          :: zero_arena.blocks,
         if zero_arena.minimum_block_size = 0 then 65536 else zero_arena.minimum_block_size⟩ :=
  ((arena_alloc_new_block scenario_calloc zero_arena scenario_mem 100 (by decide) (by decide)
    (by simp [zero_arena]) (by decide)).1 (Or.inl rfl)).2 4096 rfl

/-- C29 fails as stated, at two inputs. On the zero-initialized arena, with a
host that has no memory, `arena_alloc(1)` returns the null pointer and links no
block. On the arena with one block of 65536 bytes of which 32 are used, and for
`n = SIZE_MAX - 15`, the used count plus the rounded `n` exceeds the size of the
block, yet the chain the call leaves has the one block it had. -/
theorem arena_alloc_no_new_block :
    (spec_needs_block zero_arena 1
      ∧ arena_alloc (fun _ => none) zero_arena scenario_mem 1
        = .null ⟨[], 65536⟩ scenario_mem)
    ∧ (spec_needs_block ⟨[⟨65536, 32, 4128⟩], 65536⟩ (SIZE_MOD - 16)
      ∧ (arena_alloc scenario_calloc ⟨[⟨65536, 32, 4128⟩], 65536⟩ scenario_mem
          (SIZE_MOD - 16)).arena
        = ⟨[⟨65536, 16, 4128⟩], 65536⟩) :=
  ⟨⟨Or.inl rfl, rfl⟩, ⟨Or.inr ⟨_, rfl, by decide⟩, rfl⟩⟩

/-- C30, as amended: for every arena and every size `n ≥ 1`, `arena_alloc`
returns the null pointer only when a new block was needed and the host
allocator, asked for it, provided none (the chain and the memory are then as
they were); and `server_alloc` with a bound arena calls `exit` for such an `n`
in this case and in no other. For `n = 0`, `arena_alloc` returns the null
pointer without asking the host, and `server_alloc` with a bound arena calls
`exit`. -/
theorem arena_alloc_null (calloc : Nat → Option Nat) (arena : memory_arena)
    (mem : Nat → Char) (n : Nat) (hn : 1 ≤ n) :
    (∀ arena1 mem1, arena_alloc calloc arena mem n = .null arena1 mem1 →
      arena_needs_block arena (((n + 15) % SIZE_MOD) &&& (SIZE_MOD - 16)) = true
      ∧ calloc ((spec_block_size arena n + BLOCK_HEADER_SIZE) % SIZE_MOD) = none
      ∧ arena1.blocks = arena.blocks ∧ mem1 = mem)
    ∧ (server_alloc calloc (some arena) mem n = .exited ↔
        arena_needs_block arena (((n + 15) % SIZE_MOD) &&& (SIZE_MOD - 16)) = true
        ∧ calloc ((spec_block_size arena n + BLOCK_HEADER_SIZE) % SIZE_MOD) = none)
    ∧ (∀ calloc0, arena_alloc calloc0 arena mem 0 = .null arena mem)
    ∧ (∀ calloc0, server_alloc calloc0 (some arena) mem 0 = .exited) := by
  have hsize : (if (if arena.minimum_block_size = 0 then 65536 else arena.minimum_block_size) > n
      then (if arena.minimum_block_size = 0 then 65536 else arena.minimum_block_size) else n)
      = spec_block_size arena n := by
    unfold spec_block_size
    split_ifs <;> omega
  have key : ∀ arena1 mem1, arena_alloc calloc arena mem n = .null arena1 mem1 ↔
      (arena_needs_block arena (((n + 15) % SIZE_MOD) &&& (SIZE_MOD - 16)) = true
        ∧ calloc ((spec_block_size arena n + BLOCK_HEADER_SIZE) % SIZE_MOD) = none)
      ∧ arena1 = ⟨arena.blocks,
          if arena.minimum_block_size = 0 then 65536 else arena.minimum_block_size⟩
      ∧ mem1 = mem := by
    intro arena1 mem1
    unfold arena_alloc
    rw [if_neg (by omega)]
    simp only [hsize]
    by_cases hneed : arena_needs_block arena (((n + 15) % SIZE_MOD) &&& (SIZE_MOD - 16)) = true
    · simp only [hneed, if_true, true_and]
      cases hc : calloc ((spec_block_size arena n + BLOCK_HEADER_SIZE) % SIZE_MOD) with
      | none =>
        simp only [arena_alloc_result.null.injEq, true_and]
        constructor
        · rintro ⟨rfl, rfl⟩
          exact ⟨rfl, rfl⟩
        · rintro ⟨rfl, rfl⟩
          exact ⟨rfl, rfl⟩
      | some p =>
        constructor
        · intro h
          exact absurd h ((arena_alloc_place_arena _ _ _ _ _ _).1 arena1 mem1)
        · rintro ⟨h, -⟩
          exact absurd h (by simp)
    · simp only [hneed, Bool.false_eq_true, if_false, false_and, iff_false]
      cases hb : arena.blocks with
      | nil => simp
      | cons b rest => exact (arena_alloc_place_arena _ _ _ _ _ _).1 arena1 mem1
  refine ⟨?_, ?_, ?_, ?_⟩
  · intro arena1 mem1 hnull
    obtain ⟨⟨h1, h2⟩, h3, h4⟩ := (key arena1 mem1).1 hnull
    exact ⟨h1, h2, by rw [h3], h4⟩
  · unfold server_alloc
    constructor
    · intro hex
      cases hr : arena_alloc calloc arena mem n with
      | null arena1 mem1 => exact ((key arena1 mem1).1 hr).1
      | region a o p m1 => simp [hr] at hex
      | assert_failed a m1 => simp [hr] at hex
    · intro hcase
      have := (key _ mem).2 ⟨hcase, rfl, rfl⟩
      simp only [this]
  · intro calloc0
    unfold arena_alloc
    simp
  · intro calloc0
    unfold server_alloc arena_alloc
    simp

/-- With a host that has no memory, `server_alloc(5)` with the zero-initialized
arena bound calls `exit`. -/
theorem arena_alloc_null_witness :
    server_alloc (fun _ => none) (some zero_arena) scenario_mem 5 = .exited :=
  (arena_alloc_null (fun _ => none) zero_arena scenario_mem 5 (by decide)).2.1.2 ⟨rfl, rfl⟩

/-- C30 fails as stated, for `n = 0`: with a host allocator that provides every
block of up to `2 ^ 32` bytes, `arena_alloc(0)` returns the null pointer and
`server_alloc(0)` with a bound arena calls `exit`. -/
theorem arena_alloc_zero_size :
    (∀ k, k ≤ 4294967296 → scenario_calloc k = some 4096)
    ∧ arena_alloc scenario_calloc zero_arena scenario_mem 0 = .null zero_arena scenario_mem
    ∧ server_alloc scenario_calloc (some zero_arena) scenario_mem 0 = .exited :=
  ⟨fun k hk => by simp [scenario_calloc, hk], rfl, rfl⟩

/-! ## The state a handler leaves -/

theorem fill_state (h : host) (m : machine) :
    (∀ o m', process_request_write_fill h m = .stop o → o.ended_with m' →
      m'.conn.state = CONN_COMPLETE ∨ m'.conn.state = CONN_ERR_UNRECOVERABLE)
    ∧ (∀ m1, process_request_write_fill h m = .go m1 → m1.conn.state = m.conn.state) := by
  unfold process_request_write_fill
  constructor
  · intro o m' hs hf
    split_ifs at hs with hc
    · cases hr : h.file_read m.file_reads m.conn.read_buf_size with
      | error e =>
        simp only [hr, loop_step.stop.injEq] at hs
        subst hs
        rcases hf with ⟨v, hf⟩ | hf
        · simp at hf
        · simp only [outcome.aborted.injEq] at hf
          subst hf
          exact Or.inr rfl
      | ok bytes =>
        simp only [hr] at hs
        split_ifs at hs with hl
        simp only [loop_step.stop.injEq] at hs
        subst hs
        rcases hf with ⟨v, hf⟩ | hf
        · simp only [outcome.ret.injEq] at hf
          rw [← hf.2]
          exact Or.inl rfl
        · simp at hf
  · intro m1 hg
    split_ifs at hg with hc
    · cases hr : h.file_read m.file_reads m.conn.read_buf_size with
      | error e => simp [hr] at hg
      | ok bytes =>
        simp only [hr] at hg
        split_ifs at hg with hl
        simp only [loop_step.go.injEq] at hg
        subst hg
        rfl
    · simp only [loop_step.go.injEq] at hg
      subst hg
      rfl

theorem send_state (h : host) (m : machine) :
    (∀ o m', process_request_write_send h m = .stop o → o.ended_with m' →
      m'.conn.state = m.conn.state ∨ m'.conn.state = CONN_ERR_UNRECOVERABLE)
    ∧ (∀ m1, process_request_write_send h m = .go m1 → m1.conn.state = m.conn.state) := by
  unfold process_request_write_send
  constructor
  · intro o m' hs hf
    split_ifs at hs with hc
    · simp only
        at hs
      cases hw : h.sock_write m.sock_writes
          ((((m.conn.read_buf).getD []).drop m.conn.read_buf_cursor).take
            (m.conn.read_buf_len - m.conn.read_buf_cursor)) with
      | error e =>
        simp only [hw] at hs
        split_ifs at hs with he
        · simp only [loop_step.stop.injEq] at hs
          subst hs
          rcases hf with ⟨v, hf⟩ | hf
          · simp only [outcome.ret.injEq] at hf
            rw [← hf.2]
            exact Or.inl rfl
          · simp at hf
        · simp only [loop_step.stop.injEq] at hs
          subst hs
          rcases hf with ⟨v, hf⟩ | hf
          · simp at hf
          · simp only [outcome.aborted.injEq] at hf
            subst hf
            exact Or.inr rfl
      | ok n => simp [hw] at hs
    · simp only [loop_step.stop.injEq] at hs
      subst hs
      rcases hf with ⟨v, hf⟩ | hf
      · simp at hf
      · simp at hf
  · intro m1 hg
    split_ifs at hg with hc
    simp only at hg
    cases hw : h.sock_write m.sock_writes
        ((((m.conn.read_buf).getD []).drop m.conn.read_buf_cursor).take
          (m.conn.read_buf_len - m.conn.read_buf_cursor)) with
    | error e =>
      simp only [hw] at hg
      split_ifs at hg
    | ok n =>
      simp only [hw, loop_step.go.injEq] at hg
      subst hg
      rfl

/-- The streaming loop leaves the state it found, or Complete, or
ErrUnrecoverable. -/
theorem loop_state (h : host) (fuel : Nat) (m m' : machine)
    (hf : (process_request_write_loop h fuel m).ended_with m') :
    m'.conn.state = m.conn.state ∨ m'.conn.state = CONN_COMPLETE
      ∨ m'.conn.state = CONN_ERR_UNRECOVERABLE := by
  induction fuel generalizing m with
  | zero =>
    rcases hf with ⟨v, hf⟩ | hf <;> simp [process_request_write_loop] at hf
  | succ fuel ih =>
    rw [process_request_write_loop] at hf
    cases hfill : process_request_write_fill h m with
    | stop o =>
      simp only [hfill] at hf
      rcases (fill_state h m).1 o m' hfill hf with e | e
      · exact Or.inr (Or.inl e)
      · exact Or.inr (Or.inr e)
    | go m1 =>
      simp only [hfill] at hf
      have e1 := (fill_state h m).2 m1 hfill
      cases hsend : process_request_write_send h m1 with
      | stop o =>
        simp only [hsend] at hf
        rcases (send_state h m1).1 o m' hsend hf with e | e
        · exact Or.inl (e.trans e1)
        · exact Or.inr (Or.inr e)
      | go m2 =>
        simp only [hsend] at hf
        have e2 := (send_state h m1).2 m2 hsend
        rcases ih m2 hf with e | e
        · exact Or.inl (e.trans (e2.trans e1))
        · exact Or.inr e

/-- However `send_response` returns or aborts, it leaves the connection
Sending, Complete or ErrUnrecoverable. -/
theorem send_response_state (h : host) (fuel : Nat) (resp : http_response) (m m' : machine)
    (hf : (send_response h fuel resp m).ended_with m') : handled m'.conn.state := by
  unfold send_response at hf
  cases hb : (send_response_buffer resp).bind header_bytes with
  | none =>
    simp only [hb] at hf
    rcases hf with ⟨v, hf⟩ | hf <;> simp at hf
  | some bytes =>
    simp only [hb] at hf
    cases hw : h.sock_write m.sock_writes bytes with
    | error e =>
      simp only [hw] at hf
      rcases hf with ⟨v, hf⟩ | hf
      · simp at hf
      · simp only [outcome.aborted.injEq] at hf
        subst hf
        exact Or.inr (Or.inr (Or.inr rfl))
    | ok n =>
      simp only [hw] at hf
      split_ifs at hf with h1 h2 h3
      · rcases hf with ⟨v, hf⟩ | hf
        · simp only [outcome.ret.injEq] at hf
          rw [← hf.2]
          exact Or.inr (Or.inl rfl)
        · simp at hf
      · unfold process_request_write at hf
        split_ifs at hf with h4
        · rcases hf with ⟨v, hf⟩ | hf <;> simp at hf
        · rcases loop_state h fuel _ m' hf with e | e | e
          · exact Or.inl e
          · exact Or.inr (Or.inl e)
          · exact Or.inr (Or.inr (Or.inr e))
      · split at hf
        · split at hf
          · rcases hf with ⟨v, hf⟩ | hf
            · simp at hf
            · simp only [outcome.aborted.injEq] at hf
              subst hf
              exact Or.inr (Or.inr (Or.inr rfl))
          · split_ifs at hf
            · rcases hf with ⟨v, hf⟩ | hf
              · simp at hf
              · simp only [outcome.aborted.injEq] at hf
                subst hf
                exact Or.inr (Or.inr (Or.inr rfl))
            · rcases hf with ⟨v, hf⟩ | hf
              · simp only [outcome.ret.injEq] at hf
                rw [← hf.2]
                exact Or.inr (Or.inl rfl)
              · simp at hf
        · rcases hf with ⟨v, hf⟩ | hf
          · simp only [outcome.ret.injEq] at hf
            rw [← hf.2]
            exact Or.inr (Or.inl rfl)
          · simp at hf
      · rcases hf with ⟨v, hf⟩ | hf
        · simp at hf
        · simp only [outcome.aborted.injEq] at hf
          subst hf
          exact Or.inr (Or.inr (Or.inr rfl))

theorem error_response_state (h : host) (fuel : Nat) (c : http_status_code) (m m' : machine)
    (hf : (error_response h fuel c m).ended_with m') : handled m'.conn.state :=
  send_response_state h fuel _ m m' hf

/-- A run that goes on with `f` after a first part has ended as the first part
did, by an abort, or as `f` did after the first part returned. -/
theorem and_then_ended {α β : Type} (o : outcome α) (f : α → machine → outcome β)
    (m' : machine) (hf : (o.and_then f).ended_with m') :
    o = .aborted m' ∨ ∃ v m1, o = .ret v m1 ∧ (f v m1).ended_with m' := by
  cases o with
  | ret v m1 => exact Or.inr ⟨v, m1, rfl, hf⟩
  | aborted m1 =>
    rcases hf with ⟨v, hf⟩ | hf
    · simp [outcome.and_then] at hf
    · simp only [outcome.and_then, outcome.aborted.injEq] at hf
      subst hf
      exact Or.inl rfl
  | assert_failed m1 => rcases hf with ⟨v, hf⟩ | hf <;> simp [outcome.and_then] at hf
  | exited m1 => rcases hf with ⟨v, hf⟩ | hf <;> simp [outcome.and_then] at hf
  | undefined => rcases hf with ⟨v, hf⟩ | hf <;> simp [outcome.and_then] at hf
  | out_of_fuel m1 => rcases hf with ⟨v, hf⟩ | hf <;> simp [outcome.and_then] at hf

/-- When an error response has been sent and the function returns after it, the
connection is left Sending, Complete or ErrUnrecoverable. -/
theorem error_then_return_state {β : Type} (h : host) (fuel : Nat) (c : http_status_code)
    (m m' : machine) (v : β)
    (hf : ((error_response h fuel c m).and_then
      (fun _ m2 => (outcome.ret v m2 : outcome β))).ended_with m') :
    handled m'.conn.state := by
  rcases and_then_ended _ _ m' hf with e | ⟨u, m1, e, hr⟩
  · exact error_response_state h fuel c m m' (Or.inr e)
  · rcases hr with ⟨w, hr⟩ | hr
    · simp only [outcome.ret.injEq] at hr
      rw [← hr.2]
      exact error_response_state h fuel c m m1 (Or.inl ⟨u, e⟩)
    · simp at hr

theorem and_then_ret {α β : Type} (v : α) (m : machine) (f : α → machine → outcome β) :
    (outcome.ret v m).and_then f = f v m := rfl

theorem resolve_path_cases (h : host) (fuel : Nat) (uri : List Char)
    (settings : server_settings) (m : machine) :
    (∃ p m1, resolve_path h fuel uri settings m = .ret (some p) m1
        ∧ m1.conn.state = m.conn.state)
    ∨ ∃ c m1, resolve_path h fuel uri settings m
        = (error_response h fuel c m1).and_then (fun _ m2 => .ret none m2) := by
  unfold resolve_path
  simp only
  split
  · exact Or.inr ⟨_, _, rfl⟩
  · split_ifs
    all_goals first
      | exact Or.inr ⟨_, _, rfl⟩
      | exact Or.inl ⟨_, _, rfl, rfl⟩

theorem get_file_info_cases (h : host) (fuel : Nat) (full_path : List Char) (m : machine) :
    (∃ info m1, get_file_info h fuel full_path m = .ret (some info) m1
        ∧ m1.conn.state = m.conn.state)
    ∨ ∃ c m1, get_file_info h fuel full_path m
        = (error_response h fuel c m1).and_then (fun _ m2 => .ret none m2) := by
  unfold get_file_info
  simp only
  split
  · exact Or.inr ⟨_, _, rfl⟩
  · exact Or.inl ⟨_, _, rfl, rfl⟩

/-- However `serve_request` returns or aborts, it leaves the connection
Sending, Complete or ErrUnrecoverable. -/
theorem serve_request_state (h : host) (fuel : Nat) (req : http_req)
    (settings : server_settings) (m m' : machine)
    (hf : (serve_request h fuel req settings m).ended_with m') : handled m'.conn.state := by
  unfold serve_request at hf
  cases hmeth : req.method with
  | HTTP_GET =>
    simp only [hmeth] at hf
    unfold serve_get_request at hf
    rcases resolve_path_cases h fuel req.uri settings m with ⟨p, m1, e, -⟩ | ⟨c, m1, e⟩
    · rw [e] at hf
      simp only [and_then_ret] at hf
      rcases get_file_info_cases h fuel p m1 with ⟨info, m2, e2, -⟩ | ⟨c, m2, e2⟩
      · rw [e2] at hf
        simp only [and_then_ret] at hf
        split at hf
        · exact error_response_state h fuel _ _ m' hf
        · split_ifs at hf
          · rcases hf with ⟨v, hf⟩ | hf <;> simp at hf
          · exact send_response_state h fuel _ _ m' hf
      · rw [e2, and_then_none_stop _ _ (fun _ => rfl)] at hf
        exact error_response_state h fuel c m2 m' hf
    · rw [e, and_then_none_stop _ _ (fun _ => rfl)] at hf
      exact error_response_state h fuel c m1 m' hf
  | HTTP_HEAD =>
    simp only [hmeth] at hf
    unfold serve_head_request at hf
    rcases resolve_path_cases h fuel req.uri settings m with ⟨p, m1, e, -⟩ | ⟨c, m1, e⟩
    · rw [e] at hf
      simp only [and_then_ret] at hf
      rcases get_file_info_cases h fuel p m1 with ⟨info, m2, e2, -⟩ | ⟨c, m2, e2⟩
      · rw [e2] at hf
        simp only [and_then_ret] at hf
        exact send_response_state h fuel _ _ m' hf
      · rw [e2, and_then_none_stop _ _ (fun _ => rfl)] at hf
        exact error_response_state h fuel c m2 m' hf
    · rw [e, and_then_none_stop _ _ (fun _ => rfl)] at hf
      exact error_response_state h fuel c m1 m' hf

theorem process_request_parsed_state (h : host) (fuel : Nat) (settings : server_settings)
    (req_data : Option (List Char)) (m m' : machine)
    (hf : (process_request_parsed h fuel settings req_data m).ended_with m') :
    handled m'.conn.state := by
  unfold process_request_parsed at hf
  split at hf
  · rcases hf with ⟨v, hf⟩ | hf <;> simp at hf
  · split at hf
    · exact serve_request_state h fuel _ settings m m' hf
    · rcases hf with ⟨v, hf⟩ | hf <;> simp at hf
    · exact error_response_state h fuel _ m m' hf
    · exact error_response_state h fuel _ m m' hf
    · exact error_response_state h fuel _ m m' hf
    · exact error_response_state h fuel _ m m' hf

/-- What `read_req_data` leaves: after an abort the state ErrRecoverable; after
a return the state it found, with the result EMPTY when the `read` delivered no
byte and OK otherwise. -/
theorem read_req_data_ended (h : host) (settings : server_settings) (m m' : machine) :
    (read_req_data h settings m = .aborted m' → m'.conn.state = CONN_ERR_RECOVERABLE)
    ∧ ∀ r, read_req_data h settings m = .ret r m' →
        m'.conn.state = m.conn.state
        ∧ (r.1 = READ_REQ_DATA_OK
          ∨ (r.1 = READ_REQ_DATA_EMPTY
            ∧ ∃ bytes, h.sock_read = .ok bytes
              ∧ bytes.take (settings.read_buf_size - 1) = [])) := by
  unfold read_req_data
  simp only
  split_ifs with h1 h2 h3
  · exact ⟨fun e => by simp at e, fun r e => by simp at e⟩
  · exact ⟨fun e => by simp at e, fun r e => by simp at e⟩
  · exact ⟨fun e => by simp at e, fun r e => by simp at e⟩
  · cases hr : h.sock_read with
    | error e =>
      simp only
      constructor
      · intro e1
        simp only [outcome.aborted.injEq] at e1
        subst e1
        rfl
      · intro r e1
        simp at e1
    | ok bytes =>
      simp only
      split_ifs with hl
      · constructor
        · intro e1
          simp at e1
        · intro r e1
          simp only [outcome.ret.injEq] at e1
          obtain ⟨e2, e3⟩ := e1
          subst e2 e3
          exact ⟨rfl, Or.inr ⟨rfl, bytes, rfl, List.length_eq_zero.1 hl⟩⟩
      · constructor
        · intro e1
          simp at e1
        · intro r e1
          simp only [outcome.ret.injEq] at e1
          obtain ⟨e2, e3⟩ := e1
          subst e2 e3
          exact ⟨rfl, Or.inl rfl⟩

/-- Apart from the empty read, C22 holds: however `process_request` returns or
aborts, it leaves the connection Sending, Complete, ErrRecoverable or
ErrUnrecoverable, unless the `read` on the socket has delivered no byte, in
which case the connection is left in the state it was in. -/
theorem process_request_state (h : host) (fuel : Nat) (settings : server_settings)
    (m m' : machine) (hf : (process_request h fuel settings m).ended_with m') :
    handled m'.conn.state
    ∨ (m'.conn.state = m.conn.state
      ∧ ∃ bytes, h.sock_read = .ok bytes ∧ bytes.take (settings.read_buf_size - 1) = []) := by
  unfold process_request at hf
  rcases and_then_ended _ _ m' hf with e | ⟨r, m1, e, hr⟩
  · exact Or.inl (Or.inr (Or.inr (Or.inl ((read_req_data_ended h settings m m').1 e))))
  · obtain ⟨hs, hcase⟩ := (read_req_data_ended h settings m m1).2 r e
    rcases hcase with hok | ⟨hempty, bytes, hb1, hb2⟩
    · simp only [hok] at hr
      exact Or.inl (process_request_parsed_state h fuel settings _ m1 m' hr)
    · simp only [hempty] at hr
      rcases hr with ⟨v, hr⟩ | hr
      · simp only [outcome.ret.injEq] at hr
        rw [← hr.2]
        exact Or.inr ⟨hs, bytes, hb1, hb2⟩
      · simp at hr

/-! ## The order of the checks of the parser -/

theorem parse_http_method_none_of_ne (p : List Char)
    (hget : p ≠ "GET".toList) (hhead : p ≠ "HEAD".toList) :
    parse_http_method p 0 p.length = none := by
  cases hm : parse_http_method p 0 p.length with
  | none => rfl
  | some meth =>
    obtain ⟨-, htake⟩ := parse_http_method_inv p p.length meth hm
    rw [List.take_length] at htake
    cases meth
    · exact absurd htake hget
    · exact absurd htake hhead

/-- C33, as amended: `parse_http_req` looks at the method before the URI and at
the length of the URI before the version. For a line free of NUL bytes that is
made of a token `p`, one or more spaces, a URI token `u` longer than
`uri_length_limit`, a space and a rest `g`: when `p` is neither `GET` nor
`HEAD` the result is `PARSE_HTTP_INVALID_METHOD`, and when `p` is `GET` or
`HEAD` the result is `PARSE_HTTP_URI_TOO_LONG`, whatever `g` is, an unsupported
version included, and whatever follows the CR. -/
theorem parse_http_req_check_order (limit k : Nat) (p u g t : List Char)
    (hk : 0 < k) (hps : SP ∉ p) (hpc : CR ∉ p) (hpn : NUL ∉ p)
    (hus : SP ∉ u) (huc : CR ∉ u) (hun : NUL ∉ u) (hlong : u.length > limit)
    (hgc : CR ∉ g) (hgn : NUL ∉ g) :
    (p ≠ "GET".toList → p ≠ "HEAD".toList →
      (parse_http_req limit (p ++ (List.replicate k SP ++ (u ++ SP :: (g ++ CR :: t))))).1
        = PARSE_HTTP_INVALID_METHOD)
    ∧ ((p = "GET".toList ∨ p = "HEAD".toList) →
      (parse_http_req limit (p ++ (List.replicate k SP ++ (u ++ SP :: (g ++ CR :: t))))).1
        = PARSE_HTTP_URI_TOO_LONG) := by
  constructor
  · intro hget hhead
    obtain ⟨j, rfl⟩ : ∃ j, k = j + 1 := ⟨k - 1, by omega⟩
    have e : p ++ (List.replicate (j + 1) SP ++ (u ++ SP :: (g ++ CR :: t)))
        = p ++ SP :: ((List.replicate j SP ++ (u ++ SP :: g)) ++ CR :: t) := by
      simp [List.replicate_succ]
    rw [e, parse_http_req_bad_method limit p _ t hps hpc hpn _ _
      (parse_http_method_none_of_ne p hget hhead)]
    · intro hm
      rcases List.mem_append.1 hm with h1 | h1
      · exact SP_ne_CR (List.eq_of_mem_replicate h1).symm
      · rcases List.mem_append.1 h1 with h2 | h2
        · exact huc h2
        · rcases List.mem_cons.1 h2 with h3 | h3
          · exact SP_ne_CR h3.symm
          · exact hgc h3
    · intro hm
      rcases List.mem_append.1 hm with h1 | h1
      · exact NUL_ne_SP (List.eq_of_mem_replicate h1)
      · rcases List.mem_append.1 h1 with h2 | h2
        · exact hun h2
        · rcases List.mem_cons.1 h2 with h3 | h3
          · exact NUL_ne_SP h3
          · exact hgn h3
  · intro hp
    have hu : u ≠ [] := by
      intro e
      rw [e] at hlong
      simp at hlong
    obtain ⟨meth, rfl⟩ : ∃ meth, p = http_method_str meth := by
      rcases hp with rfl | rfl
      · exact ⟨HTTP_GET, rfl⟩
      · exact ⟨HTTP_HEAD, rfl⟩
    rw [parse_http_req_shape limit meth k u g t hk hu hus huc hun hgc hgn, if_pos hlong]

/-- With a limit of 4: `POST /abcdef HTTP/9.9` is answered
`PARSE_HTTP_INVALID_METHOD` and `GET /abcdef HTTP/9.9` is answered
`PARSE_HTTP_URI_TOO_LONG`. -/
theorem parse_http_req_check_order_witness :
    (parse_http_req 4 ("POST".toList ++ (List.replicate 1 SP
        ++ ("/abcdef".toList ++ SP :: ("HTTP/9.9".toList ++ CR :: "\n\r\n".toList))))).1
      = PARSE_HTTP_INVALID_METHOD
    ∧ (parse_http_req 4 ("GET".toList ++ (List.replicate 1 SP
        ++ ("/abcdef".toList ++ SP :: ("HTTP/9.9".toList ++ CR :: "\n\r\n".toList))))).1
      = PARSE_HTTP_URI_TOO_LONG :=
  ⟨(parse_http_req_check_order 4 1 "POST".toList "/abcdef".toList "HTTP/9.9".toList
      "\n\r\n".toList (by decide) (by decide) (by decide) (by decide) (by decide) (by decide)
      (by decide) (by decide) (by decide) (by decide)).1 (by decide) (by decide),
   (parse_http_req_check_order 4 1 "GET".toList "/abcdef".toList "HTTP/9.9".toList
      "\n\r\n".toList (by decide) (by decide) (by decide) (by decide) (by decide) (by decide)
      (by decide) (by decide) (by decide) (by decide)).2 (Or.inl rfl)⟩

/-- C33 fails as stated: with a limit of 4, the line `PO\0ST /abcdef HTTP/9.9`
has an unsupported method, an over-long URI and an unsupported version, and the
line `GET /abc\0def HTTP/9.9` has the method GET, an over-long URI and an
unsupported version, yet both are answered `PARSE_HTTP_INVALID_SYNTAX`, the NUL
byte ending the string before any CR. -/
theorem parse_http_req_check_order_nul :
    (parse_http_req 4 "PO\x00ST /abcdef HTTP/9.9\r\n\r\n".toList).1 = PARSE_HTTP_INVALID_SYNTAX
    ∧ (parse_http_req 4 "PO\x00ST /abcdef HTTP/9.9\r\n\r\n".toList).1
        ≠ PARSE_HTTP_INVALID_METHOD
    ∧ (parse_http_req 4 "GET /abc\x00def HTTP/9.9\r\n\r\n".toList).1 = PARSE_HTTP_INVALID_SYNTAX
    ∧ (parse_http_req 4 "GET /abc\x00def HTTP/9.9\r\n\r\n".toList).1
        ≠ PARSE_HTTP_URI_TOO_LONG := by
  decide

/-! ## The extension of a path -/

theorem split_last (c : Char) (l : List Char) (h : c ∈ l) :
    ∃ p q, l = p ++ c :: q ∧ c ∉ q := by
  obtain ⟨p, q, hl, hp⟩ := split_first c l.reverse (List.mem_reverse.2 h)
  refine ⟨q.reverse, p.reverse, ?_, fun hm => hp (List.mem_reverse.1 hm)⟩
  have := congrArg List.reverse hl
  simpa using this

theorem http_content_type_str_bin (ct : http_content_type)
    (h : http_content_type_str ct = "application/octet-stream".toList) : ct = HTTP_CT_BIN := by
  cases ct <;> first | rfl | exact absurd h (by decide)

theorem from_ext_of_slash (ext : List Char) (hs : Char.ofNat 47 ∈ ext) (hn : NUL ∉ ext) :
    http_conten_type_from_ext (some ext) = HTTP_CT_BIN := by
  apply http_content_type_str_bin
  apply from_ext_of_no_entry
  have key : ∀ p ∈ spec_content_types, Char.ofNat 47 ∉ p.1 := by decide
  intro p hp e
  rw [cstr_of_not_mem ext hn] at e
  rw [e] at hs
  exact key p hp hs

theorem from_filename_no_dot (dir file : List Char) (hd : NUL ∉ dir) (hf : NUL ∉ file)
    (hdot : Char.ofNat 46 ∉ file) :
    http_conten_type_from_filename (dir ++ Char.ofNat 47 :: file) = HTTP_CT_BIN := by
  by_cases h : Char.ofNat 46 ∈ dir
  · obtain ⟨a, e, hde, he⟩ := split_last _ dir h
    have han : NUL ∉ a := fun hm => hd (by rw [hde]; exact List.mem_append_left _ hm)
    have hen : NUL ∉ e := fun hm =>
      hd (by rw [hde]; exact List.mem_append_right _ (List.mem_cons_of_mem _ hm))
    have hxn : NUL ∉ e ++ Char.ofNat 47 :: file := by
      intro hm
      rcases List.mem_append.1 hm with h1 | h1
      · exact hen h1
      · rcases List.mem_cons.1 h1 with h2 | h2
        · exact absurd h2 (by decide)
        · exact hf h2
    have hxd : Char.ofNat 46 ∉ cstr (e ++ Char.ofNat 47 :: file) := by
      rw [cstr_of_not_mem _ hxn]
      intro hm
      rcases List.mem_append.1 hm with h1 | h1
      · exact he h1
      · rcases List.mem_cons.1 h1 with h2 | h2
        · exact absurd h2 (by decide)
        · exact hdot h2
    have hname : dir ++ Char.ofNat 47 :: file
        = a ++ [Char.ofNat 46] ++ (e ++ Char.ofNat 47 :: file) := by
      rw [hde]
      simp
    rw [hname, from_filename_of_ext a _ han hxd]
    exact from_ext_of_slash _ (List.mem_append_right _ (List.mem_cons_self _ _)) hxn
  · unfold http_conten_type_from_filename
    rw [strrchr_none]
    · rfl
    · intro hm
      have hsub : Char.ofNat 46 ∈ dir ++ Char.ofNat 47 :: file :=
        (List.takeWhile_sublist _).subset hm
      rcases List.mem_append.1 hsub with h1 | h1
      · exact h h1
      · rcases List.mem_cons.1 h1 with h2 | h2
        · exact absurd h2 (by decide)
        · exact hdot h2

/-- C38: `http_conten_type_from_filename` looks at the bytes after the last `.`
of the whole path and at nothing else. Two paths (C strings) that have the same
bytes `ext` after their last dot get the same type, that of `ext`; a path whose
final component, the bytes `file` after its last `/`, holds no dot gets
`application/octet-stream`, also when a directory before it holds one, as in
`/srv/www.html/data`; and a name with several dots goes by its last extension,
`a.tar.txt` getting `text/plain`. -/
theorem content_type_last_dot (a b ext dir file : List Char)
    (ha : NUL ∉ a) (hb : NUL ∉ b) (hext : Char.ofNat 46 ∉ cstr ext)
    (hdir : NUL ∉ dir) (hfile : NUL ∉ file) (hdot : Char.ofNat 46 ∉ file) :
    http_conten_type_from_filename (a ++ [Char.ofNat 46] ++ ext)
        = http_conten_type_from_ext (some ext)
    ∧ http_conten_type_from_filename (a ++ [Char.ofNat 46] ++ ext)
        = http_conten_type_from_filename (b ++ [Char.ofNat 46] ++ ext)
    ∧ http_conten_type_from_filename (dir ++ Char.ofNat 47 :: file) = HTTP_CT_BIN
    ∧ http_content_type_str (http_conten_type_from_filename "/srv/www.html/data".toList)
        = "application/octet-stream".toList
    ∧ http_content_type_str (http_conten_type_from_filename "a.tar.txt".toList)
        = "text/plain".toList := by
  refine ⟨from_filename_of_ext a ext ha hext, ?_, from_filename_no_dot dir file hdir hfile hdot,
    by decide, by decide⟩
  rw [from_filename_of_ext a ext ha hext, from_filename_of_ext b ext hb hext]

/-- The paths `/srv/www/a.tar.txt` and `x.txt` get the same type, that of `txt`,
and `/srv/www.html/data`, with the directory `/srv/www.html` and the file
`data`, gets `application/octet-stream`. -/
theorem content_type_last_dot_witness :
    http_conten_type_from_filename ("/srv/www/a.tar".toList ++ [Char.ofNat 46] ++ "txt".toList)
        = http_conten_type_from_ext (some "txt".toList)
    ∧ http_conten_type_from_filename ("/srv/www/a.tar".toList ++ [Char.ofNat 46] ++ "txt".toList)
        = http_conten_type_from_filename ("x".toList ++ [Char.ofNat 46] ++ "txt".toList)
    ∧ http_conten_type_from_filename ("/srv/www.html".toList ++ Char.ofNat 47 :: "data".toList)
        = HTTP_CT_BIN
    ∧ http_content_type_str (http_conten_type_from_filename "/srv/www.html/data".toList)
        = "application/octet-stream".toList
    ∧ http_content_type_str (http_conten_type_from_filename "a.tar.txt".toList)
        = "text/plain".toList :=
  content_type_last_dot "/srv/www/a.tar".toList "x".toList "txt".toList "/srv/www.html".toList
    "data".toList (by decide) (by decide) (by decide) (by decide) (by decide) (by decide)

/-! ## Runs of `arena_alloc` -/

/-- The three ways a call of `arena_alloc` with a size from 1 to below `2 ^ 63`
ends on an arena on which it is safe: the host has no memory for a new block
and the null pointer is returned; a new block is linked in and its first bytes
are returned; or the bytes at the used count of the current block, rounded up
to a multiple of 16, are returned. -/
theorem arena_alloc_cases (calloc : Nat → Option Nat) (arena : memory_arena)
    (mem : Nat → Char) (n : Nat) (hwf : arena_wf arena)
    (hcalloc : ∀ k p, calloc k = some p → p % 16 = 0 ∧ p + k ≤ SIZE_MOD)
    (hn : 1 ≤ n) (hn2 : n < 2 ^ 63) :
    (∃ arena1, arena_alloc calloc arena mem n = .null arena1 mem
        ∧ arena1.blocks = arena.blocks)
    ∨ (∃ q B, calloc (B + BLOCK_HEADER_SIZE) = some q ∧ n ≤ B ∧ B < 2 ^ 63
        ∧ (B % 16 = 0 ∨ n = B)
        ∧ arena_alloc calloc arena mem n
          = .region ⟨⟨B, n, q + BLOCK_HEADER_SIZE⟩ :: arena.blocks, 65536⟩ 0
              (q + BLOCK_HEADER_SIZE) (memset_zero mem (q + BLOCK_HEADER_SIZE) n))
    ∨ (∃ b rest, arena.blocks = b :: rest
        ∧ (b.used + 15) / 16 * 16 + (n + 15) / 16 * 16 ≤ b.size
        ∧ arena_alloc calloc arena mem n
          = .region ⟨{ b with used := b.used + (n + 15) / 16 * 16 } :: rest,
                arena.minimum_block_size⟩
              ((b.used + 15) / 16 * 16) (b.base + (b.used + 15) / 16 * 16)
              (memset_zero mem (b.base + (b.used + 15) / 16 * 16) n)) := by
  have hS : SIZE_MOD = 18446744073709551616 := by norm_num [SIZE_MOD]
  have hround := arena_round_up n (by omega)
  obtain ⟨hmin, hhead⟩ := hwf
  have hmin1 : (if arena.minimum_block_size = 0 then 65536 else arena.minimum_block_size)
      = 65536 := by
    rcases hmin with h | h <;> simp [h]
  unfold arena_alloc
  rw [if_neg (by omega)]
  simp only [hround, hmin1]
  by_cases hneed : arena_needs_block arena ((n + 15) / 16 * 16) = true
  · rw [if_pos hneed]
    have hB : (if 65536 > n then 65536 else n) < 2 ^ 63 := by
      split_ifs <;> omega
    have hBn : n ≤ (if 65536 > n then 65536 else n) := by
      split_ifs <;> omega
    have hB16 : (if 65536 > n then 65536 else n) % 16 = 0 ∨ n = (if 65536 > n then 65536 else n) := by
      split_ifs <;> omega
    have hreq : ((if 65536 > n then 65536 else n) + BLOCK_HEADER_SIZE) % SIZE_MOD
        = (if 65536 > n then 65536 else n) + BLOCK_HEADER_SIZE := by
      rw [BLOCK_HEADER_SIZE, Nat.mod_eq_of_lt (by omega)]
    rw [hreq]
    cases hc : calloc ((if 65536 > n then 65536 else n) + BLOCK_HEADER_SIZE) with
    | none =>
      exact Or.inl ⟨_, rfl, rfl⟩
    | some p =>
      obtain ⟨hp1, hp2⟩ := hcalloc _ _ hc
      have hbase : (p + BLOCK_HEADER_SIZE) % SIZE_MOD = p + BLOCK_HEADER_SIZE := by
        rw [BLOCK_HEADER_SIZE] at hp2 ⊢
        rw [Nat.mod_eq_of_lt (by omega)]
      simp only [hbase]
      rw [arena_alloc_place_ok _ arena.blocks 65536 mem n n
        (by show (p + BLOCK_HEADER_SIZE) % 16 = 0; rw [BLOCK_HEADER_SIZE]; omega)
        (by show p + BLOCK_HEADER_SIZE + (if 65536 > n then 65536 else n) ≤ SIZE_MOD; omega)
        hB hn (le_refl _)
        (by show (0 + 15) / 16 * 16 + n ≤ (if 65536 > n then 65536 else n); omega)]
      refine Or.inr (Or.inl ⟨p, _, hc, hBn, hB, hB16, ?_⟩)
      simp
  · rw [if_neg hneed]
    cases hb : arena.blocks with
    | nil => simp [arena_needs_block, hb] at hneed
    | cons b rest =>
      obtain ⟨h1, h2, h3, h4, h5⟩ := hhead b (by simp [hb])
      have hno : ¬ ((b.used + (n + 15) / 16 * 16) % SIZE_MOD > b.size) := by
        simpa [arena_needs_block, hb] using hneed
      rw [Nat.mod_eq_of_lt (by omega)] at hno
      have hsz : b.size % 16 = 0 := by
        rcases h3 with h | h
        · exact h
        · omega
      simp only
      rw [arena_alloc_place_ok b rest _ mem _ n h1 h4 h5 hn (by omega) (by omega)]
      exact Or.inr (Or.inr ⟨b, rest, rfl, by omega, rfl⟩)

theorem blocks_apart_of_used (b c : memory_arena_block) (u : Nat) :
    blocks_apart { b with used := u } c ↔ blocks_apart b c :=
  Iff.rfl

theorem arena_holds_inside (arena : memory_arena) (p n : Nat) (h : arena_holds arena p n) :
    ∃ b ∈ arena.blocks, b.base ≤ p ∧ p + n ≤ b.base + b.size
      ∧ p + n ≤ b.base + (b.used + 15) / 16 * 16 := by
  obtain ⟨b, hb, h1, h2⟩ := h
  refine ⟨b, hb, h1, ?_, ?_⟩
  · have := Nat.min_le_left b.size ((b.used + 15) / 16 * 16)
    unfold block_top at h2
    omega
  · have := Nat.min_le_right b.size ((b.used + 15) / 16 * 16)
    unfold block_top at h2
    omega

theorem arena_holds_of_inside (arena : memory_arena) (p n : Nat) (b : memory_arena_block)
    (hb : b ∈ arena.blocks) (h1 : b.base ≤ p) (h2 : p + n ≤ b.base + b.size)
    (h3 : p + n ≤ b.base + (b.used + 15) / 16 * 16) : arena_holds arena p n := by
  refine ⟨b, hb, h1, ?_⟩
  have : p + n - b.base ≤ block_top b := le_min (by omega) (by omega)
  omega

/-- One successful call of `arena_alloc` with a size from 1 to below `2 ^ 63`,
on an arena as such calls build it and with a host allocator that keeps its
contract: the arena it leaves is again such an arena; the region returned is
one the arena then holds, and its bytes are cleared; and every region the arena
held before is still held and shares no byte with the new one. -/
theorem arena_alloc_step (calloc : Nat → Option Nat) (arena arena1 : memory_arena)
    (mem mem1 : Nat → Char) (n off p : Nat) (hok : arena_ok arena)
    (hfresh : calloc_fresh arena calloc) (hn : 1 ≤ n) (hn2 : n < 2 ^ 63)
    (h : arena_alloc calloc arena mem n = .region arena1 off p mem1) :
    arena_ok arena1 ∧ arena_holds arena1 p n ∧ mem1 = memset_zero mem p n
      ∧ ∀ p0 n0, arena_holds arena p0 n0 →
          arena_holds arena1 p0 n0 ∧ regions_apart (p, n) (p0, n0) := by
  have hS : SIZE_MOD = 18446744073709551616 := by norm_num [SIZE_MOD]
  have hH : BLOCK_HEADER_SIZE = 32 := rfl
  obtain ⟨hwf, hall, hpair⟩ := hok
  rcases arena_alloc_cases calloc arena mem n hwf
      (fun k q hk => ⟨(hfresh k q hk).1, (hfresh k q hk).2.1⟩) hn hn2 with
    ⟨a, ha, -⟩ | ⟨q, B, hq, hnB, hB, hB16, ha⟩ | ⟨b, rest, hb, hfit, ha⟩
  · rw [ha] at h
    cases h
  · rw [ha] at h
    injection h with e1 e2 e3 e4
    subst e1 e3 e4
    obtain ⟨hq1, hq2, hq3⟩ := hfresh _ _ hq
    refine ⟨⟨⟨Or.inr rfl, ?_⟩, ?_, ?_⟩, ?_, rfl, ?_⟩
    · intro b hb
      simp only [List.head?_cons, Option.mem_def, Option.some.injEq] at hb
      subst hb
      exact ⟨by show (q + BLOCK_HEADER_SIZE) % 16 = 0; omega, hnB, hB16,
        by show q + BLOCK_HEADER_SIZE + B ≤ SIZE_MOD; omega, hB⟩
    · intro b hb
      rcases List.mem_cons.1 hb with rfl | hb
      · exact ⟨hnB, by show BLOCK_HEADER_SIZE ≤ q + BLOCK_HEADER_SIZE; omega,
          by show q + BLOCK_HEADER_SIZE + B ≤ SIZE_MOD; omega⟩
      · exact hall b hb
    · refine List.pairwise_cons.2 ⟨?_, hpair⟩
      intro c hc
      rcases hq3 c hc with h1 | h1
      · exact Or.inl (by show q + BLOCK_HEADER_SIZE + B + BLOCK_HEADER_SIZE ≤ c.base; omega)
      · exact Or.inr (by show c.base + c.size + BLOCK_HEADER_SIZE ≤ q + BLOCK_HEADER_SIZE; omega)
    · refine ⟨_, List.mem_cons_self _ _, le_refl _, ?_⟩
      show q + BLOCK_HEADER_SIZE + n ≤ q + BLOCK_HEADER_SIZE + min B ((n + 15) / 16 * 16)
      have : n ≤ min B ((n + 15) / 16 * 16) := le_min hnB (by omega)
      omega
    · intro p0 n0 hp0
      obtain ⟨c, hc, h1, h2, -⟩ := arena_holds_inside arena p0 n0 hp0
      obtain ⟨c1, hc1, h3, h4⟩ := hp0
      refine ⟨⟨c1, List.mem_cons_of_mem _ hc1, h3, h4⟩, ?_⟩
      rcases hq3 c hc with h5 | h5
      · exact Or.inl (by show q + BLOCK_HEADER_SIZE + n ≤ p0; omega)
      · exact Or.inr (by show p0 + n0 ≤ q + BLOCK_HEADER_SIZE; omega)
  · rw [ha] at h
    injection h with e1 e2 e3 e4
    subst e1 e3 e4
    obtain ⟨hmin, hhead⟩ := hwf
    obtain ⟨g1, g2, g3, g4, g5⟩ := hhead b (by simp [hb])
    have hsz : b.size % 16 = 0 := by
      rcases g3 with g | g
      · exact g
      · omega
    rw [hb] at hall hpair
    obtain ⟨hpb, hprest⟩ := List.pairwise_cons.1 hpair
    refine ⟨⟨⟨hmin, ?_⟩, ?_, ?_⟩, ?_, rfl, ?_⟩
    · intro b1 hb1
      simp only [List.head?_cons, Option.mem_def, Option.some.injEq] at hb1
      subst hb1
      exact ⟨g1, by show b.used + _ ≤ b.size; omega, Or.inl hsz, g4, g5⟩
    · intro c hc
      rcases List.mem_cons.1 hc with rfl | hc
      · exact ⟨by show b.used + _ ≤ b.size; omega, (hall b (List.mem_cons_self _ _)).2.1, g4⟩
      · exact hall c (List.mem_cons_of_mem _ hc)
    · exact List.pairwise_cons.2 ⟨fun c hc => hpb c hc, hprest⟩
    · refine ⟨_, List.mem_cons_self _ _, by show b.base ≤ b.base + _; omega, ?_⟩
      show b.base + (b.used + 15) / 16 * 16 + n
        ≤ b.base + min b.size ((b.used + (n + 15) / 16 * 16 + 15) / 16 * 16)
      have : (b.used + 15) / 16 * 16 + n ≤ min b.size ((b.used + (n + 15) / 16 * 16 + 15) / 16 * 16) :=
        le_min (by omega) (by omega)
      omega
    · intro p0 n0 hp0
      obtain ⟨c, hc, h1, h2, h3⟩ := arena_holds_inside arena p0 n0 hp0
      rw [hb] at hc
      rcases List.mem_cons.1 hc with rfl | hc
      · exact ⟨arena_holds_of_inside _ p0 n0 _ (List.mem_cons_self _ _) h1 h2
          (by show p0 + n0 ≤ c.base + (c.used + (n + 15) / 16 * 16 + 15) / 16 * 16; omega),
          Or.inr (by show p0 + n0 ≤ c.base + _; omega)⟩
      · refine ⟨arena_holds_of_inside _ p0 n0 c (List.mem_cons_of_mem _ hc) h1 h2 h3, ?_⟩
        have hcs := (hall c (List.mem_cons_of_mem _ hc)).2.1
        rcases hpb c hc with h6 | h6
        · exact Or.inl (by show b.base + _ + n ≤ p0; rw [hH] at h6; omega)
        · exact Or.inr (by show p0 + n0 ≤ b.base + _; rw [hH] at h6; omega)

theorem arena_ok_zero : arena_ok zero_arena :=
  ⟨arena_wf_zero, by simp [zero_arena], by simp [zero_arena]⟩

/-- What holds along a run of `arena_alloc` calls: the arena is one such calls
build, it holds every region returned, and no two of the regions share a
byte. -/
theorem alloc_run_inv (arena : memory_arena) (regions : List (Nat × Nat))
    (h : alloc_run arena regions) :
    arena_ok arena ∧ (∀ r ∈ regions, arena_holds arena r.1 r.2)
      ∧ regions.Pairwise regions_apart := by
  induction h with
  | zero => exact ⟨arena_ok_zero, by simp, List.Pairwise.nil⟩
  | alloc calloc arena arena1 mem mem1 n off p regions _ hfresh hn hn2 ha ih =>
    obtain ⟨hok, hheld, hpair⟩ := ih
    obtain ⟨hok1, hnew, -, hold⟩ := arena_alloc_step calloc arena arena1 mem mem1 n off p hok
      hfresh hn hn2 ha
    refine ⟨hok1, ?_, List.pairwise_cons.2 ⟨?_, hpair⟩⟩
    · intro r hr
      rcases List.mem_cons.1 hr with rfl | hr
      · exact hnew
      · exact (hold r.1 r.2 (hheld r hr)).1
    · intro r hr
      exact (hold r.1 r.2 (hheld r hr)).2

theorem calloc_fresh_none (arena : memory_arena) : calloc_fresh arena (fun _ => none) := by
  intro k q hk
  cases hk

theorem calloc_fresh_zero : calloc_fresh zero_arena scenario_calloc := by
  have hS : SIZE_MOD = 18446744073709551616 := by norm_num [SIZE_MOD]
  intro k q hk
  unfold scenario_calloc at hk
  split_ifs at hk with hle
  injection hk with e
  subst e
  exact ⟨by norm_num, by omega, by simp [zero_arena]⟩

theorem calloc_fresh_high (used : Nat) :
    calloc_fresh ⟨[⟨65536, used, 4128⟩], 65536⟩ scenario_calloc_high := by
  have hS : SIZE_MOD = 18446744073709551616 := by norm_num [SIZE_MOD]
  intro k q hk
  unfold scenario_calloc_high at hk
  split_ifs at hk with hle
  injection hk with e
  subst e
  refine ⟨by norm_num, by omega, ?_⟩
  intro b hb
  simp only [List.mem_singleton] at hb
  subst hb
  exact Or.inr (by norm_num)

/-- A run of three calls, of 32, 17 and 70000 bytes: the first opens a block of
65536 bytes at 4128, the second takes the bytes at offset 32 of it, and the
third, which does not fit, opens a block of 70000 bytes at 1048608. -/
theorem alloc_run_scenario :
    alloc_run ⟨[⟨70000, 70000, 1048608⟩, ⟨65536, 64, 4128⟩], 65536⟩
      [(1048608, 70000), (4160, 17), (4128, 32)] := by
  have h1 : alloc_run ⟨[⟨65536, 32, 4128⟩], 65536⟩ [(4128, 32)] :=
    alloc_run.alloc scenario_calloc zero_arena _ scenario_mem (memset_zero scenario_mem 4128 32)
      32 0 4128 [] alloc_run.zero calloc_fresh_zero (by decide) (by decide) rfl
  have h2 : alloc_run ⟨[⟨65536, 64, 4128⟩], 65536⟩ [(4160, 17), (4128, 32)] :=
    alloc_run.alloc (fun _ => none) _ _ scenario_mem (memset_zero scenario_mem 4160 17)
      17 32 4160 _ h1 (calloc_fresh_none _) (by decide) (by decide) rfl
  exact alloc_run.alloc scenario_calloc_high _ _ scenario_mem
    (memset_zero scenario_mem 1048608 70000) 70000 0 1048608 _ h2 (calloc_fresh_high 64)
    (by decide) (by decide) rfl

/-- C37: along every run of successful `arena_alloc` calls from the
zero-initialized arena, with sizes from 1 to below `2 ^ 63` and a host
allocator that hands out memory not in use at addresses that are multiples of
16, no two of the regions returned share a byte, and in every block of the
arena the used count is at most the size of the block. -/
theorem arena_alloc_regions_apart (arena : memory_arena) (regions : List (Nat × Nat))
    (h : alloc_run arena regions) :
    regions.Pairwise regions_apart ∧ ∀ b ∈ arena.blocks, b.used ≤ b.size := by
  obtain ⟨hok, -, hpair⟩ := alloc_run_inv arena regions h
  exact ⟨hpair, fun b hb => (hok.2.1 b hb).1⟩

/-- The run of three calls of 32, 17 and 70000 bytes: the regions at 4128,
4160 and 1048608 share no byte, and the two blocks have 64 of 65536 and 70000
of 70000 bytes used. -/
theorem arena_alloc_regions_apart_witness :
    alloc_run ⟨[⟨70000, 70000, 1048608⟩, ⟨65536, 64, 4128⟩], 65536⟩
        [(1048608, 70000), (4160, 17), (4128, 32)]
      ∧ [((1048608 : Nat), (70000 : Nat)), (4160, 17), (4128, 32)].Pairwise regions_apart
      ∧ ∀ b ∈ (⟨[⟨70000, 70000, 1048608⟩, ⟨65536, 64, 4128⟩], 65536⟩ : memory_arena).blocks,
          b.used ≤ b.size :=
  ⟨alloc_run_scenario, arena_alloc_regions_apart _ _ alloc_run_scenario⟩

theorem arena_clear_loop_eq (min : Nat) (blocks freed : List memory_arena_block) :
    arena_clear_loop min blocks freed = (⟨[], min⟩, freed ++ blocks) := by
  induction blocks generalizing freed with
  | nil => simp [arena_clear_loop]
  | cons block rest ih =>
    unfold arena_clear_loop
    simp only [free_last_block]
    cases rest with
    | nil => simp
    | cons c rest1 =>
      simp only [List.isEmpty_cons, Bool.false_eq_true, if_false]
      rw [ih]
      simp

/-- C32: for every arena, whatever the number of its blocks, `arena_clear`
hands every block of the chain to `free`, once each and from the current block
on, and leaves the arena without a block and with its `minimum_block_size`; a
second call frees nothing and leaves the arena as it is; and a following
`arena_alloc` finds that it needs a new block and, when it returns a region,
has an arena with that one block. -/
theorem arena_clear_frees (arena : memory_arena) (calloc : Nat → Option Nat)
    (mem : Nat → Char) (n : Nat) :
    (arena_clear arena).1 = ⟨[], arena.minimum_block_size⟩
    ∧ (arena_clear arena).2 = arena.blocks
    ∧ arena_clear (arena_clear arena).1 = ((arena_clear arena).1, [])
    ∧ arena_needs_block (arena_clear arena).1 n = true
    ∧ ∀ arena1 off p mem1,
        arena_alloc calloc (arena_clear arena).1 mem n = .region arena1 off p mem1 →
          ∃ b, arena1.blocks = [b] := by
  have h1 : arena_clear arena = (⟨[], arena.minimum_block_size⟩, arena.blocks) := by
    unfold arena_clear
    rw [arena_clear_loop_eq]
    simp
  rw [h1]
  refine ⟨rfl, rfl, rfl, rfl, ?_⟩
  intro arena1 off p mem1 h
  unfold arena_alloc at h
  simp only [arena_needs_block, if_true] at h
  split_ifs at h with h0
  all_goals
    split at h
    · cases h
    · rename_i new_block _
      obtain ⟨used, hu⟩ := (arena_alloc_place_arena _ [] _ mem n n).2
      rw [h] at hu
      exact ⟨_, congrArg memory_arena.blocks hu⟩

/-- An arena with two blocks: `arena_clear` frees the two, the current block
first, and a following `arena_alloc(8)` opens one block. -/
theorem arena_clear_frees_witness :
    arena_clear ⟨[⟨70000, 70000, 1048608⟩, ⟨65536, 64, 4128⟩], 65536⟩
      = (⟨[], 65536⟩, [⟨70000, 70000, 1048608⟩, ⟨65536, 64, 4128⟩])
    ∧ ∃ b, (⟨[⟨65536, 8, 4128⟩], 65536⟩ : memory_arena).blocks = [b] :=
  ⟨rfl, (arena_clear_frees ⟨[⟨70000, 70000, 1048608⟩, ⟨65536, 64, 4128⟩], 65536⟩
    scenario_calloc scenario_mem 8).2.2.2.2 ⟨[⟨65536, 8, 4128⟩], 65536⟩ 0 4128
    (memset_zero scenario_mem 4128 8) rfl⟩

/-- C31: on an arena as calls of `arena_alloc` build it, with a host allocator
that hands out memory not in use, for a region `p` the arena has handed out
with `n0 ≥ 1` bytes, of which `old` are to be kept, and a new size from 1 to
below `2 ^ 63`: either the allocation fails, or `arena_realloc` returns a
region `q` the arena had not handed out before, other than `p` and sharing no
byte with it, whose first `min(old, new_size)` bytes are those of `p` and whose
other bytes are zero, and the bytes of `p` are as they were; this also when
`new_size ≤ old`. -/
theorem arena_realloc_fresh (calloc : Nat → Option Nat) (arena : memory_arena)
    (mem : Nat → Char) (p n0 old new_size : Nat) (hok : arena_ok arena)
    (hfresh : calloc_fresh arena calloc) (hp : arena_holds arena p n0) (hn0 : 1 ≤ n0)
    (hold : old ≤ n0) (hn : 1 ≤ new_size) (hn2 : new_size < 2 ^ 63) :
    (∃ arena1, arena_alloc calloc arena mem new_size = .null arena1 mem)
    ∨ ∃ arena1 q mem1, arena_realloc calloc arena mem p old new_size = .region arena1 q mem1
        ∧ q ≠ p ∧ regions_apart (q, new_size) (p, n0)
        ∧ (∀ p1 n1, arena_holds arena p1 n1 → regions_apart (q, new_size) (p1, n1))
        ∧ (∀ i, i < min old new_size → mem1 (q + i) = mem (p + i))
        ∧ (∀ i, min old new_size ≤ i → i < new_size → mem1 (q + i) = NUL)
        ∧ (∀ i, i < n0 → mem1 (p + i) = mem (p + i))
        ∧ arena_ok arena1 ∧ arena_holds arena1 q new_size ∧ arena_holds arena1 p n0 := by
  rcases arena_alloc_cases calloc arena mem new_size hok.1
      (fun k q hk => ⟨(hfresh k q hk).1, (hfresh k q hk).2.1⟩) hn hn2 with
    ⟨a, ha, -⟩ | ⟨q, B, -, -, -, -, ha⟩ | ⟨b, rest, -, -, ha⟩
  · exact Or.inl ⟨a, ha⟩
  all_goals
    right
    obtain ⟨hok1, hnew, -, hkeep⟩ := arena_alloc_step calloc arena _ mem _ new_size _ _ hok hfresh
      hn hn2 ha
    obtain ⟨hp1, hapart⟩ := hkeep p n0 hp
    have hmin : (if old < new_size then old else new_size) = min old new_size := by
      split_ifs with hlt
      · exact (Nat.min_eq_left (le_of_lt hlt)).symm
      · exact (Nat.min_eq_right (by omega)).symm
    have hle1 : min old new_size ≤ new_size := Nat.min_le_right _ _
    have hle2 : min old new_size ≤ old := Nat.min_le_left _ _
    refine ⟨_, _, _, by unfold arena_realloc; rw [ha], ?_, hapart,
      fun p1 n1 h1 => (hkeep p1 n1 h1).2, ?_, ?_, ?_, hok1, hnew, hp1⟩
    · intro e
      unfold regions_apart at hapart
      simp only at hapart
      omega
    · intro i hi
      unfold regions_apart at hapart
      simp only at hapart
      simp only [memcpy, memset_zero, hmin]
      rw [if_pos ⟨by omega, by omega⟩, if_neg (by omega)]
      congr 1
      omega
    · intro i hi1 hi2
      unfold regions_apart at hapart
      simp only at hapart
      simp only [memcpy, memset_zero, hmin]
      rw [if_neg (by omega), if_pos ⟨by omega, by omega⟩]
    · intro i hi
      unfold regions_apart at hapart
      simp only at hapart
      simp only [memcpy, memset_zero, hmin]
      rw [if_neg (by omega), if_neg (by omega)]

theorem arena_holds_scenario : arena_holds ⟨[⟨65536, 32, 4128⟩], 65536⟩ 4128 32 :=
  ⟨⟨65536, 32, 4128⟩, List.mem_singleton.2 rfl, by decide, by decide⟩

theorem arena_ok_scenario : arena_ok ⟨[⟨65536, 32, 4128⟩], 65536⟩ :=
  (arena_alloc_step scenario_calloc zero_arena _ scenario_mem _ 32 0 4128 arena_ok_zero
    calloc_fresh_zero (by decide) (by decide) rfl).1

/-- The 32 bytes at 4128, the first region of an arena, shrunk to 8 bytes:
`arena_realloc` returns the 8 bytes at 4160, behind the old region, holding a
copy of its first 8 bytes. -/
theorem arena_realloc_fresh_witness :
    arena_realloc scenario_calloc_high ⟨[⟨65536, 32, 4128⟩], 65536⟩ scenario_mem 4128 32 8
        = .region ⟨[⟨65536, 48, 4128⟩], 65536⟩ 4160
            (memcpy (memset_zero scenario_mem 4160 8) 4160 4128 8)
    ∧ ((∃ arena1, arena_alloc scenario_calloc_high ⟨[⟨65536, 32, 4128⟩], 65536⟩ scenario_mem 8
          = .null arena1 scenario_mem)
      ∨ ∃ arena1 q mem1,
        arena_realloc scenario_calloc_high ⟨[⟨65536, 32, 4128⟩], 65536⟩ scenario_mem 4128 32 8
          = .region arena1 q mem1
        ∧ q ≠ 4128 ∧ regions_apart (q, 8) (4128, 32)
        ∧ (∀ p1 n1, arena_holds ⟨[⟨65536, 32, 4128⟩], 65536⟩ p1 n1 →
            regions_apart (q, 8) (p1, n1))
        ∧ (∀ i, i < min 32 8 → mem1 (q + i) = scenario_mem (4128 + i))
        ∧ (∀ i, min 32 8 ≤ i → i < 8 → mem1 (q + i) = NUL)
        ∧ (∀ i, i < 32 → mem1 (4128 + i) = scenario_mem (4128 + i))
        ∧ arena_ok arena1 ∧ arena_holds arena1 q 8 ∧ arena_holds arena1 4128 32) :=
  ⟨rfl, arena_realloc_fresh scenario_calloc_high ⟨[⟨65536, 32, 4128⟩], 65536⟩ scenario_mem
    4128 32 32 8 arena_ok_scenario (calloc_fresh_high 32) arena_holds_scenario (by decide)
    (by decide) (by decide) (by decide)⟩

/-! ## What holds of every run of a handler -/

/-- A property of the runs of `serve_request` follows from the property for the
runs of `error_response` and `send_response` it ends with. `Q` is what is known
of the machine on entry and is kept when calls on the file system are
recorded. -/
theorem serve_request_all (h : host) (fuel : Nat) (settings : server_settings)
    (Q : machine → Prop) (P : outcome Unit → Prop)
    (hfs : ∀ m calls, Q m → Q { m with fs_calls := calls })
    (herr : ∀ c m, Q m → P (error_response h fuel c m))
    (hhead : ∀ resp m, Q m → P (send_response h fuel resp m))
    (hget : ∀ resp m (fd : Nat), Q m → m.conn.file_fd = -1 →
      P (send_response h fuel resp { m with conn := { m.conn with file_fd := fd } }))
    (hassert : ∀ m, Q m → m.conn.file_fd ≠ -1 → P (.assert_failed m))
    (req : http_req) (m : machine) (hQ : Q m) : P (serve_request h fuel req settings m) := by
  have hstop : ∀ {α : Type} (c : http_status_code) (m1 : machine)
      (F : Option α → machine → outcome Unit), (∀ m2, F none m2 = .ret () m2) → Q m1 →
      P (((error_response h fuel c m1).and_then
        (fun _ m2 => (outcome.ret none m2 : outcome (Option α)))).and_then F) := by
    intro α c m1 F hF hQ1
    rw [and_then_none_stop _ _ hF]
    exact herr c m1 hQ1
  have hres : ∀ (F : Option (List Char) → machine → outcome Unit),
      (∀ m2, F none m2 = .ret () m2) →
      (∀ p m1, Q m1 → P (F (some p) m1)) →
      P ((resolve_path h fuel req.uri settings m).and_then F) := by
    intro F hF hsome
    unfold resolve_path
    simp only
    split
    · exact hstop _ _ F hF (hfs m _ hQ)
    · split_ifs
      all_goals first
        | exact hstop _ _ F hF (hfs m _ hQ)
        | exact hsome _ _ (hfs m _ hQ)
  have hinfo : ∀ (p : List Char) (m1 : machine) (F : Option file_info → machine → outcome Unit),
      (∀ m2, F none m2 = .ret () m2) →
      (∀ info m2, Q m2 → P (F (some info) m2)) → Q m1 →
      P ((get_file_info h fuel p m1).and_then F) := by
    intro p m1 F hF hsome hQ1
    unfold get_file_info
    simp only
    split
    · exact hstop _ _ F hF (hfs m1 _ hQ1)
    · exact hsome _ _ (hfs m1 _ hQ1)
  unfold serve_request
  cases req.method with
  | HTTP_GET =>
    simp only
    unfold serve_get_request
    apply hres _ (fun _ => rfl)
    intro p m1 hQ1
    simp only
    apply hinfo p m1 _ (fun _ => rfl) _ hQ1
    intro info m2 hQ2
    simp only
    split
    · exact herr _ _ (hfs m2 _ hQ2)
    · split_ifs with hfd
      · exact hassert _ (hfs m2 _ hQ2) hfd
      · exact hget _ { m2 with fs_calls := m2.fs_calls ++ [fs_call.open_file (cstr p)] } _
          (hfs m2 _ hQ2) (by simpa using hfd)
  | HTTP_HEAD =>
    simp only
    unfold serve_head_request
    apply hres _ (fun _ => rfl)
    intro p m1 hQ1
    simp only
    apply hinfo p m1 _ (fun _ => rfl) _ hQ1
    intro info m2 hQ2
    exact hhead _ _ hQ2

/-- A property of the runs of `process_request` follows from the property for
the ways `read_req_data` ends in it and for the runs of `error_response` and
`send_response` it ends with. -/
theorem process_request_all (h : host) (fuel : Nat) (settings : server_settings)
    (Q : machine → Prop) (P : outcome Unit → Prop)
    (hfs : ∀ m calls, Q m → Q { m with fs_calls := calls })
    (herr : ∀ c m, Q m → P (error_response h fuel c m))
    (hhead : ∀ resp m, Q m → P (send_response h fuel resp m))
    (hget : ∀ resp m (fd : Nat), Q m → m.conn.file_fd = -1 →
      P (send_response h fuel resp { m with conn := { m.conn with file_fd := fd } }))
    (hassert : ∀ m, Q m → m.conn.file_fd ≠ -1 → P (.assert_failed m))
    (hundef : P .undefined) (m : machine)
    (hentry : (m.conn.read_buf ≠ none ∨ m.conn.read_buf_size ≠ 0) → P (.assert_failed m))
    (hexit : settings.read_buf_size = 0 → P (.exited m))
    (hread : ∀ e, h.sock_read = .error e →
      P (.aborted { m with conn := { m.conn with
        read_buf := some [], read_buf_size := settings.read_buf_size,
        state := CONN_ERR_RECOVERABLE } }))
    (hempty : ∀ bytes, h.sock_read = .ok bytes → bytes.take (settings.read_buf_size - 1) = [] →
      P (.ret () { m with conn := { m.conn with
        read_buf := some [], read_buf_size := settings.read_buf_size } }))
    (hQ : ∀ data, Q { m with conn := { m.conn with
        read_buf := some data, read_buf_size := settings.read_buf_size } }) :
    P (process_request h fuel settings m) := by
  unfold process_request read_req_data
  simp only
  split_ifs with h1 h2 h3
  · exact hentry (Or.inl h1)
  · exact hentry (Or.inr h2)
  · exact hexit h3
  · cases hr : h.sock_read with
    | error e => exact hread e hr
    | ok bytes =>
      simp only
      split_ifs with hl
      · have he : bytes.take (settings.read_buf_size - 1) = [] := List.length_eq_zero.1 hl
        simp only [outcome.and_then, he]
        exact hempty bytes hr he
      · simp only [outcome.and_then]
        unfold process_request_parsed
        simp only
        split
        · exact serve_request_all h fuel settings Q P hfs herr hhead hget hassert _ _ (hQ _)
        · exact hundef
        · exact herr _ _ (hQ _)
        · exact herr _ _ (hQ _)
        · exact herr _ _ (hQ _)
        · exact herr _ _ (hQ _)

theorem not_ended_assert {α : Type} (m m' : machine) :
    ¬ (outcome.assert_failed m : outcome α).ended_with m' := by
  rintro (⟨v, hv⟩ | hv) <;> cases hv

theorem ended_ret {α : Type} (v : α) (m m' : machine)
    (h : (outcome.ret v m : outcome α).ended_with m') : m' = m := by
  rcases h with ⟨w, hw⟩ | hw
  · injection hw with _ e
    exact e.symm
  · cases hw

theorem ended_aborted {α : Type} (m m' : machine)
    (h : (outcome.aborted m : outcome α).ended_with m') : m' = m := by
  rcases h with ⟨w, hw⟩ | hw
  · cases hw
  · injection hw with e
    exact e.symm

/-- A run of the streaming loop is in order when it is entered in the state
Sending with a file open, a filled length within the buffer and either no byte
in the buffer or the cursor within the filled length. -/
theorem loop_fields (h : host) (fuel : Nat) (m : machine)
    (hs : m.conn.state = CONN_SENDING) (hfd : m.conn.file_fd ≠ -1)
    (hlen : m.conn.read_buf_len ≤ m.conn.read_buf_size)
    (hcur : m.conn.read_buf_len = 0 ∨ m.conn.read_buf_cursor ≤ m.conn.read_buf_len) :
    run_in_order m (process_request_write_loop h fuel m) := by
  unfold run_in_order
  induction fuel generalizing m with
  | zero =>
    refine ⟨?_, ?_, ?_⟩
    · intro m' hf
      rcases hf with ⟨v, hf⟩ | hf <;> cases hf
    · intro m' hf
      cases hf
    · intro m' hf
      cases hf
  | succ fuel ih =>
    have hdone : ∀ m1 : machine, m1.conn.state = CONN_COMPLETE ∨
        m1.conn.state = CONN_ERR_UNRECOVERABLE → conn_inv m1.conn := by
      intro m1 h1
      constructor
      · intro e
        rcases h1 with h1 | h1 <;> rw [e] at h1 <;> cases h1
      · intro e
        rcases h1 with h1 | h1 <;> rw [e] at h1 <;> cases h1
    -- the second half of the body, from a state with bytes left in the buffer
    have hsend : ∀ m1 : machine, m1.conn.state = CONN_SENDING → m1.conn.file_fd ≠ -1 →
        m1.conn.read_buf_len ≤ m1.conn.read_buf_size →
        m1.conn.read_buf_cursor < m1.conn.read_buf_len →
        m.sock_writes ≤ m1.sock_writes → m.sock_out <+: m1.sock_out →
        (∀ m', (match process_request_write_send h m1 with
            | .stop o => o
            | .go m2 => process_request_write_loop h fuel m2).ended_with m' →
          conn_inv m'.conn ∧ m.sock_writes ≤ m'.sock_writes ∧ m.sock_out <+: m'.sock_out
            ∧ (m'.conn.state = CONN_SENDING ∨ m'.conn.state = CONN_COMPLETE
              ∨ m'.conn.state = CONN_ERR_UNRECOVERABLE))
        ∧ (∀ m', (match process_request_write_send h m1 with
            | .stop o => o
            | .go m2 => process_request_write_loop h fuel m2) = .aborted m' →
          m'.conn.state = CONN_ERR_UNRECOVERABLE)
        ∧ ∀ m', (match process_request_write_send h m1 with
            | .stop o => o
            | .go m2 => process_request_write_loop h fuel m2) ≠ .assert_failed m' := by
      intro m1 hs1 hfd1 hlen1 hlt1 hw1 ho1
      unfold process_request_write_send
      rw [if_neg (by omega)]
      simp only
      cases hw : h.sock_write m1.sock_writes
          ((((m1.conn.read_buf).getD []).drop m1.conn.read_buf_cursor).take
            (m1.conn.read_buf_len - m1.conn.read_buf_cursor)) with
      | error e =>
        simp only
        split_ifs with he
        · refine ⟨?_, ?_, ?_⟩
          · intro m' hf
            rw [ended_ret _ _ _ hf]
            refine ⟨⟨fun e1 => ?_, fun _ => ⟨hfd1, le_of_lt hlt1, hlen1⟩⟩, Nat.le_succ_of_le hw1,
              ho1, Or.inl hs1⟩
            rw [show m1.conn.state = CONN_WAITING from e1] at hs1
            cases hs1
          · intro m' hf
            cases hf
          · intro m' hf
            cases hf
        · refine ⟨?_, ?_, ?_⟩
          · intro m' hf
            rw [ended_aborted _ _ hf]
            exact ⟨hdone _ (Or.inr rfl), Nat.le_succ_of_le hw1, ho1, Or.inr (Or.inr rfl)⟩
          · intro m' hf
            injection hf with e1
            rw [← e1]
          · intro m' hf
            cases hf
      | ok n =>
        simp only
        have hmin : min n ((((m1.conn.read_buf).getD []).drop m1.conn.read_buf_cursor).take
            (m1.conn.read_buf_len - m1.conn.read_buf_cursor)).length
            ≤ m1.conn.read_buf_len - m1.conn.read_buf_cursor :=
          le_trans (Nat.min_le_right _ _) (by rw [List.length_take]; exact Nat.min_le_left _ _)
        obtain ⟨i1, i2, i3⟩ := ih (after_send m1 (min n (write_offer m1).length)) hs1 hfd1 hlen1
          (Or.inr (by
            show m1.conn.read_buf_cursor + min n (write_offer m1).length ≤ m1.conn.read_buf_len
            unfold write_offer
            omega))
        refine ⟨?_, i2, i3⟩
        intro m' hf
        obtain ⟨j1, j2, j3, j4⟩ := i1 m' hf
        have j2' : m1.sock_writes + 1 ≤ m'.sock_writes := j2
        have j3' : m1.sock_out ++ (write_offer m1).take (min n (write_offer m1).length)
            <+: m'.sock_out := j3
        refine ⟨j1, by omega, ?_, j4⟩
        exact List.IsPrefix.trans (List.IsPrefix.trans ho1 (List.prefix_append _ _)) j3'
    rw [process_request_write_loop]
    unfold process_request_write_fill
    split_ifs with hc
    · simp only
      cases hr : h.file_read m.file_reads m.conn.read_buf_size with
      | error e =>
        simp only
        refine ⟨?_, ?_, ?_⟩
        · intro m' hf
          rw [ended_aborted _ _ hf]
          exact ⟨hdone _ (Or.inr rfl), le_refl _, List.prefix_refl _, Or.inr (Or.inr rfl)⟩
        · intro m' hf
          injection hf with e1
          rw [← e1]
        · intro m' hf
          cases hf
      | ok bytes =>
        simp only
        split_ifs with hl
        · refine ⟨?_, ?_, ?_⟩
          · intro m' hf
            rw [ended_ret _ _ _ hf]
            exact ⟨hdone _ (Or.inl rfl), le_refl _, List.prefix_refl _, Or.inr (Or.inl rfl)⟩
          · intro m' hf
            cases hf
          · intro m' hf
            cases hf
        · simp only
          exact hsend _ hs hfd
            (by show (bytes.take m.conn.read_buf_size).length ≤ m.conn.read_buf_size
                rw [List.length_take]; exact Nat.min_le_left _ _)
            (by show 0 < (bytes.take m.conn.read_buf_size).length; omega)
            (le_refl _) (List.prefix_refl _)
    · simp only
      have hne : m.conn.read_buf_len ≠ 0 := fun e => hc (Or.inl e)
      have hne2 : m.conn.read_buf_cursor ≠ m.conn.read_buf_len := fun e => hc (Or.inr e)
      exact hsend m hs hfd hlen (by omega) (le_refl _) (List.prefix_refl _)

/-- A run of `process_request_write` is in order when `conn_loop` calls it for
a connection in the state Sending that satisfies the predicate of the
specification. -/
theorem process_request_write_fields (h : host) (fuel : Nat) (m : machine)
    (hs : m.conn.state = CONN_SENDING) (hinv : conn_inv m.conn) :
    run_in_order m (process_request_write h fuel m) := by
  obtain ⟨hfd, hcur, hlen⟩ := hinv.2 hs
  unfold process_request_write
  rw [if_neg hfd]
  exact loop_fields h fuel m hs hfd hlen (Or.inr hcur)

theorem conn_inv_of_done (c : active_connection)
    (h : c.state = CONN_COMPLETE ∨ c.state = CONN_ERR_UNRECOVERABLE
      ∨ c.state = CONN_ERR_RECOVERABLE) : conn_inv c := by
  constructor
  · intro e
    rcases h with h | h | h <;> rw [e] at h <;> cases h
  · intro e
    rcases h with h | h | h <;> rw [e] at h <;> cases h

theorem run_in_order_ret (m m1 : machine) (h1 : m1.conn.state = CONN_COMPLETE)
    (h2 : m.sock_writes ≤ m1.sock_writes) (h3 : m.sock_out <+: m1.sock_out) :
    run_in_order m (.ret () m1) := by
  refine ⟨fun m' hf => ?_, fun m' hf => (by cases hf), fun m' hf => (by cases hf)⟩
  rw [ended_ret _ _ _ hf]
  exact ⟨conn_inv_of_done _ (Or.inl h1), h2, h3, Or.inr (Or.inl h1)⟩

theorem run_in_order_aborted (m m1 : machine) (h1 : m1.conn.state = CONN_ERR_UNRECOVERABLE)
    (h2 : m.sock_writes ≤ m1.sock_writes) (h3 : m.sock_out <+: m1.sock_out) :
    run_in_order m (.aborted m1) := by
  refine ⟨fun m' hf => ?_, fun m' hf => ?_, fun m' hf => (by cases hf)⟩
  · rw [ended_aborted _ _ hf]
    exact ⟨conn_inv_of_done _ (Or.inr (Or.inl h1)), h2, h3, Or.inr (Or.inr h1)⟩
  · injection hf with e
    rw [← e]
    exact h1

theorem run_in_order_undefined (m : machine) : run_in_order m .undefined := by
  refine ⟨fun m' hf => ?_, fun m' hf => (by cases hf), fun m' hf => (by cases hf)⟩
  rcases hf with ⟨v, hf⟩ | hf <;> cases hf

theorem run_in_order_mono (m0 m : machine) (o : outcome Unit)
    (h2 : m0.sock_writes ≤ m.sock_writes) (h3 : m0.sock_out <+: m.sock_out)
    (h : run_in_order m o) : run_in_order m0 o := by
  obtain ⟨i1, i2, i3⟩ := h
  refine ⟨fun m' hf => ?_, i2, i3⟩
  obtain ⟨j1, j2, j3, j4⟩ := i1 m' hf
  exact ⟨j1, le_trans h2 j2, List.IsPrefix.trans h3 j3, j4⟩

/-- A run of `send_response` entered with no byte in the buffer of the
connection is in order. -/
theorem send_response_fields (h : host) (fuel : Nat) (resp : http_response) (m : machine)
    (hlen : m.conn.read_buf_len = 0) : run_in_order m (send_response h fuel resp m) := by
  unfold send_response
  cases hb : (send_response_buffer resp).bind header_bytes with
  | none => exact run_in_order_undefined m
  | some bytes =>
    dsimp only
    cases hw : h.sock_write m.sock_writes bytes with
    | error e =>
      exact run_in_order_aborted m _ rfl (Nat.le_succ _) (List.prefix_refl _)
    | ok n =>
      dsimp only
      have hpre : ∀ t : List Char, m.sock_out <+: m.sock_out ++ bytes.take n ++ t := by
        intro t
        rw [List.append_assoc]
        exact List.prefix_append _ _
      split_ifs with h1 h2 h3
      · exact run_in_order_ret m _ rfl (Nat.le_succ _) (List.prefix_append _ _)
      · unfold process_request_write
        rw [if_neg h3]
        exact run_in_order_mono m _ _ (Nat.le_succ _) (List.prefix_append _ _)
          (loop_fields h fuel
            { m with sock_writes := m.sock_writes + 1, sock_out := m.sock_out ++ bytes.take n,
                     conn := { m.conn with state := CONN_SENDING } }
            rfl h3 (by show m.conn.read_buf_len ≤ _; omega) (Or.inl hlen))
      · cases hbody : resp.body with
        | none => exact run_in_order_ret m _ rfl (Nat.le_succ _) (List.prefix_append _ _)
        | some body =>
          dsimp only
          cases hw2 : h.sock_write (m.sock_writes + 1) (body.take resp.body_size) with
          | error e =>
            exact run_in_order_aborted m _ rfl
              (by show m.sock_writes ≤ m.sock_writes + 1 + 1; omega) (List.prefix_append _ _)
          | ok k =>
            dsimp only
            split_ifs with h4
            · exact run_in_order_aborted m _ rfl
                (by show m.sock_writes ≤ m.sock_writes + 1 + 1; omega) (hpre _)
            · exact run_in_order_ret m _ rfl
                (by show m.sock_writes ≤ m.sock_writes + 1 + 1; omega) (hpre _)
      · exact run_in_order_aborted m _ rfl (Nat.le_succ _) (List.prefix_append _ _)

theorem request_in_order_of_run (m m1 : machine) (o : outcome Unit)
    (h2 : m.sock_writes ≤ m1.sock_writes) (h3 : m.sock_out <+: m1.sock_out)
    (h : run_in_order m1 o) : request_in_order m o := by
  obtain ⟨i1, i2, i3⟩ := h
  refine ⟨fun m' hf => ?_, fun m' hf => Or.inl (i2 m' hf), fun m' hf => absurd hf (i3 m')⟩
  obtain ⟨j1, j2, j3, j4⟩ := i1 m' hf
  refine ⟨j1, le_trans h2 j2, List.IsPrefix.trans h3 j3, ?_⟩
  intro hst
  rcases hst with hst | hst <;> rcases j4 with j4 | j4 | j4 <;> rw [hst] at j4 <;> cases j4

/-- A run of `process_request` is in order when `conn_loop` calls it for a
connection in the state Waiting that satisfies the predicate of the
specification. -/
theorem process_request_in_order (h : host) (fuel : Nat) (settings : server_settings)
    (m : machine) (hs : m.conn.state = CONN_WAITING) (hinv : conn_inv m.conn) :
    request_in_order m (process_request h fuel settings m) := by
  obtain ⟨hfd, hlen⟩ := hinv.1 hs
  apply process_request_all h fuel settings
    (fun m1 => m1.conn.read_buf_len = 0 ∧ m1.conn.file_fd = -1 ∧ m1.sock_writes = m.sock_writes
      ∧ m1.sock_out = m.sock_out)
    (request_in_order m)
  · intro m1 calls hq
    exact hq
  · intro c m1 hq
    exact request_in_order_of_run m m1 _ (le_of_eq hq.2.2.1.symm) (by rw [hq.2.2.2])
      (send_response_fields h fuel _ m1 hq.1)
  · intro resp m1 hq
    exact request_in_order_of_run m m1 _ (le_of_eq hq.2.2.1.symm) (by rw [hq.2.2.2])
      (send_response_fields h fuel _ m1 hq.1)
  · intro resp m1 fd hq _
    exact request_in_order_of_run m _ _ (le_of_eq hq.2.2.1.symm)
      (by show m.sock_out <+: m1.sock_out; rw [hq.2.2.2])
      (send_response_fields h fuel _ _ hq.1)
  · intro m1 hq hne
    exact absurd hq.2.1 hne
  · refine ⟨fun m' hf => ?_, fun m' hf => (by cases hf), fun m' hf => (by cases hf)⟩
    rcases hf with ⟨v, hf⟩ | hf <;> cases hf
  · intro hentry
    refine ⟨fun m' hf => absurd hf (not_ended_assert _ _), fun m' hf => (by cases hf),
      fun m' hf => ?_⟩
    injection hf with e
    exact ⟨e.symm, hentry⟩
  · intro _
    refine ⟨fun m' hf => ?_, fun m' hf => (by cases hf), fun m' hf => (by cases hf)⟩
    rcases hf with ⟨v, hf⟩ | hf <;> cases hf
  · intro e _
    refine ⟨fun m' hf => ?_, fun m' hf => ?_, fun m' hf => (by cases hf)⟩
    · rw [ended_aborted _ _ hf]
      exact ⟨conn_inv_of_done _ (Or.inr (Or.inr rfl)), le_refl _, List.prefix_refl _,
        fun _ => ⟨rfl, rfl⟩⟩
    · injection hf with e1
      rw [← e1]
      exact Or.inr rfl
  · intro bytes _ _
    refine ⟨fun m' hf => ?_, fun m' hf => (by cases hf), fun m' hf => (by cases hf)⟩
    rw [ended_ret _ _ _ hf]
    refine ⟨⟨fun _ => ⟨hfd, hlen⟩, fun e1 => ?_⟩, le_refl _, List.prefix_refl _,
      fun _ => ⟨rfl, rfl⟩⟩
    have : m.conn.state = CONN_SENDING := e1
    rw [hs] at this
    cases this
  · intro data
    exact ⟨hlen, hfd, rfl, rfl⟩

/-- However `error_response` returns or aborts, a `write` has been made and the
state is Complete, or ErrUnrecoverable after an abort. -/
theorem error_response_done (h : host) (fuel : Nat) (c : http_status_code) (m m' : machine)
    (hf : (error_response h fuel c m).ended_with m') :
    m'.sock_writes = m.sock_writes + 1
    ∧ ((error_response h fuel c m = .ret () m' ∧ m'.conn.state = CONN_COMPLETE)
      ∨ (error_response h fuel c m = .aborted m' ∧ m'.conn.state = CONN_ERR_UNRECOVERABLE
        ∧ m'.sock_out = m.sock_out)) := by
  unfold error_response at hf ⊢
  unfold send_response at hf ⊢
  cases hb : (send_response_buffer
      { req := none, code := c,
        headers := [make_date_header h, make_header "Content-Length".toList "0".toList],
        body_size := 0, body := none }).bind header_bytes with
  | none =>
    simp only [hb] at hf
    rcases hf with ⟨v, hf⟩ | hf <;> cases hf
  | some bytes =>
    simp only [hb] at hf ⊢
    cases hw : h.sock_write m.sock_writes bytes with
    | error e =>
      simp only [hw] at hf ⊢
      rw [ended_aborted _ _ hf]
      exact ⟨rfl, Or.inr ⟨rfl, rfl, rfl⟩⟩
    | ok n =>
      simp only [hw, Option.isNone_none, true_or, if_true] at hf ⊢
      rw [ended_ret _ _ _ hf]
      exact ⟨rfl, Or.inl ⟨rfl, rfl⟩⟩

/-- C34: the predicate of the specification (in the state Waiting no file is
open and the buffer holds no byte; in the state Sending a file is open and
cursor ≤ filled length ≤ buffer size) holds of the record `conn_loop` sets up
after `accept`, and every handler the loop calls for a connection of which it
holds leaves it holding, however the handler returns or aborts:
`process_request` for a connection that is Waiting, `process_request_write` for
one that is Sending, `error_response` for one that is ErrRecoverable. With it,
the two assertions of `process_request_write` never fail, neither in a call by
the loop nor in the call `send_response` makes; an assertion that fails in
`process_request` is one of `read_req_data`. A `read` or `write` of the host
takes at most the count it is given. -/
theorem conn_inv_preserved (h : host) (fuel : Nat) (settings : server_settings)
    (c : http_status_code) (m : machine) (hinv : conn_inv m.conn) :
    (conn_inv fresh_machine.conn
      ∧ ∀ listen_fd sel acc, ∀ c1 ∈ accepted_conns listen_fd sel acc, conn_inv c1.m.conn)
    ∧ (m.conn.state = CONN_WAITING →
        (∀ m', (process_request h fuel settings m).ended_with m' → conn_inv m'.conn)
        ∧ ∀ m', process_request h fuel settings m = .assert_failed m' →
            m' = m ∧ (m.conn.read_buf ≠ none ∨ m.conn.read_buf_size ≠ 0))
    ∧ (m.conn.state = CONN_SENDING →
        (∀ m', (process_request_write h fuel m).ended_with m' → conn_inv m'.conn)
        ∧ ∀ m', process_request_write h fuel m ≠ .assert_failed m')
    ∧ ∀ m', (error_response h fuel c m).ended_with m' → conn_inv m'.conn := by
  have hfresh : conn_inv fresh_machine.conn := by
    constructor
    · intro _
      exact ⟨rfl, rfl⟩
    · intro e
      cases e
  refine ⟨⟨hfresh, ?_⟩, ?_, ?_, ?_⟩
  · intro listen_fd sel acc c1 hc1
    unfold accepted_conns at hc1
    split at hc1
    · split_ifs at hc1
      · rw [List.mem_singleton] at hc1
        rw [hc1]
        exact hfresh
      · cases hc1
    · cases hc1
  · intro hs
    obtain ⟨i1, -, i3⟩ := process_request_in_order h fuel settings m hs hinv
    exact ⟨fun m' hf => (i1 m' hf).1, i3⟩
  · intro hs
    obtain ⟨i1, -, i3⟩ := process_request_write_fields h fuel m hs hinv
    exact ⟨fun m' hf => (i1 m' hf).1, i3⟩
  · intro m' hf
    rcases (error_response_done h fuel c m m' hf).2 with ⟨-, e⟩ | ⟨-, e, -⟩
    · exact conn_inv_of_done _ (Or.inl e)
    · exact conn_inv_of_done _ (Or.inr (Or.inl e))

/-- The record of a new connection, with the host of the scenarios and the
request `GET / HTTP/1.1`. -/
theorem conn_inv_preserved_witness :
    (conn_inv fresh_machine.conn
      ∧ ∀ listen_fd sel acc, ∀ c1 ∈ accepted_conns listen_fd sel acc, conn_inv c1.m.conn)
    ∧ (fresh_machine.conn.state = CONN_WAITING →
        (∀ m', (process_request (scenario_host "GET / HTTP/1.1\r\n\r\n".toList) 10
            scenario_settings fresh_machine).ended_with m' → conn_inv m'.conn)
        ∧ ∀ m', process_request (scenario_host "GET / HTTP/1.1\r\n\r\n".toList) 10
            scenario_settings fresh_machine = .assert_failed m' →
            m' = fresh_machine ∧ (fresh_machine.conn.read_buf ≠ none
              ∨ fresh_machine.conn.read_buf_size ≠ 0))
    ∧ (fresh_machine.conn.state = CONN_SENDING →
        (∀ m', (process_request_write (scenario_host "GET / HTTP/1.1\r\n\r\n".toList) 10
            fresh_machine).ended_with m' → conn_inv m'.conn)
        ∧ ∀ m', process_request_write (scenario_host "GET / HTTP/1.1\r\n\r\n".toList) 10
            fresh_machine ≠ .assert_failed m')
    ∧ ∀ m', (error_response (scenario_host "GET / HTTP/1.1\r\n\r\n".toList) 10
        HTTP_INTERNAL_SERVER_ERROR fresh_machine).ended_with m' → conn_inv m'.conn :=
  conn_inv_preserved (scenario_host "GET / HTTP/1.1\r\n\r\n".toList) 10 scenario_settings
    HTTP_INTERNAL_SERVER_ERROR fresh_machine
    ⟨fun _ => ⟨rfl, rfl⟩, fun e => by cases e⟩

/-- C35: the state ErrRecoverable is set only when nothing has been written to
the socket. For a connection that satisfies the predicate of the specification:
a `process_request` that leaves it ErrRecoverable (or Waiting) has made no
`write` and has left what the socket has got as it was, and one that aborts
after a `write` was made has set ErrUnrecoverable; a `process_request_write`
never leaves it ErrRecoverable or Waiting and sets ErrUnrecoverable when it
aborts; and so does the `error_response` with which the loop answers
ErrRecoverable, after which, the clock fields being `int`s, all that the socket
of a connection with nothing written has got is a start of the 500 response.
The record `conn_loop` sets up after `accept` has nothing written. -/
theorem recoverable_only_unwritten (h : host) (fuel : Nat) (settings : server_settings)
    (m : machine) (hinv : conn_inv m.conn) :
    unwritten fresh_machine
    ∧ (m.conn.state = CONN_WAITING →
        (∀ m', (process_request h fuel settings m).ended_with m' →
          (m'.conn.state = CONN_ERR_RECOVERABLE ∨ m'.conn.state = CONN_WAITING) →
            m'.sock_writes = m.sock_writes ∧ m'.sock_out = m.sock_out
              ∧ (unwritten m → unwritten m'))
        ∧ ∀ m', process_request h fuel settings m = .aborted m' →
            m'.sock_writes ≠ m.sock_writes → m'.conn.state = CONN_ERR_UNRECOVERABLE)
    ∧ (m.conn.state = CONN_SENDING →
        (∀ m', (process_request_write h fuel m).ended_with m' →
          m'.conn.state ≠ CONN_ERR_RECOVERABLE ∧ m'.conn.state ≠ CONN_WAITING)
        ∧ ∀ m', process_request_write h fuel m = .aborted m' →
            m'.conn.state = CONN_ERR_UNRECOVERABLE)
    ∧ (∀ m', (error_response h fuel HTTP_INTERNAL_SERVER_ERROR m).ended_with m' →
        m'.conn.state ≠ CONN_ERR_RECOVERABLE ∧ m'.conn.state ≠ CONN_WAITING
          ∧ (error_response h fuel HTTP_INTERNAL_SERVER_ERROR m = .aborted m' →
              m'.conn.state = CONN_ERR_UNRECOVERABLE)
          ∧ (unwritten m → tm_fields_int h.clock →
              m'.sock_out <+: spec_response_section
                (error_response_record h HTTP_INTERNAL_SERVER_ERROR))) := by
  refine ⟨⟨rfl, rfl⟩, ?_, ?_, ?_⟩
  · intro hs
    obtain ⟨i1, i2, -⟩ := process_request_in_order h fuel settings m hs hinv
    refine ⟨fun m' hf hst => ?_, fun m' hf hw => ?_⟩
    · obtain ⟨-, -, -, j⟩ := i1 m' hf
      obtain ⟨j1, j2⟩ := j (by tauto)
      exact ⟨j2, j1, fun hu => ⟨by rw [j1]; exact hu.1, by rw [j2]; exact hu.2⟩⟩
    · rcases i2 m' hf with e | e
      · exact e
      · obtain ⟨-, -, -, j⟩ := i1 m' (Or.inr hf)
        exact absurd (j (Or.inr e)).2 hw
  · intro hs
    obtain ⟨i1, i2, -⟩ := process_request_write_fields h fuel m hs hinv
    refine ⟨fun m' hf => ?_, i2⟩
    obtain ⟨-, -, -, j⟩ := i1 m' hf
    constructor
    · intro e
      rcases j with j | j | j <;> rw [e] at j <;> cases j
    · intro e
      rcases j with j | j | j <;> rw [e] at j <;> cases j
  · intro m' hf
    have hdone := (error_response_done h fuel HTTP_INTERNAL_SERVER_ERROR m m' hf).2
    have hst : m'.conn.state = CONN_COMPLETE ∨ m'.conn.state = CONN_ERR_UNRECOVERABLE := by
      rcases hdone with ⟨-, e⟩ | ⟨-, e, -⟩
      · exact Or.inl e
      · exact Or.inr e
    refine ⟨?_, ?_, ?_, ?_⟩
    · intro e
      rcases hst with j | j <;> rw [e] at j <;> cases j
    · intro e
      rcases hst with j | j <;> rw [e] at j <;> cases j
    · intro ha
      rcases hdone with ⟨e1, -⟩ | ⟨-, e, -⟩
      · rw [e1] at ha
        cases ha
      · exact e
    · intro hu hclock
      obtain ⟨r1, r2⟩ := error_response_runs h fuel HTTP_INTERNAL_SERVER_ERROR m hclock
      cases hw : h.sock_write m.sock_writes
          (spec_response_section (error_response_record h HTTP_INTERNAL_SERVER_ERROR)) with
      | error e =>
        rw [r1 e hw] at hf
        rw [ended_aborted _ _ hf]
        show m.sock_out <+: _
        rw [hu.1]
        exact List.nil_prefix
      | ok n =>
        rw [r2 n hw] at hf
        rw [ended_ret _ _ _ hf]
        show m.sock_out ++ _ <+: _
        rw [hu.1, List.nil_append]
        exact List.take_prefix _ _

/-- The record of a new connection on a host whose socket cannot be read: the
run of `process_request` aborts in the state ErrRecoverable with nothing
written. -/
theorem recoverable_only_unwritten_witness :
    process_request read_error_host 10 scenario_settings fresh_machine
      = .aborted { fresh_machine with conn := { fresh_machine.conn with
          read_buf := some [], read_buf_size := 4096, state := CONN_ERR_RECOVERABLE } }
    ∧ (fresh_machine.conn.state = CONN_WAITING →
        (∀ m', (process_request read_error_host 10 scenario_settings fresh_machine).ended_with m' →
          (m'.conn.state = CONN_ERR_RECOVERABLE ∨ m'.conn.state = CONN_WAITING) →
            m'.sock_writes = fresh_machine.sock_writes ∧ m'.sock_out = fresh_machine.sock_out
              ∧ (unwritten fresh_machine → unwritten m'))
        ∧ ∀ m', process_request read_error_host 10 scenario_settings fresh_machine = .aborted m' →
            m'.sock_writes ≠ fresh_machine.sock_writes →
              m'.conn.state = CONN_ERR_UNRECOVERABLE) :=
  ⟨rfl, (recoverable_only_unwritten read_error_host 10 scenario_settings fresh_machine
    ⟨fun _ => ⟨rfl, rfl⟩, fun e => by cases e⟩).2.1⟩

/-! ## The binding `g_memory_arena` in `conn_loop` -/

theorem pass_in_order (r : arena_run) (u : Option Nat → arena_use) (hr : r.in_order)
    (hu : (u none).in_order) : (r.pass u).in_order := by
  obtain ⟨hg, huses⟩ := hr
  refine ⟨hg, ?_⟩
  intro v hv
  unfold arena_run.pass at hv
  rcases List.mem_append.1 hv with h1 | h1
  · exact huses v h1
  · rw [List.mem_singleton] at h1
    rw [h1, hg]
    exact hu

/-- Around a handler call the binding is the arena of the connection, and it is
null again when the handler has returned or has aborted. -/
theorem handler_bound_in_order (c : live_conn) (o : outcome Unit) (r : arena_run)
    (hr : r.in_order) :
    (∀ u ∈ (handler_bound c o r).uses, u.in_order)
    ∧ (handler_bound c o r).uses = r.uses ++ [.handler (some c.addr) c.addr]
    ∧ (∀ m, o.ended_with m → (handler_bound c o r).in_order) := by
  obtain ⟨hg, huses⟩ := hr
  have huses1 : ∀ u ∈ r.uses ++ [arena_use.handler (some c.addr) c.addr], u.in_order := by
    intro u hu
    rcases List.mem_append.1 hu with h1 | h1
    · exact huses u h1
    · rw [List.mem_singleton] at h1
      rw [h1]
      rfl
  cases o with
  | ret v m1 => exact ⟨huses1, rfl, fun _ _ => ⟨rfl, huses1⟩⟩
  | aborted m1 => exact ⟨huses1, rfl, fun _ _ => ⟨rfl, huses1⟩⟩
  | assert_failed m1 =>
    exact ⟨huses1, rfl, fun m hf => absurd hf (not_ended_assert _ _)⟩
  | exited m1 =>
    refine ⟨huses1, rfl, fun m hf => ?_⟩
    rcases hf with ⟨v, hf⟩ | hf <;> cases hf
  | undefined =>
    refine ⟨huses1, rfl, fun m hf => ?_⟩
    rcases hf with ⟨v, hf⟩ | hf <;> cases hf
  | out_of_fuel m1 =>
    refine ⟨huses1, rfl, fun m hf => ?_⟩
    rcases hf with ⟨v, hf⟩ | hf <;> cases hf

theorem conn_complete_arena_ok (c : live_conn) (m : machine) (r : arena_run)
    (hr : r.in_order) :
    (conn_complete_arena c m r).1 = conn_complete c m ∧ (conn_complete_arena c m r).2.in_order := by
  unfold conn_complete_arena
  dsimp only
  rw [if_neg (by simp [hr.1])]
  exact ⟨rfl, pass_in_order _ (.server_free · c.addr)
    (pass_in_order _ (.arena_clear · c.addr) (pass_in_order r .assert_null hr rfl) rfl) rfl⟩

theorem conn_recover_end_arena_ok (c : live_conn) (o : outcome Unit) (r : arena_run)
    (huses : ∀ u ∈ r.uses, u.in_order) (hr : ∀ m, o.ended_with m → r.in_order) :
    (conn_recover_end_arena c o r).1 = conn_recover_end c o
    ∧ (∀ u ∈ (conn_recover_end_arena c o r).2.uses, u.in_order)
    ∧ ((conn_recover_end_arena c o r).1.goes_on = true →
        (conn_recover_end_arena c o r).2.g = none) := by
  cases o with
  | ret v m1 =>
    obtain ⟨h1, h2⟩ := conn_complete_arena_ok c m1 r (hr m1 (Or.inl ⟨v, rfl⟩))
    exact ⟨h1, h2.2, fun _ => h2.1⟩
  | aborted m1 =>
    obtain ⟨h1, h2⟩ := conn_complete_arena_ok c m1 r (hr m1 (Or.inr rfl))
    exact ⟨h1, h2.2, fun _ => h2.1⟩
  | assert_failed m1 => exact ⟨rfl, huses, fun hgo => by cases hgo⟩
  | exited m1 => exact ⟨rfl, huses, fun hgo => by cases hgo⟩
  | undefined => exact ⟨rfl, huses, fun hgo => by cases hgo⟩
  | out_of_fuel m1 => exact ⟨rfl, huses, fun hgo => by cases hgo⟩

theorem after_state_arena_ok (fuel : Nat) (c : live_conn) (m1 : machine) (r : arena_run)
    (hr : r.in_order) :
    (after_state_arena fuel c m1 r).1 = after_state fuel c m1
    ∧ (∀ u ∈ (after_state_arena fuel c m1 r).2.uses, u.in_order)
    ∧ ((after_state_arena fuel c m1 r).1.goes_on = true →
        (after_state_arena fuel c m1 r).2.g = none) := by
  unfold after_state_arena after_state
  cases hst : m1.conn.state with
  | CONN_WAITING => exact ⟨rfl, hr.2, fun hgo => by cases hgo⟩
  | CONN_SENDING =>
    dsimp only
    rw [if_neg (by simp [hr.1])]
    have := pass_in_order (r.pass .assert_null) .lappend (pass_in_order r .assert_null hr rfl) rfl
    exact ⟨rfl, this.2, fun _ => this.1⟩
  | CONN_COMPLETE =>
    obtain ⟨h1, h2⟩ := conn_complete_arena_ok c m1 r hr
    exact ⟨h1, h2.2, fun _ => h2.1⟩
  | CONN_ERR_RECOVERABLE =>
    obtain ⟨b1, -, b3⟩ := handler_bound_in_order c
      (error_response c.hst fuel HTTP_INTERNAL_SERVER_ERROR m1) r hr
    exact conn_recover_end_arena_ok c _ _ b1 b3
  | CONN_ERR_UNRECOVERABLE =>
    obtain ⟨h1, h2⟩ := conn_complete_arena_ok c m1 r hr
    exact ⟨h1, h2.2, fun _ => h2.1⟩

theorem after_handler_arena_ok (fuel : Nat) (c : live_conn) (o : outcome Unit) (r : arena_run)
    (huses : ∀ u ∈ r.uses, u.in_order) (hr : ∀ m, o.ended_with m → r.in_order) :
    (after_handler_arena fuel c o r).1 = after_handler fuel c o
    ∧ (∀ u ∈ (after_handler_arena fuel c o r).2.uses, u.in_order)
    ∧ ((after_handler_arena fuel c o r).1.goes_on = true →
        (after_handler_arena fuel c o r).2.g = none) := by
  cases o with
  | ret v m1 => exact after_state_arena_ok fuel c m1 r (hr m1 (Or.inl ⟨v, rfl⟩))
  | aborted m1 => exact after_state_arena_ok fuel c m1 r (hr m1 (Or.inr rfl))
  | assert_failed m1 => exact ⟨rfl, huses, fun hgo => by cases hgo⟩
  | exited m1 => exact ⟨rfl, huses, fun hgo => by cases hgo⟩
  | undefined => exact ⟨rfl, huses, fun hgo => by cases hgo⟩
  | out_of_fuel m1 => exact ⟨rfl, huses, fun hgo => by cases hgo⟩

theorem conn_loop_conn_arena_ok (settings : server_settings) (fuel : Nat)
    (read_set write_set : Int → Bool) (c : live_conn) (r : arena_run) (hr : r.in_order) :
    (conn_loop_conn_arena settings fuel read_set write_set c r).1
        = conn_loop_conn settings fuel read_set write_set c
    ∧ (∀ u ∈ (conn_loop_conn_arena settings fuel read_set write_set c r).2.uses, u.in_order)
    ∧ ((conn_loop_conn_arena settings fuel read_set write_set c r).1.goes_on = true →
        (conn_loop_conn_arena settings fuel read_set write_set c r).2.g = none) := by
  have hkeep := pass_in_order r .lappend hr rfl
  unfold conn_loop_conn_arena conn_loop_conn
  cases hst : c.m.conn.state with
  | CONN_WAITING =>
    dsimp only
    obtain ⟨b1, -, b3⟩ := handler_bound_in_order c
      (process_request c.hst fuel settings c.m) r hr
    split_ifs with hrd
    all_goals first
      | exact ⟨rfl, hkeep.2, fun _ => hkeep.1⟩
      | exact after_handler_arena_ok fuel c _ _ b1 b3
  | CONN_SENDING =>
    dsimp only
    obtain ⟨b1, -, b3⟩ := handler_bound_in_order c
      (process_request_write c.hst fuel c.m) r hr
    split_ifs with hwr
    all_goals first
      | exact ⟨rfl, hkeep.2, fun _ => hkeep.1⟩
      | exact after_handler_arena_ok fuel c _ _ b1 b3
  | CONN_COMPLETE => exact ⟨rfl, hr.2, fun hgo => by cases hgo⟩
  | CONN_ERR_RECOVERABLE => exact ⟨rfl, hr.2, fun hgo => by cases hgo⟩
  | CONN_ERR_UNRECOVERABLE => exact ⟨rfl, hr.2, fun hgo => by cases hgo⟩

theorem conn_loop_conns_arena_ok (settings : server_settings) (fuel : Nat)
    (read_set write_set : Int → Bool) (conns new_conns : List live_conn)
    (calls : List release_call) (r : arena_run) (hr : r.in_order) :
    (conn_loop_conns_arena settings fuel read_set write_set conns new_conns calls r).1
        = conn_loop_conns settings fuel read_set write_set conns new_conns calls
    ∧ (∀ u ∈ (conn_loop_conns_arena settings fuel read_set write_set conns new_conns calls r).2.uses,
        u.in_order)
    ∧ ((conn_loop_conns_arena settings fuel read_set write_set conns new_conns calls
          r).1.has_returned = true →
        (conn_loop_conns_arena settings fuel read_set write_set conns new_conns calls r).2.g
          = none) := by
  induction conns generalizing new_conns calls r with
  | nil =>
    have := pass_in_order r .list_free hr rfl
    exact ⟨rfl, this.2, fun _ => this.1⟩
  | cons c rest ih =>
    obtain ⟨h1, h2, h3⟩ := conn_loop_conn_arena_ok settings fuel read_set write_set c r hr
    rw [conn_loop_conns_arena, conn_loop_conns]
    rw [← h1]
    cases hstep : conn_loop_conn_arena settings fuel read_set write_set c r with
    | mk s r1 =>
      rw [hstep] at h2 h3
      cases s with
      | kept c1 => exact ih _ _ r1 ⟨h3 rfl, h2⟩
      | released c1 made => exact ih _ _ r1 ⟨h3 rfl, h2⟩
      | stopped o => exact ⟨rfl, h2, fun hgo => by cases hgo⟩

/-- C36: in a call of `conn_loop` entered with `g_memory_arena` null, the
binding is the arena of the connection at each handler call
(`process_request`, `process_request_write`, `error_response`) and null at every
other point at which it is read: the `server_alloc` of a new record, every
`lappend` to `new_conns`, both `assert(g_memory_arena == NULL)`, every
`arena_clear` and `server_free`, and the `list_free`; it is null again after a
handler that has returned and after one that has aborted, and when `conn_loop`
returns. No assertion on the binding fails: the call ends as the loop without
the binding does. -/
theorem conn_loop_binding (settings : server_settings) (fuel : Nat) (listen_fd : Int)
    (sel : select_answer) (acc : accept_answer) (conns : List live_conn) (r : arena_run)
    (hr : r.in_order) :
    (conn_loop_arena settings fuel listen_fd sel acc conns r).1
        = conn_loop settings fuel listen_fd sel acc conns
    ∧ (∀ u ∈ (conn_loop_arena settings fuel listen_fd sel acc conns r).2.uses, u.in_order)
    ∧ ((conn_loop_arena settings fuel listen_fd sel acc conns r).1.has_returned = true →
        (conn_loop_arena settings fuel listen_fd sel acc conns r).2.g = none)
    ∧ ∀ (c : live_conn) (o : outcome Unit),
        (handler_bound c o r).uses = r.uses ++ [.handler (some c.addr) c.addr]
        ∧ ∀ m, o.ended_with m → (handler_bound c o r).g = none := by
  have key : (conn_loop_arena settings fuel listen_fd sel acc conns r).1
        = conn_loop settings fuel listen_fd sel acc conns
      ∧ (∀ u ∈ (conn_loop_arena settings fuel listen_fd sel acc conns r).2.uses, u.in_order)
      ∧ ((conn_loop_arena settings fuel listen_fd sel acc conns r).1.has_returned = true →
          (conn_loop_arena settings fuel listen_fd sel acc conns r).2.g = none) := by
    unfold conn_loop_arena conn_loop
    cases conn_loop_check conns with
    | some c => exact ⟨rfl, hr.2, fun hgo => by cases hgo⟩
    | none =>
      cases sel with
      | interrupted => exact ⟨rfl, hr.2, fun _ => hr.1⟩
      | failed => exact ⟨rfl, hr.2, fun hgo => by cases hgo⟩
      | ready read_set write_set =>
        dsimp only
        split_ifs with hl
        · cases acc with
          | would_block =>
            exact conn_loop_conns_arena_ok settings fuel read_set write_set conns [] [] r hr
          | failed => exact ⟨rfl, hr.2, fun hgo => by cases hgo⟩
          | accepted fd record hst =>
            cases record with
            | none =>
              have := pass_in_order r .server_alloc hr rfl
              exact ⟨rfl, this.2, fun hgo => by cases hgo⟩
            | some addr =>
              exact conn_loop_conns_arena_ok settings fuel read_set write_set conns _ []
                ((r.pass .server_alloc).pass .lappend)
                (pass_in_order _ .lappend (pass_in_order r .server_alloc hr rfl) rfl)
        · exact conn_loop_conns_arena_ok settings fuel read_set write_set conns [] [] r hr
  exact ⟨key.1, key.2.1, key.2.2, fun c o => ⟨(handler_bound_in_order c o r hr).2.1,
    fun m hm => ((handler_bound_in_order c o r hr).2.2 m hm).1⟩⟩

/-- An iteration that accepts a connection and goes over the two connections of
the scenarios, socket 5 being ready: the record at 3000 is allocated and
appended; the connection at 1000 has its handler called with its arena bound,
gets its 404 and is released; the connection at 2000 is appended; the old list
is freed. The binding is null at the end. -/
theorem conn_loop_binding_witness :
    (conn_loop_arena scenario_settings 3 3
        (.ready (fun fd => fd == 5 || fd == 3) (fun _ => false))
        (.accepted 7 (some 3000) (scenario_host [])) scenario_conns ⟨[], none⟩).2
      = ⟨[.server_alloc none, .lappend none, .handler (some 1000) 1000, .assert_null none,
          .arena_clear none 1000, .server_free none 1000, .lappend none, .list_free none],
         none⟩
    ∧ (conn_loop_arena scenario_settings 3 3
        (.ready (fun fd => fd == 5 || fd == 3) (fun _ => false))
        (.accepted 7 (some 3000) (scenario_host [])) scenario_conns ⟨[], none⟩).1
      = conn_loop scenario_settings 3 3
        (.ready (fun fd => fd == 5 || fd == 3) (fun _ => false))
        (.accepted 7 (some 3000) (scenario_host [])) scenario_conns :=
  ⟨by decide,
   (conn_loop_binding scenario_settings 3 3
      (.ready (fun fd => fd == 5 || fd == 3) (fun _ => false))
      (.accepted 7 (some 3000) (scenario_host [])) scenario_conns ⟨[], none⟩
      ⟨rfl, fun u hu => by cases hu⟩).1⟩

/-! ## Facts about chains of cells -/

theorem chain_nil (cells : Nat → ListCell) (p : Nat) : chain cells p [] ↔ p = 0 := Iff.rfl

theorem chain_cons (cells : Nat → ListCell) (p c : Nat) (cs : List Nat) :
    chain cells p (c :: cs) ↔ p = c ∧ c ≠ 0 ∧ chain cells (cells c).next cs := Iff.rfl

theorem chain_unique (cells : Nat → ListCell) (p : Nat) (cs ds : List Nat)
    (h1 : chain cells p cs) (h2 : chain cells p ds) : cs = ds := by
  induction cs generalizing p ds with
  | nil =>
    cases ds with
    | nil => rfl
    | cons d ds =>
      rw [chain_nil] at h1
      obtain ⟨e, hd, -⟩ := h2
      exact absurd (e.symm.trans h1) hd
  | cons c cs ih =>
    cases ds with
    | nil =>
      rw [chain_nil] at h2
      obtain ⟨e, hc, -⟩ := h1
      exact absurd (e.symm.trans h2) hc
    | cons d ds =>
      obtain ⟨e1, -, t1⟩ := h1
      obtain ⟨e2, -, t2⟩ := h2
      have e : c = d := e1.symm.trans e2
      subst e
      rw [ih _ _ t1 t2]

theorem chain_not_zero (cells : Nat → ListCell) (p : Nat) (cs : List Nat)
    (h : chain cells p cs) : (0 : Nat) ∉ cs := by
  induction cs generalizing p with
  | nil => simp
  | cons c cs ih =>
    obtain ⟨-, hc, t⟩ := h
    intro hm
    rcases List.mem_cons.1 hm with e | e
    · exact hc e.symm
    · exact ih _ t e

/-- The chain from a cell of a chain on is the end of the chain. -/
theorem chain_split (cells : Nat → ListCell) (p : Nat) (cs : List Nat) (c : Nat)
    (h : chain cells p cs) (hc : c ∈ cs) :
    ∃ pre suf, cs = pre ++ c :: suf ∧ chain cells c (c :: suf) := by
  induction cs generalizing p with
  | nil => simp at hc
  | cons d cs ih =>
    obtain ⟨e, hd, t⟩ := h
    rcases List.mem_cons.1 hc with e1 | e1
    · subst e1
      exact ⟨[], cs, rfl, rfl, hd, t⟩
    · obtain ⟨pre, suf, e2, e3⟩ := ih _ t e1
      exact ⟨d :: pre, suf, by rw [e2]; rfl, e3⟩

theorem chain_nodup (cells : Nat → ListCell) (p : Nat) (cs : List Nat)
    (h : chain cells p cs) : cs.Nodup := by
  induction cs generalizing p with
  | nil => exact List.nodup_nil
  | cons c cs ih =>
    have hall := h
    obtain ⟨e, hc, t⟩ := h
    refine List.nodup_cons.2 ⟨?_, ih _ t⟩
    intro hm
    obtain ⟨pre, suf, e1, e2⟩ := chain_split cells _ cs c t hm
    rw [← e] at hall
    rw [e] at hall
    have := chain_unique cells c _ _ hall e2
    have hlen := congrArg List.length this
    have hlen1 := congrArg List.length e1
    simp only [List.length_cons, List.length_append] at hlen hlen1
    omega

/-- A chain is kept when the `next` fields of its cells are. -/
theorem chain_congr (cells cells1 : Nat → ListCell) (p : Nat) (cs : List Nat)
    (hsame : ∀ c ∈ cs, (cells1 c).next = (cells c).next) (h : chain cells p cs) :
    chain cells1 p cs := by
  induction cs generalizing p with
  | nil => exact h
  | cons c cs ih =>
    obtain ⟨e, hc, t⟩ := h
    refine ⟨e, hc, ?_⟩
    rw [hsame c (List.mem_cons_self _ _)]
    exact ih _ (fun d hd => hsame d (List.mem_cons_of_mem _ hd)) t

/-- The `next` of the last cell of a chain is null. -/
theorem chain_last (cells : Nat → ListCell) (p : Nat) (cs : List Nat) (t : Nat)
    (h : chain cells p (cs ++ [t])) : (cells t).next = 0 ∧ t ≠ 0 := by
  induction cs generalizing p with
  | nil =>
    obtain ⟨-, ht, e⟩ := h
    exact ⟨e, ht⟩
  | cons c cs ih =>
    obtain ⟨-, -, e⟩ := h
    exact ih _ e

/-- A chain with one more cell behind its last one. -/
theorem chain_snoc (cells cells1 : Nat → ListCell) (p : Nat) (cs : List Nat) (t n : Nat)
    (h : chain cells p (cs ++ [t])) (hn : n ≠ 0)
    (hsame : ∀ c ∈ cs, (cells1 c).next = (cells c).next)
    (ht : (cells1 t).next = n) (hn1 : (cells1 n).next = 0) :
    chain cells1 p (cs ++ [t, n]) := by
  induction cs generalizing p with
  | nil =>
    obtain ⟨e, ht0, -⟩ := h
    exact ⟨e, ht0, ht, hn, hn1⟩
  | cons c cs ih =>
    obtain ⟨e, hc, t1⟩ := h
    refine ⟨e, hc, ?_⟩
    rw [hsame c (List.mem_cons_self _ _)]
    exact ih _ t1 (fun d hd => hsame d (List.mem_cons_of_mem _ hd))

/-- The start of a chain, cut behind the cell `t`. -/
theorem chain_cut (cells cells1 : Nat → ListCell) (p : Nat) (cs : List Nat) (t : Nat)
    (rest : List Nat) (h : chain cells p (cs ++ t :: rest))
    (hsame : ∀ c ∈ cs, (cells1 c).next = (cells c).next) (ht : (cells1 t).next = 0) :
    chain cells1 p (cs ++ [t]) := by
  induction cs generalizing p with
  | nil =>
    obtain ⟨e, ht0, -⟩ := h
    exact ⟨e, ht0, ht⟩
  | cons c cs ih =>
    obtain ⟨e, hc, t1⟩ := h
    refine ⟨e, hc, ?_⟩
    rw [hsame c (List.mem_cons_self _ _)]
    exact ih _ t1 (fun d hd => hsame d (List.mem_cons_of_mem _ hd))

/-- Two chains one behind the other. -/
theorem chain_append (cells cells1 : Nat → ListCell) (p q : Nat) (cs ds : List Nat) (t : Nat)
    (h : chain cells p (cs ++ [t])) (hq : chain cells1 q ds)
    (hsame : ∀ c ∈ cs, (cells1 c).next = (cells c).next) (ht : (cells1 t).next = q) :
    chain cells1 p (cs ++ t :: ds) := by
  induction cs generalizing p with
  | nil =>
    obtain ⟨e, ht0, -⟩ := h
    refine ⟨e, ht0, ?_⟩
    rw [ht]
    exact hq
  | cons c cs ih =>
    obtain ⟨e, hc, t1⟩ := h
    refine ⟨e, hc, ?_⟩
    rw [hsame c (List.mem_cons_self _ _)]
    exact ih _ t1 (fun d hd => hsame d (List.mem_cons_of_mem _ hd))

theorem chain_tail_of_append (cells : Nat → ListCell) (p : Nat) (cs ds : List Nat)
    (h : chain cells p (cs ++ ds)) : ∃ q, chain cells q ds := by
  induction cs generalizing p with
  | nil => exact ⟨p, h⟩
  | cons c cs ih =>
    obtain ⟨-, -, t⟩ := h
    exact ih _ t

theorem getLast_snoc (cs : List Nat) (t : Nat) : (cs ++ [t]).getLast? = some t := by
  simp

theorem exists_snoc_of_getLast (cs : List Nat) (t : Nat) (h : cs.getLast? = some t) :
    ∃ init, cs = init ++ [t] := by
  rcases List.eq_nil_or_concat cs with e | ⟨init, b, e⟩
  · rw [e] at h
    simp at h
  · rw [e, List.concat_eq_append, getLast_snoc] at h
    injection h with h
    rw [e, List.concat_eq_append, h]
    exact ⟨init, rfl⟩

/-! ## Facts about the list functions -/

theorem in_use_false (h : list_heap) (p : Nat) (hp : h.in_use p = false) :
    h.live p = false ∧ h.live_list p = false := by
  unfold list_heap.in_use at hp
  exact Bool.or_eq_false_iff.mp hp

theorem alloc_cell_spec (host : list_host) (hfresh : alloc_fresh host) (h : list_heap)
    (n : Nat) (h1 : list_heap) (ha : alloc_cell host h = some (n, h1)) :
    n ≠ 0 ∧ h.live n = false ∧ h1.lists = h.lists
      ∧ (∀ a, h1.cells a = if a = n then ⟨0, 0⟩ else h.cells a)
      ∧ (∀ a, h1.live a = if a = n then true else h.live a) := by
  unfold alloc_cell at ha
  cases hal : host.alloc h.in_use with
  | none => simp [hal] at ha
  | some p =>
    simp only [hal] at ha
    split_ifs at ha with hp
    injection ha with ha
    injection ha with e1 e2
    subst e1 e2
    refine ⟨hp, (in_use_false h _ (hfresh _ _ hal)).1, rfl, fun a => ?_, fun a => ?_⟩
    · simp only [Function.update_apply]
    · simp only [Function.update_apply]

theorem alloc_cell_list (host : list_host) (hfresh : alloc_fresh host) (h : list_heap)
    (n : Nat) (h1 : list_heap) (ha : alloc_cell host h = some (n, h1)) :
    h.live_list n = false ∧ h1.live_list = h.live_list := by
  unfold alloc_cell at ha
  cases hal : host.alloc h.in_use with
  | none => simp [hal] at ha
  | some p =>
    simp only [hal] at ha
    split_ifs at ha with hp
    injection ha with ha
    injection ha with e1 e2
    subst e1 e2
    exact ⟨(in_use_false h _ (hfresh _ _ hal)).2, rfl⟩

theorem alloc_list_spec (host : list_host) (hfresh : alloc_fresh host) (h : list_heap)
    (n : Nat) (h1 : list_heap) (ha : alloc_list host h = some (n, h1)) :
    n ≠ 0 ∧ h.live_list n = false ∧ h1.cells = h.cells
      ∧ (∀ a, h1.lists a = if a = n then ⟨0, 0, 0⟩ else h.lists a)
      ∧ (∀ a, h1.live_list a = if a = n then true else h.live_list a) := by
  unfold alloc_list at ha
  cases hal : host.alloc h.in_use with
  | none => simp [hal] at ha
  | some p =>
    simp only [hal] at ha
    split_ifs at ha with hp
    injection ha with ha
    injection ha with e1 e2
    subst e1 e2
    refine ⟨hp, (in_use_false h _ (hfresh _ _ hal)).2, rfl, fun a => ?_, fun a => ?_⟩
    · simp only [Function.update_apply]
    · simp only [Function.update_apply]

theorem alloc_list_live (host : list_host) (hfresh : alloc_fresh host) (h : list_heap)
    (n : Nat) (h1 : list_heap) (ha : alloc_list host h = some (n, h1)) :
    h.live n = false ∧ h1.live = h.live := by
  unfold alloc_list at ha
  cases hal : host.alloc h.in_use with
  | none => simp [hal] at ha
  | some p =>
    simp only [hal] at ha
    split_ifs at ha with hp
    injection ha with ha
    injection ha with e1 e2
    subst e1 e2
    exact ⟨(in_use_false h _ (hfresh _ _ hal)).1, rfl⟩

theorem set_next_cells (h : list_heap) (c n a : Nat) :
    (h.set_next c n).cells a = if a = c then { h.cells c with next := n } else h.cells a := by
  simp only [list_heap.set_next, Function.update_apply]

theorem set_data_cells (h : list_heap) (c : Nat) (d : Int) (a : Nat) :
    (h.set_data c d).cells a = if a = c then { h.cells c with data := d } else h.cells a := by
  simp only [list_heap.set_data, Function.update_apply]

theorem set_list_lists (h : list_heap) (l : Nat) (v : pg_list) (a : Nat) :
    (h.set_list l v).lists a = if a = l then v else h.lists a := by
  simp only [list_heap.set_list, Function.update_apply]

theorem is_list_ne_nil (h : list_heap) (l : Nat) (cs : List Nat) (hl : is_list h l cs) :
    ∃ init t, cs = init ++ [t] ∧ (h.lists l).tail = t := by
  obtain ⟨-, -, -, -, -, hlast⟩ := hl
  obtain ⟨init, e⟩ := exists_snoc_of_getLast cs _ hlast
  exact ⟨init, _, e, rfl⟩

theorem is_list_head (h : list_heap) (l : Nat) (cs : List Nat) (hl : is_list h l cs) :
    ∃ c rest, cs = c :: rest ∧ (h.lists l).head = c ∧ c ≠ 0
      ∧ chain h.cells (h.cells c).next rest := by
  obtain ⟨init, t, e, -⟩ := is_list_ne_nil h l cs hl
  obtain ⟨-, -, -, hch, -, -⟩ := hl
  cases cs with
  | nil =>
    have := congrArg List.length e
    simp at this
  | cons c rest =>
    obtain ⟨e1, hc, t1⟩ := hch
    exact ⟨c, rest, rfl, e1, hc, t1⟩

/-- On a valid list no assertion of `check_list_invariants` fails. -/
theorem check_ok (h : list_heap) (l : Nat) (cs : List Nat) (hl : is_list h l cs) :
    check_list_invariants l h = .ret () h := by
  obtain ⟨init, t, e, ht⟩ := is_list_ne_nil h l cs hl
  obtain ⟨c, rest, e2, hhead, hc, hrest⟩ := is_list_head h l cs hl
  obtain ⟨hl0, -, -, hch, hlen, hlast⟩ := hl
  have hlast0 := chain_last h.cells _ init t (e ▸ hch)
  unfold check_list_invariants
  rw [if_neg hl0, if_neg, if_neg, if_neg, if_neg, if_neg, if_neg]
  · rw [ht]
    simp [hlast0.1]
  · rintro ⟨h2, hne⟩
    rw [hlen, e2] at h2
    apply hne
    cases rest with
    | nil => simp at h2
    | cons d rest2 =>
      cases rest2 with
      | cons d2 rest3 =>
        simp only [List.length_cons] at h2
        omega
      | nil =>
        obtain ⟨e3, -, -⟩ := hrest
        rw [hhead, e3]
        rw [e2] at hlast
        simp at hlast
        exact hlast
  · rintro ⟨h1, hne⟩
    rw [hlen, e2] at h1
    apply hne
    cases rest with
    | cons d rest2 =>
      simp only [List.length_cons] at h1
      omega
    | nil =>
      rw [e2] at hlast
      simp at hlast
      rw [hhead, hlast]
  · rw [ht]
    exact hlast0.2
  · rw [hhead]
    exact hc
  · rw [hlen, e2]
    simp only [List.length_cons, not_not]
    omega

theorem check_nil (h : list_heap) : check_list_invariants 0 h = .ret () h := by
  unfold check_list_invariants
  rw [if_pos rfl]

/-- A chain of cells in use is kept with the memory, unless `t` is one of its
cells. -/
theorem chain_keeps (h h1 : list_heap) (t l p : Nat) (ds : List Nat)
    (hk : heap_keeps h h1 t l) (hlive : ∀ c ∈ ds, h.live c = true) (ht : t ∉ ds)
    (hch : chain h.cells p ds) : chain h1.cells p ds := by
  apply chain_congr h.cells h1.cells p ds _ hch
  intro c hc
  rw [hk.2.1 c (hlive c hc) (fun e => ht (e ▸ hc))]

theorem data_keeps (h h1 : list_heap) (t l : Nat) (ds : List Nat)
    (hk : heap_keeps h h1 t l) (hlive : ∀ c ∈ ds, h.live c = true) :
    cells_data h1 ds = cells_data h ds := by
  unfold cells_data
  apply List.map_congr_left
  intro c hc
  exact hk.2.2.1 c (hlive c hc)

/-- A valid list is kept with the memory, unless it is the list at `l` or `t`
is one of its cells. -/
theorem is_list_keeps (h h1 : list_heap) (t l l2 : Nat) (ds : List Nat)
    (hk : heap_keeps h h1 t l) (hl : is_list h l2 ds) (hne : l2 ≠ l) (ht : t ∉ ds) :
    is_list h1 l2 ds := by
  obtain ⟨h0, hlive, hclive, hch, hlen, hlast⟩ := hl
  have e := hk.2.2.2.1 l2 hlive hne
  refine ⟨h0, hk.2.2.2.2 _ hlive, fun c hc => hk.1 _ (hclive c hc), ?_, ?_, ?_⟩
  · rw [e]
    exact chain_keeps h h1 t l _ ds hk hclive ht hch
  · rw [e]
    exact hlen
  · rw [e]
    exact hlast

theorem heap_keeps_refl (h : list_heap) (t l : Nat) : heap_keeps h h t l :=
  ⟨fun _ h1 => h1, fun _ _ _ => rfl, fun _ _ => rfl, fun _ _ _ => rfl, fun _ h1 => h1⟩

theorem int_add_one (n : Nat) (h : (n : Int) < INT_MAX) : int_add n 1 = some ((n : Int) + 1) := by
  unfold int_add
  unfold INT_MAX at *
  rw [if_neg]
  omega

theorem is_list_set_data (h : list_heap) (l : Nat) (cs : List Nat) (c : Nat) (d : Int)
    (hl : is_list h l cs) : is_list (h.set_data c d) l cs := by
  obtain ⟨h0, hlive, hclive, hch, hlen, hlast⟩ := hl
  refine ⟨h0, hlive, hclive, ?_, hlen, hlast⟩
  apply chain_congr h.cells _ _ cs _ hch
  intro a _
  rw [set_data_cells]
  split_ifs with e
  · rw [e]
  · rfl

theorem heap_keeps_set_data (h h1 : list_heap) (t l c : Nat) (d : Int)
    (hk : heap_keeps h h1 t l) (hc : h.live c = false) :
    heap_keeps h (h1.set_data c d) t l := by
  obtain ⟨k1, k2, k3, k4, k5⟩ := hk
  have hne : ∀ a, h.live a = true → a ≠ c := by
    intro a ha e
    rw [e, hc] at ha
    cases ha
  refine ⟨k1, fun a ha hat => ?_, fun a ha => ?_, k4, k5⟩
  · rw [set_data_cells, if_neg (hne a ha)]
    exact k2 a ha hat
  · rw [set_data_cells, if_neg (hne a ha)]
    exact k3 a ha

/-- The `new_list` of `pg_list.c` ends the process when there is no memory, and
returns a valid list of one new cell otherwise. -/
theorem new_list_spec (host : list_host) (hfresh : alloc_fresh host) (h : list_heap) :
    new_list host h = .exited
      ∨ ∃ l n h1, new_list host h = .ret l h1 ∧ is_list h1 l [n]
          ∧ h.live_list l = false ∧ h.live n = false ∧ heap_keeps h h1 0 0 := by
  unfold new_list
  cases hac : alloc_cell host h with
  | none => exact Or.inl rfl
  | some p =>
    obtain ⟨n, h1⟩ := p
    obtain ⟨hn0, hnf, hlists, hcells, hlive⟩ := alloc_cell_spec host hfresh h n h1 hac
    obtain ⟨-, hll1⟩ := alloc_cell_list host hfresh h n h1 hac
    dsimp only
    cases hal : alloc_list host (h1.set_next n 0) with
    | none => exact Or.inl rfl
    | some q =>
      obtain ⟨l, h3⟩ := q
      obtain ⟨hl0, hlf, hcells3, hlists3, hlive3⟩ :=
        alloc_list_spec host hfresh (h1.set_next n 0) l h3 hal
      obtain ⟨-, hlv3⟩ := alloc_list_live host hfresh (h1.set_next n 0) l h3 hal
      right
      have hlive2 : (h1.set_next n 0).live = h1.live := rfl
      have hll2 : (h1.set_next n 0).live_list = h.live_list := hll1
      have hlists2 : (h1.set_next n 0).lists = h1.lists := rfl
      rw [hll2] at hlf
      have hlv : ∀ a, (h3.set_list l ⟨1, n, n⟩).live a
          = if a = n then true else h.live a := by
        intro a
        show h3.live a = _
        rw [hlv3, hlive2, hlive]
      have hll : ∀ a, (h3.set_list l ⟨1, n, n⟩).live_list a
          = if a = l then true else h.live_list a := by
        intro a
        show h3.live_list a = _
        rw [hlive3, hll2]
      have hce : ∀ a, (h3.set_list l ⟨1, n, n⟩).cells a
          = if a = n then ⟨(h1.cells n).data, 0⟩ else h.cells a := by
        intro a
        show h3.cells a = _
        rw [hcells3, set_next_cells]
        split_ifs with e
        · rfl
        · rw [hcells, if_neg e]
      have hli : ∀ a, (h3.set_list l ⟨1, n, n⟩).lists a
          = if a = l then ⟨1, n, n⟩ else h.lists a := by
        intro a
        rw [set_list_lists]
        split_ifs with e
        · rfl
        · rw [hlists3, if_neg e, hlists2, hlists]
      refine ⟨l, n, _, rfl, ⟨hl0, ?_, ?_, ?_, ?_, ?_⟩, hlf, hnf, ?_, ?_, ?_, ?_, ?_⟩
      · rw [hll, if_pos rfl]
      · intro c hc
        rw [List.mem_singleton] at hc
        rw [hlv, hc, if_pos rfl]
      · rw [hli, if_pos rfl]
        refine ⟨rfl, hn0, ?_⟩
        rw [hce, if_pos rfl]
        rfl
      · rw [hli, if_pos rfl]
        rfl
      · rw [hli, if_pos rfl]
        rfl
      · intro a ha
        rw [hlv]
        split_ifs
        · rfl
        · exact ha
      · intro a ha _
        rw [hce, if_neg]
        intro e
        rw [e, hnf] at ha
        cases ha
      · intro a ha
        rw [hce, if_neg]
        intro e
        rw [e, hnf] at ha
        cases ha
      · intro a ha _
        rw [hli, if_neg]
        intro e
        rw [e, hlf] at ha
        cases ha
      · intro a ha
        rw [hll]
        split_ifs
        · rfl
        · exact ha

theorem not_live_ne (h : list_heap) (n : Nat) (hn : h.live n = false) (a : Nat)
    (ha : h.live a = true) : a ≠ n := by
  intro e
  rw [e, hn] at ha
  cases ha

theorem chain_mem_ne_zero (cells : Nat → ListCell) (p : Nat) (cs : List Nat)
    (h : chain cells p cs) (c : Nat) (hc : c ∈ cs) : c ≠ 0 := by
  intro e
  exact chain_not_zero cells p cs h (e ▸ hc)

theorem is_list_tail_snoc (h : list_heap) (l : Nat) (cs : List Nat) (n : Nat)
    (hl : is_list h l (cs ++ [n])) : (h.lists l).tail = n := by
  obtain ⟨-, -, -, -, -, hlast⟩ := hl
  rw [getLast_snoc] at hlast
  injection hlast with e
  exact e.symm

/-- The `new_tail_cell` of `pg_list.c` on a valid list: a new cell is the last
one. -/
theorem new_tail_cell_spec (host : list_host) (hfresh : alloc_fresh host) (h : list_heap)
    (l : Nat) (cs : List Nat) (hl : is_list h l cs) (hlen : (cs.length : Int) < INT_MAX) :
    new_tail_cell host l h = .exited
      ∨ ∃ n h1, new_tail_cell host l h = .ret () h1 ∧ is_list h1 l (cs ++ [n])
          ∧ h.live n = false ∧ heap_keeps h h1 (h.lists l).tail l := by
  obtain ⟨init, t, e, ht⟩ := is_list_ne_nil h l cs hl
  obtain ⟨hl0, hlive, hclive, hch, hlenf, hlast⟩ := hl
  have hnd := chain_nodup h.cells _ cs hch
  have ht0 : t ≠ 0 := chain_mem_ne_zero h.cells _ cs hch t
    (e ▸ List.mem_append_right _ (List.mem_singleton.mpr rfl))
  unfold new_tail_cell
  rw [if_neg hl0]
  cases hac : alloc_cell host h with
  | none => exact Or.inl rfl
  | some p =>
    obtain ⟨n, h1⟩ := p
    obtain ⟨hn0, hnf, hlists, hcells, hlivef⟩ := alloc_cell_spec host hfresh h n h1 hac
    obtain ⟨-, hll1⟩ := alloc_cell_list host hfresh h n h1 hac
    right
    dsimp only
    have e1 : ((h1.set_next n 0).lists l) = h.lists l := by
      show h1.lists l = _
      rw [hlists]
    have e2 : (((h1.set_next n 0).set_next t n).lists l) = h.lists l := by
      show h1.lists l = _
      rw [hlists]
    rw [e1, ht, if_neg ht0, e2, hlenf, int_add_one _ hlen]
    dsimp only
    have htl : h.live t = true := hclive t (e ▸ List.mem_append_right _ (List.mem_singleton.mpr rfl))
    have htn : t ≠ n := not_live_ne h n hnf t htl
    have hce : ∀ a, (((h1.set_next n 0).set_next t n).cells a)
        = if a = n then ⟨0, 0⟩ else if a = t then ⟨(h.cells t).data, n⟩ else h.cells a := by
      intro a
      by_cases ean : a = n
      · subst ean
        simp [set_next_cells, hcells, Ne.symm htn]
      · by_cases eat : a = t
        · subst eat
          simp [set_next_cells, hcells, ean]
        · simp [set_next_cells, hcells, ean, eat]
    refine ⟨n, _, rfl, ⟨hl0, ?_, ?_, ?_, ?_, ?_⟩, hnf, ?_, ?_, ?_, ?_, ?_⟩
    · show h1.live_list l = true
      rw [hll1]
      exact hlive
    · intro c hc
      show h1.live c = true
      rw [hlivef]
      split_ifs with ec
      · rfl
      · rcases List.mem_append.mp hc with hc1 | hc1
        · exact hclive c hc1
        · exact absurd (List.mem_singleton.mp hc1) ec
    · rw [set_list_lists, if_pos rfl]
      show chain _ (h.lists l).head _
      rw [e, List.append_assoc]
      rw [e] at hch hnd
      apply chain_snoc h.cells _ _ init t n hch hn0
      · intro c hc
        have hcl : h.live c = true := hclive c (e ▸ List.mem_append_left _ hc)
        have hcn : c ≠ n := not_live_ne h n hnf c hcl
        have hct : c ≠ t := by
          intro e3
          rw [e3] at hc
          rw [List.nodup_append] at hnd
          exact hnd.2.2 hc (List.mem_singleton.mpr rfl)
        show (((h1.set_next n 0).set_next t n).cells c).next = _
        rw [hce, if_neg hcn, if_neg hct]
      · show (((h1.set_next n 0).set_next t n).cells t).next = _
        rw [hce, if_neg htn, if_pos rfl]
      · show (((h1.set_next n 0).set_next t n).cells n).next = _
        rw [hce, if_pos rfl]
    · rw [set_list_lists, if_pos rfl]
      simp only [List.length_append, List.length_singleton, Nat.cast_add, Nat.cast_one]
    · rw [set_list_lists, if_pos rfl, getLast_snoc]
    · intro a ha
      show h1.live a = true
      rw [hlivef]
      split_ifs
      · rfl
      · exact ha
    · intro a ha hat
      show (((h1.set_next n 0).set_next t n).cells a) = _
      rw [hce, if_neg (not_live_ne h n hnf a ha), if_neg hat]
    · intro a ha
      show (((h1.set_next n 0).set_next t n).cells a).data = _
      rw [hce, if_neg (not_live_ne h n hnf a ha)]
      split_ifs with e3
      · rw [e3]
      · rfl
    · intro a ha hal
      rw [set_list_lists, if_neg hal]
      show h1.lists a = _
      rw [hlists]
    · intro a ha
      show h1.live_list a = true
      rw [hll1]
      exact ha

theorem cells_data_snoc_set (h1 : list_heap) (cs : List Nat) (n : Nat) (x : Int)
    (hn : n ∉ cs) :
    cells_data (h1.set_data n x) (cs ++ [n]) = cells_data h1 cs ++ [x] := by
  unfold cells_data
  rw [List.map_append]
  congr 1
  · apply List.map_congr_left
    intro c hc
    rw [set_data_cells, if_neg]
    intro e
    exact hn (e ▸ hc)
  · simp [set_data_cells]

theorem list_cells_tail_live (h : list_heap) (l : Nat) (cs : List Nat) (hl : list_cells h l cs) :
    list_tail h l = 0 ∨ h.live (list_tail h l) = true := by
  rcases hl with ⟨e, -⟩ | hl
  · left
    rw [e]
    rfl
  · right
    obtain ⟨init, t, e, ht⟩ := is_list_ne_nil h l cs hl
    unfold list_tail
    rw [if_neg hl.1, ht]
    exact hl.2.2.1 t (e ▸ List.mem_append_right _ (List.mem_singleton.mpr rfl))

/-- The `lappend` of `pg_list.c` on a list with the cells `cs`: the process
ends for lack of memory, or the list returned has the cells `cs` and a new
cell after them, which holds the datum; the other cells hold what they held,
and the rest of the memory in use is kept but for the `next` of the last cell
and the header of the list. -/
theorem lappend_spec (host : list_host) (hfresh : alloc_fresh host) (h : list_heap)
    (l : Nat) (x : Int) (cs : List Nat) (hl : list_cells h l cs)
    (hlen : (cs.length : Int) < INT_MAX) :
    lappend host l x h = .exited
      ∨ ∃ l1 n h1, lappend host l x h = .ret l1 h1 ∧ is_list h1 l1 (cs ++ [n])
          ∧ cells_data h1 (cs ++ [n]) = cells_data h cs ++ [x]
          ∧ h.live n = false ∧ (l ≠ 0 → l1 = l) ∧ (l = 0 → h.live_list l1 = false)
          ∧ heap_keeps h h1 (list_tail h l) l := by
  rcases hl with ⟨el, ecs⟩ | hl
  · subst el ecs
    unfold lappend
    rw [if_pos rfl]
    rcases new_list_spec host hfresh h with hex | ⟨l1, n, h1, hret, hl1, hlf, hnf, hk⟩
    · left
      rw [hex]
      rfl
    · right
      rw [hret]
      have htl := is_list_tail_snoc h1 l1 [] n hl1
      have hv := is_list_set_data h1 l1 [n] n x hl1
      refine ⟨l1, n, h1.set_data n x, ?_, hv, ?_, hnf, fun e => absurd rfl e, fun _ => hlf, ?_⟩
      · simp only [list_outcome.and_then]
        rw [htl, check_ok _ _ _ hv]
      · exact cells_data_snoc_set h1 [] n x (List.not_mem_nil n)
      · exact heap_keeps_set_data h h1 _ _ n x hk hnf
  · have hl0 := hl.1
    unfold lappend
    rw [if_neg hl0]
    rcases new_tail_cell_spec host hfresh h l cs hl hlen with hex | ⟨n, h1, hret, hl1, hnf, hk⟩
    · left
      rw [hex]
      rfl
    · right
      rw [hret]
      have htl := is_list_tail_snoc h1 l cs n hl1
      have hv := is_list_set_data h1 l (cs ++ [n]) n x hl1
      have hncs : n ∉ cs := fun hc => not_live_ne h n hnf n (hl.2.2.1 n hc) rfl
      refine ⟨l, n, h1.set_data n x, ?_, hv, ?_, hnf, fun _ => rfl, fun e => absurd e hl0, ?_⟩
      · simp only [list_outcome.and_then]
        rw [htl, check_ok _ _ _ hv]
      · rw [cells_data_snoc_set h1 cs n x hncs]
        congr 1
        exact data_keeps h h1 _ _ cs hk hl.2.2.1
      · unfold list_tail
        rw [if_neg hl0]
        exact heap_keeps_set_data h h1 _ _ n x hk hnf

theorem is_list_head_cons (h : list_heap) (l : Nat) (cs : List Nat) (n : Nat)
    (hl : is_list h l (n :: cs)) : (h.lists l).head = n :=
  hl.2.2.2.1.1

/-- The `new_head_cell` of `pg_list.c` on a valid list: a new cell is the
first one. -/
theorem new_head_cell_spec (host : list_host) (hfresh : alloc_fresh host) (h : list_heap)
    (l : Nat) (cs : List Nat) (hl : is_list h l cs) (hlen : (cs.length : Int) < INT_MAX) :
    new_head_cell host l h = .exited
      ∨ ∃ n h1, new_head_cell host l h = .ret () h1 ∧ is_list h1 l (n :: cs)
          ∧ h.live n = false ∧ heap_keeps h h1 0 l := by
  obtain ⟨init, t, e, ht⟩ := is_list_ne_nil h l cs hl
  obtain ⟨hl0, hlive, hclive, hch, hlenf, hlast⟩ := hl
  unfold new_head_cell
  rw [if_neg hl0]
  cases hac : alloc_cell host h with
  | none => exact Or.inl rfl
  | some p =>
    obtain ⟨n, h1⟩ := p
    obtain ⟨hn0, hnf, hlists, hcells, hlivef⟩ := alloc_cell_spec host hfresh h n h1 hac
    obtain ⟨-, hll1⟩ := alloc_cell_list host hfresh h n h1 hac
    right
    dsimp only
    have e1 : ((h1.set_next n (h1.lists l).head).lists l) = h.lists l := by
      show h1.lists l = _
      rw [hlists]
    rw [e1, hlenf, int_add_one _ hlen]
    dsimp only
    have hce : ∀ a, ((h1.set_next n (h1.lists l).head).cells a)
        = if a = n then ⟨0, (h.lists l).head⟩ else h.cells a := by
      intro a
      by_cases ean : a = n
      · subst ean
        simp [set_next_cells, hcells, hlists]
      · simp [set_next_cells, hcells, ean]
    refine ⟨n, _, rfl, ⟨hl0, ?_, ?_, ?_, ?_, ?_⟩, hnf, ?_, ?_, ?_, ?_, ?_⟩
    · show h1.live_list l = true
      rw [hll1]
      exact hlive
    · intro c hc
      show h1.live c = true
      rw [hlivef]
      split_ifs with ec
      · rfl
      · rcases List.mem_cons.mp hc with hc1 | hc1
        · exact absurd hc1 ec
        · exact hclive c hc1
    · rw [set_list_lists, if_pos rfl]
      refine ⟨rfl, hn0, ?_⟩
      show chain _ (((h1.set_next n (h1.lists l).head).cells n)).next cs
      rw [hce, if_pos rfl]
      apply chain_congr h.cells _ _ cs _ hch
      intro c hc
      show (((h1.set_next n (h1.lists l).head).cells c)).next = _
      rw [hce, if_neg (not_live_ne h n hnf c (hclive c hc))]
    · rw [set_list_lists, if_pos rfl]
      simp only [List.length_cons, Nat.cast_add, Nat.cast_one]
    · rw [set_list_lists, if_pos rfl]
      rw [e, ← List.cons_append, getLast_snoc, ht]
    · intro a ha
      show h1.live a = true
      rw [hlivef]
      split_ifs
      · rfl
      · exact ha
    · intro a ha _
      show ((h1.set_next n (h1.lists l).head).cells a) = _
      rw [hce, if_neg (not_live_ne h n hnf a ha)]
    · intro a ha
      show ((h1.set_next n (h1.lists l).head).cells a).data = _
      rw [hce, if_neg (not_live_ne h n hnf a ha)]
    · intro a ha hal
      rw [set_list_lists, if_neg hal]
      show h1.lists a = _
      rw [hlists]
    · intro a ha
      show h1.live_list a = true
      rw [hll1]
      exact ha

theorem cells_data_cons_set (h1 : list_heap) (cs : List Nat) (n : Nat) (x : Int)
    (hn : n ∉ cs) :
    cells_data (h1.set_data n x) (n :: cs) = x :: cells_data h1 cs := by
  unfold cells_data
  rw [List.map_cons]
  congr 1
  · simp [set_data_cells]
  · apply List.map_congr_left
    intro c hc
    rw [set_data_cells, if_neg]
    intro e
    exact hn (e ▸ hc)

/-- The `lcons` of `pg_list.c` on a list with the cells `cs`: the process ends
for lack of memory, or the list returned has a new cell, which holds the datum,
and the cells `cs` after it; the other cells hold what they held, and the rest
of the memory in use is kept but for the header of the list. -/
theorem lcons_spec (host : list_host) (hfresh : alloc_fresh host) (h : list_heap)
    (l : Nat) (x : Int) (cs : List Nat) (hl : list_cells h l cs)
    (hlen : (cs.length : Int) < INT_MAX) :
    lcons host x l h = .exited
      ∨ ∃ l1 n h1, lcons host x l h = .ret l1 h1 ∧ is_list h1 l1 (n :: cs)
          ∧ cells_data h1 (n :: cs) = x :: cells_data h cs
          ∧ h.live n = false ∧ (l ≠ 0 → l1 = l) ∧ (l = 0 → h.live_list l1 = false)
          ∧ heap_keeps h h1 0 l := by
  rcases hl with ⟨el, ecs⟩ | hl
  · subst el ecs
    unfold lcons
    rw [if_pos rfl]
    rcases new_list_spec host hfresh h with hex | ⟨l1, n, h1, hret, hl1, hlf, hnf, hk⟩
    · left
      rw [hex]
      rfl
    · right
      rw [hret]
      have htl := is_list_head_cons h1 l1 [] n hl1
      have hv := is_list_set_data h1 l1 [n] n x hl1
      refine ⟨l1, n, h1.set_data n x, ?_, hv, ?_, hnf, fun e => absurd rfl e, fun _ => hlf, ?_⟩
      · simp only [list_outcome.and_then]
        rw [htl, check_ok _ _ _ hv]
      · exact cells_data_cons_set h1 [] n x (List.not_mem_nil n)
      · exact heap_keeps_set_data h h1 _ _ n x hk hnf
  · have hl0 := hl.1
    unfold lcons
    rw [if_neg hl0]
    rcases new_head_cell_spec host hfresh h l cs hl hlen with hex | ⟨n, h1, hret, hl1, hnf, hk⟩
    · left
      rw [hex]
      rfl
    · right
      rw [hret]
      have htl := is_list_head_cons h1 l cs n hl1
      have hv := is_list_set_data h1 l (n :: cs) n x hl1
      have hncs : n ∉ cs := fun hc => not_live_ne h n hnf n (hl.2.2.1 n hc) rfl
      refine ⟨l, n, h1.set_data n x, ?_, hv, ?_, hnf, fun _ => rfl, fun e => absurd e hl0, ?_⟩
      · simp only [list_outcome.and_then]
        rw [htl, check_ok _ _ _ hv]
      · rw [cells_data_cons_set h1 cs n x hncs]
        congr 1
        exact data_keeps h h1 _ _ cs hk hl.2.2.1
      · exact heap_keeps_set_data h h1 _ _ n x hk hnf

/-- The loop of `foreach` over a chain of cells visits them in order. -/
theorem foreach_data_chain (h : list_heap) (p : Nat) (cs : List Nat)
    (hch : chain h.cells p cs) (fuel : Nat) (hf : cs.length < fuel) :
    foreach_data h fuel p = some (cells_data h cs) := by
  induction cs generalizing p fuel with
  | nil =>
    cases fuel with
    | zero => simp at hf
    | succ fuel =>
      rw [(chain_nil _ _).mp hch]
      rfl
  | cons c cs ih =>
    obtain ⟨e, hc, t⟩ := hch
    cases fuel with
    | zero => simp at hf
    | succ fuel =>
      unfold foreach_data
      rw [e, if_neg hc, ih _ t fuel (by simpa using hf)]
      rfl

theorem list_cells_chain (h : list_heap) (l : Nat) (cs : List Nat) (hl : list_cells h l cs) :
    chain h.cells (list_head h l) cs := by
  rcases hl with ⟨el, ecs⟩ | hl
  · subst el ecs
    rfl
  · unfold list_head
    rw [if_neg hl.1]
    exact hl.2.2.2.1

theorem list_cells_length (h : list_heap) (l : Nat) (cs : List Nat) (hl : list_cells h l cs) :
    list_length h l = cs.length := by
  rcases hl with ⟨el, ecs⟩ | hl
  · subst el ecs
    rfl
  · unfold list_length
    rw [if_neg hl.1]
    exact hl.2.2.2.2.1

theorem scenario_list_host_fresh : alloc_fresh scenario_list_host := by
  intro used p hp
  have := List.find?_some hp
  simp only [Bool.and_eq_true, Bool.not_eq_true', bne_iff_ne] at this
  exact this.2

theorem scenario_heap_list : is_list scenario_heap 3 [1, 2] := by
  refine ⟨by decide, rfl, ?_, ?_, rfl, rfl⟩
  · intro c hc
    simp only [List.mem_cons, List.mem_singleton, List.not_mem_nil, or_false] at hc
    rcases hc with e | e <;> subst e <;> rfl
  · exact ⟨rfl, by decide, rfl, by decide, rfl⟩

theorem scenario_heap_elems : list_elems scenario_heap 3 [10, 20] :=
  Or.inr ⟨[1, 2], scenario_heap_list, rfl⟩

theorem list_elems_cells (h : list_heap) (l : Nat) (xs : List Int) :
    list_elems h l xs ↔ ∃ cs, list_cells h l cs ∧ cells_data h cs = xs := by
  constructor
  · rintro (⟨e1, e2⟩ | ⟨cs, hl, hd⟩)
    · exact ⟨[], Or.inl ⟨e1, rfl⟩, e2.symm⟩
    · exact ⟨cs, Or.inr hl, hd⟩
  · rintro ⟨cs, (⟨e1, e2⟩ | hl), hd⟩
    · left
      subst e2
      exact ⟨e1, hd.symm⟩
    · exact Or.inr ⟨cs, hl, hd⟩

theorem cells_data_length (h : list_heap) (cs : List Nat) : (cells_data h cs).length = cs.length := by
  unfold cells_data
  rw [List.length_map]

/-- A list built only by `lappend` holds the data in the order of the calls,
after what the list held. -/
theorem lappend_all_spec (host : list_host) (hfresh : alloc_fresh host) (ys : List Int)
    (h : list_heap) (l : Nat) (cs : List Nat) (hl : list_cells h l cs)
    (hlen : ((cs.length + ys.length : Nat) : Int) ≤ INT_MAX) :
    lappend_all host ys l h = .exited
      ∨ ∃ l1 h1 ds, lappend_all host ys l h = .ret l1 h1 ∧ list_cells h1 l1 (cs ++ ds)
          ∧ cells_data h1 (cs ++ ds) = cells_data h cs ++ ys := by
  induction ys generalizing h l cs with
  | nil =>
    right
    exact ⟨l, h, [], rfl, by rw [List.append_nil]; exact hl, by simp⟩
  | cons y ys ih =>
    unfold lappend_all
    have hlen1 : (cs.length : Int) < INT_MAX := by
      simp only [List.length_cons] at hlen
      omega
    rcases lappend_spec host hfresh h l y cs hl hlen1 with hex | ⟨l1, n, h1, hret, hl1, hd, -, -, -, -⟩
    · left
      rw [hex]
      rfl
    · rw [hret]
      simp only [list_outcome.and_then]
      have hlen2 : (((cs ++ [n]).length + ys.length : Nat) : Int) ≤ INT_MAX := by
        simp only [List.length_cons, List.length_append, List.length_singleton,
          List.length_nil] at hlen ⊢
        omega
      rcases ih h1 l1 (cs ++ [n]) (Or.inr hl1) hlen2 with hex | ⟨l2, h2, ds, hret2, hl2, hd2⟩
      · exact Or.inl hex
      · right
        refine ⟨l2, h2, n :: ds, hret2, ?_, ?_⟩
        · rw [List.append_assoc] at hl2
          exact hl2
        · rw [List.append_assoc] at hd2
          rw [List.singleton_append] at hd2
          rw [hd2, hd, List.append_assoc, List.singleton_append]

/-- C40. For every list `l` (`NIL` too) with the element sequence `xs`, of
fewer than `INT_MAX` elements, and every datum `x`: `lappend(l, x)` ends the
process for lack of memory or returns a list whose element sequence is `xs`
followed by `x`; `lcons(x, l)` ends the process or returns a list whose element
sequence is `x` followed by `xs`; in both cases the length is one more. The
loop of `foreach` over a list visits its element sequence in order, so over a
list built only by `lappend` it visits the data in the order of insertion. -/
theorem lappend_lcons_elems (host : list_host) (hfresh : alloc_fresh host) (h : list_heap)
    (l : Nat) (xs : List Int) (x : Int) (hl : list_elems h l xs)
    (hlen : (xs.length : Int) < INT_MAX) :
    (lappend host l x h = .exited
        ∨ ∃ l1 h1, lappend host l x h = .ret l1 h1 ∧ list_elems h1 l1 (xs ++ [x])
            ∧ list_length h1 l1 = list_length h l + 1)
      ∧ (lcons host x l h = .exited
        ∨ ∃ l1 h1, lcons host x l h = .ret l1 h1 ∧ list_elems h1 l1 (x :: xs)
            ∧ list_length h1 l1 = list_length h l + 1)
      ∧ (∀ fuel, xs.length < fuel → foreach_data h fuel (list_head h l) = some xs)
      ∧ ∀ ys : List Int, ((xs.length + ys.length : Nat) : Int) ≤ INT_MAX →
          lappend_all host ys l h = .exited
            ∨ ∃ l1 h1, lappend_all host ys l h = .ret l1 h1 ∧ list_elems h1 l1 (xs ++ ys)
                ∧ foreach_data h1 (xs.length + ys.length + 1) (list_head h1 l1)
                    = some (xs ++ ys) := by
  obtain ⟨cs, hc, hd⟩ := (list_elems_cells h l xs).mp hl
  have hcl : cs.length = xs.length := by
    rw [← hd, cells_data_length]
  rw [← hcl] at hlen
  refine ⟨?_, ?_, ?_, ?_⟩
  · rcases lappend_spec host hfresh h l x cs hc hlen with hex | ⟨l1, n, h1, hret, hl1, hd1, -, -, -, -⟩
    · exact Or.inl hex
    · right
      refine ⟨l1, h1, hret, Or.inr ⟨_, hl1, by rw [hd1, hd]⟩, ?_⟩
      rw [list_cells_length h1 l1 _ (Or.inr hl1), list_cells_length h l cs hc]
      simp
  · rcases lcons_spec host hfresh h l x cs hc hlen with hex | ⟨l1, n, h1, hret, hl1, hd1, -, -, -, -⟩
    · exact Or.inl hex
    · right
      refine ⟨l1, h1, hret, Or.inr ⟨_, hl1, by rw [hd1, hd]⟩, ?_⟩
      rw [list_cells_length h1 l1 _ (Or.inr hl1), list_cells_length h l cs hc]
      simp
  · intro fuel hf
    rw [← hd]
    exact foreach_data_chain h _ cs (list_cells_chain h l cs hc) fuel (hcl ▸ hf)
  · intro ys hys
    rw [← hcl] at hys
    rcases lappend_all_spec host hfresh ys h l cs hc hys with hex | ⟨l1, h1, ds, hret, hl1, hd1⟩
    · exact Or.inl hex
    · right
      rw [hd] at hd1
      refine ⟨l1, h1, hret, (list_elems_cells _ _ _).mpr ⟨_, hl1, hd1⟩, ?_⟩
      rw [← hd1]
      apply foreach_data_chain h1 _ _ (list_cells_chain h1 l1 _ hl1)
      have := congrArg List.length hd1
      rw [cells_data_length] at this
      simp only [List.length_append] at this ⊢
      omega

/-- C40 on the list of 10 and 20 and the datum 30. -/
theorem lappend_lcons_elems_witness :
    alloc_fresh scenario_list_host ∧ list_elems scenario_heap 3 [10, 20]
      ∧ (([10, 20] : List Int).length : Int) < INT_MAX
      ∧ (lappend scenario_list_host 3 30 scenario_heap = .exited
        ∨ ∃ l1 h1, lappend scenario_list_host 3 30 scenario_heap = .ret l1 h1
            ∧ list_elems h1 l1 ([10, 20] ++ [30])
            ∧ list_length h1 l1 = list_length scenario_heap 3 + 1)
      ∧ (lcons scenario_list_host 30 3 scenario_heap = .exited
        ∨ ∃ l1 h1, lcons scenario_list_host 30 3 scenario_heap = .ret l1 h1
            ∧ list_elems h1 l1 (30 :: [10, 20])
            ∧ list_length h1 l1 = list_length scenario_heap 3 + 1) :=
  ⟨scenario_list_host_fresh, scenario_heap_elems, by decide,
    (lappend_lcons_elems scenario_list_host scenario_list_host_fresh scenario_heap 3 [10, 20] 30
      scenario_heap_elems (by decide)).1,
    (lappend_lcons_elems scenario_list_host scenario_list_host_fresh scenario_heap 3 [10, 20] 30
      scenario_heap_elems (by decide)).2.1⟩

/-- On the scenario host there is memory: the list built by three calls of
`lappend` from `NIL` is returned, and `foreach` visits 1, 2 and 3 in this
order. -/
theorem lappend_all_scenario :
    (match lappend_all scenario_list_host [1, 2, 3] 0 empty_heap with
      | .ret l h1 => foreach_data h1 4 (list_head h1 l)
      | _ => none) = some [1, 2, 3] := by
  rfl

/-- On the scenario host `lcons` and `lappend` on the list of 10 and 20 return:
the lists hold 30, 10, 20 and 10, 20, 30. -/
theorem lcons_scenario :
    (match lcons scenario_list_host 30 3 scenario_heap with
      | .ret l h1 => foreach_data h1 4 (list_head h1 l)
      | _ => none) = some [30, 10, 20]
    ∧ (match lappend scenario_list_host 3 30 scenario_heap with
      | .ret l h1 => foreach_data h1 4 (list_head h1 l)
      | _ => none) = some [10, 20, 30] := by
  constructor <;> rfl

theorem check_cases (h : list_heap) (l : Nat) :
    check_list_invariants l h = .ret () h ∨ check_list_invariants l h = .assert_failed := by
  unfold check_list_invariants
  split_ifs <;> simp

theorem check_ret_tail (h h1 : list_heap) (l : Nat) (hl : l ≠ 0)
    (hc : check_list_invariants l h = .ret () h1) :
    (h.cells (h.lists l).tail).next = 0 := by
  unfold check_list_invariants at hc
  rw [if_neg hl] at hc
  split_ifs at hc with c1 c2 c3 c4 c5 c6
  exact not_not.mp c6

/-- A chain with a new cell after the cell `c`. -/
theorem chain_insert (cells cells1 : Nat → ListCell) (p : Nat) (pre suf : List Nat) (c n : Nat)
    (h : chain cells p (pre ++ c :: suf)) (hn : n ≠ 0)
    (hpre : ∀ a ∈ pre, (cells1 a).next = (cells a).next)
    (hsuf : ∀ a ∈ suf, (cells1 a).next = (cells a).next)
    (hc : (cells1 c).next = n) (hn1 : (cells1 n).next = (cells c).next) :
    chain cells1 p (pre ++ c :: n :: suf) := by
  induction pre generalizing p with
  | nil =>
    obtain ⟨e, hc0, t⟩ := h
    refine ⟨e, hc0, ?_⟩
    rw [hc]
    refine ⟨rfl, hn, ?_⟩
    rw [hn1]
    exact chain_congr cells cells1 _ suf hsuf t
  | cons a pre ih =>
    obtain ⟨e, ha, t⟩ := h
    refine ⟨e, ha, ?_⟩
    rw [hpre a (List.mem_cons_self a pre)]
    exact ih _ t (fun b hb => hpre b (List.mem_cons_of_mem a hb))

/-- A chain without the cell `c`, the cell before it pointing to the one after
it. -/
theorem chain_remove (cells cells1 : Nat → ListCell) (p : Nat) (pre suf : List Nat) (q c : Nat)
    (h : chain cells p (pre ++ q :: c :: suf))
    (hpre : ∀ a ∈ pre, (cells1 a).next = (cells a).next)
    (hsuf : ∀ a ∈ suf, (cells1 a).next = (cells a).next)
    (hq : (cells1 q).next = (cells c).next) :
    chain cells1 p (pre ++ q :: suf) := by
  induction pre generalizing p with
  | nil =>
    obtain ⟨e, hq0, -, -, t⟩ := h
    refine ⟨e, hq0, ?_⟩
    rw [hq]
    exact chain_congr cells cells1 _ suf hsuf t
  | cons a pre ih =>
    obtain ⟨e, ha, t⟩ := h
    refine ⟨e, ha, ?_⟩
    rw [hpre a (List.mem_cons_self a pre)]
    exact ih _ t (fun b hb => hpre b (List.mem_cons_of_mem a hb))

theorem chain_mid (cells : Nat → ListCell) (p : Nat) (pre suf : List Nat) (c : Nat)
    (h : chain cells p (pre ++ c :: suf)) : chain cells c (c :: suf) := by
  induction pre generalizing p with
  | nil =>
    obtain ⟨e, hc0, t⟩ := h
    exact ⟨rfl, hc0, t⟩
  | cons a pre ih =>
    obtain ⟨-, -, t⟩ := h
    exact ih _ t

theorem chain_next_of_snoc (cells : Nat → ListCell) (p : Nat) (pre suf : List Nat) (q c : Nat)
    (h : chain cells p (pre ++ q :: c :: suf)) : (cells q).next = c := by
  have := chain_mid cells p pre (c :: suf) q h
  exact this.2.2.1

theorem getLast_cons_cons (a b : Nat) (l : List Nat) :
    (a :: b :: l).getLast? = (b :: l).getLast? := by
  simp [List.getLast?_cons_cons]

theorem getLast_append_cons (pre : List Nat) (c : Nat) (suf : List Nat) :
    (pre ++ c :: suf).getLast? = (c :: suf).getLast? := by
  induction pre with
  | nil => rfl
  | cons a pre ih =>
    cases hp : pre ++ c :: suf with
    | nil => simp at hp
    | cons b l =>
      rw [List.cons_append, hp, getLast_cons_cons, ← hp, ih]

/-- The `lappend_cell` of `pg_list.c` on a valid list and one of its cells: the
process ends for lack of memory, or a new cell, which holds the datum, is in
the list after that cell, and the list is valid. -/
theorem lappend_cell_spec (host : list_host) (hfresh : alloc_fresh host) (h : list_heap)
    (l : Nat) (x : Int) (pre suf : List Nat) (prev : Nat)
    (hl : is_list h l (pre ++ prev :: suf))
    (hlen : ((pre ++ prev :: suf).length : Int) < INT_MAX) :
    lappend_cell host l prev x h = .exited
      ∨ ∃ n h1, lappend_cell host l prev x h = .ret n h1
          ∧ is_list h1 l (pre ++ prev :: n :: suf) ∧ (h1.cells n).data = x
          ∧ h.live n = false := by
  obtain ⟨hl0, hlive, hclive, hch, hlenf, hlast⟩ := hl
  have hnd := chain_nodup h.cells _ _ hch
  have hpm : prev ∈ pre ++ prev :: suf := List.mem_append_right _ (List.mem_cons_self _ _)
  have hp0 : prev ≠ 0 := chain_mem_ne_zero h.cells _ _ hch prev hpm
  unfold lappend_cell add_new_cell
  rw [if_neg (by rintro (e | e); exact hl0 e; exact hp0 e)]
  cases hac : alloc_cell host h with
  | none => exact Or.inl rfl
  | some p =>
    obtain ⟨n, h1⟩ := p
    obtain ⟨hn0, hnf, hlists, hcells, hlivef⟩ := alloc_cell_spec host hfresh h n h1 hac
    obtain ⟨-, hll1⟩ := alloc_cell_list host hfresh h n h1 hac
    right
    dsimp only
    have hpn : prev ≠ n := not_live_ne h n hnf prev (hclive prev hpm)
    have hce : ∀ a, (((h1.set_next n (h1.cells prev).next).set_next prev n).cells a)
        = if a = n then ⟨0, (h.cells prev).next⟩
          else if a = prev then ⟨(h.cells prev).data, n⟩ else h.cells a := by
      intro a
      by_cases ean : a = n
      · subst ean
        simp [set_next_cells, hcells, Ne.symm hpn, hpn]
      · by_cases eap : a = prev
        · subst eap
          simp [set_next_cells, hcells, ean]
        · simp [set_next_cells, hcells, ean, eap]
    have hli : ((h1.set_next n (h1.cells prev).next).set_next prev n).lists = h.lists := hlists
    have hlv : ((h1.set_next n (h1.cells prev).next).set_next prev n).live = h1.live := rfl
    have hll : ((h1.set_next n (h1.cells prev).next).set_next prev n).live_list
        = h.live_list := hll1
    generalize ((h1.set_next n (h1.cells prev).next).set_next prev n) = h3 at hce hli hlv hll ⊢
    have hlen4 : ∀ v : pg_list, v.length = (h.lists l).length →
        int_add v.length 1 = some ((pre ++ prev :: n :: suf).length : Int) := by
      intro v hv
      rw [hv, hlenf, int_add_one _ hlen]
      simp only [List.length_append, List.length_cons]
      push_cast
      ring_nf
    have key : ∀ h4 : list_heap, h4.cells = h3.cells → h4.live = h3.live →
        h4.live_list = h3.live_list →
        (∀ a, a ≠ l → h4.lists a = h.lists a) → (h4.lists l).head = (h.lists l).head →
        (h4.lists l).length = (h.lists l).length →
        (pre ++ prev :: n :: suf).getLast? = some (h4.lists l).tail →
        ∃ n1 h5, ((match int_add (h4.lists l).length 1 with
            | none => list_outcome.undefined
            | some len => list_outcome.ret n
                (h4.set_list l { (h4.lists l) with length := len })).and_then
            fun new_cell h1 =>
              (check_list_invariants l (h1.set_data new_cell x)).and_then
                fun _ h2 => .ret new_cell h2) = .ret n1 h5
          ∧ is_list h5 l (pre ++ prev :: n1 :: suf) ∧ (h5.cells n1).data = x
          ∧ h.live n1 = false := by
      intro h4 e1 e2 e2l e3 e4 e5 e6
      rw [hlen4 _ e5]
      simp only [list_outcome.and_then]
      have hv : is_list ((h4.set_list l { (h4.lists l) with
          length := ((pre ++ prev :: n :: suf).length : Int) }).set_data n x) l
          (pre ++ prev :: n :: suf) := by
        apply is_list_set_data
        refine ⟨hl0, ?_, ?_, ?_, ?_, ?_⟩
        · show h4.live_list l = true
          rw [e2l, hll]
          exact hlive
        · intro c hc
          show h4.live c = true
          rw [e2, hlv, hlivef]
          split_ifs with ec
          · rfl
          · apply hclive
            simp only [List.mem_append, List.mem_cons] at hc ⊢
            rcases hc with hc | hc | hc | hc
            · exact Or.inl hc
            · exact Or.inr (Or.inl hc)
            · exact absurd hc ec
            · exact Or.inr (Or.inr hc)
        · rw [set_list_lists, if_pos rfl]
          show chain h4.cells (h4.lists l).head _
          rw [e1, e4]
          apply chain_insert h.cells _ _ pre suf prev n hch hn0
          · intro a ha
            have hal : h.live a = true := hclive a (List.mem_append_left _ ha)
            have hap : a ≠ prev := by
              intro e
              rw [e] at ha
              rw [List.nodup_append] at hnd
              exact hnd.2.2 ha (List.mem_cons_self _ _)
            rw [hce, if_neg (not_live_ne h n hnf a hal), if_neg hap]
          · intro a ha
            have hal : h.live a = true :=
              hclive a (List.mem_append_right _ (List.mem_cons_of_mem _ ha))
            have hap : a ≠ prev := by
              intro e
              rw [e] at ha
              rw [List.nodup_append, List.nodup_cons] at hnd
              exact hnd.2.1.1 ha
            rw [hce, if_neg (not_live_ne h n hnf a hal), if_neg hap]
          · rw [hce, if_neg hpn, if_pos rfl]
          · rw [hce, if_pos rfl]
        · rw [set_list_lists, if_pos rfl]
        · rw [set_list_lists, if_pos rfl]
          exact e6
      refine ⟨n, _, ?_, hv, ?_, hnf⟩
      · rw [check_ok _ _ _ hv]
      · rw [set_data_cells, if_pos rfl]
    have htail : (h.lists l).tail = prev ↔ suf = [] := by
      rw [getLast_append_cons] at hlast
      constructor
      · intro e
        rw [e] at hlast
        cases suf with
        | nil => rfl
        | cons s suf =>
          exfalso
          rw [getLast_cons_cons] at hlast
          have hm : prev ∈ s :: suf := List.mem_of_getLast?_eq_some hlast
          rw [List.nodup_append, List.nodup_cons] at hnd
          exact hnd.2.1.1 hm
      · intro e
        rw [e] at hlast
        simp at hlast
        exact hlast.symm
    by_cases ht : (h3.lists l).tail = prev
    · rw [if_pos ht]
      rw [hli] at ht
      have hs := htail.mp ht
      apply key
      · rfl
      · rfl
      · rfl
      · intro a ha
        rw [set_list_lists, if_neg ha, hli]
      · rw [set_list_lists, if_pos rfl, hli]
      · rw [set_list_lists, if_pos rfl, hli]
      · rw [set_list_lists, if_pos rfl, hs, getLast_append_cons, getLast_cons_cons]
        rfl
    · rw [if_neg ht]
      rw [hli] at ht
      apply key
      · rfl
      · rfl
      · rfl
      · intro a _
        rw [hli]
      · rw [hli]
      · rw [hli]
      · rw [hli]
        rw [getLast_append_cons] at hlast ⊢
        cases suf with
        | nil => exact absurd (htail.mpr rfl) ht
        | cons s suf =>
          rw [getLast_cons_cons] at hlast ⊢
          rw [getLast_cons_cons]
          exact hlast

theorem check_ret_heap (h h1 : list_heap) (l : Nat)
    (hc : check_list_invariants l h = .ret () h1) : h1 = h := by
  rcases check_cases h l with e | e
  · rw [e] at hc
    injection hc with _ e2
    exact e2.symm
  · rw [e] at hc
    cases hc

/-- Two chains with a cell in common end in the same cell. -/
theorem chain_shared_last (cells : Nat → ListCell) (p q : Nat) (cs ds : List Nat) (c : Nat)
    (h1 : chain cells p cs) (h2 : chain cells q ds) (hc1 : c ∈ cs) (hc2 : c ∈ ds) :
    cs.getLast? = ds.getLast? := by
  obtain ⟨pre1, suf1, e1, t1⟩ := chain_split cells p cs c h1 hc1
  obtain ⟨pre2, suf2, e2, t2⟩ := chain_split cells q ds c h2 hc2
  have := chain_unique cells c _ _ t1 t2
  rw [e1, e2, getLast_append_cons, getLast_append_cons, this]

theorem int_add_nat (a b : Nat) (h : ((a + b : Nat) : Int) ≤ INT_MAX) :
    int_add a b = some ((a + b : Nat) : Int) := by
  unfold int_add
  unfold INT_MAX at *
  rw [if_neg]
  · push_cast
    rfl
  · push_cast at h
    omega

theorem is_list_tail_mem (h : list_heap) (l : Nat) (cs : List Nat) (hl : is_list h l cs) :
    (h.lists l).tail ∈ cs :=
  List.mem_of_getLast?_eq_some hl.2.2.2.2.2

theorem is_list_head_ne_zero (h : list_heap) (l : Nat) (cs : List Nat) (hl : is_list h l cs) :
    (h.lists l).head ≠ 0 := by
  obtain ⟨c, rest, e, hh, hc, -⟩ := is_list_head h l cs hl
  rw [hh]
  exact hc

/-- The `list_concat` of `pg_list.c` on two valid lists with different headers:
when the call returns, the tails of the two lists were different cells. -/
theorem list_concat_ret_tails (h : list_heap) (l1 l2 : Nat) (cs1 cs2 : List Nat)
    (h1 : is_list h l1 cs1) (h2 : is_list h l2 cs2) (hne : l1 ≠ l2) (v : Nat) (hr : list_heap)
    (hret : list_concat l1 l2 h = .ret v hr) : (h.lists l1).tail ≠ (h.lists l2).tail := by
  intro et
  unfold list_concat at hret
  rw [if_neg h1.1, if_neg h2.1, if_neg hne] at hret
  cases hi : int_add (h.lists l1).length (h.lists l2).length with
  | none =>
    rw [hi] at hret
    cases hret
  | some len =>
    rw [hi] at hret
    dsimp only at hret
    split_ifs at hret with ht0
    generalize hh3 : (((h.set_list l1 { (h.lists l1) with length := len }).set_next
      ((h.set_list l1 { (h.lists l1) with length := len }).lists l1).tail
      ((h.set_list l1 { (h.lists l1) with length := len }).lists l2).head).set_list l1
        { (((h.set_list l1 { (h.lists l1) with length := len }).set_next
            ((h.set_list l1 { (h.lists l1) with length := len }).lists l1).tail
            ((h.set_list l1 { (h.lists l1) with length := len }).lists l2).head).lists l1) with
          tail := (((h.set_list l1 { (h.lists l1) with length := len }).set_next
            ((h.set_list l1 { (h.lists l1) with length := len }).lists l1).tail
            ((h.set_list l1 { (h.lists l1) with length := len }).lists l2).head).lists l2).tail })
      = h3 at hret
    rcases check_cases h3 l1 with e | e
    · have ht := check_ret_tail h3 h3 l1 h1.1 e
      rw [← hh3] at ht
      simp only [set_list_lists, set_next_cells, list_heap.set_list, list_heap.set_next,
        Function.update_apply, if_pos, if_neg (Ne.symm hne), ← et, if_true] at ht
      exact is_list_head_ne_zero h l2 cs2 h2 ht
    · rw [e] at hret
      cases hret

/-- The `list_concat` of `pg_list.c` on two valid lists with no cell in common:
it returns the first list, which has the cells of both. -/
theorem list_concat_apart (h : list_heap) (l1 l2 : Nat) (cs1 cs2 : List Nat)
    (h1 : is_list h l1 cs1) (h2 : is_list h l2 cs2) (hne : l1 ≠ l2)
    (hap : ∀ c ∈ cs1, c ∉ cs2) (hlen : ((cs1.length + cs2.length : Nat) : Int) ≤ INT_MAX) :
    ∃ hr, list_concat l1 l2 h = .ret l1 hr ∧ is_list hr l1 (cs1 ++ cs2)
      ∧ cells_data hr (cs1 ++ cs2) = cells_data h (cs1 ++ cs2) := by
  obtain ⟨init, t, e, ht⟩ := is_list_ne_nil h l1 cs1 h1
  have htm : t ∈ cs1 := e ▸ List.mem_append_right _ (List.mem_singleton.mpr rfl)
  have ht0 : t ≠ 0 := chain_mem_ne_zero h.cells _ cs1 h1.2.2.2.1 t htm
  obtain ⟨c2, rest2, e2, hh2, -, -⟩ := is_list_head h l2 cs2 h2
  have hnd := chain_nodup h.cells _ cs1 h1.2.2.2.1
  unfold list_concat
  rw [if_neg h1.1, if_neg h2.1, if_neg hne, h1.2.2.2.2.1, h2.2.2.2.2.1, int_add_nat _ _ hlen]
  dsimp only
  have e3 : ((h.set_list l1 { (h.lists l1) with
      length := ((cs1.length + cs2.length : Nat) : Int) }).lists l1).tail = t := by
    rw [set_list_lists, if_pos rfl]
    exact ht
  rw [e3, if_neg ht0]
  generalize hh3 : (((h.set_list l1 { (h.lists l1) with
      length := ((cs1.length + cs2.length : Nat) : Int) }).set_next t
      ((h.set_list l1 { (h.lists l1) with
        length := ((cs1.length + cs2.length : Nat) : Int) }).lists l2).head).set_list l1
        { (((h.set_list l1 { (h.lists l1) with
            length := ((cs1.length + cs2.length : Nat) : Int) }).set_next t
            ((h.set_list l1 { (h.lists l1) with
              length := ((cs1.length + cs2.length : Nat) : Int) }).lists l2).head).lists l1) with
          tail := (((h.set_list l1 { (h.lists l1) with
            length := ((cs1.length + cs2.length : Nat) : Int) }).set_next t
            ((h.set_list l1 { (h.lists l1) with
              length := ((cs1.length + cs2.length : Nat) : Int) }).lists l2).head).lists l2).tail })
      = h3
  have hce : ∀ a, h3.cells a
      = if a = t then ⟨(h.cells t).data, (h.lists l2).head⟩ else h.cells a := by
    intro a
    rw [← hh3]
    by_cases eat : a = t
    · subst eat
      simp [list_heap.set_list, list_heap.set_next, Function.update_apply, Ne.symm hne]
    · simp [list_heap.set_list, list_heap.set_next, Function.update_apply, eat]
  have hli : h3.lists l1
      = ⟨((cs1.length + cs2.length : Nat) : Int), (h.lists l1).head, (h.lists l2).tail⟩ := by
    rw [← hh3]
    simp [list_heap.set_list, list_heap.set_next, Function.update_apply, Ne.symm hne]
  have hlv : h3.live = h.live := by
    rw [← hh3]
    rfl
  have hll : h3.live_list = h.live_list := by
    rw [← hh3]
    rfl
  have hv : is_list h3 l1 (cs1 ++ cs2) := by
    refine ⟨h1.1, ?_, ?_, ?_, ?_, ?_⟩
    · rw [hll]
      exact h1.2.1
    · intro c hc
      rw [hlv]
      rcases List.mem_append.mp hc with hc | hc
      · exact h1.2.2.1 c hc
      · exact h2.2.2.1 c hc
    · rw [hli, e]
      show chain h3.cells (h.lists l1).head _
      rw [List.append_assoc, List.singleton_append]
      have hch1 := h1.2.2.2.1
      rw [e] at hch1
      apply chain_append h.cells h3.cells _ (h.lists l2).head init cs2 t hch1
      · apply chain_congr h.cells h3.cells _ cs2 _ h2.2.2.2.1
        intro c hc
        rw [hce, if_neg]
        intro ect
        exact hap t htm (ect ▸ hc)
      · intro c hc
        rw [hce, if_neg]
        intro ect
        rw [e, List.nodup_append] at hnd
        exact hnd.2.2 (ect ▸ hc) (List.mem_singleton.mpr rfl)
      · rw [hce, if_pos rfl]
    · rw [hli]
      simp only [List.length_append]
    · rw [hli, e2, getLast_append_cons, ← e2]
      exact h2.2.2.2.2.2
  refine ⟨h3, ?_, hv, ?_⟩
  · rw [check_ok _ _ _ hv]
    rfl
  · unfold cells_data
    apply List.map_congr_left
    intro c _
    rw [hce]
    split_ifs with ect
    · rw [ect]
    · rfl

/-- The `list_concat` of `pg_list.c` on two valid lists returns no invalid
list: when their headers differ and the call returns, the two lists had no cell
in common and the list returned is valid. -/
theorem list_concat_valid (h : list_heap) (l1 l2 : Nat) (hv1 : list_valid h l1)
    (hv2 : list_valid h l2) (v : Nat) (hr : list_heap)
    (hret : list_concat l1 l2 h = .ret v hr) : list_valid hr v := by
  rcases hv1 with e1 | ⟨cs1, h1⟩
  · subst e1
    unfold list_concat at hret
    rw [if_pos rfl] at hret
    injection hret with e1 e2
    subst e1 e2
    exact hv2
  rcases hv2 with e2 | ⟨cs2, h2⟩
  · subst e2
    unfold list_concat at hret
    rw [if_neg h1.1, if_pos rfl] at hret
    injection hret with e1 e2
    subst e1 e2
    exact Or.inr ⟨cs1, h1⟩
  by_cases hne : l1 = l2
  · unfold list_concat at hret
    rw [if_neg h1.1, if_neg h2.1, if_pos hne] at hret
    cases hret
  have htails := list_concat_ret_tails h l1 l2 cs1 cs2 h1 h2 hne v hr hret
  have hap : ∀ c ∈ cs1, c ∉ cs2 := by
    intro c hc1 hc2
    have := chain_shared_last h.cells _ _ cs1 cs2 c h1.2.2.2.1 h2.2.2.2.1 hc1 hc2
    rw [h1.2.2.2.2.2, h2.2.2.2.2.2] at this
    injection this with this
    exact htails this
  by_cases hlen : ((cs1.length + cs2.length : Nat) : Int) ≤ INT_MAX
  · obtain ⟨hr1, hret1, hvr, -⟩ := list_concat_apart h l1 l2 cs1 cs2 h1 h2 hne hap hlen
    rw [hret1] at hret
    injection hret with e1 e2
    subst e1 e2
    exact Or.inr ⟨_, hvr⟩
  · exfalso
    unfold list_concat at hret
    rw [if_neg h1.1, if_neg h2.1, if_neg hne, h1.2.2.2.2.1, h2.2.2.2.2.1] at hret
    have : int_add (cs1.length : Int) (cs2.length : Int) = none := by
      unfold int_add
      rw [if_pos]
      left
      push_cast at hlen
      omega
    rw [this] at hret
    cases hret

theorem list_truncate_loop_spec (h : list_heap) (l : Nat) (cs : List Nat)
    (hl : is_list h l cs) (k : Nat) (hk : k < cs.length) :
    ∀ (fuel : Nat) (pre suf : List Nat) (cell : Nat), cs = pre ++ suf →
      chain h.cells cell suf → pre.length + 1 ≤ k → k - pre.length ≤ fuel →
      ∃ hr, list_truncate_loop l (k : Int) fuel ((pre.length : Int) + 1) cell h = .ret l hr
        ∧ is_list hr l (cs.take k) ∧ cells_data hr (cs.take k) = cells_data h (cs.take k) := by
  have hnd := chain_nodup h.cells _ cs hl.2.2.2.1
  intro fuel
  induction fuel with
  | zero =>
    intro pre suf cell e hch hp hf
    omega
  | succ fuel ih =>
    intro pre suf cell e hch hp hf
    cases suf with
    | nil =>
      exfalso
      rw [e, List.append_nil] at hk
      omega
    | cons c suf =>
      obtain ⟨ec, hc0, t⟩ := hch
      subst ec
      unfold list_truncate_loop
      rw [if_neg hc0]
      by_cases hn : ((pre.length : Int) + 1) = (k : Int)
      · rw [if_pos hn]
        have hkp : k = pre.length + 1 := by omega
        have htake : cs.take k = pre ++ [cell] := by
          rw [e, hkp, List.take_append_eq_append_take]
          simp
        have hcp : cell ∉ pre := by
          intro hm
          rw [e, List.nodup_append] at hnd
          exact hnd.2.2 hm (List.mem_cons_self _ _)
        have hv : is_list ((h.set_next cell 0).set_list l
            { ((h.set_next cell 0).lists l) with tail := cell, length := (k : Int) }) l
            (cs.take k) := by
          rw [htake]
          refine ⟨hl.1, hl.2.1, ?_, ?_, ?_, ?_⟩
          · intro a ha
            apply hl.2.2.1
            rw [e]
            rcases List.mem_append.mp ha with ha | ha
            · exact List.mem_append_left _ ha
            · rw [List.mem_singleton.mp ha]
              exact List.mem_append_right _ (List.mem_cons_self _ _)
          · rw [set_list_lists, if_pos rfl]
            show chain (h.set_next cell 0).cells (h.lists l).head _
            have hch := hl.2.2.2.1
            rw [e] at hch
            apply chain_cut h.cells _ _ pre cell suf hch
            · intro a ha
              rw [set_next_cells, if_neg]
              intro eac
              exact hcp (eac ▸ ha)
            · rw [set_next_cells, if_pos rfl]
          · rw [set_list_lists, if_pos rfl]
            simp only [List.length_append, List.length_singleton]
            rw [hkp]
          · rw [set_list_lists, if_pos rfl, getLast_snoc]
        refine ⟨_, ?_, hv, ?_⟩
        · dsimp only
          rw [check_ok _ _ _ hv]
          rfl
        · unfold cells_data
          apply List.map_congr_left
          intro a _
          show ((h.set_next cell 0).cells a).data = _
          rw [set_next_cells]
          split_ifs with ea
          · rw [ea]
          · rfl
      · rw [if_neg hn]
        have hlt : pre.length + 1 < k := by omega
        have := ih (pre ++ [cell]) suf (h.cells cell).next
          (by rw [e, List.append_assoc, List.singleton_append]) t
          (by rw [List.length_append, List.length_singleton]; omega)
          (by rw [List.length_append, List.length_singleton]; omega)
        rw [List.length_append, List.length_singleton] at this
        push_cast at this
        exact this

/-- The `list_truncate` of `pg_list.c` on a list with the cells `cs`, the fuel
being at least the number of cells: it returns a list with the first `new_size`
of the cells, `NIL` when `new_size` is not positive. -/
theorem list_truncate_spec (h : list_heap) (l : Nat) (cs : List Nat) (hl : list_cells h l cs)
    (new_size : Int) (fuel : Nat) (hf : cs.length ≤ fuel) :
    ∃ v hr, list_truncate fuel l new_size h = .ret v hr
      ∧ list_cells hr v (cs.take new_size.toNat)
      ∧ cells_data hr (cs.take new_size.toNat) = cells_data h (cs.take new_size.toNat) := by
  unfold list_truncate
  by_cases h0 : new_size ≤ 0
  · rw [if_pos h0]
    have : new_size.toNat = 0 := Int.toNat_eq_zero.mpr h0
    rw [this, List.take_zero]
    exact ⟨0, h, rfl, Or.inl ⟨rfl, rfl⟩, rfl⟩
  · rw [if_neg h0]
    have hlen := list_cells_length h l cs hl
    by_cases h1 : new_size ≥ list_length h l
    · rw [if_pos h1]
      have : cs.take new_size.toNat = cs := by
        apply List.take_of_length_le
        rw [hlen] at h1
        omega
      rw [this]
      exact ⟨l, h, rfl, hl, rfl⟩
    · rw [if_neg h1]
      rw [hlen] at h1
      rcases hl with ⟨e1, e2⟩ | hl
      · exfalso
        rw [e2] at h1
        simp at h1
        omega
      · have hk : new_size.toNat < cs.length := by omega
        have hkk : ((new_size.toNat : Nat) : Int) = new_size := Int.toNat_of_nonneg (by omega)
        obtain ⟨hr, hret, hv, hd⟩ := list_truncate_loop_spec h l cs hl new_size.toNat hk fuel []
          cs (list_head h l) rfl (list_cells_chain h l cs (Or.inr hl)) (by simp; omega)
          (by simp; omega)
        rw [hkk] at hret
        simp only [List.length_nil, Nat.cast_zero, zero_add] at hret
        exact ⟨l, hr, hret, Or.inr hv, hd⟩

theorem list_member_loop_spec (h : list_heap) (datum : Int) (cell : Nat) (R : List Nat)
    (hch : chain h.cells cell R) (fuel : Nat) (hf : R.length < fuel) :
    list_member_loop datum fuel cell h = .ret (decide (datum ∈ cells_data h R)) h := by
  induction R generalizing cell fuel with
  | nil =>
    cases fuel with
    | zero => simp at hf
    | succ fuel =>
      rw [(chain_nil _ _).mp hch]
      rfl
  | cons c R ih =>
    obtain ⟨e, hc, t⟩ := hch
    subst e
    cases fuel with
    | zero => simp at hf
    | succ fuel =>
      unfold list_member_loop
      rw [if_neg hc]
      by_cases hd : (h.cells cell).data = datum
      · rw [if_pos hd]
        simp [cells_data, hd]
      · rw [if_neg hd, ih _ t fuel (by simpa using hf)]
        congr 1
        simp only [cells_data, List.map_cons, List.mem_cons, decide_eq_decide]
        constructor
        · intro hm
          exact Or.inr hm
        · rintro (e | hm)
          · exact absurd e.symm hd
          · exact hm

/-- The `list_member_ptr` of `pg_list.c` on a list, the fuel being more than
the number of its cells: it returns whether the datum is among the data, and
the memory is as it was. -/
theorem list_member_spec (h : list_heap) (l : Nat) (cs : List Nat) (hl : list_cells h l cs)
    (datum : Int) (fuel : Nat) (hf : cs.length < fuel) :
    list_member_ptr fuel l datum h = .ret (decide (datum ∈ cells_data h cs)) h := by
  unfold list_member_ptr
  have hc : check_list_invariants l h = .ret () h := by
    rcases hl with ⟨e, -⟩ | hl
    · rw [e]
      exact check_nil h
    · exact check_ok h l cs hl
  rw [hc]
  exact list_member_loop_spec h datum _ cs (list_cells_chain h l cs hl) fuel hf

theorem server_free_cells (host : list_host) (h : list_heap) (p : Nat) :
    (list_server_free host h p).cells = h.cells
      ∧ (list_server_free host h p).lists = h.lists
      ∧ (list_server_free host h p).live_list = h.live_list
      ∧ ∀ a, a ≠ p → (list_server_free host h p).live a = h.live a := by
  unfold list_server_free
  split_ifs
  · exact ⟨rfl, rfl, rfl, fun _ _ => rfl⟩
  · refine ⟨rfl, rfl, rfl, fun a ha => ?_⟩
    simp only [Function.update_apply, if_neg ha]

theorem server_free_list_cells (host : list_host) (h : list_heap) (p : Nat) :
    (list_server_free_list host h p).cells = h.cells
      ∧ (list_server_free_list host h p).lists = h.lists
      ∧ (list_server_free_list host h p).live = h.live
      ∧ ∀ a, a ≠ p → (list_server_free_list host h p).live_list a = h.live_list a := by
  unfold list_server_free_list
  split_ifs
  · exact ⟨rfl, rfl, rfl, fun _ _ => rfl⟩
  · refine ⟨rfl, rfl, rfl, fun a ha => ?_⟩
    simp only [Function.update_apply, if_neg ha]

theorem list_free_loop_spec (host : list_host) (cells : Nat → ListCell) (cell : Nat)
    (R : List Nat) (hch : chain cells cell R) :
    ∀ (h : list_heap) (fuel : Nat), h.cells = cells → R.length < fuel →
      ∃ hr, list_free_loop host fuel cell h = .ret () hr ∧ hr.cells = h.cells
        ∧ hr.lists = h.lists ∧ hr.live_list = h.live_list
        ∧ ∀ a, a ∉ R → hr.live a = h.live a := by
  induction R generalizing cell with
  | nil =>
    intro h fuel _ hf
    cases fuel with
    | zero => simp at hf
    | succ fuel =>
      rw [(chain_nil _ _).mp hch]
      exact ⟨h, rfl, rfl, rfl, rfl, fun _ _ => rfl⟩
  | cons c R ih =>
    intro h fuel hce hf
    subst hce
    obtain ⟨e, hc, t⟩ := hch
    subst e
    cases fuel with
    | zero => simp at hf
    | succ fuel =>
      unfold list_free_loop
      rw [if_neg hc]
      obtain ⟨f1, f2, f3, f4⟩ := server_free_cells host h cell
      obtain ⟨hr, hret, r1, r2, r3, r4⟩ := ih _ t (list_server_free host h cell) fuel
        f1 (by simpa using hf)
      refine ⟨hr, hret, r1.trans f1, r2.trans f2, r3.trans f3, fun a ha => ?_⟩
      rw [r4 a (fun hm => ha (List.mem_cons_of_mem _ hm)), f4 a]
      intro e
      exact ha (e ▸ List.mem_cons_self _ _)

/-- The `list_free` of `pg_list.c` on a list, the fuel being more than the
number of its cells: it returns. -/
theorem list_free_spec (host : list_host) (h : list_heap) (l : Nat) (cs : List Nat)
    (hl : list_cells h l cs) (fuel : Nat) (hf : cs.length < fuel) :
    ∃ hr, list_free host fuel l h = .ret () hr ∧ hr.cells = h.cells ∧ hr.lists = h.lists
      ∧ (∀ a, a ≠ l → hr.live_list a = h.live_list a)
      ∧ ∀ a, a ∉ cs → hr.live a = h.live a := by
  unfold list_free
  have hc : check_list_invariants l h = .ret () h := by
    rcases hl with ⟨e, -⟩ | hl
    · rw [e]
      exact check_nil h
    · exact check_ok h l cs hl
  rw [hc]
  obtain ⟨hr, hret, r1, r2, r3, r4⟩ := list_free_loop_spec host h.cells _ cs
    (list_cells_chain h l cs hl) h fuel rfl hf
  simp only [list_outcome.and_then]
  rw [hret]
  dsimp only
  split_ifs with h0
  · obtain ⟨f1, f2, f3, f4⟩ := server_free_list_cells host hr l
    refine ⟨_, rfl, f1.trans r1, f2.trans r2, fun a ha => ?_, fun a ha => ?_⟩
    · rw [f4 a ha, r3]
    · rw [f3, r4 a ha]
  · exact ⟨hr, rfl, r1, r2, fun a _ => by rw [r3], r4⟩

theorem int_sub_one (n : Nat) (h : ((n + 1 : Nat) : Int) ≤ INT_MAX) :
    int_add ((n + 1 : Nat) : Int) (-1) = some (n : Int) := by
  unfold int_add
  unfold INT_MAX at *
  rw [if_neg]
  · push_cast
    congr 1
    ring
  · push_cast at h ⊢
    omega

theorem is_list_length_le (h : list_heap) (l : Nat) (cs : List Nat) (hl : is_list h l cs)
    (hint : (h.lists l).length ≤ INT_MAX) : (cs.length : Int) ≤ INT_MAX := by
  rw [← hl.2.2.2.2.1]
  exact hint

/-- The `list_delete_cell` of `pg_list.c` on the only cell of a list: the list
is freed and `NIL` is returned. -/
theorem list_delete_cell_single (host : list_host) (h : list_heap) (l cell : Nat)
    (hl : is_list h l [cell]) (fuel : Nat) (hf : 1 < fuel) :
    ∃ hr, list_delete_cell host fuel l cell 0 h = .ret 0 hr := by
  unfold list_delete_cell
  rw [check_ok _ _ _ hl]
  simp only [list_outcome.and_then]
  have hhead : list_head h l = cell := by
    unfold list_head
    rw [if_neg hl.1]
    exact hl.2.2.2.1.1
  rw [if_neg (by simp), if_neg (by simp [hhead]), if_neg hl.1, if_pos (by rw [hl.2.2.2.2.1]; rfl)]
  obtain ⟨hr, hret, -⟩ := list_free_spec host h l [cell] (Or.inr hl) fuel (by simpa using hf)
  rw [hret]
  exact ⟨hr, rfl⟩

/-- The `list_delete_cell` of `pg_list.c` on the first cell of a list of more
cells, with a null `prev`: the list returned has the other cells. -/
theorem list_delete_cell_first (host : list_host) (h : list_heap) (l cell s : Nat)
    (suf : List Nat) (hl : is_list h l (cell :: s :: suf))
    (hint : ((cell :: s :: suf).length : Int) ≤ INT_MAX) (fuel : Nat) :
    ∃ hr, list_delete_cell host fuel l cell 0 h = .ret l hr ∧ is_list hr l (s :: suf)
      ∧ cells_data hr (s :: suf) = cells_data h (s :: suf) := by
  have hnd := chain_nodup h.cells _ _ hl.2.2.2.1
  unfold list_delete_cell
  rw [check_ok _ _ _ hl]
  simp only [list_outcome.and_then]
  have hhead : list_head h l = cell := by
    unfold list_head
    rw [if_neg hl.1]
    exact hl.2.2.2.1.1
  have hc0 : cell ≠ 0 := hl.2.2.2.1.2.1
  have hlen : (h.lists l).length = (((s :: suf).length + 1 : Nat) : Int) := by
    rw [hl.2.2.2.2.1]
    rfl
  have hlen1 : ¬ (h.lists l).length = 1 := by
    rw [hlen]
    simp only [List.length_cons]
    push_cast
    omega
  rw [if_neg (by simp), if_neg (by simp [hhead]), if_neg hl.1, if_neg hlen1]
  have hadd : int_add (h.lists l).length (-1) = some (((s :: suf).length : Nat) : Int) := by
    unfold int_add
    rw [hlen]
    unfold INT_MAX
    rw [if_neg]
    · push_cast
      congr 1
      ring
    · unfold INT_MAX at hint
      simp only [List.length_cons] at hint ⊢
      push_cast at hint ⊢
      omega
  rw [hadd]
  dsimp only
  rw [if_neg hc0]
  have hnext : (h.cells cell).next = s := hl.2.2.2.1.2.2.1
  have htail : (h.lists l).tail ≠ cell := by
    intro e
    have hlast := hl.2.2.2.2.2
    rw [getLast_cons_cons, e] at hlast
    have hm : cell ∈ s :: suf := List.mem_of_getLast?_eq_some hlast
    exact (List.nodup_cons.mp hnd).1 hm
  simp only [ne_eq, not_true_eq_false, if_false, set_list_lists, if_true, htail]
  obtain ⟨f1, f2, f3, f4⟩ := server_free_cells host
    ((h.set_list l { (h.lists l) with length := (((s :: suf).length : Nat) : Int) }).set_list l
      { length := (((s :: suf).length : Nat) : Int),
        head := ((h.set_list l { (h.lists l) with
          length := (((s :: suf).length : Nat) : Int) }).cells cell).next,
        tail := (h.lists l).tail }) cell
  refine ⟨_, rfl, ⟨hl.1, ?_, ?_, ?_, ?_, ?_⟩, ?_⟩
  · rw [f3]
    exact hl.2.1
  · intro a ha
    rw [f4 a]
    · exact hl.2.2.1 a (List.mem_cons_of_mem _ ha)
    · intro e
      exact (List.nodup_cons.mp hnd).1 (e ▸ ha)
  · rw [f1, f2, set_list_lists, if_pos rfl]
    show chain h.cells (h.cells cell).next _
    exact hl.2.2.2.1.2.2
  · rw [f2, set_list_lists, if_pos rfl]
  · rw [f2, set_list_lists, if_pos rfl]
    have hlast := hl.2.2.2.2.2
    rw [getLast_cons_cons] at hlast
    exact hlast
  · unfold cells_data
    rw [f1]
    rfl

/-- The `list_delete_cell` of `pg_list.c` on a cell of a list and the cell
before it: the list returned has the other cells. -/
theorem list_delete_cell_after (host : list_host) (h : list_heap) (l cell q : Nat)
    (pre suf : List Nat) (hl : is_list h l (pre ++ q :: cell :: suf))
    (hint : ((pre ++ q :: cell :: suf).length : Int) ≤ INT_MAX) (fuel : Nat) :
    ∃ hr, list_delete_cell host fuel l cell q h = .ret l hr ∧ is_list hr l (pre ++ q :: suf)
      ∧ cells_data hr (pre ++ q :: suf) = cells_data h (pre ++ q :: suf) := by
  have hch := hl.2.2.2.1
  have hnd := chain_nodup h.cells _ _ hch
  have hqm : q ∈ pre ++ q :: cell :: suf := List.mem_append_right _ (List.mem_cons_self _ _)
  have hcm : cell ∈ pre ++ q :: cell :: suf :=
    List.mem_append_right _ (List.mem_cons_of_mem _ (List.mem_cons_self _ _))
  have hq0 : q ≠ 0 := chain_mem_ne_zero h.cells _ _ hch q hqm
  have hc0 : cell ≠ 0 := chain_mem_ne_zero h.cells _ _ hch cell hcm
  have hqn : (h.cells q).next = cell := chain_next_of_snoc h.cells _ pre suf q cell hch
  have hnd2 : (q :: cell :: suf).Nodup := (List.nodup_append.mp hnd).2.1
  have hqc : q ≠ cell := by
    intro e
    rw [e] at hnd2
    exact (List.nodup_cons.mp hnd2).1 (List.mem_cons_self _ _)
  have hcsuf : cell ∉ suf := (List.nodup_cons.mp (List.nodup_cons.mp hnd2).2).1
  have hqsuf : q ∉ suf := fun hm => (List.nodup_cons.mp hnd2).1 (List.mem_cons_of_mem _ hm)
  have hcpre : cell ∉ pre := fun hm =>
    (List.nodup_append.mp hnd).2.2 hm (List.mem_cons_of_mem _ (List.mem_cons_self _ _))
  have hqpre : q ∉ pre := fun hm => (List.nodup_append.mp hnd).2.2 hm (List.mem_cons_self _ _)
  unfold list_delete_cell
  rw [check_ok _ _ _ hl]
  simp only [list_outcome.and_then]
  have hlen : (h.lists l).length = (((pre ++ q :: suf).length + 1 : Nat) : Int) := by
    rw [hl.2.2.2.2.1]
    simp only [List.length_append, List.length_cons]
    push_cast
    ring
  have hlen1 : ¬ (h.lists l).length = 1 := by
    rw [hlen]
    simp only [List.length_append, List.length_cons]
    push_cast
    omega
  rw [if_neg (by simp [hqn]), if_neg (by simp [hq0]), if_neg hl.1, if_neg hlen1]
  have hadd : int_add (h.lists l).length (-1) = some (((pre ++ q :: suf).length : Nat) : Int) := by
    unfold int_add
    rw [hlen]
    unfold INT_MAX
    rw [if_neg]
    · push_cast
      congr 1
      ring
    · unfold INT_MAX at hint
      simp only [List.length_cons, List.length_append] at hint ⊢
      push_cast at hint ⊢
      omega
  rw [hadd]
  dsimp only
  rw [if_neg hc0, if_pos hq0]
  have htail : (h.lists l).tail = cell ↔ suf = [] := by
    have hlast := hl.2.2.2.2.2
    rw [getLast_append_cons, getLast_cons_cons] at hlast
    constructor
    · intro e
      rw [e] at hlast
      cases suf with
      | nil => rfl
      | cons s suf =>
        exfalso
        rw [getLast_cons_cons] at hlast
        exact hcsuf (List.mem_of_getLast?_eq_some hlast)
    · intro e
      rw [e] at hlast
      simp at hlast
      exact hlast.symm
  have key : ∀ h4 : list_heap,
      (∀ a, h4.cells a = if a = q then ⟨(h.cells q).data, (h.cells cell).next⟩ else h.cells a) →
      h4.live = h.live → h4.live_list = h.live_list →
      (h4.lists l).head = (h.lists l).head →
      (h4.lists l).length = (((pre ++ q :: suf).length : Nat) : Int) →
      (pre ++ q :: suf).getLast? = some (h4.lists l).tail →
      ∃ hr, list_outcome.ret l (list_server_free host h4 cell) = .ret l hr
        ∧ is_list hr l (pre ++ q :: suf)
        ∧ cells_data hr (pre ++ q :: suf) = cells_data h (pre ++ q :: suf) := by
    intro h4 e1 e2 e3 e4 e5 e6
    obtain ⟨f1, f2, f3, f4⟩ := server_free_cells host h4 cell
    refine ⟨_, rfl, ⟨hl.1, ?_, ?_, ?_, ?_, ?_⟩, ?_⟩
    · rw [f3, e3]
      exact hl.2.1
    · intro a ha
      have hac : a ≠ cell := by
        intro e
        rw [e] at ha
        rcases List.mem_append.mp ha with hm | hm
        · exact hcpre hm
        · rcases List.mem_cons.mp hm with hm | hm
          · exact hqc hm.symm
          · exact hcsuf hm
      rw [f4 a hac, e2]
      apply hl.2.2.1
      rcases List.mem_append.mp ha with hm | hm
      · exact List.mem_append_left _ hm
      · rcases List.mem_cons.mp hm with hm | hm
        · rw [hm]
          exact hqm
        · exact List.mem_append_right _ (List.mem_cons_of_mem _ (List.mem_cons_of_mem _ hm))
    · rw [f1, f2, e4]
      apply chain_remove h.cells h4.cells _ pre suf q cell hch
      · intro a ha
        rw [e1, if_neg]
        intro e
        exact hqpre (e ▸ ha)
      · intro a ha
        rw [e1, if_neg]
        intro e
        exact hqsuf (e ▸ ha)
      · rw [e1, if_pos rfl]
    · rw [f2, e5]
    · rw [f2]
      exact e6
    · unfold cells_data
      apply List.map_congr_left
      intro a _
      rw [f1, e1]
      split_ifs with e
      · rw [e]
      · rfl
  have hce : ∀ a, ((h.set_list l { (h.lists l) with
        length := (((pre ++ q :: suf).length : Nat) : Int) }).set_next q
        ((h.set_list l { (h.lists l) with
          length := (((pre ++ q :: suf).length : Nat) : Int) }).cells cell).next).cells a
      = if a = q then ⟨(h.cells q).data, (h.cells cell).next⟩ else h.cells a := by
    intro a
    rw [set_next_cells]
    rfl
  have hli : ((h.set_list l { (h.lists l) with
        length := (((pre ++ q :: suf).length : Nat) : Int) }).set_next q
        ((h.set_list l { (h.lists l) with
          length := (((pre ++ q :: suf).length : Nat) : Int) }).cells cell).next).lists l
      = ⟨(((pre ++ q :: suf).length : Nat) : Int), (h.lists l).head, (h.lists l).tail⟩ := by
    show (h.set_list l _).lists l = _
    rw [set_list_lists, if_pos rfl]
  have hlv : ((h.set_list l { (h.lists l) with
        length := (((pre ++ q :: suf).length : Nat) : Int) }).set_next q
        ((h.set_list l { (h.lists l) with
          length := (((pre ++ q :: suf).length : Nat) : Int) }).cells cell).next).live
      = h.live := rfl
  have hll : ((h.set_list l { (h.lists l) with
        length := (((pre ++ q :: suf).length : Nat) : Int) }).set_next q
        ((h.set_list l { (h.lists l) with
          length := (((pre ++ q :: suf).length : Nat) : Int) }).cells cell).next).live_list
      = h.live_list := rfl
  generalize ((h.set_list l { (h.lists l) with
        length := (((pre ++ q :: suf).length : Nat) : Int) }).set_next q
        ((h.set_list l { (h.lists l) with
          length := (((pre ++ q :: suf).length : Nat) : Int) }).cells cell).next) = h3
    at hce hli hlv hll ⊢
  by_cases ht : (h3.lists l).tail = cell
  · rw [if_pos ht]
    rw [hli] at ht
    have hs := htail.mp ht
    apply key
    · exact hce
    · exact hlv
    · exact hll
    · rw [set_list_lists, if_pos rfl, hli]
    · rw [set_list_lists, if_pos rfl, hli]
    · rw [set_list_lists, if_pos rfl, hs, getLast_append_cons]
      rfl
  · rw [if_neg ht]
    rw [hli] at ht
    apply key
    · exact hce
    · exact hlv
    · exact hll
    · rw [hli]
    · rw [hli]
    · rw [hli]
      have hlast := hl.2.2.2.2.2
      rw [getLast_append_cons, getLast_cons_cons] at hlast
      rw [getLast_append_cons]
      cases suf with
      | nil => exact absurd (htail.mpr rfl) ht
      | cons s suf =>
        rw [getLast_cons_cons] at hlast ⊢
        exact hlast

/-- The `list_delete_cell` of `pg_list.c` on a valid list, one of its cells and
the cell before it (the null pointer for the first cell), the fuel being more
than 1: the list returned has the other cells, and is `NIL` when there is
none. -/
theorem list_delete_cell_spec (host : list_host) (h : list_heap) (l cell : Nat)
    (pre suf : List Nat) (hl : is_list h l (pre ++ cell :: suf))
    (hint : ((pre ++ cell :: suf).length : Int) ≤ INT_MAX) (fuel : Nat) (hf : 1 < fuel) :
    ∃ v hr, list_delete_cell host fuel l cell (pre.getLast?.getD 0) h = .ret v hr
      ∧ list_cells hr v (pre ++ suf)
      ∧ cells_data hr (pre ++ suf) = cells_data h (pre ++ suf) := by
  rcases List.eq_nil_or_concat pre with e | ⟨pre0, q, e⟩
  · subst e
    cases suf with
    | nil =>
      obtain ⟨hr, hret⟩ := list_delete_cell_single host h l cell hl fuel hf
      exact ⟨0, hr, hret, Or.inl ⟨rfl, rfl⟩, rfl⟩
    | cons s suf =>
      obtain ⟨hr, hret, hv, hd⟩ := list_delete_cell_first host h l cell s suf hl hint fuel
      exact ⟨l, hr, hret, Or.inr hv, hd⟩
  · rw [List.concat_eq_append] at e
    subst e
    rw [getLast_snoc]
    rw [List.append_assoc, List.singleton_append] at hl hint ⊢
    obtain ⟨hr, hret, hv, hd⟩ := list_delete_cell_after host h l cell q pre0 suf hl hint fuel
    exact ⟨l, hr, hret, Or.inr hv, hd⟩

theorem list_delete_loop_spec (host : list_host) (h : list_heap) (l : Nat) (cs : List Nat)
    (hl : list_cells h l cs) (hint : (cs.length : Int) ≤ INT_MAX) (datum : Int)
    (fuel0 : Nat) (hf0 : 1 < fuel0) :
    ∀ (suf pre : List Nat) (cell fuel : Nat), cs = pre ++ suf → chain h.cells cell suf →
      suf.length < fuel →
      ∃ v hr cs1, list_delete_loop host l datum fuel0 fuel cell (pre.getLast?.getD 0) h
          = .ret v hr ∧ list_cells hr v cs1 := by
  intro suf
  induction suf with
  | nil =>
    intro pre cell fuel e hch hf
    cases fuel with
    | zero => simp at hf
    | succ fuel =>
      rw [(chain_nil _ _).mp hch]
      exact ⟨l, h, cs, rfl, hl⟩
  | cons c suf ih =>
    intro pre cell fuel e hch hf
    obtain ⟨ec, hc0, t⟩ := hch
    subst ec
    cases fuel with
    | zero => simp at hf
    | succ fuel =>
      unfold list_delete_loop
      rw [if_neg hc0]
      by_cases hd : (h.cells cell).data = datum
      · rw [if_pos hd]
        rcases hl with ⟨-, e2⟩ | hl
        · rw [e2] at e
          simp at e
        · rw [e] at hl hint
          obtain ⟨v, hr, hret, hv, -⟩ := list_delete_cell_spec host h l cell pre suf hl hint
            fuel0 hf0
          exact ⟨v, hr, _, hret, hv⟩
      · rw [if_neg hd]
        have := ih (pre ++ [cell]) (h.cells cell).next fuel
          (by rw [e, List.append_assoc, List.singleton_append]) t (by simpa using hf)
        rw [getLast_snoc] at this
        exact this

/-- The `list_delete_ptr` of `pg_list.c` on a valid list, the fuel being more
than 1 and than the number of its cells: the list returned is valid. -/
theorem list_delete_ptr_spec (host : list_host) (h : list_heap) (l : Nat) (cs : List Nat)
    (hl : list_cells h l cs) (hint : (cs.length : Int) ≤ INT_MAX) (datum : Int)
    (fuel : Nat) (hf0 : 1 < fuel) (hf : cs.length < fuel) :
    ∃ v hr cs1, list_delete_ptr host fuel l datum h = .ret v hr ∧ list_cells hr v cs1 := by
  unfold list_delete_ptr
  have hc : check_list_invariants l h = .ret () h := by
    rcases hl with ⟨e, -⟩ | hl
    · rw [e]
      exact check_nil h
    · exact check_ok h l cs hl
  rw [hc]
  exact list_delete_loop_spec host h l cs hl hint datum fuel hf0 cs [] _ fuel rfl
    (list_cells_chain h l cs hl) hf

/-- The `list_delete_first` of `pg_list.c` on a valid list, the fuel being more
than 1: the list returned has the cells after the first. -/
theorem list_delete_first_spec (host : list_host) (h : list_heap) (l : Nat) (cs : List Nat)
    (hl : list_cells h l cs) (hint : (cs.length : Int) ≤ INT_MAX)
    (fuel : Nat) (hf0 : 1 < fuel) :
    ∃ v hr, list_delete_first host fuel l h = .ret v hr ∧ list_cells hr v cs.tail := by
  unfold list_delete_first
  rcases hl with ⟨e, e2⟩ | hl
  · subst e e2
    rw [check_nil]
    exact ⟨0, h, rfl, Or.inl ⟨rfl, rfl⟩⟩
  · rw [check_ok _ _ _ hl]
    simp only [list_outcome.and_then]
    rw [if_neg hl.1]
    obtain ⟨c, rest, e, hh, -, -⟩ := is_list_head h l cs hl
    subst e
    have hhead : list_head h l = c := by
      unfold list_head
      rw [if_neg hl.1]
      exact hh
    rw [hhead]
    obtain ⟨v, hr, hret, hv, -⟩ := list_delete_cell_spec host h l c [] rest hl hint fuel hf0
    exact ⟨v, hr, hret, hv⟩

theorem heap_keeps_fresh (h0 h : list_heap) (hk : heap_keeps h0 h 0 0) (n : Nat)
    (hn : h.live n = false) : h0.live n = false := by
  cases hl : h0.live n with
  | false => rfl
  | true =>
    rw [hk.1 n hl] at hn
    cases hn

theorem list_copy_loop_spec (host : list_host) (hfresh : alloc_fresh host) (h0 : list_heap)
    (n0 : Nat) :
    ∀ (R : List Nat) (h : list_heap) (ns : List Nat) (prev cur fuel : Nat),
      heap_keeps h0 h 0 0 → (∀ c ∈ R, h0.live c = true) → chain h0.cells cur R →
      (∀ c ∈ ns ++ [prev], h0.live c = false ∧ h.live c = true) →
      chain (h.set_next prev 0).cells n0 (ns ++ [prev]) → R.length < fuel →
      list_copy_loop host fuel prev cur h = .exited
        ∨ ∃ last hr ms, list_copy_loop host fuel prev cur h = .ret last hr
            ∧ ms.length = R.length ∧ (ns ++ [prev] ++ ms).getLast? = some last
            ∧ chain (hr.set_next last 0).cells n0 (ns ++ [prev] ++ ms)
            ∧ (∀ c ∈ ns ++ [prev] ++ ms, h0.live c = false ∧ hr.live c = true)
            ∧ heap_keeps h0 hr 0 0 ∧ hr.lists = h.lists ∧ hr.live_list = h.live_list := by
  intro R
  induction R with
  | nil =>
    intro h ns prev cur fuel hk _ hch hnew hnch hf
    cases fuel with
    | zero => simp at hf
    | succ fuel =>
      right
      rw [(chain_nil _ _).mp hch]
      refine ⟨prev, h, [], rfl, rfl, ?_, ?_, ?_, hk, rfl, rfl⟩
      · rw [List.append_nil, getLast_snoc]
      · rw [List.append_nil]
        exact hnch
      · rw [List.append_nil]
        exact hnew
  | cons c R ih =>
    intro h ns prev cur fuel hk hRl hch hnew hnch hf
    obtain ⟨ec, hc0, t⟩ := hch
    subst ec
    cases fuel with
    | zero => simp at hf
    | succ fuel =>
      unfold list_copy_loop
      rw [if_neg hc0]
      cases hac : alloc_cell host h with
      | none => exact Or.inl rfl
      | some p =>
        obtain ⟨nc, h1⟩ := p
        obtain ⟨hn0, hnf, hlists, hcells, hlivef⟩ := alloc_cell_spec host hfresh h nc h1 hac
        obtain ⟨-, hll1⟩ := alloc_cell_list host hfresh h nc h1 hac
        have hnf0 : h0.live nc = false := heap_keeps_fresh h0 h hk nc hnf
        have hpm : prev ∈ ns ++ [prev] := List.mem_append_right _ (List.mem_singleton.mpr rfl)
        have hp0 : prev ≠ 0 := chain_mem_ne_zero _ _ _ hnch prev hpm
        have hpn : prev ≠ nc := not_live_ne h nc hnf prev (hnew prev hpm).2
        have hndn := chain_nodup _ _ _ hnch
        dsimp only
        rw [if_neg hp0]
        have hce : ∀ a, ((h1.set_data nc (h1.cells cur).data).set_next prev nc).cells a
            = if a = nc then ⟨(h1.cells cur).data, 0⟩
              else if a = prev then ⟨(h.cells prev).data, nc⟩ else h.cells a := by
          intro a
          by_cases ean : a = nc
          · subst ean
            simp [set_next_cells, set_data_cells, hcells, Ne.symm hpn]
          · by_cases eap : a = prev
            · subst eap
              simp [set_next_cells, set_data_cells, hcells, ean]
            · simp [set_next_cells, set_data_cells, hcells, ean, eap]
        have hlv : ((h1.set_data nc (h1.cells cur).data).set_next prev nc).live = h1.live := rfl
        have hll : ((h1.set_data nc (h1.cells cur).data).set_next prev nc).live_list
            = h.live_list := hll1
        have hli : ((h1.set_data nc (h1.cells cur).data).set_next prev nc).lists
            = h.lists := hlists
        generalize ((h1.set_data nc (h1.cells cur).data).set_next prev nc) = h3
          at hce hlv hll hli ⊢
        have hcl0 : h0.live cur = true := hRl cur (List.mem_cons_self _ _)
        have hkeep : ∀ a, h0.live a = true → h3.cells a = h.cells a := by
          intro a ha
          have h1 : a ≠ nc := not_live_ne h0 nc hnf0 a ha
          have h2 : a ≠ prev := not_live_ne h0 prev (hnew prev hpm).1 a ha
          rw [hce, if_neg h1, if_neg h2]
        have hk3 : heap_keeps h0 h3 0 0 := by
          refine ⟨fun a ha => ?_, fun a ha ha0 => ?_, fun a ha => ?_, fun a ha ha0 => ?_,
            fun a ha => ?_⟩
          · rw [hlv, hlivef]
            split_ifs
            · rfl
            · exact hk.1 a ha
          · rw [hkeep a ha]
            exact hk.2.1 a ha ha0
          · rw [hkeep a ha]
            exact hk.2.2.1 a ha
          · rw [hli]
            exact hk.2.2.2.1 a ha ha0
          · rw [hll]
            exact hk.2.2.2.2 a ha
        have hnext : (h3.cells cur).next = (h0.cells cur).next := by
          rw [hkeep cur hcl0, hk.2.1 cur hcl0 hc0]
        rw [hnext]
        have hnew3 : ∀ a ∈ (ns ++ [prev]) ++ [nc], h0.live a = false ∧ h3.live a = true := by
          intro a ha
          rw [hlv, hlivef]
          rcases List.mem_append.mp ha with hm | hm
          · refine ⟨(hnew a hm).1, ?_⟩
            split_ifs
            · rfl
            · exact (hnew a hm).2
          · rw [List.mem_singleton.mp hm]
            exact ⟨hnf0, by rw [if_pos rfl]⟩
        have hch3 : chain (h3.set_next nc 0).cells n0 ((ns ++ [prev]) ++ [nc]) := by
          rw [List.append_assoc, List.singleton_append]
          apply chain_snoc (h.set_next prev 0).cells _ _ ns prev nc hnch hn0
          · intro a ha
            have hap : a ≠ prev := by
              intro e
              rw [e] at ha
              exact (List.nodup_append.mp hndn).2.2 ha (List.mem_singleton.mpr rfl)
            have han : a ≠ nc :=
              not_live_ne h nc hnf a (hnew a (List.mem_append_left _ ha)).2
            rw [set_next_cells, if_neg han, hce, if_neg han, if_neg hap, set_next_cells,
              if_neg hap]
          · rw [set_next_cells, if_neg hpn, hce, if_neg hpn, if_pos rfl]
          · rw [set_next_cells, if_pos rfl]
        rcases ih h3 (ns ++ [prev]) nc (h0.cells cur).next fuel hk3
            (fun a ha => hRl a (List.mem_cons_of_mem _ ha)) t hnew3 hch3 (by simpa using hf)
          with hex | ⟨last, hr, ms, hret, hms, hlast, hchr, hnewr, hkr, hlir, hllr⟩
        · exact Or.inl hex
        · right
          refine ⟨last, hr, nc :: ms, hret, by simp [hms], ?_, ?_, ?_, hkr, hlir.trans hli,
            hllr.trans hll⟩
          · rw [List.append_assoc (ns ++ [prev]), List.singleton_append] at hlast
            exact hlast
          · rw [List.append_assoc (ns ++ [prev]), List.singleton_append] at hchr
            exact hchr
          · rw [List.append_assoc (ns ++ [prev]), List.singleton_append] at hnewr
            exact hnewr

theorem not_live_list_ne (h : list_heap) (n : Nat) (hn : h.live_list n = false) (a : Nat)
    (ha : h.live_list a = true) : a ≠ n := by
  intro e
  rw [e, hn] at ha
  cases ha

/-- The copy of the cells from `cur` on into a list whose header and first
cell are new: the list returned is valid, has as many cells as were to copy,
and what was in use before is kept. -/
theorem list_copy_rest_spec (host : list_host) (hfresh : alloc_fresh host) (h0 h : list_heap)
    (l1 n0 cur : Nat) (R : List Nat) (fuel : Nat)
    (hk : heap_keeps h0 h 0 0) (hl0 : l1 ≠ 0) (hlf : h0.live_list l1 = false)
    (hll : h.live_list l1 = true) (hn0 : n0 ≠ 0) (hnf : h0.live n0 = false)
    (hnl : h.live n0 = true) (hhead : (h.lists l1).head = n0)
    (hlen : (h.lists l1).length = R.length) (hRl : ∀ c ∈ R, h0.live c = true)
    (hch : chain h0.cells cur R) (hR : R ≠ []) (hf : R.length ≤ fuel) :
    list_copy_rest host fuel l1 cur h = .exited
      ∨ ∃ hr cs1, list_copy_rest host fuel l1 cur h = .ret l1 hr ∧ is_list hr l1 cs1
          ∧ cs1.length = R.length ∧ heap_keeps h0 hr 0 0 := by
  cases R with
  | nil => exact absurd rfl hR
  | cons c R =>
    obtain ⟨ec, hc0, t⟩ := hch
    subst ec
    unfold list_copy_rest
    rw [if_neg hc0]
    dsimp only
    rw [hhead]
    have hcl0 : h0.live cur = true := hRl cur (List.mem_cons_self _ _)
    have hcn : cur ≠ n0 := not_live_ne h0 n0 hnf cur hcl0
    have hk1 : heap_keeps h0 (h.set_data n0 (h.cells cur).data) 0 0 :=
      heap_keeps_set_data h0 h 0 0 n0 _ hk hnf
    have e1 : ((h.set_data n0 (h.cells cur).data).lists l1).head = n0 := hhead
    have e2 : ((h.set_data n0 (h.cells cur).data).cells cur).next = (h0.cells cur).next := by
      rw [hk1.2.1 cur hcl0 hc0]
    rw [e1, e2]
    have hnew : ∀ a ∈ [] ++ [n0],
        h0.live a = false ∧ (h.set_data n0 (h.cells cur).data).live a = true := by
      intro a ha
      rw [List.nil_append, List.mem_singleton] at ha
      rw [ha]
      exact ⟨hnf, hnl⟩
    have hch1 : chain ((h.set_data n0 (h.cells cur).data).set_next n0 0).cells n0
        ([] ++ [n0]) := by
      refine ⟨rfl, hn0, ?_⟩
      rw [set_next_cells, if_pos rfl]
      rfl
    rcases list_copy_loop_spec host hfresh h0 n0 R (h.set_data n0 (h.cells cur).data) [] n0
        (h0.cells cur).next fuel hk1 (fun a ha => hRl a (List.mem_cons_of_mem _ ha)) t hnew
        hch1 (by simpa using hf)
      with hex | ⟨last, hr, ms, hret, hms, hlast, hchr, hnewr, hkr, hlir, hllr⟩
    · left
      rw [hex]
      rfl
    · right
      rw [hret]
      simp only [list_outcome.and_then]
      have hlm : last ∈ [] ++ [n0] ++ ms := List.mem_of_getLast?_eq_some hlast
      have hlast0 : h0.live last = false := (hnewr last hlm).1
      have hlis : hr.lists l1 = h.lists l1 := by
        rw [hlir]
        rfl
      have hv : is_list ((hr.set_next last 0).set_list l1
          { ((hr.set_next last 0).lists l1) with tail := last }) l1 ([] ++ [n0] ++ ms) := by
        refine ⟨hl0, ?_, ?_, ?_, ?_, ?_⟩
        · show hr.live_list l1 = true
          rw [hllr]
          exact hll
        · intro a ha
          exact (hnewr a ha).2
        · rw [set_list_lists, if_pos rfl]
          show chain (hr.set_next last 0).cells (hr.lists l1).head _
          rw [hlis, hhead]
          exact hchr
        · rw [set_list_lists, if_pos rfl]
          show (hr.lists l1).length = _
          rw [hlis, hlen]
          simp only [List.nil_append, List.length_cons, List.singleton_append, hms]
        · rw [set_list_lists, if_pos rfl]
          exact hlast
      refine ⟨_, _, ?_, hv, ?_, ?_⟩
      · rw [check_ok _ _ _ hv]
      · simp only [List.nil_append, List.length_cons, List.singleton_append, hms]
      · refine ⟨fun a ha => hkr.1 a ha, fun a ha ha0 => ?_, fun a ha => ?_, fun a ha ha0 => ?_,
          fun a ha => hkr.2.2.2.2 a ha⟩
        · show (hr.set_next last 0).cells a = _
          rw [set_next_cells, if_neg (not_live_ne h0 last hlast0 a ha)]
          exact hkr.2.1 a ha ha0
        · show ((hr.set_next last 0).cells a).data = _
          rw [set_next_cells, if_neg (not_live_ne h0 last hlast0 a ha)]
          exact hkr.2.2.1 a ha
        · rw [set_list_lists, if_neg (not_live_list_ne h0 l1 hlf a ha)]
          exact hkr.2.2.2.1 a ha ha0

theorem heap_keeps_set_list (h h1 : list_heap) (t l l1 : Nat) (v : pg_list)
    (hk : heap_keeps h h1 t l) (hl : h.live_list l1 = false) :
    heap_keeps h (h1.set_list l1 v) t l := by
  obtain ⟨k1, k2, k3, k4, k5⟩ := hk
  refine ⟨k1, k2, k3, fun a ha hal => ?_, k5⟩
  rw [set_list_lists, if_neg (not_live_list_ne h l1 hl a ha)]
  exact k4 a ha hal

/-- The `list_copy` of `pg_list.c` on a list with the cells `cs`, the fuel
being at least the number of cells: the process ends for lack of memory, or the
list returned is valid and has as many cells, and what was in use is kept. -/
theorem list_copy_spec (host : list_host) (hfresh : alloc_fresh host) (h : list_heap)
    (l : Nat) (cs : List Nat) (hl : list_cells h l cs) (fuel : Nat) (hf : cs.length ≤ fuel) :
    list_copy host fuel l h = .exited
      ∨ ∃ v hr cs1, list_copy host fuel l h = .ret v hr ∧ list_cells hr v cs1
          ∧ cs1.length = cs.length ∧ heap_keeps h hr 0 0 := by
  rcases hl with ⟨e1, e2⟩ | hl
  · subst e1 e2
    right
    exact ⟨0, h, [], rfl, Or.inl ⟨rfl, rfl⟩, rfl, heap_keeps_refl h 0 0⟩
  · unfold list_copy
    rw [if_neg hl.1]
    rcases new_list_spec host hfresh h with hex | ⟨l1, n0, h1, hret, hl1, hlf, hnf, hk⟩
    · left
      rw [hex]
      rfl
    · rw [hret]
      simp only [list_outcome.and_then]
      have hold : h1.lists l = h.lists l := hk.2.2.2.1 l hl.2.1 hl.1
      have hne : l ≠ l1 := not_live_list_ne h l1 hlf l hl.2.1
      have e3 : ((h1.set_list l1 { (h1.lists l1) with length := (h1.lists l).length }).lists l)
          = h.lists l := by
        rw [set_list_lists, if_neg hne, hold]
      rw [e3]
      obtain ⟨c, rest, ec, hh, hc0, -⟩ := is_list_head h l cs hl
      rcases list_copy_rest_spec host hfresh h
          (h1.set_list l1 { (h1.lists l1) with length := (h1.lists l).length }) l1 n0
          (h.lists l).head cs fuel (heap_keeps_set_list h h1 0 0 l1 _ hk hlf) hl1.1 hlf hl1.2.1
          (chain_mem_ne_zero _ _ _ hl1.2.2.2.1 n0 (List.mem_singleton.mpr rfl)) hnf
          (hl1.2.2.1 n0 (List.mem_singleton.mpr rfl))
          (by rw [set_list_lists, if_pos rfl]; exact is_list_head_cons h1 l1 [] n0 hl1)
          (by rw [set_list_lists, if_pos rfl, hold]; exact hl.2.2.2.2.1)
          hl.2.2.1 hl.2.2.2.1 (by rw [ec]; exact List.cons_ne_nil _ _) hf
        with hex | ⟨hr, cs1, hret2, hv, hlen, hkr⟩
      · exact Or.inl hex
      · exact Or.inr ⟨l1, hr, cs1, hret2, Or.inr hv, hlen, hkr⟩

theorem list_skip_loop_spec (h : list_heap) :
    ∀ (k : Nat) (suf : List Nat) (cell fuel : Nat), chain h.cells cell suf → k < suf.length →
      k < fuel →
      ∃ cur, list_skip_loop fuel (k : Int) cell h = .ret cur h
        ∧ chain h.cells cur (suf.drop k) := by
  intro k
  induction k with
  | zero =>
    intro suf cell fuel hch _ hf
    cases fuel with
    | zero => simp at hf
    | succ fuel =>
      unfold list_skip_loop
      rw [if_neg (by simp)]
      exact ⟨cell, rfl, hch⟩
  | succ k ih =>
    intro suf cell fuel hch hk hf
    cases fuel with
    | zero => simp at hf
    | succ fuel =>
      cases suf with
      | nil => simp at hk
      | cons c suf =>
        obtain ⟨ec, hc0, t⟩ := hch
        subst ec
        unfold list_skip_loop
        rw [if_pos (by push_cast; omega), if_neg hc0]
        have e : (((k + 1 : Nat) : Int) - 1) = (k : Int) := by
          push_cast
          ring
        rw [e]
        obtain ⟨cur, hret, hch2⟩ := ih suf (h.cells cell).next fuel t
          (by simpa using hk) (by omega)
        exact ⟨cur, hret, hch2⟩

/-- The `list_copy_tail` of `pg_list.c` on a list with the cells `cs`, the fuel
being at least the number of cells: the process ends for lack of memory, or the
list returned is valid (`NIL` when no cell remains) and has as many cells as
`cs` after the first `nskip`, and what was in use is kept. -/
theorem list_copy_tail_spec (host : list_host) (hfresh : alloc_fresh host) (h : list_heap)
    (l : Nat) (cs : List Nat) (hl : list_cells h l cs) (nskip : Int) (fuel : Nat)
    (hf : cs.length ≤ fuel) :
    list_copy_tail host fuel l nskip h = .exited
      ∨ ∃ v hr cs1, list_copy_tail host fuel l nskip h = .ret v hr ∧ list_cells hr v cs1
          ∧ cs1.length = cs.length - nskip.toNat ∧ heap_keeps h hr 0 0 := by
  unfold list_copy_tail
  dsimp only
  rcases hl with ⟨e1, e2⟩ | hl
  · subst e1 e2
    right
    rw [if_pos rfl]
    exact ⟨0, h, [], rfl, Or.inl ⟨rfl, rfl⟩, by simp, heap_keeps_refl h 0 0⟩
  · rw [if_neg hl.1]
    have hlenf := hl.2.2.2.2.1
    by_cases hge : (if nskip < 0 then 0 else nskip) ≥ (h.lists l).length
    · rw [if_pos hge]
      right
      refine ⟨0, h, [], rfl, Or.inl ⟨rfl, rfl⟩, ?_, heap_keeps_refl h 0 0⟩
      rw [hlenf] at hge
      split_ifs at hge with hneg
      · have : (cs.length : Int) ≤ 0 := hge
        simp only [List.length_nil]
        omega
      · simp only [List.length_nil]
        omega
    · rw [if_neg hge]
      rw [hlenf] at hge
      have hk : nskip.toNat < cs.length := by
        split_ifs at hge with hneg
        · omega
        · omega
      have hkk : (if nskip < 0 then 0 else nskip) = ((nskip.toNat : Nat) : Int) := by
        split_ifs with hneg
        · rw [Int.toNat_of_nonpos (le_of_lt hneg)]
          rfl
        · rw [Int.toNat_of_nonneg (by omega)]
      rw [hkk]
      rcases new_list_spec host hfresh h with hex | ⟨l1, n0, h1, hret, hl1, hlf, hnf, hk1⟩
      · left
        rw [hex]
        rfl
      · rw [hret]
        simp only [list_outcome.and_then]
        have hold : h1.lists l = h.lists l := hk1.2.2.2.1 l hl.2.1 hl.1
        have hne : l ≠ l1 := not_live_list_ne h l1 hlf l hl.2.1
        generalize hh2 : (h1.set_list l1 { (h1.lists l1) with
          length := (h1.lists l).length - ((nskip.toNat : Nat) : Int) }) = h2
        have hk2 : heap_keeps h h2 0 0 := by
          rw [← hh2]
          exact heap_keeps_set_list h h1 0 0 l1 _ hk1 hlf
        have e3 : h2.lists l = h.lists l := by
          rw [← hh2, set_list_lists, if_neg hne, hold]
        have hch2 : chain h2.cells (h2.lists l).head cs := by
          rw [e3]
          exact chain_keeps h h2 0 0 _ cs hk2 hl.2.2.1
            (chain_not_zero _ _ _ hl.2.2.2.1) hl.2.2.2.1
        obtain ⟨cur, hskip, hchd⟩ := list_skip_loop_spec h2 nskip.toNat cs (h2.lists l).head fuel
          hch2 hk (by omega)
        rw [hskip]
        dsimp only
        have hdl : ∀ c ∈ cs.drop nskip.toNat, h.live c = true :=
          fun c hc => hl.2.2.1 c (List.mem_of_mem_drop hc)
        have hchd0 : chain h.cells cur (cs.drop nskip.toNat) := by
          apply chain_congr h2.cells h.cells cur _ _ hchd
          intro c hc
          have hcm : c ∈ cs := List.mem_of_mem_drop hc
          rw [hk2.2.1 c (hl.2.2.1 c hcm)
            (chain_mem_ne_zero _ _ _ hl.2.2.2.1 c hcm)]
        have hdne : cs.drop nskip.toNat ≠ [] := by
          intro e
          have := congrArg List.length e
          rw [List.length_drop, List.length_nil] at this
          omega
        rcases list_copy_rest_spec host hfresh h h2 l1 n0 cur (cs.drop nskip.toNat) fuel hk2
            hl1.1 hlf (by rw [← hh2]; exact hl1.2.1)
            (chain_mem_ne_zero _ _ _ hl1.2.2.2.1 n0 (List.mem_singleton.mpr rfl)) hnf
            (by rw [← hh2]; exact hl1.2.2.1 n0 (List.mem_singleton.mpr rfl))
            (by rw [← hh2, set_list_lists, if_pos rfl]; exact is_list_head_cons h1 l1 [] n0 hl1)
            (by
              rw [← hh2, set_list_lists, if_pos rfl, hold, hlenf, List.length_drop]
              show (cs.length : Int) - (nskip.toNat : Int) = _
              omega)
            hdl hchd0 hdne (by rw [List.length_drop]; omega)
          with hex | ⟨hr, cs1, hret2, hv, hlen, hkr⟩
        · exact Or.inl hex
        · refine Or.inr ⟨l1, hr, cs1, hret2, Or.inr hv, ?_, hkr⟩
          rw [hlen, List.length_drop]

theorem missing_cons_mem (xs ds : List Int) (d : Int) (hd : d ∈ xs) :
    missing xs (d :: ds) = missing xs ds := by
  unfold missing
  rw [List.filter_cons_of_neg]
  simpa using hd

theorem missing_cons_not_mem (xs ds : List Int) (d : Int) (hd : d ∉ xs) :
    missing xs (d :: ds) = missing xs ds + 1 := by
  unfold missing
  rw [List.filter_cons_of_pos]
  · rfl
  · simpa using hd

theorem missing_snoc_le (xs ds : List Int) (d : Int) :
    missing (xs ++ [d]) ds ≤ missing xs ds := by
  unfold missing
  apply List.Sublist.length_le
  apply List.monotone_filter_right
  intro a ha
  simp only [List.mem_append, List.mem_singleton, not_or, decide_eq_true_eq] at ha ⊢
  exact ha.1

theorem missing_snoc_self (xs ds : List Int) (d : Int) :
    missing (xs ++ [d]) (ds ++ [d]) = missing (xs ++ [d]) ds := by
  unfold missing
  rw [List.filter_append, List.length_append]
  have : (List.filter (fun d1 => decide (d1 ∉ xs ++ [d])) [d]) = [] := by
    rw [List.filter_cons_of_neg]
    · rfl
    · simp
  rw [this]
  rfl

theorem missing_le (xs ds : List Int) : missing xs ds ≤ ds.length := by
  unfold missing
  exact List.length_filter_le _ _

/-- A chain that holds a cell whose `next` is null ends in this cell. -/
theorem chain_ends_at (cells : Nat → ListCell) (p : Nat) (R : List Nat) (t : Nat)
    (hch : chain cells p R) (ht : t ∈ R) (hn : (cells t).next = 0) :
    ∃ pre, R = pre ++ [t] := by
  obtain ⟨pre, suf, e, hc⟩ := chain_split cells p R t hch ht
  obtain ⟨-, -, tl⟩ := hc
  rw [hn] at tl
  cases suf with
  | nil => exact ⟨pre, e⟩
  | cons s suf =>
    exfalso
    obtain ⟨e0, hs, -⟩ := tl
    exact hs e0.symm

/-- After `lappend` a chain of cells in use is as it was, or has the new cell
after its last cell when this was the last cell of the list. -/
theorem lappend_chain (h h1 : list_heap) (l l1 n : Nat) (rs : List Nat)
    (hl : list_cells h l rs) (hl1 : is_list h1 l1 (rs ++ [n]))
    (hk : heap_keeps h h1 (list_tail h l) l)
    (p : Nat) (R : List Nat) (hch : chain h.cells p R) (hRl : ∀ c ∈ R, h.live c = true) :
    chain h1.cells p R ∨ chain h1.cells p (R ++ [n]) := by
  by_cases ht : list_tail h l ∈ R
  · rcases hl with ⟨e1, -⟩ | hl
    · exfalso
      rw [e1] at ht
      exact chain_not_zero _ _ _ hch ht
    · right
      obtain ⟨init, t, e, htl⟩ := is_list_ne_nil h l rs hl
      have htt : list_tail h l = t := by
        unfold list_tail
        rw [if_neg hl.1, htl]
      rw [htt] at ht hk
      have hch0 := hl.2.2.2.1
      rw [e] at hch0
      have htn := (chain_last h.cells _ init t hch0).1
      obtain ⟨pre, eR⟩ := chain_ends_at h.cells p R t hch ht htn
      have hch1 := hl1.2.2.2.1
      rw [e, List.append_assoc, List.singleton_append] at hch1
      have hn1 : (h1.cells t).next = n := chain_next_of_snoc h1.cells _ init [] t n hch1
      have hch1a : chain h1.cells (h1.lists l1).head ((init ++ [t]) ++ [n]) := by
        rw [List.append_assoc, List.singleton_append]
        exact hch1
      have hn2 := chain_last h1.cells _ (init ++ [t]) n hch1a
      rw [eR, List.append_assoc, List.singleton_append]
      rw [eR] at hch
      have hnd := chain_nodup _ _ _ hch
      apply chain_snoc h.cells h1.cells p pre t n hch hn2.2
      · intro c hc
        have hct : c ≠ t := by
          intro ec
          rw [ec] at hc
          exact (List.nodup_append.mp hnd).2.2 hc (List.mem_singleton.mpr rfl)
        rw [hk.2.1 c (hRl c (eR ▸ List.mem_append_left _ hc)) hct]
      · exact hn1
      · exact hn2.1
  · left
    exact chain_keeps h h1 _ l p R hk hRl ht hch

theorem cells_data_snoc (h : list_heap) (cs : List Nat) (n : Nat) :
    cells_data h (cs ++ [n]) = cells_data h cs ++ [(h.cells n).data] := by
  unfold cells_data
  rw [List.map_append]
  rfl

theorem cells_data_cons (h : list_heap) (c : Nat) (cs : List Nat) :
    cells_data h (c :: cs) = (h.cells c).data :: cells_data h cs := rfl

/-- The loop of `list_union_ptr` and `list_concat_unique_ptr` over a chain of
cells in use, on a valid list `result`, which may have cells of the chain: with
fuel for the cells of the chain and for the data to append, the process ends
for lack of memory or the loop returns a valid list. -/
theorem list_add_loop_spec (host : list_host) (hfresh : alloc_fresh host) (fuel0 B : Nat)
    (hB0 : B < fuel0) (hBi : (B : Int) ≤ INT_MAX) :
    ∀ (fuel : Nat) (h : list_heap) (result : Nat) (rs : List Nat) (cell : Nat) (R : List Nat),
      list_cells h result rs → chain h.cells cell R → (∀ c ∈ R, h.live c = true) →
      rs.length + missing (cells_data h rs) (cells_data h R) ≤ B →
      R.length + missing (cells_data h rs) (cells_data h R) < fuel →
      list_add_loop host fuel0 fuel result cell h = .exited
        ∨ ∃ v hr rs1, list_add_loop host fuel0 fuel result cell h = .ret v hr
            ∧ list_cells hr v rs1 := by
  intro fuel
  induction fuel with
  | zero =>
    intro h result rs cell R _ _ _ _ hf
    omega
  | succ fuel ih =>
    intro h result rs cell R hl hch hRl hB hf
    cases R with
    | nil =>
      right
      rw [(chain_nil _ _).mp hch]
      exact ⟨result, h, rs, rfl, hl⟩
    | cons c Rt =>
      obtain ⟨ec, hc0, t⟩ := hch
      subst ec
      unfold list_add_loop
      rw [if_neg hc0]
      have hrsB : rs.length ≤ B := le_trans (Nat.le_add_right _ _) hB
      rw [list_member_spec h result rs hl (h.cells cell).data fuel0 (by omega)]
      simp only [list_outcome.and_then]
      rw [cells_data_cons] at hB hf
      by_cases hd : (h.cells cell).data ∈ cells_data h rs
      · rw [missing_cons_mem _ _ _ hd] at hB hf
        simp only [hd, decide_True, not_true_eq_false, if_false]
        apply ih h result rs (h.cells cell).next Rt hl t
          (fun a ha => hRl a (List.mem_cons_of_mem _ ha)) hB
        simp only [List.length_cons] at hf
        omega
      · rw [missing_cons_not_mem _ _ _ hd] at hB hf
        simp only [hd, decide_False, not_false_eq_true, if_true, Bool.false_eq_true]
        have hlen : (rs.length : Int) < INT_MAX := by
          have : ((rs.length + 1 : Nat) : Int) ≤ (B : Int) := by
            exact_mod_cast (by omega : rs.length + 1 ≤ B)
          push_cast at this
          omega
        rcases lappend_spec host hfresh h result (h.cells cell).data rs hl hlen
          with hex | ⟨l1, n, h1, hret, hl1, hd1, hnf, -, -, hk⟩
        · left
          rw [hex]
        · rw [hret]
          dsimp only
          have hdn : cells_data h1 rs = cells_data h rs
              ∧ (h1.cells n).data = (h.cells cell).data := by
            rw [cells_data_snoc] at hd1
            have := List.append_inj hd1 (by rw [cells_data_length, cells_data_length])
            refine ⟨this.1, ?_⟩
            injection this.2
          have hdR : cells_data h1 Rt = cells_data h Rt :=
            data_keeps h h1 _ _ Rt hk (fun a ha => hRl a (List.mem_cons_of_mem _ ha))
          have hnl : h1.live n = true :=
            hl1.2.2.1 n (List.mem_append_right _ (List.mem_singleton.mpr rfl))
          have hRl1 : ∀ a ∈ Rt, h1.live a = true :=
            fun a ha => hk.1 a (hRl a (List.mem_cons_of_mem _ ha))
          have hxs : cells_data h1 (rs ++ [n]) = cells_data h rs ++ [(h.cells cell).data] := hd1
          rcases lappend_chain h h1 result l1 n rs hl hl1 hk cell (cell :: Rt)
            ⟨rfl, hc0, t⟩ hRl with hch1 | hch1
          · obtain ⟨-, -, t1⟩ := hch1
            apply ih h1 l1 (rs ++ [n]) (h1.cells cell).next Rt (Or.inr hl1) t1 hRl1
            · rw [hxs, hdR, List.length_append, List.length_singleton]
              have := missing_snoc_le (cells_data h rs) (cells_data h Rt) (h.cells cell).data
              omega
            · rw [hxs, hdR]
              have := missing_snoc_le (cells_data h rs) (cells_data h Rt) (h.cells cell).data
              simp only [List.length_cons] at hf
              omega
          · rw [List.cons_append] at hch1
            obtain ⟨-, -, t1⟩ := hch1
            have hdRn : cells_data h1 (Rt ++ [n])
                = cells_data h Rt ++ [(h.cells cell).data] := by
              rw [cells_data_snoc, hdR, hdn.2]
            apply ih h1 l1 (rs ++ [n]) (h1.cells cell).next (Rt ++ [n]) (Or.inr hl1) t1
            · intro a ha
              rcases List.mem_append.mp ha with hm | hm
              · exact hRl1 a hm
              · rw [List.mem_singleton.mp hm]
                exact hnl
            · rw [hxs, hdRn, missing_snoc_self, List.length_append, List.length_singleton]
              have := missing_snoc_le (cells_data h rs) (cells_data h Rt) (h.cells cell).data
              omega
            · rw [hxs, hdRn, missing_snoc_self, List.length_append, List.length_singleton]
              have := missing_snoc_le (cells_data h rs) (cells_data h Rt) (h.cells cell).data
              simp only [List.length_cons] at hf
              omega

theorem list_valid_cells (h : list_heap) (l : Nat) :
    list_valid h l ↔ ∃ cs, list_cells h l cs := by
  constructor
  · rintro (e | ⟨cs, hl⟩)
    · exact ⟨[], Or.inl ⟨e, rfl⟩⟩
    · exact ⟨cs, Or.inr hl⟩
  · rintro ⟨cs, (⟨e, -⟩ | hl)⟩
    · exact Or.inl e
    · exact Or.inr ⟨cs, hl⟩

theorem check_list_cells (h : list_heap) (l : Nat) (cs : List Nat) (hl : list_cells h l cs) :
    check_list_invariants l h = .ret () h := by
  rcases hl with ⟨e, -⟩ | hl
  · rw [e]
    exact check_nil h
  · exact check_ok h l cs hl

theorem list_cells_keeps (h h1 : list_heap) (l : Nat) (cs : List Nat)
    (hk : heap_keeps h h1 0 0) (hl : list_cells h l cs) : list_cells h1 l cs := by
  rcases hl with he | hl
  · exact Or.inl he
  · exact Or.inr (is_list_keeps h h1 0 0 l cs hk hl hl.1 (chain_not_zero _ _ _ hl.2.2.2.1))

theorem list_head_keeps (h h1 : list_heap) (l : Nat) (cs : List Nat)
    (hk : heap_keeps h h1 0 0) (hl : list_cells h l cs) : list_head h1 l = list_head h l := by
  rcases hl with ⟨e, -⟩ | hl
  · rw [e]
    rfl
  · unfold list_head
    rw [if_neg hl.1, if_neg hl.1, hk.2.2.2.1 l hl.2.1 hl.1]

theorem list_cells_live (h : list_heap) (l : Nat) (cs : List Nat) (hl : list_cells h l cs) :
    ∀ c ∈ cs, h.live c = true := by
  rcases hl with ⟨-, e⟩ | hl
  · rw [e]
    intro c hc
    simp at hc
  · exact hl.2.2.1

/-- The `list_union_ptr` of `pg_list.c` on two valid lists, with the fuel for
the loops: the process ends for lack of memory, or the list returned is
valid. -/
theorem list_union_spec (host : list_host) (hfresh : alloc_fresh host) (h : list_heap)
    (l1 l2 : Nat) (cs1 cs2 : List Nat) (h1 : list_cells h l1 cs1) (h2 : list_cells h l2 cs2)
    (hint : ((cs1.length + cs2.length : Nat) : Int) ≤ INT_MAX) (fuel : Nat)
    (hf : cs1.length + 2 * cs2.length < fuel) :
    list_union_ptr host fuel l1 l2 h = .exited
      ∨ ∃ v hr, list_union_ptr host fuel l1 l2 h = .ret v hr ∧ list_valid hr v := by
  unfold list_union_ptr
  rcases list_copy_spec host hfresh h l1 cs1 h1 fuel (by omega)
    with hex | ⟨r, hc, rs, hret, hrl, hrlen, hk⟩
  · left
    rw [hex]
    rfl
  · rw [hret]
    simp only [list_outcome.and_then]
    have h2c := list_cells_keeps h hc l2 cs2 hk h2
    have hm := missing_le (cells_data hc rs) (cells_data hc cs2)
    rw [cells_data_length] at hm
    rcases list_add_loop_spec host hfresh fuel (cs1.length + cs2.length) (by omega) hint fuel
        hc r rs (list_head hc l2) cs2 hrl (list_cells_chain hc l2 cs2 h2c)
        (list_cells_live hc l2 cs2 h2c) (by omega) (by omega)
      with hex | ⟨v, hr, rs1, hret1, hv⟩
    · left
      rw [hex]
    · right
      rw [hret1]
      dsimp only
      rw [check_list_cells hr v rs1 hv]
      exact ⟨v, hr, rfl, (list_valid_cells hr v).mpr ⟨rs1, hv⟩⟩

/-- The `list_concat_unique_ptr` of `pg_list.c` on two valid lists, which may
have cells in common or be the same list, with the fuel for the loops: the
process ends for lack of memory, or the list returned is valid. -/
theorem list_concat_unique_spec (host : list_host) (hfresh : alloc_fresh host) (h : list_heap)
    (l1 l2 : Nat) (cs1 cs2 : List Nat) (h1 : list_cells h l1 cs1) (h2 : list_cells h l2 cs2)
    (hint : ((cs1.length + cs2.length : Nat) : Int) ≤ INT_MAX) (fuel : Nat)
    (hf : cs1.length + 2 * cs2.length < fuel) :
    list_concat_unique_ptr host fuel l1 l2 h = .exited
      ∨ ∃ v hr, list_concat_unique_ptr host fuel l1 l2 h = .ret v hr ∧ list_valid hr v := by
  unfold list_concat_unique_ptr
  have hm := missing_le (cells_data h cs1) (cells_data h cs2)
  rw [cells_data_length] at hm
  rcases list_add_loop_spec host hfresh fuel (cs1.length + cs2.length) (by omega) hint fuel
      h l1 cs1 (list_head h l2) cs2 h1 (list_cells_chain h l2 cs2 h2)
      (list_cells_live h l2 cs2 h2) (by omega) (by omega)
    with hex | ⟨v, hr, rs1, hret1, hv⟩
  · left
    rw [hex]
    rfl
  · right
    rw [hret1]
    simp only [list_outcome.and_then]
    rw [check_list_cells hr v rs1 hv]
    exact ⟨v, hr, rfl, (list_valid_cells hr v).mpr ⟨rs1, hv⟩⟩

/-- The `list_append_unique_ptr` of `pg_list.c` on a valid list, the fuel being
more than the number of its cells: the process ends for lack of memory, or the
list returned is valid. -/
theorem list_append_unique_spec (host : list_host) (hfresh : alloc_fresh host)
    (h : list_heap) (l : Nat) (cs : List Nat) (hl : list_cells h l cs)
    (hint : (cs.length : Int) < INT_MAX) (datum : Int) (fuel : Nat) (hf : cs.length < fuel) :
    list_append_unique_ptr host fuel l datum h = .exited
      ∨ ∃ v hr, list_append_unique_ptr host fuel l datum h = .ret v hr ∧ list_valid hr v := by
  unfold list_append_unique_ptr
  rw [list_member_spec h l cs hl datum fuel hf]
  simp only [list_outcome.and_then]
  by_cases hd : datum ∈ cells_data h cs
  · right
    simp only [hd, decide_True, if_true]
    exact ⟨l, h, rfl, (list_valid_cells h l).mpr ⟨cs, hl⟩⟩
  · simp only [hd, decide_False, Bool.false_eq_true, if_false]
    rcases lappend_spec host hfresh h l datum cs hl hint
      with hex | ⟨l1, n, hr, hret, hl1, -⟩
    · exact Or.inl hex
    · exact Or.inr ⟨l1, hr, hret, Or.inr ⟨_, hl1⟩⟩

theorem heap_keeps_live_list_fresh (h0 h : list_heap) (hk : heap_keeps h0 h 0 0) (n : Nat)
    (hn : h.live_list n = false) : h0.live_list n = false := by
  cases hl : h0.live_list n with
  | false => rfl
  | true =>
    rw [hk.2.2.2.2 n hl] at hn
    cases hn

/-- What is kept through two changes of the memory, the second one touching
only what was not in use at first. -/
theorem heap_keeps_trans_fresh (h0 h h1 : list_heap) (t l : Nat) (hk0 : heap_keeps h0 h 0 0)
    (hk : heap_keeps h h1 t l) (ht : t = 0 ∨ h0.live t = false)
    (hl : l = 0 ∨ h0.live_list l = false) : heap_keeps h0 h1 0 0 := by
  have hat : ∀ a, h0.live a = true → a ≠ 0 → a ≠ t := by
    intro a ha ha0 e
    rcases ht with ht | ht
    · exact ha0 (e.trans ht)
    · rw [e, ht] at ha
      cases ha
  have hal : ∀ a, h0.live_list a = true → a ≠ 0 → a ≠ l := by
    intro a ha ha0 e
    rcases hl with hl | hl
    · exact ha0 (e.trans hl)
    · rw [e, hl] at ha
      cases ha
  refine ⟨fun a ha => hk.1 a (hk0.1 a ha), fun a ha ha0 => ?_, fun a ha => ?_,
    fun a ha ha0 => ?_, fun a ha => hk.2.2.2.2 a (hk0.2.2.2.2 a ha)⟩
  · rw [hk.2.1 a (hk0.1 a ha) (hat a ha ha0)]
    exact hk0.2.1 a ha ha0
  · rw [hk.2.2.1 a (hk0.1 a ha)]
    exact hk0.2.2.1 a ha
  · rw [hk.2.2.2.1 a (hk0.2.2.2.2 a ha) (hal a ha ha0)]
    exact hk0.2.2.2.1 a ha ha0

/-- The loop of `list_difference_ptr` over the cells of the first list, on a
`result` made of new cells: with fuel for the cells, the process ends for lack
of memory or the loop returns a valid list. -/
theorem list_difference_loop_spec (host : list_host) (hfresh : alloc_fresh host)
    (h0 : list_heap) (l2 : Nat) (cs2 : List Nat) (hl2 : is_list h0 l2 cs2) (fuel0 B : Nat)
    (hf0 : cs2.length < fuel0) (hBi : (B : Int) ≤ INT_MAX) :
    ∀ (R : List Nat) (fuel : Nat) (h : list_heap) (result : Nat) (rs : List Nat) (cell : Nat),
      heap_keeps h0 h 0 0 → list_cells h result rs → (∀ c ∈ rs, h0.live c = false) →
      (result = 0 ∨ h0.live_list result = false) → chain h0.cells cell R →
      (∀ c ∈ R, h0.live c = true) → rs.length + R.length ≤ B → R.length < fuel →
      list_difference_loop host fuel0 l2 fuel result cell h = .exited
        ∨ ∃ v hr rs1, list_difference_loop host fuel0 l2 fuel result cell h = .ret v hr
            ∧ list_cells hr v rs1 := by
  intro R
  induction R with
  | nil =>
    intro fuel h result rs cell _ hl _ _ hch _ _ hf
    cases fuel with
    | zero => simp at hf
    | succ fuel =>
      right
      rw [(chain_nil _ _).mp hch]
      exact ⟨result, h, rs, rfl, hl⟩
  | cons c R ih =>
    intro fuel h result rs cell hk hl hrs hres hch hRl hB hf
    obtain ⟨ec, hc0, t⟩ := hch
    subst ec
    cases fuel with
    | zero => simp at hf
    | succ fuel =>
      unfold list_difference_loop
      rw [if_neg hc0]
      have hl2h : list_cells h l2 cs2 := list_cells_keeps h0 h l2 cs2 hk (Or.inr hl2)
      rw [list_member_spec h l2 cs2 hl2h (h.cells cell).data fuel0 hf0]
      simp only [list_outcome.and_then]
      have hcl : h0.live cell = true := hRl cell (List.mem_cons_self _ _)
      simp only [List.length_cons] at hB hf
      by_cases hd : (h.cells cell).data ∈ cells_data h cs2
      · simp only [hd, decide_True, not_true_eq_false, if_false]
        rw [hk.2.1 cell hcl hc0]
        exact ih fuel h result rs (h0.cells cell).next hk hl hrs hres t
          (fun a ha => hRl a (List.mem_cons_of_mem _ ha)) (by omega) (by omega)
      · simp only [hd, decide_False, not_false_eq_true, if_true, Bool.false_eq_true]
        have hlen : (rs.length : Int) < INT_MAX := by
          have : ((rs.length + 1 : Nat) : Int) ≤ (B : Int) := by
            exact_mod_cast (by omega : rs.length + 1 ≤ B)
          push_cast at this
          omega
        rcases lappend_spec host hfresh h result (h.cells cell).data rs hl hlen
          with hex | ⟨l1, n, h1, hret, hl1, -, hnf, hsame, hnew, hk1⟩
        · left
          rw [hex]
        · rw [hret]
          dsimp only
          have htf : list_tail h result = 0 ∨ h0.live (list_tail h result) = false := by
            rcases hl with ⟨e, -⟩ | hli
            · left
              rw [e]
              rfl
            · right
              apply hrs
              unfold list_tail
              rw [if_neg hli.1]
              exact is_list_tail_mem h result rs hli
          have hk01 : heap_keeps h0 h1 0 0 :=
            heap_keeps_trans_fresh h0 h h1 _ _ hk hk1 htf hres
          rw [hk01.2.1 cell hcl hc0]
          apply ih fuel h1 l1 (rs ++ [n]) (h0.cells cell).next hk01 (Or.inr hl1) _ _ t
            (fun a ha => hRl a (List.mem_cons_of_mem _ ha))
          · rw [List.length_append, List.length_singleton]
            omega
          · omega
          · intro a ha
            rcases List.mem_append.mp ha with hm | hm
            · exact hrs a hm
            · rw [List.mem_singleton.mp hm]
              exact heap_keeps_fresh h0 h hk n hnf
          · right
            by_cases hr0 : result = 0
            · exact heap_keeps_live_list_fresh h0 h hk l1 (hnew hr0)
            · rw [hsame hr0]
              rcases hres with e | e
              · exact absurd e hr0
              · exact e

/-- The `list_difference_ptr` of `pg_list.c` on two valid lists, with the fuel
for the loops: the process ends for lack of memory, or the list returned is
valid. -/
theorem list_difference_spec (host : list_host) (hfresh : alloc_fresh host) (h : list_heap)
    (l1 l2 : Nat) (cs1 cs2 : List Nat) (h1 : list_cells h l1 cs1) (h2 : list_cells h l2 cs2)
    (hint : (cs1.length : Int) ≤ INT_MAX) (fuel : Nat)
    (hf : cs1.length < fuel) (hf2 : cs2.length < fuel) :
    list_difference_ptr host fuel l1 l2 h = .exited
      ∨ ∃ v hr, list_difference_ptr host fuel l1 l2 h = .ret v hr ∧ list_valid hr v := by
  unfold list_difference_ptr
  rcases h2 with ⟨e2, -⟩ | h2
  · rw [if_pos e2]
    rcases list_copy_spec host hfresh h l1 cs1 h1 fuel (by omega)
      with hex | ⟨r, hc, rs, hret, hrl, -, -⟩
    · exact Or.inl hex
    · exact Or.inr ⟨r, hc, hret, (list_valid_cells hc r).mpr ⟨rs, hrl⟩⟩
  · rw [if_neg h2.1]
    rcases list_difference_loop_spec host hfresh h l2 cs2 h2 fuel cs1.length hf2 hint cs1 fuel
        h 0 [] (list_head h l1) (heap_keeps_refl h 0 0) (Or.inl ⟨rfl, rfl⟩)
        (fun c hc => absurd hc (List.not_mem_nil c)) (Or.inl rfl)
        (list_cells_chain h l1 cs1 h1) (list_cells_live h l1 cs1 h1) (by simp) hf
      with hex | ⟨v, hr, rs1, hret1, hv⟩
    · left
      rw [hex]
      rfl
    · right
      rw [hret1]
      simp only [list_outcome.and_then]
      rw [check_list_cells hr v rs1 hv]
      exact ⟨v, hr, rfl, (list_valid_cells hr v).mpr ⟨rs1, hv⟩⟩

theorem is_list_shape (h : list_heap) (l : Nat) (cs : List Nat) (hl : is_list h l cs) :
    1 ≤ (h.lists l).length ∧ (h.lists l).length = cs.length
      ∧ chain h.cells (h.lists l).head cs ∧ cs.getLast? = some (h.lists l).tail
      ∧ (h.cells (h.lists l).tail).next = 0 := by
  obtain ⟨init, t, e, ht⟩ := is_list_ne_nil h l cs hl
  have hch := hl.2.2.2.1
  refine ⟨?_, hl.2.2.2.2.1, hch, hl.2.2.2.2.2, ?_⟩
  · rw [hl.2.2.2.2.1, e]
    simp only [List.length_append, List.length_singleton]
    push_cast
    omega
  · rw [e] at hch
    rw [ht]
    exact (chain_last h.cells _ init t hch).1

theorem list_cells_nil_iff (h : list_heap) (l : Nat) (cs : List Nat) (hl : list_cells h l cs) :
    l = 0 ↔ cs = [] := by
  rcases hl with ⟨e1, e2⟩ | hl
  · exact ⟨fun _ => e2, fun _ => e1⟩
  · obtain ⟨init, t, e, -⟩ := is_list_ne_nil h l cs hl
    constructor
    · intro e0
      exact absurd e0 hl.1
    · intro e0
      rw [e0] at e
      simp at e

/-- C39. A valid list is `NIL` or a header whose length field is at least 1 and
is the number of cells reached from `head`, whose `tail` is the last of them
and has a null `next`; a list without cells is `NIL`. On valid lists `l1` and
`l2`, of fewer than `INT_MAX` cells together, on a host that hands out memory
not in use and with the fuel for the loops: `lappend`, `lcons`, `list_union`,
`list_difference`, `list_append_unique`, `list_concat_unique`, `list_copy` and
`list_copy_tail` end the process for lack of memory or return a valid list;
`lappend_cell` after a cell of the list ends the process or leaves the list
valid; `list_truncate`, `list_delete_ptr`, `list_delete_first` and
`list_delete_cell` on a cell of the list and the cell before it return a valid
list; `list_concat` returns no invalid list, and returns a valid one when the
lists are distinct and have no cell in common. -/
theorem list_operations_valid (host : list_host) (hfresh : alloc_fresh host) (h : list_heap)
    (l1 l2 : Nat) (cs1 cs2 : List Nat) (h1 : list_cells h l1 cs1) (h2 : list_cells h l2 cs2)
    (hint : ((cs1.length + cs2.length : Nat) : Int) < INT_MAX) (fuel : Nat)
    (hf : 2 * (cs1.length + cs2.length) + 1 < fuel) (x : Int) :
    (∀ hr v, list_valid hr v ↔ v = 0 ∨ ∃ cs, is_list hr v cs)
      ∧ (∀ hr v cs, is_list hr v cs → 1 ≤ (hr.lists v).length
          ∧ (hr.lists v).length = cs.length ∧ chain hr.cells (hr.lists v).head cs
          ∧ cs.getLast? = some (hr.lists v).tail ∧ (hr.cells (hr.lists v).tail).next = 0)
      ∧ (∀ hr v cs, list_cells hr v cs → (v = 0 ↔ cs = []))
      ∧ returns_valid (lappend host l1 x h)
      ∧ returns_valid (lcons host x l1 h)
      ∧ (∀ pre prev suf, cs1 = pre ++ prev :: suf →
          lappend_cell host l1 prev x h = .exited
            ∨ ∃ n hr, lappend_cell host l1 prev x h = .ret n hr ∧ list_valid hr l1
                ∧ is_list hr l1 (pre ++ prev :: n :: suf))
      ∧ (∀ v hr, list_concat l1 l2 h = .ret v hr → list_valid hr v)
      ∧ (l1 ≠ l2 ∨ l1 = 0 → (∀ c ∈ cs1, c ∉ cs2) → returns_list (list_concat l1 l2 h))
      ∧ (∀ new_size, returns_list (list_truncate fuel l1 new_size h))
      ∧ (∀ pre cell suf, cs1 = pre ++ cell :: suf →
          returns_list (list_delete_cell host fuel l1 cell (pre.getLast?.getD 0) h))
      ∧ returns_list (list_delete_ptr host fuel l1 x h)
      ∧ returns_list (list_delete_first host fuel l1 h)
      ∧ returns_valid (list_union_ptr host fuel l1 l2 h)
      ∧ returns_valid (list_difference_ptr host fuel l1 l2 h)
      ∧ returns_valid (list_append_unique_ptr host fuel l1 x h)
      ∧ returns_valid (list_concat_unique_ptr host fuel l1 l2 h)
      ∧ returns_valid (list_copy host fuel l1 h)
      ∧ ∀ nskip, returns_valid (list_copy_tail host fuel l1 nskip h) := by
  have hi1 : (cs1.length : Int) < INT_MAX := by
    push_cast at hint
    omega
  have hi1le : (cs1.length : Int) ≤ INT_MAX := le_of_lt hi1
  have hi12 : ((cs1.length + cs2.length : Nat) : Int) ≤ INT_MAX := le_of_lt hint
  have hv1 : list_valid h l1 := (list_valid_cells h l1).mpr ⟨cs1, h1⟩
  have hv2 : list_valid h l2 := (list_valid_cells h l2).mpr ⟨cs2, h2⟩
  refine ⟨fun _ _ => Iff.rfl, is_list_shape, list_cells_nil_iff, ?_, ?_, ?_, ?_, ?_, ?_, ?_,
    ?_, ?_, ?_, ?_, ?_, ?_, ?_, ?_⟩
  · rcases lappend_spec host hfresh h l1 x cs1 h1 hi1 with hex | ⟨v, n, hr, hret, hl, -⟩
    · exact Or.inl hex
    · exact Or.inr ⟨v, hr, hret, Or.inr ⟨_, hl⟩⟩
  · rcases lcons_spec host hfresh h l1 x cs1 h1 hi1 with hex | ⟨v, n, hr, hret, hl, -⟩
    · exact Or.inl hex
    · exact Or.inr ⟨v, hr, hret, Or.inr ⟨_, hl⟩⟩
  · intro pre prev suf e
    rcases h1 with ⟨-, e0⟩ | h1
    · rw [e0] at e
      simp at e
    · rw [e] at h1 hi1
      rcases lappend_cell_spec host hfresh h l1 x pre suf prev h1 hi1
        with hex | ⟨n, hr, hret, hl, -⟩
      · exact Or.inl hex
      · exact Or.inr ⟨n, hr, hret, Or.inr ⟨_, hl⟩, hl⟩
  · exact list_concat_valid h l1 l2 hv1 hv2
  · intro hne hap
    rcases h1 with ⟨e1, -⟩ | h1
    · refine ⟨l2, h, ?_, hv2⟩
      unfold list_concat
      rw [if_pos e1]
    · rcases h2 with ⟨e2, -⟩ | h2
      · refine ⟨l1, h, ?_, hv1⟩
        unfold list_concat
        rw [if_neg h1.1, if_pos e2]
      · have hne1 : l1 ≠ l2 := by
          rcases hne with hne | hne
          · exact hne
          · exact absurd hne h1.1
        obtain ⟨hr, hret, hl, -⟩ := list_concat_apart h l1 l2 cs1 cs2 h1 h2 hne1 hap hi12
        exact ⟨l1, hr, hret, Or.inr ⟨_, hl⟩⟩
  · intro new_size
    obtain ⟨v, hr, hret, hl, -⟩ := list_truncate_spec h l1 cs1 h1 new_size fuel (by omega)
    exact ⟨v, hr, hret, (list_valid_cells hr v).mpr ⟨_, hl⟩⟩
  · intro pre cell suf e
    rcases h1 with ⟨-, e0⟩ | h1
    · rw [e0] at e
      simp at e
    · rw [e] at h1 hi1le
      obtain ⟨v, hr, hret, hl, -⟩ := list_delete_cell_spec host h l1 cell pre suf h1 hi1le fuel
        (by omega)
      exact ⟨v, hr, hret, (list_valid_cells hr v).mpr ⟨_, hl⟩⟩
  · obtain ⟨v, hr, cs, hret, hl⟩ := list_delete_ptr_spec host h l1 cs1 h1 hi1le x fuel
      (by omega) (by omega)
    exact ⟨v, hr, hret, (list_valid_cells hr v).mpr ⟨_, hl⟩⟩
  · obtain ⟨v, hr, hret, hl⟩ := list_delete_first_spec host h l1 cs1 h1 hi1le fuel (by omega)
    exact ⟨v, hr, hret, (list_valid_cells hr v).mpr ⟨_, hl⟩⟩
  · exact list_union_spec host hfresh h l1 l2 cs1 cs2 h1 h2 hi12 fuel (by omega)
  · exact list_difference_spec host hfresh h l1 l2 cs1 cs2 h1 h2 hi1le fuel (by omega)
      (by omega)
  · exact list_append_unique_spec host hfresh h l1 cs1 h1 hi1 x fuel (by omega)
  · exact list_concat_unique_spec host hfresh h l1 l2 cs1 cs2 h1 h2 hi12 fuel (by omega)
  · rcases list_copy_spec host hfresh h l1 cs1 h1 fuel (by omega)
      with hex | ⟨v, hr, cs, hret, hl, -, -⟩
    · exact Or.inl hex
    · exact Or.inr ⟨v, hr, hret, (list_valid_cells hr v).mpr ⟨_, hl⟩⟩
  · intro nskip
    rcases list_copy_tail_spec host hfresh h l1 cs1 h1 nskip fuel (by omega)
      with hex | ⟨v, hr, cs, hret, hl, -, -⟩
    · exact Or.inl hex
    · exact Or.inr ⟨v, hr, hret, (list_valid_cells hr v).mpr ⟨_, hl⟩⟩

theorem scenario_heap_two_first : list_cells scenario_heap_two 3 [1, 2] := by
  right
  refine ⟨by decide, rfl, ?_, ?_, rfl, rfl⟩
  · intro c hc
    simp only [List.mem_cons, List.mem_singleton, List.not_mem_nil, or_false] at hc
    rcases hc with e | e <;> subst e <;> rfl
  · exact ⟨rfl, by decide, rfl, by decide, rfl⟩

theorem scenario_heap_two_second : list_cells scenario_heap_two 6 [4, 5] := by
  right
  refine ⟨by decide, rfl, ?_, ?_, rfl, rfl⟩
  · intro c hc
    simp only [List.mem_cons, List.mem_singleton, List.not_mem_nil, or_false] at hc
    rcases hc with e | e <;> subst e <;> rfl
  · exact ⟨rfl, by decide, rfl, by decide, rfl⟩

/-- C39 on the lists of 10, 20 and of 20, 40, the datum 30 and the fuel 16. -/
theorem list_operations_valid_witness :
    alloc_fresh scenario_list_host ∧ list_cells scenario_heap_two 3 [1, 2]
      ∧ list_cells scenario_heap_two 6 [4, 5]
      ∧ (((([1, 2] : List Nat).length + ([4, 5] : List Nat).length : Nat) : Int) < INT_MAX)
      ∧ 2 * (([1, 2] : List Nat).length + ([4, 5] : List Nat).length) + 1 < 16
      ∧ returns_valid (lappend scenario_list_host 3 30 scenario_heap_two)
      ∧ returns_list (list_delete_first scenario_list_host 16 3 scenario_heap_two)
      ∧ returns_valid (list_union_ptr scenario_list_host 16 3 6 scenario_heap_two) :=
  ⟨scenario_list_host_fresh, scenario_heap_two_first, scenario_heap_two_second, by decide,
    by decide,
    (list_operations_valid scenario_list_host scenario_list_host_fresh scenario_heap_two 3 6
      [1, 2] [4, 5] scenario_heap_two_first scenario_heap_two_second (by decide) 16
      (by decide) 30).2.2.2.1,
    (list_operations_valid scenario_list_host scenario_list_host_fresh scenario_heap_two 3 6
      [1, 2] [4, 5] scenario_heap_two_first scenario_heap_two_second (by decide) 16
      (by decide) 30).2.2.2.2.2.2.2.2.2.2.2.1,
    (list_operations_valid scenario_list_host scenario_list_host_fresh scenario_heap_two 3 6
      [1, 2] [4, 5] scenario_heap_two_first scenario_heap_two_second (by decide) 16
      (by decide) 30).2.2.2.2.2.2.2.2.2.2.2.2.1⟩

/-- On the scenario host there is memory, and the calls on the lists of 10, 20
and of 20, 40 return these lists. -/
theorem list_operations_scenario :
    returned_elems (list_union_ptr scenario_list_host 16 3 6 scenario_heap_two)
        = some [10, 20, 40]
      ∧ returned_elems (list_difference_ptr scenario_list_host 16 3 6 scenario_heap_two)
        = some [10]
      ∧ returned_elems (list_concat_unique_ptr scenario_list_host 16 3 6 scenario_heap_two)
        = some [10, 20, 40]
      ∧ returned_elems (list_concat_unique_ptr scenario_list_host 16 3 3 scenario_heap_two)
        = some [10, 20]
      ∧ returned_elems (list_concat 3 6 scenario_heap_two) = some [10, 20, 20, 40]
      ∧ returned_elems (list_truncate 16 3 1 scenario_heap_two) = some [10]
      ∧ returned_elems (list_truncate 16 3 0 scenario_heap_two) = some []
      ∧ returned_elems (list_delete_first scenario_list_host 16 3 scenario_heap_two)
        = some [20]
      ∧ returned_elems (list_delete_ptr scenario_list_host 16 3 20 scenario_heap_two)
        = some [10]
      ∧ returned_elems (list_delete_cell scenario_list_host 16 3 2 1 scenario_heap_two)
        = some [10]
      ∧ returned_elems (list_copy scenario_list_host 16 6 scenario_heap_two) = some [20, 40]
      ∧ returned_elems (list_copy_tail scenario_list_host 16 6 1 scenario_heap_two)
        = some [40]
      ∧ returned_elems (list_append_unique_ptr scenario_list_host 16 3 30 scenario_heap_two)
        = some [10, 20, 30]
      ∧ returned_elems (list_append_unique_ptr scenario_list_host 16 3 10 scenario_heap_two)
        = some [10, 20]
      ∧ returned_elems
          ((lappend_cell scenario_list_host 3 1 15 scenario_heap_two).and_then
            fun _ hr => .ret 3 hr) = some [10, 15, 20] := by
  refine ⟨?_, ?_, ?_, ?_, ?_, ?_, ?_, ?_, ?_, ?_, ?_, ?_, ?_, ?_, ?_⟩ <;> rfl

end CnCw
